import Mathlib

/-!
# SimpleMiner: chunk storage, streaming and lighting

A shallow embedding of the simulation core of `GameCode/` (Block.hpp,
BlockDefinition.hpp, Chunk.hpp, Chunk.cpp, World.hpp, World.cpp) together with
theorems about it.

Conventions of the embedding.

* `unsigned char` and `unsigned short` (`BlockIndex`) values are natural numbers;
  every operation that can leave the range is followed by `% 256` or `% 65536`.
* `int` values are integers; signed overflow is undefined behaviour in the source
  and is not modelled.
* `float` values are rationals: only their floors (`RoundDownToInt`, `floor`) and
  exact sums enter the integer logic modelled here.
* A `Chunk*` is an `Option Nat`: `none` is `NULL`, `some p` is the address `p` of a
  chunk in the heap `World.m_heap`.  `new Chunk()` takes the next unused address;
  `World::DeactivateChunk` assigns `NULL` to the map entry before `delete`, so no
  chunk is ever released and no address is ever reused.
* An operation that would read `m_blocks` outside `0 .. BLOCKS_PER_CHUNK - 1` or
  dereference a `NULL` chunk has no defined result and returns `none`.
-/

namespace SimpleMiner

/-! ## BlockDefinition.hpp -/

def BT_AIR : Nat := 0
def BT_GRASS : Nat := 1
def BT_DIRT : Nat := 2
def BT_STONE : Nat := 3
def BT_WATER : Nat := 4
def BT_SAND : Nat := 5
def BT_GLOWSTONE : Nat := 6
def BT_ICE : Nat := 7
def BT_SNOW : Nat := 8
def BLOCK_TYPE_COUNT : Nat := 9
def BT_INVALID : Nat := 10

/-- The fields of `BlockDefinition` read by the simulation core. -/
structure BlockDefinition where
  m_isSolid : Bool
  m_isOpaque : Bool
  m_isVisible : Bool
  m_inherentLightValue : Nat
deriving DecidableEq, Repr

/-- The table `g_blockDefinitions` as filled by `World::InitializeBlockDefinitions`.
The table has `BLOCK_TYPE_COUNT` entries; the last line stands for a read past its
end and is never relied upon. -/
def g_blockDefinitions (type : Nat) : BlockDefinition :=
  match type with
  | 0 => ⟨false, false, false, 0⟩
  | 1 => ⟨true, true, true, 0⟩
  | 2 => ⟨true, true, true, 0⟩
  | 3 => ⟨true, true, true, 0⟩
  | 4 => ⟨false, false, true, 0⟩
  | 5 => ⟨true, true, true, 0⟩
  | 6 => ⟨true, true, true, 14⟩
  | 7 => ⟨true, false, true, 0⟩
  | 8 => ⟨true, true, true, 0⟩
  | _ => ⟨false, false, false, 0⟩

/-! ## Block.hpp -/

def BITMASK_BLOCK_LIGHT : Nat := 0x0F
def BITMASK_BLOCK_IS_SKY : Nat := 0x10
def BITMASK_BLOCK_LIGHT_DIRTY : Nat := 0x20

/-- The bitwise complement of an `unsigned char` mask, as the byte it leaves after
the compound assignment `m_lightingAndFlags &= ~mask`. -/
def complement8 (mask : Nat) : Nat := 255 - mask

structure Block where
  m_type : Nat
  m_lightingAndFlags : Nat
deriving DecidableEq, Repr

/-- The default constructor `Block()`. -/
def Block.default : Block := ⟨BT_INVALID, 0⟩

def Block.GetLightValue (b : Block) : Nat :=
  b.m_lightingAndFlags &&& BITMASK_BLOCK_LIGHT

def Block.SetLightValue (b : Block) (lightValue : Nat) : Block :=
  { b with m_lightingAndFlags :=
      ((b.m_lightingAndFlags &&& complement8 BITMASK_BLOCK_LIGHT) ||| lightValue) % 256 }

def Block.DirtyLighting (b : Block) : Block :=
  { b with m_lightingAndFlags := b.m_lightingAndFlags ||| BITMASK_BLOCK_LIGHT_DIRTY }

def Block.UndirtyLighting (b : Block) : Block :=
  { b with m_lightingAndFlags := b.m_lightingAndFlags &&& complement8 BITMASK_BLOCK_LIGHT_DIRTY }

def Block.IsVisible (b : Block) : Bool :=
  (g_blockDefinitions b.m_type).m_isVisible

def Block.MarkAsSky (b : Block) : Block :=
  { b with m_lightingAndFlags := b.m_lightingAndFlags ||| BITMASK_BLOCK_IS_SKY }

def Block.UnmarkAsSky (b : Block) : Block :=
  { b with m_lightingAndFlags := b.m_lightingAndFlags &&& complement8 BITMASK_BLOCK_IS_SKY }

def Block.IsLightingDirty (b : Block) : Bool :=
  (b.m_lightingAndFlags &&& BITMASK_BLOCK_LIGHT_DIRTY) == BITMASK_BLOCK_LIGHT_DIRTY

def Block.IsSky (b : Block) : Bool :=
  (b.m_lightingAndFlags &&& BITMASK_BLOCK_IS_SKY) == BITMASK_BLOCK_IS_SKY

/-! ## Chunk.hpp: constants and coordinate conversions -/

def CHUNKS_WIDE_EXPONENT : Nat := 4
def CHUNKS_LONG_EXPONENT : Nat := 4
def CHUNKS_HIGH_EXPONENT : Nat := 7
def BLOCKS_PER_CHUNK_X : Nat := 1 <<< CHUNKS_WIDE_EXPONENT
def BLOCKS_PER_CHUNK_Y : Nat := 1 <<< CHUNKS_LONG_EXPONENT
def BLOCKS_PER_CHUNK_Z : Nat := 1 <<< CHUNKS_HIGH_EXPONENT
def BLOCKS_PER_CHUNK : Nat := BLOCKS_PER_CHUNK_X * BLOCKS_PER_CHUNK_Y * BLOCKS_PER_CHUNK_Z
def BLOCKS_PER_CHUNK_LAYER : Nat := BLOCKS_PER_CHUNK_X * BLOCKS_PER_CHUNK_Y

def CHUNK_X_MASK : Nat := BLOCKS_PER_CHUNK_X - 1
def CHUNK_Y_MASK : Nat := BLOCKS_PER_CHUNK_Y - 1
def CHUNK_Z_MASK : Nat := BLOCKS_PER_CHUNK_Z - 1
def CHUNK_LAYER_MASK : Nat := BLOCKS_PER_CHUNK_LAYER - 1

def STEP_EAST : Int := 1
def STEP_WEST : Int := -1
def STEP_NORTH : Int := BLOCKS_PER_CHUNK_X
def STEP_SOUTH : Int := -BLOCKS_PER_CHUNK_X
def STEP_UP : Int := BLOCKS_PER_CHUNK_LAYER
def STEP_DOWN : Int := -BLOCKS_PER_CHUNK_LAYER

def BLOCKINDEX_X_MASK : Nat := (BLOCKS_PER_CHUNK_X - 1) % 65536
def BLOCKINDEX_Y_MASK : Nat := ((BLOCKS_PER_CHUNK_Y - 1) <<< CHUNKS_WIDE_EXPONENT) % 65536
def BLOCKINDEX_Z_MASK : Nat :=
  ((BLOCKS_PER_CHUNK_Z - 1) <<< (CHUNKS_WIDE_EXPONENT + CHUNKS_LONG_EXPONENT)) % 65536

/-- The conversion `(BlockIndex)e` of an `int` expression to `unsigned short`. -/
def toBlockIndex (e : Int) : Nat := (e % 65536).toNat

/-- The type `IntVec3` under its name `LocalCoords`. -/
structure LocalCoords where
  x : Int
  y : Int
  z : Int
deriving DecidableEq, Repr

/-- The type `IntVec2` under its name `ChunkCoords`. -/
structure ChunkCoords where
  x : Int
  y : Int
deriving DecidableEq, Repr

/-- The type `Vec3` under its name `WorldCoords`. -/
structure WorldCoords where
  x : ℚ
  y : ℚ
  z : ℚ
deriving DecidableEq

def Chunk.GetLocalCoordsAtIndex (blockIndex : Nat) : LocalCoords :=
  let z : Int := ((blockIndex >>> (CHUNKS_WIDE_EXPONENT + CHUNKS_LONG_EXPONENT) : Nat) : Int)
  let y : Int := (((blockIndex &&& CHUNK_LAYER_MASK) >>> CHUNKS_WIDE_EXPONENT : Nat) : Int)
  let x : Int := ((blockIndex &&& CHUNK_X_MASK : Nat) : Int)
  ⟨x, y, z⟩

def Chunk.GetIndexAtLocalCoords (localCoords : LocalCoords) : Nat :=
  toBlockIndex
    (Int.lor (Int.lor localCoords.x (localCoords.y <<< (CHUNKS_WIDE_EXPONENT : Int)))
      (localCoords.z <<< ((CHUNKS_WIDE_EXPONENT + CHUNKS_LONG_EXPONENT : Nat) : Int)))

/-- The local coordinates that address a cell of a chunk. -/
def LocalCoords.Valid (c : LocalCoords) : Prop :=
  0 ≤ c.x ∧ c.x < BLOCKS_PER_CHUNK_X ∧ 0 ≤ c.y ∧ c.y < BLOCKS_PER_CHUNK_Y ∧
    0 ≤ c.z ∧ c.z < BLOCKS_PER_CHUNK_Z

instance (c : LocalCoords) : Decidable c.Valid := by
  unfold LocalCoords.Valid; infer_instance

def Vec3.add (a b : WorldCoords) : WorldCoords := ⟨a.x + b.x, a.y + b.y, a.z + b.z⟩

def Vec3.sub (a b : WorldCoords) : WorldCoords := ⟨a.x - b.x, a.y - b.y, a.z - b.z⟩

/-- Modelled from the spec: `RoundDownToInt` of the engine's math utilities (not
among the sources) rounds a float down to the next integer. -/
def RoundDownToInt (f : ℚ) : Int := Int.floor f

/-! ### Values of type `float` -/

/-- The power `2 ^ k` for an integer exponent. -/
def pow2 (k : Int) : ℚ :=
  if 0 ≤ k then ((2 ^ k.toNat : Nat) : ℚ) else 1 / ((2 ^ (-k).toNat : Nat) : ℚ)

/-- The number of binary digits of `n`; the first argument bounds the recursion. -/
def bitLength : Nat → Nat → Nat
  | 0, _ => 0
  | fuel + 1, n => if n = 0 then 0 else bitLength fuel (n / 2) + 1

/-- The exponent `e` with `2 ^ e ≤ a < 2 ^ (e + 1)`, for a positive `a`. -/
def binade (a : ℚ) : Int :=
  let e : Int := (bitLength a.num.natAbs a.num.natAbs : Int) - (bitLength a.den a.den : Int)
  if a < pow2 e then e - 1 else e

/-- The value of type `float` that a real value is rounded to: IEEE 754 single
precision, a significand of 24 binary digits, rounding to the nearest value and to the
even significand in a tie.  The range of the exponent is not bounded here; the values
of this program stay far inside it. -/
def roundToFloat (q : ℚ) : ℚ :=
  if q = 0 then 0
  else
    let a := |q|
    let ulp := pow2 (binade a - 23)
    let m := a / ulp
    let f := Int.floor m
    let n : Int :=
      if m - f < 1 / 2 then f
      else if 1 / 2 < m - f then f + 1
      else if f % 2 = 0 then f else f + 1
    if q < 0 then -((n : ℚ) * ulp) else (n : ℚ) * ulp

/-- The sum of two values of type `float`, as a `float`. -/
def floatAdd (a b : ℚ) : ℚ := roundToFloat (a + b)

/-- The difference of two values of type `float`, as a `float`. -/
def floatSub (a b : ℚ) : ℚ := roundToFloat (a - b)

/-- The product of two values of type `float`, as a `float`. -/
def floatMul (a b : ℚ) : ℚ := roundToFloat (a * b)

/-- Modelled from the spec: `CalcDistanceSquared` on two `IntVec2` values (engine
code, not among the sources) is the squared distance between chunk coordinates. -/
def CalcDistanceSquared (a b : ChunkCoords) : Int :=
  (a.x - b.x) * (a.x - b.x) + (a.y - b.y) * (a.y - b.y)

def Chunk.GetChunkCoordsAtWorldCoords (worldCoords : WorldCoords) : ChunkCoords :=
  ⟨RoundDownToInt worldCoords.x >>> CHUNKS_WIDE_EXPONENT,
    RoundDownToInt worldCoords.y >>> CHUNKS_LONG_EXPONENT⟩

def Chunk.GetWorldCoordsAtChunkCoords (chunkCoords : ChunkCoords) : WorldCoords :=
  ⟨((chunkCoords.x <<< (CHUNKS_WIDE_EXPONENT : Int) : Int) : ℚ),
    ((chunkCoords.y <<< (CHUNKS_LONG_EXPONENT : Int) : Int) : ℚ), 0⟩

def Chunk.GetLocalCoordsAtWorldCoords (worldCoords : WorldCoords) : LocalCoords :=
  ⟨Int.land (RoundDownToInt worldCoords.x) CHUNK_X_MASK,
    Int.land (RoundDownToInt worldCoords.y) CHUNK_Y_MASK,
    Int.land (RoundDownToInt worldCoords.z) CHUNK_Z_MASK⟩

def Chunk.GetIndexAtWorldCoords (worldCoords : WorldCoords) : Nat :=
  let worldZ := RoundDownToInt worldCoords.z
  if worldZ ≥ BLOCKS_PER_CHUNK_Z then
    toBlockIndex (-1)
  else
    let localX := Int.land (RoundDownToInt worldCoords.x) CHUNK_X_MASK
    let localY := Int.land (RoundDownToInt worldCoords.y) CHUNK_Y_MASK
    let localZ := Int.land worldZ CHUNK_Z_MASK
    toBlockIndex
      (Int.lor (Int.lor localX (localY <<< (CHUNKS_WIDE_EXPONENT : Int)))
        (localZ <<< ((CHUNKS_WIDE_EXPONENT + CHUNKS_LONG_EXPONENT : Nat) : Int)))

/-! ## Chunk.hpp / Chunk.cpp: the chunk and its run-length codec -/

/-- The fields of `Chunk` used by the simulation core.  `m_blocks` is the array of
`BLOCKS_PER_CHUNK` cells, read at indices below `BLOCKS_PER_CHUNK`. -/
structure Chunk where
  m_blocks : Nat → Block
  m_worldCoordsMins : WorldCoords
  m_isVboDirty : Bool
  m_chunkToNorth : Option Nat
  m_chunkToSouth : Option Nat
  m_chunkToEast : Option Nat
  m_chunkToWest : Option Nat

/-- The constructor `Chunk::Chunk()`; every cell is a default `Block()`. -/
def Chunk.new : Chunk :=
  { m_blocks := fun _ => Block.default
    m_worldCoordsMins := ⟨0, 0, 0⟩
    m_isVboDirty := true
    m_chunkToNorth := none
    m_chunkToSouth := none
    m_chunkToEast := none
    m_chunkToWest := none }

/-- The assignment `m_blocks[index] = b`. -/
def Chunk.setBlock (c : Chunk) (index : Nat) (b : Block) : Chunk :=
  { c with m_blocks := fun i => if i = index then b else c.m_blocks i }

def Chunk.AppendToRLEBuffer (blockType blockCount : Nat) (buffer : List Nat) : List Nat :=
  buffer ++ [blockType, (blockCount >>> 8) % 256, blockCount % 256]

/-- The `for` loop of `Chunk::CreateRLEBuffer`: the first argument counts the
iterations still to run, `index` is the loop variable. -/
def Chunk.CreateRLEBuffer.loop (m_blocks : Nat → Block) :
    Nat → Nat → Nat → Nat → List Nat → Nat × Nat × List Nat
  | 0, _, currentBlockType, currentBlockCount, buffer =>
      (currentBlockType, currentBlockCount, buffer)
  | n + 1, index, currentBlockType, currentBlockCount, buffer =>
      let block := m_blocks index
      if block.m_type ≠ currentBlockType then
        Chunk.CreateRLEBuffer.loop m_blocks n (index + 1) block.m_type 1
          (Chunk.AppendToRLEBuffer currentBlockType currentBlockCount buffer)
      else
        Chunk.CreateRLEBuffer.loop m_blocks n (index + 1) currentBlockType
          ((currentBlockCount + 1) % 65536) buffer

/-- The bytes `Chunk::CreateRLEBuffer` returns (`out_rleBufferSize` is their number). -/
def Chunk.CreateRLEBuffer (c : Chunk) : List Nat :=
  let r := Chunk.CreateRLEBuffer.loop c.m_blocks (BLOCKS_PER_CHUNK - 1) 1 (c.m_blocks 0).m_type 1 []
  Chunk.AppendToRLEBuffer r.1 r.2.1 r.2.2

/-- What `LoadFileToExistingBuffer` leaves in the static `s_tempRLEBuffer`: the bytes
of the file followed by whatever the buffer held before. -/
def LoadFileToExistingBuffer (file : List Nat) (s_tempRLEBuffer : Nat → Nat) : Nat → Nat :=
  fun i => if i < file.length then file.getD i 0 else s_tempRLEBuffer i

/-- The `for` loop of `Chunk::PopulateFromTempRLEBuffer`: the first argument counts
the iterations still to run, `index` is the loop variable. -/
def Chunk.PopulateFromTempRLEBuffer.loop (s_tempRLEBuffer : Nat → Nat) :
    Nat → Nat → Nat → Nat → Nat → Nat → (Nat → Block) → (Nat → Block)
  | 0, _, _, _, _, _, m_blocks => m_blocks
  | n + 1, index, bufferIndex, currentBlockType, currentBlockCount, numBlocksAssigned,
      m_blocks =>
      let s : Nat × Nat × Nat × Nat :=
        if numBlocksAssigned = currentBlockCount then
          (bufferIndex + 3, s_tempRLEBuffer bufferIndex,
            (((s_tempRLEBuffer (bufferIndex + 1)) <<< 8) % 65536
              + s_tempRLEBuffer (bufferIndex + 2)) % 65536,
            0)
        else
          (bufferIndex, currentBlockType, currentBlockCount, numBlocksAssigned)
      let block : Block := ⟨s.2.1, (g_blockDefinitions s.2.1).m_inherentLightValue⟩
      Chunk.PopulateFromTempRLEBuffer.loop s_tempRLEBuffer n (index + 1) s.1 s.2.1 s.2.2.1
        ((s.2.2.2 + 1) % 65536) (fun i => if i = index then block else m_blocks i)

def Chunk.PopulateFromTempRLEBuffer (s_tempRLEBuffer : Nat → Nat) (c : Chunk) : Chunk :=
  let blocks := Chunk.PopulateFromTempRLEBuffer.loop s_tempRLEBuffer BLOCKS_PER_CHUNK 0 0
    (s_tempRLEBuffer 0) 0 0 c.m_blocks
  { c with m_blocks := blocks }

/-! ## World.hpp / World.cpp: the world state -/

def DAYLIGHT : Nat := 15
def MEDIUMLIGHT : Nat := 10
def MOONLIGHT : Nat := 6

def INNER_VISIBILITY_DISTANCE : Int := 15
def INNER_DISTANCE_THERMOSTAT_QUALIFICATION : Int :=
  INNER_VISIBILITY_DISTANCE * INNER_VISIBILITY_DISTANCE + 1
def OUTER_VISIBILITY_DISTANCE : Int := INNER_VISIBILITY_DISTANCE + 1
def OUTER_DISTANCE_THERMOSTAT_QUALIFICATION : Int :=
  OUTER_VISIBILITY_DISTANCE * OUTER_VISIBILITY_DISTANCE

def PLAYER_HEIGHT : ℚ := 185 / 100
def PLAYER_WIDTH : ℚ := 6 / 10
def CAMERA_HEIGHT : ℚ := 162 / 100
def SEA_LEVEL : ℚ := 80

structure BlockLocation where
  m_chunk : Option Nat
  m_index : Nat
deriving DecidableEq, Repr

structure AABB3D where
  mins : WorldCoords
  maxs : WorldCoords

/-- The fields of `Raycast3DResult` read by the block edits.  `m_impactFaceCoords`
(the outline drawn by the renderer) is left out; the fields a result without impact
leaves unset are zero. -/
structure Raycast3DResult where
  m_didImpact : Bool
  m_impactWorldCoords : WorldCoords
  m_impactWorldCoordsMins : WorldCoords
  m_impactSurfaceNormal : WorldCoords
deriving DecidableEq

/-- The state of `World` used by streaming, lighting and the spatial queries,
together with the global `g_debugPointsEnabled`.

* `m_heap p` is the chunk object at address `p`; addresses below `m_heapSize` have
  been handed out by `new Chunk()`.
* `m_activeChunks` lists the entries of the `std::map` from chunk coordinates to
  chunk addresses, one entry per key.
* `m_dirtyBlocks` and `m_nextDirtyBlocksDebug` are vectors used as stacks; the head
  of the list is the back of the vector.
* `m_cameraPosition` is `m_camera->m_position`. -/
structure World where
  m_heap : Nat → Chunk
  m_heapSize : Nat
  m_activeChunks : List (ChunkCoords × Nat)
  m_dirtyBlocks : List BlockLocation
  m_nextDirtyBlocksDebug : List BlockLocation
  m_lightLevel : Nat
  m_isRunning : Bool
  g_debugPointsEnabled : Bool
  m_cameraPosition : WorldCoords
  m_playerBox : AABB3D

/-- The world after `World::World()` and `World::Startup()`: no chunk is active. -/
def World.new : World :=
  { m_heap := fun _ => Chunk.new
    m_heapSize := 0
    m_activeChunks := []
    m_dirtyBlocks := []
    m_nextDirtyBlocksDebug := []
    m_lightLevel := DAYLIGHT
    m_isRunning := true
    g_debugPointsEnabled := false
    m_cameraPosition := ⟨PLAYER_WIDTH * (1 / 2), PLAYER_WIDTH * (1 / 2), SEA_LEVEL + CAMERA_HEIGHT⟩
    m_playerBox := ⟨⟨0, 0, SEA_LEVEL⟩, ⟨PLAYER_WIDTH, PLAYER_WIDTH, SEA_LEVEL + PLAYER_HEIGHT⟩⟩ }

/-- Overwrites the chunk object at address `p`. -/
def World.setChunk (w : World) (p : Nat) (c : Chunk) : World :=
  { w with m_heap := fun q => if q = p then c else w.m_heap q }

/-- The assignment `chunk->m_blocks[index] = b` for the chunk at address `p`. -/
def World.setBlock (w : World) (p index : Nat) (b : Block) : World :=
  w.setChunk p ((w.m_heap p).setBlock index b)

/-- The assignment `chunk->m_isVboDirty = true` for the chunk at address `p`. -/
def World.dirtyVbo (w : World) (p : Nat) : World :=
  w.setChunk p { w.m_heap p with m_isVboDirty := true }

/-- The call `push_back` on the dirty list an edit writes to: the debug capture list
when `toDebugList` holds, the work queue otherwise. -/
def World.pushDirty (w : World) (toDebugList : Bool) (blockLocation : BlockLocation) : World :=
  if toDebugList then
    { w with m_nextDirtyBlocksDebug := blockLocation :: w.m_nextDirtyBlocksDebug }
  else
    { w with m_dirtyBlocks := blockLocation :: w.m_dirtyBlocks }

/-- The lookup `m_activeChunks.find(chunkCoords)`; `none` is `end()`. -/
def World.findChunk (w : World) (chunkCoords : ChunkCoords) : Option Nat :=
  (w.m_activeChunks.find? (fun e => e.1 = chunkCoords)).map (fun e => e.2)

def World.IsChunkActive (w : World) (chunkCoords : ChunkCoords) : Bool :=
  w.m_activeChunks.any (fun e => chunkCoords = e.1)

/-- The block `GetBlock` refers to.  Every caller passes a location whose chunk is
not `NULL`. -/
def World.GetBlock (w : World) (blockLocation : BlockLocation) : Block :=
  match blockLocation.m_chunk with
  | some p => (w.m_heap p).m_blocks blockLocation.m_index
  | none => Block.default

def World.GetBlockLocation (w : World) (blockLocation : BlockLocation) (indexOffset : Int) :
    BlockLocation :=
  match blockLocation.m_chunk with
  | none => blockLocation
  | some p =>
    let m_index := blockLocation.m_index
    if indexOffset = STEP_EAST then
      if m_index &&& BLOCKINDEX_X_MASK = BLOCKINDEX_X_MASK then
        match (w.m_heap p).m_chunkToEast with
        | some chunkToEast => ⟨some chunkToEast, toBlockIndex (m_index - BLOCKINDEX_X_MASK)⟩
        | none => ⟨none, m_index⟩
      else ⟨some p, toBlockIndex (m_index + indexOffset)⟩
    else if indexOffset = STEP_WEST then
      if m_index &&& BLOCKINDEX_X_MASK = 0 then
        match (w.m_heap p).m_chunkToWest with
        | some chunkToWest => ⟨some chunkToWest, toBlockIndex (m_index + BLOCKINDEX_X_MASK)⟩
        | none => ⟨none, m_index⟩
      else ⟨some p, toBlockIndex (m_index + indexOffset)⟩
    else if indexOffset = STEP_NORTH then
      if m_index &&& BLOCKINDEX_Y_MASK = BLOCKINDEX_Y_MASK then
        match (w.m_heap p).m_chunkToNorth with
        | some chunkToNorth => ⟨some chunkToNorth, toBlockIndex (m_index - BLOCKINDEX_Y_MASK)⟩
        | none => ⟨none, m_index⟩
      else ⟨some p, toBlockIndex (m_index + indexOffset)⟩
    else if indexOffset = STEP_SOUTH then
      if m_index &&& BLOCKINDEX_Y_MASK = 0 then
        match (w.m_heap p).m_chunkToSouth with
        | some chunkToSouth => ⟨some chunkToSouth, toBlockIndex (m_index + BLOCKINDEX_Y_MASK)⟩
        | none => ⟨none, m_index⟩
      else ⟨some p, toBlockIndex (m_index + indexOffset)⟩
    else if indexOffset = STEP_UP ∨ indexOffset = STEP_DOWN then
      let newIndex := toBlockIndex (m_index + indexOffset)
      if newIndex < BLOCKS_PER_CHUNK then ⟨some p, newIndex⟩ else ⟨none, m_index⟩
    else blockLocation

/-! ### Lighting -/

/-- One of the six blocks of `CalculateIdealLightingForBlock` that look at a
neighbour: the running maximum after the neighbour reached by `indexOffset`. -/
def World.maxWithNeighbor (w : World) (blockLocation : BlockLocation) (indexOffset : Int)
    (maxAdjacentLighting : Nat) : Nat :=
  let location := w.GetBlockLocation blockLocation indexOffset
  if location.m_chunk.isSome then
    let lighting := (w.GetBlock location).GetLightValue
    if lighting > maxAdjacentLighting then lighting else maxAdjacentLighting
  else maxAdjacentLighting

/-- The value of `maxAdjacentLighting` when `CalculateIdealLightingForBlock` reaches
its final test. -/
def World.maxAdjacentLighting (w : World) (blockLocation : BlockLocation) : Nat :=
  let block := w.GetBlock blockLocation
  let m := ((g_blockDefinitions block.m_type).m_inherentLightValue + 1) % 256
  let m := w.maxWithNeighbor blockLocation STEP_UP m
  let m := w.maxWithNeighbor blockLocation STEP_DOWN m
  let m := w.maxWithNeighbor blockLocation STEP_NORTH m
  let m := w.maxWithNeighbor blockLocation STEP_SOUTH m
  let m := w.maxWithNeighbor blockLocation STEP_EAST m
  w.maxWithNeighbor blockLocation STEP_WEST m

def World.CalculateIdealLightingForBlock (w : World) (blockLocation : BlockLocation) : Nat :=
  let block := w.GetBlock blockLocation
  let maxAdjacentLighting := w.maxAdjacentLighting blockLocation
  if block.IsSky ∧ maxAdjacentLighting = w.m_lightLevel then
    maxAdjacentLighting
  else
    (maxAdjacentLighting + 255) % 256

/-- One of the six blocks of `DirtyNonopaqueNeighbors`: the neighbour reached by
`indexOffset`, when it exists, has its chunk marked stale and, when it is not opaque
and not yet dirty, is flagged dirty and pushed. -/
def World.dirtyNeighbor (w : World) (blockLocation : BlockLocation) (indexOffset : Int) : World :=
  let location := w.GetBlockLocation blockLocation indexOffset
  match location.m_chunk with
  | none => w
  | some q =>
    let w1 := w.dirtyVbo q
    let block := w1.GetBlock location
    if !(g_blockDefinitions block.m_type).m_isOpaque && !block.IsLightingDirty then
      (w1.setBlock q location.m_index block.DirtyLighting).pushDirty w.g_debugPointsEnabled location
    else w1

def World.DirtyNonopaqueNeighbors (w : World) (blockLocation : BlockLocation)
    (includingAboveBelow : Bool) : World :=
  let w := if includingAboveBelow then
      (w.dirtyNeighbor blockLocation STEP_UP).dirtyNeighbor blockLocation STEP_DOWN
    else w
  let w := w.dirtyNeighbor blockLocation STEP_NORTH
  let w := w.dirtyNeighbor blockLocation STEP_SOUTH
  let w := w.dirtyNeighbor blockLocation STEP_EAST
  w.dirtyNeighbor blockLocation STEP_WEST

def World.UpdateLightingForBlock (w : World) (blockLocation : BlockLocation) : World :=
  match blockLocation.m_chunk with
  | none => w
  | some p =>
    let idealLight := w.CalculateIdealLightingForBlock blockLocation
    let block := w.GetBlock blockLocation
    let w := if block.GetLightValue ≠ idealLight then
        (w.setBlock p blockLocation.m_index (block.SetLightValue idealLight)).DirtyNonopaqueNeighbors
          blockLocation true
      else w
    w.setBlock p blockLocation.m_index (w.GetBlock blockLocation).UndirtyLighting

/-- The `while` loop of `World::UpdateLighting`, run for at most `fuel` pops.  The
result is `none` when the queue is not empty after `fuel` pops. -/
def World.UpdateLighting : Nat → World → Option World
  | 0, w => if w.m_dirtyBlocks.isEmpty then some w else none
  | fuel + 1, w =>
    match w.m_dirtyBlocks with
    | [] => some w
    | blockLocation :: rest =>
      let w := { w with m_dirtyBlocks := rest }
      match blockLocation.m_chunk with
      | some p => World.UpdateLighting fuel ((w.UpdateLightingForBlock blockLocation).dirtyVbo p)
      | none => World.UpdateLighting fuel w

/-! ### Streaming -/

/-- The body of the inner `for` loop of `World::OnChunkActivated` for the cell
`index` of the chunk at address `p`; the result carries the new `endedSky`. -/
def World.OnChunkActivated.cell (w : World) (p index : Nat) (endedSky : Bool) : World × Bool :=
  let block := (w.m_heap p).m_blocks index
  if !endedSky && block.m_type = BT_AIR then
    let w := w.setBlock p index (block.MarkAsSky.SetLightValue w.m_lightLevel)
    (w.DirtyNonopaqueNeighbors ⟨some p, index⟩ false, endedSky)
  else if block.GetLightValue ≠ 0 then
    (w.DirtyNonopaqueNeighbors ⟨some p, index⟩ true, true)
  else if !(g_blockDefinitions block.m_type).m_isOpaque && !block.IsLightingDirty then
    ((w.setBlock p index block.DirtyLighting).pushDirty w.g_debugPointsEnabled ⟨some p, index⟩,
      true)
  else
    (w, true)

/-- The inner `for` loop of `World::OnChunkActivated`, which walks down one column:
`index` is the loop variable, stepped by `index -= BLOCKS_PER_CHUNK_LAYER` in
`unsigned short` arithmetic until it is no longer below `BLOCKS_PER_CHUNK`.  The
first argument bounds the number of iterations. -/
def World.OnChunkActivated.column (p : Nat) : Nat → Nat → Bool → World → World
  | 0, _, _, w => w
  | fuel + 1, index, endedSky, w =>
    if index < BLOCKS_PER_CHUNK then
      let r := World.OnChunkActivated.cell w p index endedSky
      World.OnChunkActivated.column p fuel (toBlockIndex (index - BLOCKS_PER_CHUNK_LAYER)) r.2 r.1
    else w

/-- The outer `for` loop of `World::OnChunkActivated`: the first argument counts the
iterations still to run, `column` is the loop variable. -/
def World.OnChunkActivated.columns (p : Nat) : Nat → Nat → World → World
  | 0, _, w => w
  | n + 1, column, w =>
    World.OnChunkActivated.columns p n (column + 1)
      (World.OnChunkActivated.column p (BLOCKS_PER_CHUNK_Z + 1)
        (toBlockIndex (BLOCKS_PER_CHUNK - column)) false w)

def World.OnChunkActivated (w : World) (p : Nat) : World :=
  World.OnChunkActivated.columns p BLOCKS_PER_CHUNK_LAYER 1 w

/-- The assignment `m_activeChunks[chunkCoords] = p` in a map held as a list. -/
def insertChunk (chunkCoords : ChunkCoords) (p : Nat) :
    List (ChunkCoords × Nat) → List (ChunkCoords × Nat)
  | [] => [(chunkCoords, p)]
  | e :: rest =>
    if e.1 = chunkCoords then (chunkCoords, p) :: rest else e :: insertChunk chunkCoords p rest

/-- One of the four blocks of `World::ActivateChunk` that link the new chunk at
address `p` to a neighbour: `setOwn` stores the link in the new chunk, `setBack` the
link back in the neighbour. -/
def World.linkNeighbor (w : World) (p : Nat) (neighborCoords : ChunkCoords)
    (setOwn : Chunk → Option Nat → Chunk) (setBack : Chunk → Option Nat → Chunk) : World :=
  match w.findChunk neighborCoords with
  | some q =>
    let w := w.setChunk p (setOwn (w.m_heap p) (some q))
    w.setChunk q (setBack (w.m_heap q) (some p))
  | none => w.setChunk p (setOwn (w.m_heap p) none)

def Chunk.setNorth (c : Chunk) (l : Option Nat) : Chunk := { c with m_chunkToNorth := l }
def Chunk.setSouth (c : Chunk) (l : Option Nat) : Chunk := { c with m_chunkToSouth := l }
def Chunk.setEast (c : Chunk) (l : Option Nat) : Chunk := { c with m_chunkToEast := l }
def Chunk.setWest (c : Chunk) (l : Option Nat) : Chunk := { c with m_chunkToWest := l }

/-- The part of `World::ActivateChunk` before the call of `OnChunkActivated`.
`blocks` is the content of the chunk that `CreateChunkFromFile` or, failing that,
`CreateChunkFromPerlinNoise` returns; the new chunk object takes the next unused
address, `w.m_heapSize`. -/
def World.ActivateChunk.linked (w : World) (chunkCoords : ChunkCoords) (blocks : Nat → Block) :
    World :=
  let p := w.m_heapSize
  let newChunk : Chunk :=
    { Chunk.new with
      m_blocks := blocks
      m_worldCoordsMins := Chunk.GetWorldCoordsAtChunkCoords chunkCoords }
  let w := { w.setChunk p newChunk with m_heapSize := p + 1 }
  let w := w.linkNeighbor p ⟨chunkCoords.x, chunkCoords.y + 1⟩ Chunk.setNorth Chunk.setSouth
  let w := w.linkNeighbor p ⟨chunkCoords.x, chunkCoords.y - 1⟩ Chunk.setSouth Chunk.setNorth
  let w := w.linkNeighbor p ⟨chunkCoords.x + 1, chunkCoords.y⟩ Chunk.setEast Chunk.setWest
  let w := w.linkNeighbor p ⟨chunkCoords.x - 1, chunkCoords.y⟩ Chunk.setWest Chunk.setEast
  { w with m_activeChunks := insertChunk chunkCoords p w.m_activeChunks }

/-- The method `World::ActivateChunk`. -/
def World.ActivateChunk (w : World) (chunkCoords : ChunkCoords) (blocks : Nat → Block) : World :=
  (World.ActivateChunk.linked w chunkCoords blocks).OnChunkActivated w.m_heapSize

/-- The body of the loops of the four `Chunk::Dirty...BorderNonopaqueBlocks` methods
for the cell `index` of the chunk at address `p`. -/
def World.dirtyBorderCell (toDebugList : Bool) (p : Nat) (w : World) (index : Nat) : World :=
  let block := (w.m_heap p).m_blocks index
  if !(g_blockDefinitions block.m_type).m_isOpaque && !block.IsLightingDirty then
    (w.setBlock p index block.DirtyLighting).pushDirty toDebugList ⟨some p, index⟩
  else w

/-- The values the loop variable takes in `for (v = start; v < bound; v += step)`. -/
def loopValues (start bound step : Nat) : List Nat :=
  (List.range (bound - start)).filterMap
    (fun k => if k % step = 0 then some (start + k) else none)

/-- The nested loops shared by the four border methods: `colStart` (or `rowStart`)
runs from `first` in steps of `BLOCKS_PER_CHUNK_LAYER` while below `BLOCKS_PER_CHUNK`,
and `index` from it in steps of `step` while below `colStart + width`. -/
def World.dirtyBorder (w : World) (toDebugList : Bool) (p first width step : Nat) : World :=
  (loopValues first BLOCKS_PER_CHUNK BLOCKS_PER_CHUNK_LAYER).foldl
    (fun w colStart =>
      (loopValues colStart (colStart + width) step).foldl (World.dirtyBorderCell toDebugList p) w)
    w

def World.DirtyEastBorderNonopaqueBlocks (w : World) (toDebugList : Bool) (p : Nat) : World :=
  w.dirtyBorder toDebugList p (BLOCKS_PER_CHUNK_X - 1) BLOCKS_PER_CHUNK_LAYER BLOCKS_PER_CHUNK_X

def World.DirtyWestBorderNonopaqueBlocks (w : World) (toDebugList : Bool) (p : Nat) : World :=
  w.dirtyBorder toDebugList p 0 BLOCKS_PER_CHUNK_LAYER BLOCKS_PER_CHUNK_X

def World.DirtyNorthBorderNonopaqueBlocks (w : World) (toDebugList : Bool) (p : Nat) : World :=
  w.dirtyBorder toDebugList p (BLOCKS_PER_CHUNK_LAYER - BLOCKS_PER_CHUNK_X) BLOCKS_PER_CHUNK_X 1

def World.DirtySouthBorderNonopaqueBlocks (w : World) (toDebugList : Bool) (p : Nat) : World :=
  w.dirtyBorder toDebugList p 0 BLOCKS_PER_CHUNK_X 1

/-- One of the four blocks of `World::DeactivateChunk` that run while the world is
running: the neighbour found at `neighborCoords` loses its link back (`clearBack`)
and has its border facing the removed chunk dirtied (`dirtyBorder`). -/
def World.unlinkNeighbor (w : World) (neighborCoords : ChunkCoords)
    (clearBack : Chunk → Option Nat → Chunk) (dirtyBorder : World → Bool → Nat → World) : World :=
  match w.findChunk neighborCoords with
  | some q => dirtyBorder (w.setChunk q (clearBack (w.m_heap q) none)) w.g_debugPointsEnabled q
  | none => w

/-- The part of `World::DeactivateChunk` guarded by `m_isRunning`: the four lateral
neighbours are unlinked and their borders dirtied. -/
def World.DeactivateChunk.unlinked (w : World) (chunkCoords : ChunkCoords) : World :=
  let w := w.unlinkNeighbor ⟨chunkCoords.x, chunkCoords.y + 1⟩ Chunk.setSouth
    World.DirtySouthBorderNonopaqueBlocks
  let w := w.unlinkNeighbor ⟨chunkCoords.x, chunkCoords.y - 1⟩ Chunk.setNorth
    World.DirtyNorthBorderNonopaqueBlocks
  let w := w.unlinkNeighbor ⟨chunkCoords.x + 1, chunkCoords.y⟩ Chunk.setWest
    World.DirtyWestBorderNonopaqueBlocks
  w.unlinkNeighbor ⟨chunkCoords.x - 1, chunkCoords.y⟩ Chunk.setEast
    World.DirtyEastBorderNonopaqueBlocks

/-- The method `World::DeactivateChunk`.  `SaveChunkToFile` calls
`m_activeChunks.at(chunkCoords)`, which throws when the coordinate is not active: the
result is then `none`.  The file written and the buffer deleted are outside the state. -/
def World.DeactivateChunk (w : World) (chunkCoords : ChunkCoords) : Option World :=
  match w.findChunk chunkCoords with
  | none => none
  | some _ =>
    let w := if w.m_isRunning then World.DeactivateChunk.unlinked w chunkCoords else w
    some { w with m_activeChunks := w.m_activeChunks.filter (fun e => e.1 ≠ chunkCoords) }

/-- The body of the nested loops of `World::ActivateNearestNeededChunk` for the
coordinate `chunkCoords`; the state is `shortestCandidateDistSquared` and
`chunkCoordsToActivate`. -/
def World.nearestStep (w : World) (playerCoords : ChunkCoords) (s : Int × ChunkCoords)
    (chunkCoords : ChunkCoords) : Int × ChunkCoords :=
  let distanceSquared := CalcDistanceSquared chunkCoords playerCoords
  if distanceSquared < s.1 ∧ !w.IsChunkActive chunkCoords then (distanceSquared, chunkCoords)
  else s

/-- The values the loop variable takes in `for (v = lo; v <= hi; ++v)`. -/
def rangeInclusive (lo hi : Int) : List Int :=
  (List.range (hi + 1 - lo).toNat).map (fun (k : Nat) => lo + (k : Int))

/-- The scan of `World::ActivateNearestNeededChunk`: the state of
`shortestCandidateDistSquared` and `chunkCoordsToActivate` after the nested loops.
`chunkCoordsToActivate` starts unset; it is read only after it has been assigned. -/
def World.nearestScan (w : World) : Int × ChunkCoords :=
  let playerCoords := Chunk.GetChunkCoordsAtWorldCoords w.m_cameraPosition
  (rangeInclusive (playerCoords.x - OUTER_VISIBILITY_DISTANCE)
      (playerCoords.x + OUTER_VISIBILITY_DISTANCE)).foldl
    (fun s x =>
      (rangeInclusive (playerCoords.y - OUTER_VISIBILITY_DISTANCE)
          (playerCoords.y + OUTER_VISIBILITY_DISTANCE)).foldl
        (fun s y => w.nearestStep playerCoords s ⟨x, y⟩) s)
    (INNER_DISTANCE_THERMOSTAT_QUALIFICATION, ⟨0, 0⟩)

/-- The coordinate `World::ActivateNearestNeededChunk` passes to `ActivateChunk`, if
it calls it. -/
def World.chunkCoordsToActivate (w : World) : Option ChunkCoords :=
  let s := w.nearestScan
  if s.1 < INNER_DISTANCE_THERMOSTAT_QUALIFICATION then some s.2 else none

/-- The method `World::ActivateNearestNeededChunk`; `create` gives the content of the
chunk created for a coordinate. -/
def World.ActivateNearestNeededChunk (w : World) (create : ChunkCoords → Nat → Block) : World :=
  match w.chunkCoordsToActivate with
  | some chunkCoords => w.ActivateChunk chunkCoords (create chunkCoords)
  | none => w

/-- The scan of `World::DeactivateFurthestChunk`: the state of
`furthestCandidateDistSquared` and `chunkCoordsToDeactivate` after the loop. -/
def World.furthestScan (w : World) : Int × ChunkCoords :=
  let playerCoords := Chunk.GetChunkCoordsAtWorldCoords w.m_cameraPosition
  w.m_activeChunks.foldl
    (fun s e =>
      let distanceSquared := CalcDistanceSquared e.1 playerCoords
      if distanceSquared > s.1 then (distanceSquared, e.1) else s)
    (OUTER_DISTANCE_THERMOSTAT_QUALIFICATION, ⟨0, 0⟩)

/-- The coordinate `World::DeactivateFurthestChunk` passes to `DeactivateChunk`, if
it calls it. -/
def World.chunkCoordsToDeactivate (w : World) : Option ChunkCoords :=
  let s := w.furthestScan
  if s.1 > OUTER_DISTANCE_THERMOSTAT_QUALIFICATION then some s.2 else none

def World.DeactivateFurthestChunk (w : World) : Option World :=
  match w.chunkCoordsToDeactivate with
  | some chunkCoords => w.DeactivateChunk chunkCoords
  | none => some w

/-! ### Block edits -/

/-- Modelled from the spec: `AABB3D::GetCorners` (engine code, not among the sources)
lists the eight corners of the box. -/
def AABB3D.GetCorners (b : AABB3D) : List WorldCoords :=
  [⟨b.mins.x, b.mins.y, b.mins.z⟩, ⟨b.maxs.x, b.mins.y, b.mins.z⟩,
   ⟨b.mins.x, b.maxs.y, b.mins.z⟩, ⟨b.maxs.x, b.maxs.y, b.mins.z⟩,
   ⟨b.mins.x, b.mins.y, b.maxs.z⟩, ⟨b.maxs.x, b.mins.y, b.maxs.z⟩,
   ⟨b.mins.x, b.maxs.y, b.maxs.z⟩, ⟨b.maxs.x, b.maxs.y, b.maxs.z⟩]

def World.GetPlayerBoxContactPoints (w : World) : List WorldCoords :=
  let playerWaistHeight := (w.m_playerBox.maxs.z + w.m_playerBox.mins.z) * (1 / 2)
  w.m_playerBox.GetCorners ++
    [⟨w.m_playerBox.maxs.x, w.m_playerBox.maxs.y, playerWaistHeight⟩,
     ⟨w.m_playerBox.mins.x, w.m_playerBox.maxs.y, playerWaistHeight⟩,
     ⟨w.m_playerBox.maxs.x, w.m_playerBox.mins.y, playerWaistHeight⟩,
     ⟨w.m_playerBox.mins.x, w.m_playerBox.mins.y, playerWaistHeight⟩]

/-- The vector `Vec3(floor(v.x), floor(v.y), floor(v.z))`. -/
def Vec3.floor (v : WorldCoords) : WorldCoords :=
  ⟨(Int.floor v.x : ℚ), (Int.floor v.y : ℚ), (Int.floor v.z : ℚ)⟩

/-- The `while` loop of `World::PlaceBlockWithRaycast` that clears the sky flag below
the placed block in the chunk at address `p`; the first argument bounds the number
of iterations. -/
def World.PlaceBlockWithRaycast.skyLoop (toDebugList : Bool) (p : Nat) : Nat → Nat → World → World
  | 0, _, w => w
  | fuel + 1, index, w =>
    if index < BLOCKS_PER_CHUNK then
      let block := (w.m_heap p).m_blocks index
      if block.m_type ≠ BT_AIR then w
      else
        let block := block.UnmarkAsSky
        let w := w.setBlock p index block
        let w := if !block.IsLightingDirty then
            (w.pushDirty toDebugList ⟨some p, index⟩).setBlock p index block.DirtyLighting
          else w
        World.PlaceBlockWithRaycast.skyLoop toDebugList p fuel
          (toBlockIndex (index - BLOCKS_PER_CHUNK_LAYER)) w
    else w

/-- The method `World::PlaceBlockWithRaycast`.  `toDebugList` tells which list the
reference `dirtyBlocksList` names: the caller passes `m_nextDirtyBlocksDebug` when
`g_debugPointsEnabled` holds and `m_dirtyBlocks` otherwise.  The result is `none` when
the index of the new block is not below `BLOCKS_PER_CHUNK`. -/
def World.PlaceBlockWithRaycast (w : World) (blocktype : Nat) (raycastResult : Raycast3DResult)
    (toDebugList : Bool) : Option World :=
  let newBlockCoords :=
    Vec3.add raycastResult.m_impactWorldCoordsMins raycastResult.m_impactSurfaceNormal
  let index := Chunk.GetIndexAtWorldCoords newBlockCoords
  let chunkCoords := Chunk.GetChunkCoordsAtWorldCoords newBlockCoords
  match w.findChunk chunkCoords with
  | none => some w
  | some p =>
    if BLOCKS_PER_CHUNK ≤ index then none
    else
      let blockToChange := (w.m_heap p).m_blocks index
      if blockToChange.m_type ≠ BT_AIR then some w
      else if w.GetPlayerBoxContactPoints.any (fun corner => newBlockCoords = Vec3.floor corner)
      then some w
      else
        let wasSky := blockToChange.IsSky
        let blockToChange := { blockToChange with m_type := blocktype % 256 }
        let blockToChange := if wasSky then blockToChange.UnmarkAsSky else blockToChange
        let blockToChange := blockToChange.SetLightValue
          (g_blockDefinitions blockToChange.m_type).m_inherentLightValue
        let w := (w.dirtyVbo p).setBlock p index blockToChange
        let w := if !blockToChange.IsLightingDirty then
            (w.pushDirty toDebugList ⟨some p, index⟩).setBlock p index blockToChange.DirtyLighting
          else w
        let w := w.DirtyNonopaqueNeighbors ⟨some p, index⟩ true
        if wasSky then
          some (World.PlaceBlockWithRaycast.skyLoop toDebugList p (BLOCKS_PER_CHUNK_Z + 1)
            (toBlockIndex (index - BLOCKS_PER_CHUNK_LAYER)) w)
        else some w

/-- The assignment `location.m_chunk->m_isVboDirty = true`; there is no result when
the chunk is `NULL`. -/
def World.dirtyVboAt (w : World) (chunk : Option Nat) : Option World :=
  match chunk with
  | some q => some (w.dirtyVbo q)
  | none => none

/-- The `while` loop of `World::DestroyBlockWithRaycast` that sets the sky flag below
the destroyed block in the chunk at address `p`; the first argument bounds the number
of iterations. -/
def World.DestroyBlockWithRaycast.skyLoop (toDebugList : Bool) (p : Nat) : Nat → Nat → World → World
  | 0, _, w => w
  | fuel + 1, index, w =>
    if index < BLOCKS_PER_CHUNK then
      let blockBelow := (w.m_heap p).m_blocks index
      if blockBelow.m_type ≠ BT_AIR then w
      else
        let blockBelow := blockBelow.MarkAsSky
        let w := w.setBlock p index blockBelow
        let w := if !blockBelow.IsLightingDirty then
            (w.pushDirty toDebugList ⟨some p, index⟩).setBlock p index blockBelow.DirtyLighting
          else w
        World.DestroyBlockWithRaycast.skyLoop toDebugList p fuel
          (toBlockIndex (index - BLOCKS_PER_CHUNK_LAYER)) w
    else w

/-- The part of `World::DestroyBlockWithRaycast` that marks the chunks across a
border of the destroyed cell stale.  The result is `none` when the chunk written to
is `NULL`. -/
def World.DestroyBlockWithRaycast.dirtyAdjacent (w : World) (p : Nat)
    (blockLocation : BlockLocation) : Option World := do
  let locationToEast := w.GetBlockLocation blockLocation STEP_EAST
  let w ←
    if locationToEast.m_chunk ≠ some p then w.dirtyVboAt locationToEast.m_chunk
    else
      let locationToWest := w.GetBlockLocation blockLocation STEP_WEST
      if locationToWest.m_chunk ≠ some p then w.dirtyVboAt locationToWest.m_chunk
      else some w
  let locationToNorth := w.GetBlockLocation blockLocation STEP_NORTH
  if locationToNorth.m_chunk ≠ some p then w.dirtyVboAt locationToNorth.m_chunk
  else
    let locationToSouth := w.GetBlockLocation blockLocation STEP_SOUTH
    if locationToSouth.m_chunk ≠ some p then w.dirtyVboAt locationToSouth.m_chunk
    else some w

/-- The method `World::DestroyBlockWithRaycast`.  `toDebugList` tells which list the
reference `dirtyBlocksList` names.  The result is `none` when the index of the impacted
block is not below `BLOCKS_PER_CHUNK` or a `NULL` chunk is written to. -/
def World.DestroyBlockWithRaycast (w : World) (raycastResult : Raycast3DResult)
    (toDebugList : Bool) : Option World :=
  let index := Chunk.GetIndexAtWorldCoords raycastResult.m_impactWorldCoordsMins
  let chunkCoords := Chunk.GetChunkCoordsAtWorldCoords raycastResult.m_impactWorldCoordsMins
  match w.findChunk chunkCoords with
  | none => some w
  | some p =>
    if BLOCKS_PER_CHUNK ≤ index then none
    else do
      let block := (w.m_heap p).m_blocks index
      let block := { block with m_type := BT_AIR }
      let w := (w.setBlock p index block).dirtyVbo p
      let w ←
        if !block.IsLightingDirty then
          let blockLocation : BlockLocation := ⟨some p, index⟩
          let w := (w.pushDirty toDebugList blockLocation).setBlock p index block.DirtyLighting
          World.DestroyBlockWithRaycast.dirtyAdjacent w p blockLocation
        else some w
      let indexAbove := (index + BLOCKS_PER_CHUNK_LAYER) % 65536
      if indexAbove < BLOCKS_PER_CHUNK then
        let blockAbove := (w.m_heap p).m_blocks indexAbove
        if blockAbove.IsSky then
          let w := w.setBlock p index ((w.m_heap p).m_blocks index).MarkAsSky
          some (World.DestroyBlockWithRaycast.skyLoop toDebugList p (BLOCKS_PER_CHUNK_Z + 1)
            (toBlockIndex (indexAbove - BLOCKS_PER_CHUNK_LAYER * 2)) w)
        else some w
      else some w

/-! ### Ray casting -/

/-- The constant `RAYCAST_INCREMENT` of `Raycast3D`, the `float` nearest to 0.001. -/
def RAYCAST_INCREMENT : ℚ := roundToFloat (1 / 1000)

/-- The branches of `World::Raycast3D` that classify the impacted face from the
difference of the current and the previous index; `pos` is `m_impactWorldCoords` at
the impact. -/
def Raycast3D.impact (index previousIndex : Nat) (pos : WorldCoords) : Raycast3DResult :=
  let indexMinusPrevIndex := toBlockIndex (index - previousIndex)
  let prevIndexMinusIndex := toBlockIndex (previousIndex - index)
  let mins := Vec3.floor pos
  if indexMinusPrevIndex &&& BLOCKINDEX_Z_MASK = 1 <<< (CHUNKS_WIDE_EXPONENT + CHUNKS_LONG_EXPONENT)
  then ⟨true, ⟨mins.x + 1, mins.y + 1, mins.z⟩, mins, ⟨0, 0, -1⟩⟩
  else if prevIndexMinusIndex &&& BLOCKINDEX_Z_MASK
      = 1 <<< (CHUNKS_WIDE_EXPONENT + CHUNKS_LONG_EXPONENT)
  then ⟨true, ⟨mins.x, mins.y + 1, mins.z + 1⟩, mins, ⟨0, 0, 1⟩⟩
  else if indexMinusPrevIndex &&& BLOCKINDEX_X_MASK = 1
  then ⟨true, ⟨mins.x, mins.y + 1, mins.z⟩, mins, ⟨-1, 0, 0⟩⟩
  else if prevIndexMinusIndex &&& BLOCKINDEX_X_MASK = 1
  then ⟨true, ⟨mins.x + 1, mins.y, mins.z⟩, mins, ⟨1, 0, 0⟩⟩
  else if indexMinusPrevIndex &&& BLOCKINDEX_Y_MASK = 1 <<< CHUNKS_WIDE_EXPONENT
  then ⟨true, ⟨mins.x, mins.y, mins.z⟩, mins, ⟨0, -1, 0⟩⟩
  else ⟨true, ⟨mins.x + 1, mins.y + 1, mins.z⟩, mins, ⟨0, 1, 0⟩⟩

/-- A result of `World::Raycast3D` without impact; `pos` is `m_impactWorldCoords`. -/
def Raycast3D.noImpact (pos : WorldCoords) : Raycast3DResult :=
  ⟨false, pos, ⟨0, 0, 0⟩, ⟨0, 0, 0⟩⟩

/-- The loops of `World::Raycast3D`, one step at a time: a step is an iteration of
the inner `while` when `index = previousIndex`, and the part of the outer `for` body
after it otherwise.  `p` is the address of `chunk`.  The first argument bounds the
number of steps; the result is `none` when it is used up. -/
def World.Raycast3D.loop (w : World) (increment : WorldCoords) :
    Nat → ℚ → WorldCoords → Nat → Nat → Nat → Option Raycast3DResult
  | 0, _, _, _, _, _ => none
  | fuel + 1, t, pos, p, index, previousIndex =>
    if index = previousIndex then
      let t := floatAdd t RAYCAST_INCREMENT
      if t ≥ 1 then some (Raycast3D.noImpact pos)
      else
        let pos := Vec3.add pos increment
        match w.findChunk (Chunk.GetChunkCoordsAtWorldCoords pos) with
        | none => some (Raycast3D.noImpact pos)
        | some q =>
          let index := Chunk.GetIndexAtWorldCoords pos
          if index ≥ BLOCKS_PER_CHUNK then some (Raycast3D.noImpact pos)
          else World.Raycast3D.loop w increment fuel t pos q index previousIndex
    else if (g_blockDefinitions ((w.m_heap p).m_blocks index).m_type).m_isVisible then
      some (Raycast3D.impact index previousIndex pos)
    else World.Raycast3D.loop w increment fuel t pos p index index

/-- The method `World::Raycast3D`.  The result is `none` when the index of the start
point is not below `BLOCKS_PER_CHUNK`, where the source reads `m_blocks` out of
range. -/
def World.Raycast3D (w : World) (start end_ : WorldCoords) : Option Raycast3DResult :=
  let rayDisplacement := Vec3.sub end_ start
  match w.findChunk (Chunk.GetChunkCoordsAtWorldCoords start) with
  | none => some (Raycast3D.noImpact start)
  | some p =>
    let index := Chunk.GetIndexAtWorldCoords start
    if BLOCKS_PER_CHUNK ≤ index then none
    else if (g_blockDefinitions ((w.m_heap p).m_blocks index).m_type).m_isVisible then
      some (Raycast3D.noImpact start)
    else
      World.Raycast3D.loop w
        ⟨RAYCAST_INCREMENT * rayDisplacement.x, RAYCAST_INCREMENT * rayDisplacement.y,
          RAYCAST_INCREMENT * rayDisplacement.z⟩
        2003 0 start p index index


/-! ### Auxiliary definitions for the proofs -/

/-- The variables of the loop of `Chunk::PopulateFromTempRLEBuffer`. -/
structure DecodeState where
  index : Nat
  bufferIndex : Nat
  currentBlockType : Nat
  currentBlockCount : Nat
  numBlocksAssigned : Nat
  m_blocks : Nat → Block

/-- One iteration of the loop of `Chunk::PopulateFromTempRLEBuffer`. -/
def decodeStep (s_tempRLEBuffer : Nat → Nat) (s : DecodeState) : DecodeState :=
  let r : Nat × Nat × Nat × Nat :=
    if s.numBlocksAssigned = s.currentBlockCount then
      (s.bufferIndex + 3, s_tempRLEBuffer s.bufferIndex,
        (((s_tempRLEBuffer (s.bufferIndex + 1)) <<< 8) % 65536
          + s_tempRLEBuffer (s.bufferIndex + 2)) % 65536,
        0)
    else
      (s.bufferIndex, s.currentBlockType, s.currentBlockCount, s.numBlocksAssigned)
  let block : Block := ⟨r.2.1, (g_blockDefinitions r.2.1).m_inherentLightValue⟩
  ⟨s.index + 1, r.1, r.2.1, r.2.2.1, (r.2.2.2 + 1) % 65536,
    fun i => if i = s.index then block else s.m_blocks i⟩

/-- The bytes of `Chunk::CreateRLEBuffer` when its loop is entered in a given state. -/
def encodeFrom (m_blocks : Nat → Block) (n index currentBlockType currentBlockCount : Nat)
    (buffer : List Nat) : List Nat :=
  let r := Chunk.CreateRLEBuffer.loop m_blocks n index currentBlockType currentBlockCount buffer
  Chunk.AppendToRLEBuffer r.1 r.2.1 r.2.2

/-- A chunk whose cell `i` has the block type `i % 9`. -/
def stripedChunk : Chunk := { Chunk.new with m_blocks := fun i => ⟨i % 9, 0⟩ }

/-- The chunk `c'` has the neighbour links and the position of `c`. -/
structure Chunk.SameLinks (c c' : Chunk) : Prop where
  north : c'.m_chunkToNorth = c.m_chunkToNorth
  south : c'.m_chunkToSouth = c.m_chunkToSouth
  east : c'.m_chunkToEast = c.m_chunkToEast
  west : c'.m_chunkToWest = c.m_chunkToWest
  mins : c'.m_worldCoordsMins = c.m_worldCoordsMins

/-- The world `w'` differs from `w` at most in the cells and stale flags of its chunks
and in its two dirty lists. -/
structure World.Frame (w w' : World) : Prop where
  heapSize : w'.m_heapSize = w.m_heapSize
  active : w'.m_activeChunks = w.m_activeChunks
  lightLevel : w'.m_lightLevel = w.m_lightLevel
  isRunning : w'.m_isRunning = w.m_isRunning
  debug : w'.g_debugPointsEnabled = w.g_debugPointsEnabled
  camera : w'.m_cameraPosition = w.m_cameraPosition
  playerBox : w'.m_playerBox = w.m_playerBox
  links : ∀ q, (w.m_heap q).SameLinks (w'.m_heap q)

/-- A world whose viewer stands in the chunk `(0, 0)` and whose only active chunk is
the chunk `(100, 0)`. -/
def farWorld : World := { World.new with m_activeChunks := [(⟨100, 0⟩, 0)], m_heapSize := 1 }

/-- A world whose viewer stands in the chunk `(0, 0)` and in which the active chunks
are exactly the chunks at squared distance below 225 from it. -/
def diskWorld : World :=
  { World.new with
    m_activeChunks :=
      (List.range 33).flatMap (fun (i : Nat) => (List.range 33).filterMap (fun (j : Nat) =>
        if CalcDistanceSquared ⟨(i : Int) - 16, (j : Int) - 16⟩ ⟨0, 0⟩ < 225 then
          some ((⟨(i : Int) - 16, (j : Int) - 16⟩ : ChunkCoords), (i * 33 + j : Nat))
        else none))
    m_heapSize := 1089 }

/-- A world with one active chunk, at the chunk coordinate `(0, 0)` and the address
0, whose cells all have the given block. -/
def uniformWorld (b : Block) : World :=
  { World.new with
    m_heap := fun _ => { Chunk.new with m_blocks := fun _ => b }
    m_heapSize := 1
    m_activeChunks := [(⟨0, 0⟩, 0)] }

/-- The light values of the neighbours of a cell that exist, in the order in which
`CalculateIdealLightingForBlock` looks at them. -/
def World.neighborLights (w : World) (blockLocation : BlockLocation) : List Nat :=
  [STEP_UP, STEP_DOWN, STEP_NORTH, STEP_SOUTH, STEP_EAST, STEP_WEST].filterMap
    (fun indexOffset =>
      let location := w.GetBlockLocation blockLocation indexOffset
      if location.m_chunk.isSome then some (w.GetBlock location).GetLightValue else none)

/-- The ideal light as the specification words it: the larger of the own emission
and the largest neighbour light, minus 1. -/
def World.statedIdealLight (w : World) (blockLocation : BlockLocation) : Int :=
  max (((g_blockDefinitions (w.GetBlock blockLocation).m_type).m_inherentLightValue : Nat) : Int)
    (((w.neighborLights blockLocation).foldr max 0 : Nat) : Int) - 1

/-- A world in debug capture mode with two active chunks side by side: the chunk
`(0, 0)` at address 0 and, east of it, the chunk `(1, 0)` at address 1, linked to each
other.  All cells are stone except the cell `(15, 0, 0)` of the west chunk, on its
east border, which is ice and already flagged lighting-dirty (and held in the capture
list).  The stale flag of both chunks is clear. -/
def edgeWorld : World :=
  { World.new with
    m_heap := fun q =>
      if q = 0 then
        { Chunk.new with
          m_blocks := fun i => if i = 15 then ⟨BT_ICE, BITMASK_BLOCK_LIGHT_DIRTY⟩ else ⟨BT_STONE, 0⟩
          m_isVboDirty := false
          m_chunkToEast := some 1 }
      else
        { Chunk.new with
          m_blocks := fun _ => ⟨BT_STONE, 0⟩
          m_worldCoordsMins := ⟨16, 0, 0⟩
          m_isVboDirty := false
          m_chunkToWest := some 0 }
    m_heapSize := 2
    m_activeChunks := [(⟨0, 0⟩, 0), (⟨1, 0⟩, 1)]
    m_nextDirtyBlocksDebug := [⟨some 0, 15⟩]
    g_debugPointsEnabled := true }

/-- The result of a ray cast that hits the cell `(15, 0, 0)` on its top face. -/
def edgeImpact : Raycast3DResult :=
  ⟨true, ⟨15, 1, 1⟩, ⟨15, 0, 0⟩, ⟨0, 0, 1⟩⟩

/-- The four lateral directions. -/
inductive Dir where
  | north
  | south
  | east
  | west
deriving DecidableEq, Repr

def Dir.opposite : Dir → Dir
  | .north => .south
  | .south => .north
  | .east => .west
  | .west => .east

/-- The chunk coordinate adjacent to `c` in the direction `d`. -/
def ChunkCoords.adjacent (c : ChunkCoords) : Dir → ChunkCoords
  | .north => ⟨c.x, c.y + 1⟩
  | .south => ⟨c.x, c.y - 1⟩
  | .east => ⟨c.x + 1, c.y⟩
  | .west => ⟨c.x - 1, c.y⟩

/-- The neighbour link of a chunk in the direction `d`. -/
def Chunk.link (c : Chunk) : Dir → Option Nat
  | .north => c.m_chunkToNorth
  | .south => c.m_chunkToSouth
  | .east => c.m_chunkToEast
  | .west => c.m_chunkToWest

def Chunk.setLink (d : Dir) (c : Chunk) (l : Option Nat) : Chunk :=
  match d with
  | .north => c.setNorth l
  | .south => c.setSouth l
  | .east => c.setEast l
  | .west => c.setWest l

/-- The lookup `find` on a map held as a list. -/
def findIn (l : List (ChunkCoords × Nat)) (c : ChunkCoords) : Option Nat :=
  (l.find? (fun e => e.1 = c)).map (fun e => e.2)

/-- The state of the neighbour links that `ActivateChunk` and `DeactivateChunk`
maintain while the world is running: the active map has one entry per key, no chunk
address occurs under two keys, every address has been handed out, and every link of
an active chunk is the chunk that is active at the adjacent coordinate, if any. -/
structure World.StreamInv (w : World) : Prop where
  running : w.m_isRunning = true
  keys : (w.m_activeChunks.map Prod.fst).Nodup
  inj : ∀ c c' p, w.findChunk c = some p → w.findChunk c' = some p → c = c'
  alloc : ∀ c p, w.findChunk c = some p → p < w.m_heapSize
  mirror : ∀ c p d, w.findChunk c = some p → (w.m_heap p).link d = w.findChunk (c.adjacent d)

/-- The world states reached from a running world without active chunks by calls of
`ActivateChunk` and `DeactivateChunk`. -/
inductive World.StreamReachable : World → Prop where
  | start (w : World) (hempty : w.m_activeChunks = []) (hrunning : w.m_isRunning = true) :
      World.StreamReachable w
  | activate (w : World) (chunkCoords : ChunkCoords) (blocks : Nat → Block)
      (h : World.StreamReachable w) : World.StreamReachable (w.ActivateChunk chunkCoords blocks)
  | deactivate (w w' : World) (chunkCoords : ChunkCoords) (h : World.StreamReachable w)
      (hd : w.DeactivateChunk chunkCoords = some w') : World.StreamReachable w'

/-- The world after activating the all-stone chunks `(0, 0)` and then `(0, 1)` from
the initial world. -/
def twoChunkWorld : World :=
  (World.new.ActivateChunk ⟨0, 0⟩ (fun _ => ⟨BT_STONE, 0⟩)).ActivateChunk ⟨0, 1⟩
    (fun _ => ⟨BT_STONE, 0⟩)

/-- The dirty list an edit writes to: the debug capture list when `toDebugList` holds,
the work queue otherwise. -/
def World.dirtyList (w : World) (toDebugList : Bool) : List BlockLocation :=
  if toDebugList then w.m_nextDirtyBlocksDebug else w.m_dirtyBlocks

/-- The cell `j` of the chunk at address `p` has the same block in `w'` as in `w` and
occurs as often in the dirty list. -/
def World.CellSame (p j : Nat) (d : Bool) (w w' : World) : Prop :=
  (w'.m_heap p).m_blocks j = (w.m_heap p).m_blocks j ∧
    (w'.dirtyList d).count ⟨some p, j⟩ = (w.dirtyList d).count ⟨some p, j⟩

/-- The statements every edit uses to store a block in a cell and to enqueue the cell:
the block `b` is written to the cell `index` of the chunk at address `p`, and when `b`
is not flagged dirty the cell is pushed on the list the edit writes to and flagged. -/
def World.writeAndEnqueue (w : World) (toDebugList : Bool) (p index : Nat) (b : Block) : World :=
  let w := w.setBlock p index b
  if !b.IsLightingDirty then
    (w.pushDirty toDebugList ⟨some p, index⟩).setBlock p index b.DirtyLighting
  else w

/-- The column of the water scenario: stone below height 70, water from height 70 to
height 80, sky above. -/
def waterColumnBlock (z : Nat) : Block :=
  if z < 70 then ⟨BT_STONE, 0⟩
  else if z ≤ 80 then ⟨BT_WATER, 0⟩
  else ⟨BT_AIR, BITMASK_BLOCK_IS_SKY ||| DAYLIGHT⟩

/-- A world with one active chunk, at the chunk coordinate `(0, 0)` and the address `0`,
whose column at local `(0, 0)` is the column of the water scenario and whose other cells
are stone. -/
def waterWorld : World :=
  { World.new with
    m_heap := fun _ =>
      { Chunk.new with
        m_blocks := fun i => if i % 256 = 0 then waterColumnBlock (i / 256) else ⟨BT_STONE, 0⟩ }
    m_heapSize := 1
    m_activeChunks := [(⟨0, 0⟩, 0)] }

/-- The impact of a ray on the west face of the stone cell at `(1, 0, 100)`. -/
def waterImpact : Raycast3DResult :=
  ⟨true, ⟨1, 1, 100⟩, ⟨1, 0, 100⟩, ⟨-1, 0, 0⟩⟩

/-- The local variable `newBlockCoords` of `World::PlaceBlockWithRaycast`. -/
def Raycast3DResult.newBlockCoords (r : Raycast3DResult) : WorldCoords :=
  Vec3.add r.m_impactWorldCoordsMins r.m_impactSurfaceNormal

/-- The local variable `index` of `World::PlaceBlockWithRaycast` before the sky loop. -/
def Raycast3DResult.newBlockIndex (r : Raycast3DResult) : Nat :=
  Chunk.GetIndexAtWorldCoords r.newBlockCoords

/-- A cell that `OnChunkActivated` passes over: it is not air, stores no light and is
opaque. -/
def Block.Inert (b : Block) : Prop :=
  b.m_type ≠ BT_AIR ∧ b.GetLightValue = 0 ∧ (g_blockDefinitions b.m_type).m_isOpaque = true

/-- The six steps from a cell to a neighbouring cell. -/
def neighborSteps : List Int :=
  [STEP_UP, STEP_DOWN, STEP_NORTH, STEP_SOUTH, STEP_EAST, STEP_WEST]

/-- The chunk object at address `p` is that of an active chunk. -/
def World.IsLive (w : World) (p : Nat) : Prop := ∃ c, w.findChunk c = some p

/-- The world `w'` has the cells of `w` but for dirty flags that were set on cells
pushed on the work queue, and its work queue holds what that of `w` holds. -/
structure World.Dirtied (w w' : World) : Prop where
  frame : w.Frame w'
  cells : ∀ r k, (w'.m_heap r).m_blocks k = (w.m_heap r).m_blocks k ∨
    ((w'.m_heap r).m_blocks k = ((w.m_heap r).m_blocks k).DirtyLighting ∧
      ⟨some r, k⟩ ∈ w'.m_dirtyBlocks)
  queue : ∀ l, l ∈ w.m_dirtyBlocks → l ∈ w'.m_dirtyBlocks

/-- What a call of `UpdateLightingForBlock` on the cell `i` of the chunk at address `p`
does to the world, with lights pushed on the work queue: the cell stores its ideal
light and is not flagged, no other light value changes, no type or sky flag changes,
dirty flags are only set on cells that are pushed, and the neighbours that are not
opaque are flagged when the light of the cell changed. -/
structure World.Relit (w : World) (p i : Nat) (w' : World) : Prop where
  frame : w.Frame w'
  type : ∀ r k, ((w'.m_heap r).m_blocks k).m_type = ((w.m_heap r).m_blocks k).m_type
  sky : ∀ r k, ((w'.m_heap r).m_blocks k).IsSky = ((w.m_heap r).m_blocks k).IsSky
  light : ∀ r k, ¬ (r = p ∧ k = i) →
    ((w'.m_heap r).m_blocks k).GetLightValue = ((w.m_heap r).m_blocks k).GetLightValue
  own : ((w'.m_heap p).m_blocks i).GetLightValue = w.CalculateIdealLightingForBlock ⟨some p, i⟩
  clean : ((w'.m_heap p).m_blocks i).IsLightingDirty = false
  mono : ∀ r k, ¬ (r = p ∧ k = i) → ((w.m_heap r).m_blocks k).IsLightingDirty = true →
    ((w'.m_heap r).m_blocks k).IsLightingDirty = true
  fresh : ∀ r k, ¬ (r = p ∧ k = i) → ((w'.m_heap r).m_blocks k).IsLightingDirty = true →
    ((w.m_heap r).m_blocks k).IsLightingDirty = true ∨ ⟨some r, k⟩ ∈ w'.m_dirtyBlocks
  queue : ∀ l, l ∈ w.m_dirtyBlocks → l ∈ w'.m_dirtyBlocks
  marks : ((w.m_heap p).m_blocks i).GetLightValue ≠ w.CalculateIdealLightingForBlock ⟨some p, i⟩ →
    ∀ off r k, off ∈ neighborSteps → w.GetBlockLocation ⟨some p, i⟩ off = ⟨some r, k⟩ →
      ¬ (r = p ∧ k = i) →
      (g_blockDefinitions ((w.m_heap r).m_blocks k).m_type).m_isOpaque = false →
      ((w'.m_heap r).m_blocks k).IsLightingDirty = true

/-! ### Further auxiliary definitions -/

/-- A world with one active chunk, at the chunk coordinate `(0, 0)` and the address `0`,
in the state `OnChunkActivated` leaves for a chunk of stone with one cell of air in
its top layer, at `(1, 1, 127)`: that cell is flagged sky and stores the light level
of the world. -/
def pitWorld : World :=
  { World.new with
    m_heap := fun _ =>
      { Chunk.new with
        m_blocks := fun i =>
          if i = 32529 then ⟨BT_AIR, BITMASK_BLOCK_IS_SKY ||| DAYLIGHT⟩ else ⟨BT_STONE, 0⟩ }
    m_heapSize := 1
    m_activeChunks := [(⟨0, 0⟩, 0)] }

/-- The three bytes of an entry of the run-length stream for a run of `e.2` cells of the
type `e.1`: the type id, the high byte and the low byte of the count. -/
def rleEntry (e : Nat × Nat) : List Nat := [e.1, e.2 / 256, e.2 % 256]

/-- The sequence of type ids that a list of runs stands for. -/
def rleExpand (runs : List (Nat × Nat)) : List Nat :=
  runs.flatMap (fun e => List.replicate e.2 e.1)

/-! ### World.cpp: player movement -/

/-- Modelled from the spec: `AABB3D::Translate` (engine code, not among the sources)
moves the box by a translation. -/
def AABB3D.Translate (b : AABB3D) (translation : WorldCoords) : AABB3D :=
  ⟨Vec3.add b.mins translation, Vec3.add b.maxs translation⟩

/-- The vector `-v`. -/
def Vec3.neg (v : WorldCoords) : WorldCoords := ⟨-v.x, -v.y, -v.z⟩

/-- The vector `v * s`. -/
def Vec3.scale (v : WorldCoords) (s : ℚ) : WorldCoords := ⟨v.x * s, v.y * s, v.z * s⟩

/-- The statements `m_playerBox.Translate(v); m_camera->m_position += v;`. -/
def World.translatePlayer (w : World) (v : WorldCoords) : World :=
  { w with
    m_playerBox := w.m_playerBox.Translate v
    m_cameraPosition := Vec3.add w.m_cameraPosition v }

/-- The statements `m_playerBox.Translate(-v); m_camera->m_position -= v;`. -/
def World.untranslatePlayer (w : World) (v : WorldCoords) : World :=
  { w with
    m_playerBox := w.m_playerBox.Translate (Vec3.neg v)
    m_cameraPosition := Vec3.sub w.m_cameraPosition v }

/-- The outcome of code that indexes `m_blocks` with the result of
`GetIndexAtWorldCoords` and may loop: it returns a value (`done`), it indexes
`m_blocks` with an index that is not below `BLOCKS_PER_CHUNK` (`outOfRange`), or it
has not returned within the given number of iterations (`unfinished`). -/
inductive Access (α : Type) where
  | done (a : α)
  | outOfRange
  | unfinished
deriving DecidableEq

def Access.map {α β : Type} (f : α → β) : Access α → Access β
  | .done a => .done (f a)
  | .outOfRange => .outOfRange
  | .unfinished => .unfinished

/-- The constant `MOVE_UP` of `MovePlayerWhenStuckInsideBlocks`. -/
def MOVE_UP : WorldCoords := ⟨0, 0, 1 / 10⟩

/-- The `for` loop of `World::MovePlayerWhenStuckInsideBlocks` over the contact points
still to visit.  The second component of the result is the value returned when the
method returns inside the loop, and `none` when the loop runs to its end. -/
def World.MovePlayerWhenStuckInsideBlocks.corners :
    List WorldCoords → World → Access (World × Option Bool)
  | [], w => .done (w, none)
  | corner :: rest, w =>
    match w.findChunk (Chunk.GetChunkCoordsAtWorldCoords corner) with
    | none => .done (w, some false)
    | some p =>
      let index := Chunk.GetIndexAtWorldCoords corner
      if BLOCKS_PER_CHUNK ≤ index then .outOfRange
      else if (g_blockDefinitions ((w.m_heap p).m_blocks index).m_type).m_isSolid then
        World.MovePlayerWhenStuckInsideBlocks.corners rest (w.translatePlayer MOVE_UP)
      else .done (w, some true)

/-- The method `World::MovePlayerWhenStuckInsideBlocks`; the first argument bounds the
number of iterations of its `while (true)` loop. -/
def World.MovePlayerWhenStuckInsideBlocks : Nat → World → Access (World × Bool)
  | 0, _ => .unfinished
  | fuel + 1, w =>
    match World.MovePlayerWhenStuckInsideBlocks.corners w.GetPlayerBoxContactPoints w with
    | .done (w', some b) => .done (w', b)
    | .done (w', none) => World.MovePlayerWhenStuckInsideBlocks fuel w'
    | .outOfRange => .outOfRange
    | .unfinished => .unfinished

/-- The members of `World` that `MovePlayerWithRaycast` writes besides the player box
and the camera position. -/
structure PlayerMotion where
  m_playerLocalVelocity : WorldCoords
  m_playerIsOnGround : Bool
  m_playerIsOnIce : Bool
deriving DecidableEq

/-- The state of `MovePlayerWithRaycast` during the sweep: the world, the members of
`PlayerMotion`, the local `raycastIncrement` and the field `m_didImpact` of `result`. -/
structure SweepState where
  world : World
  motion : PlayerMotion
  raycastIncrement : WorldCoords
  m_didImpact : Bool

/-- The ways the loop over the contact points of one step of the sweep is left:
`outside` is the `return result` taken when the chunk coordinate of a contact point is
not active, `halted` a `return result` after a collision that leaves no component of
the increment, `deflected` a `break` after a collision, and `clear` the end of the
loop. -/
inductive SweepExit where
  | outside
  | halted
  | deflected
  | clear
deriving DecidableEq

/-- The constant `RAYCAST_INCREMENT` of `MovePlayerWithRaycast`. -/
def SWEEP_INCREMENT : ℚ := roundToFloat (1 / 100)

/-- The `for` loop of `World::MovePlayerWithRaycast` over the contact points still to
visit in one step of the sweep.  `cosCameraYaw` and `sinCameraYaw` are the values
`cos` and `sin` return for the yaw of the camera. -/
def World.MovePlayerWithRaycast.corners (cosCameraYaw sinCameraYaw : ℚ) :
    List WorldCoords → SweepState → Access (SweepState × SweepExit)
  | [], s => .done (s, .clear)
  | corner :: rest, s =>
    match s.world.findChunk (Chunk.GetChunkCoordsAtWorldCoords corner) with
    | none => .done (s, .outside)
    | some p =>
      let index := Chunk.GetIndexAtWorldCoords corner
      if BLOCKS_PER_CHUNK ≤ index then .outOfRange
      else
        let block := (s.world.m_heap p).m_blocks index
        if (g_blockDefinitions block.m_type).m_isSolid then
          let raycastIncrement := s.raycastIncrement
          let velocity := s.motion.m_playerLocalVelocity
          if RoundDownToInt corner.z ≠ RoundDownToInt (corner.z - raycastIncrement.z) then
            let s : SweepState :=
              { world := s.world.untranslatePlayer raycastIncrement
                motion :=
                  { m_playerLocalVelocity := ⟨velocity.x, velocity.y, 0⟩
                    m_playerIsOnGround := true
                    m_playerIsOnIce := block.m_type == BT_ICE }
                raycastIncrement := raycastIncrement
                m_didImpact := true }
            if raycastIncrement.x = 0 ∧ raycastIncrement.y = 0 then .done (s, .halted)
            else
              .done ({ s with raycastIncrement := ⟨raycastIncrement.x, raycastIncrement.y, 0⟩ },
                .deflected)
          else if RoundDownToInt corner.x ≠ RoundDownToInt (corner.x - raycastIncrement.x) then
            let playerWorldVelocityY := velocity.x * sinCameraYaw + velocity.y * cosCameraYaw
            let s : SweepState :=
              { world := s.world.untranslatePlayer raycastIncrement
                motion :=
                  { s.motion with
                    m_playerLocalVelocity :=
                      ⟨playerWorldVelocityY * sinCameraYaw, playerWorldVelocityY * cosCameraYaw,
                        velocity.z⟩ }
                raycastIncrement := raycastIncrement
                m_didImpact := true }
            if raycastIncrement.z = 0 ∧ raycastIncrement.y = 0 then .done (s, .halted)
            else
              .done ({ s with raycastIncrement := ⟨0, raycastIncrement.y, raycastIncrement.z⟩ },
                .deflected)
          else if RoundDownToInt corner.y ≠ RoundDownToInt (corner.y - raycastIncrement.y) then
            let playerWorldVelocityX := velocity.x * cosCameraYaw + velocity.y * -sinCameraYaw
            let s : SweepState :=
              { world := s.world.untranslatePlayer raycastIncrement
                motion :=
                  { s.motion with
                    m_playerLocalVelocity :=
                      ⟨playerWorldVelocityX * cosCameraYaw, playerWorldVelocityX * -sinCameraYaw,
                        velocity.z⟩ }
                raycastIncrement := raycastIncrement
                m_didImpact := true }
            if raycastIncrement.x = 0 ∧ raycastIncrement.z = 0 then .done (s, .halted)
            else
              .done ({ s with raycastIncrement := ⟨raycastIncrement.x, 0, raycastIncrement.z⟩ },
                .deflected)
          else
            World.MovePlayerWithRaycast.corners cosCameraYaw sinCameraYaw rest
              { s with m_didImpact := true }
        else World.MovePlayerWithRaycast.corners cosCameraYaw sinCameraYaw rest s

/-- One step of the sweep of `World::MovePlayerWithRaycast`: the body of the loop over
`t`, which translates the player by `raycastIncrement` and then visits the contact
points. -/
def World.MovePlayerWithRaycast.step (cosCameraYaw sinCameraYaw : ℚ) (s : SweepState) :
    Access (SweepState × SweepExit) :=
  let s : SweepState := { s with world := s.world.translatePlayer s.raycastIncrement }
  World.MovePlayerWithRaycast.corners cosCameraYaw sinCameraYaw
    s.world.GetPlayerBoxContactPoints s

/-- The return statements of `World::MovePlayerWithRaycast`: the first for a translation
of zero, the second when the player is not within the world, `outside` and `halted`
inside the sweep, and the last after the sweep. -/
inductive MoveReturn where
  | noTranslation
  | notWithinWorld
  | outside
  | halted
  | finished
deriving DecidableEq

/-- What a call of `World::MovePlayerWithRaycast` leaves: the world, the members of
`PlayerMotion`, the field `m_didImpact` of the result (its other fields are not
assigned), and the return statement taken. -/
structure MoveResult where
  world : World
  motion : PlayerMotion
  m_didImpact : Bool
  taken : MoveReturn

/-- The loop `for (float t = 0.0f; t < 1.0f; t += RAYCAST_INCREMENT)` of
`World::MovePlayerWithRaycast`; the first argument bounds the number of iterations.
The variable `t` is a `float`: the constant is below 1/100 and after 100 additions
`t` is still below 1, so the loop runs 101 times. -/
def World.MovePlayerWithRaycast.loop (cosCameraYaw sinCameraYaw : ℚ) :
    Nat → ℚ → SweepState → Access MoveResult
  | 0, _, _ => .unfinished
  | fuel + 1, t, s =>
    if t < 1 then
      match World.MovePlayerWithRaycast.step cosCameraYaw sinCameraYaw s with
      | .done (s', .outside) => .done ⟨s'.world, s'.motion, s'.m_didImpact, .outside⟩
      | .done (s', .halted) => .done ⟨s'.world, s'.motion, s'.m_didImpact, .halted⟩
      | .done (s', .deflected) =>
        World.MovePlayerWithRaycast.loop cosCameraYaw sinCameraYaw fuel
          (floatAdd t SWEEP_INCREMENT) s'
      | .done (s', .clear) =>
        World.MovePlayerWithRaycast.loop cosCameraYaw sinCameraYaw fuel
          (floatAdd t SWEEP_INCREMENT) s'
      | .outOfRange => .outOfRange
      | .unfinished => .unfinished
    else .done ⟨s.world, s.motion, s.m_didImpact, .finished⟩

/-- The method `World::MovePlayerWithRaycast`.  `fuel` bounds the iterations of the
`while (true)` loop of `MovePlayerWhenStuckInsideBlocks`. -/
def World.MovePlayerWithRaycast (w : World) (motion : PlayerMotion)
    (totalPlayerTranslation : WorldCoords) (cosCameraYaw sinCameraYaw : ℚ) (fuel : Nat) :
    Access MoveResult :=
  if totalPlayerTranslation.x = 0 ∧ totalPlayerTranslation.y = 0 ∧ totalPlayerTranslation.z = 0
  then .done ⟨w, motion, false, .noTranslation⟩
  else
    let raycastIncrement := Vec3.scale totalPlayerTranslation SWEEP_INCREMENT
    match w.MovePlayerWhenStuckInsideBlocks fuel with
    | .done (w, false) => .done ⟨w, motion, false, .notWithinWorld⟩
    | .done (w, true) =>
      World.MovePlayerWithRaycast.loop cosCameraYaw sinCameraYaw 102 0
        ⟨w, motion, raycastIncrement, false⟩
    | .outOfRange => .outOfRange
    | .unfinished => .unfinished

/-- The state of the sweep after `n` steps none of which returned: `none` when one of
them returned or read `m_blocks` out of range. -/
def World.MovePlayerWithRaycast.stepsThrough (cosCameraYaw sinCameraYaw : ℚ) :
    Nat → SweepState → Option SweepState
  | 0, s => some s
  | n + 1, s =>
    match World.MovePlayerWithRaycast.step cosCameraYaw sinCameraYaw s with
    | .done (s', .deflected) =>
      World.MovePlayerWithRaycast.stepsThrough cosCameraYaw sinCameraYaw n s'
    | .done (s', .clear) =>
      World.MovePlayerWithRaycast.stepsThrough cosCameraYaw sinCameraYaw n s'
    | _ => none

/-- A player at rest. -/
def PlayerMotion.rest : PlayerMotion := ⟨⟨0, 0, 0⟩, false, false⟩

/-- The all-stone one-chunk world with the player box across the eastern edge of the
chunk: its corners with the larger x lie in the chunk coordinate `(1, 0)`, which is
not active. -/
def brinkWorld : World :=
  { uniformWorld ⟨BT_STONE, 0⟩ with
    m_cameraPosition := ⟨31 / 2 + PLAYER_WIDTH * (1 / 2), PLAYER_WIDTH * (1 / 2), 80 + CAMERA_HEIGHT⟩
    m_playerBox := ⟨⟨31 / 2, 0, 80⟩, ⟨31 / 2 + PLAYER_WIDTH, PLAYER_WIDTH, 80 + PLAYER_HEIGHT⟩⟩ }

/-- The all-air one-chunk world with the player box 1/64 east of the western edge of the
chunk. -/
def ledgeWorld : World :=
  { uniformWorld ⟨BT_AIR, 0⟩ with
    m_cameraPosition := ⟨1 / 64 + PLAYER_WIDTH * (1 / 2), PLAYER_WIDTH * (1 / 2), 80 + CAMERA_HEIGHT⟩
    m_playerBox := ⟨⟨1 / 64, 0, 80⟩, ⟨1 / 64 + PLAYER_WIDTH, PLAYER_WIDTH, 80 + PLAYER_HEIGHT⟩⟩ }

/-- The all-air one-chunk world with the feet of the player in the top layer of the
chunk, so that the top of the player box is above the chunk. -/
def summitWorld : World :=
  { uniformWorld ⟨BT_AIR, 0⟩ with
    m_cameraPosition :=
      ⟨1 + PLAYER_WIDTH * (1 / 2), 1 + PLAYER_WIDTH * (1 / 2), 127 + CAMERA_HEIGHT⟩
    m_playerBox := ⟨⟨1, 1, 127⟩, ⟨1 + PLAYER_WIDTH, 1 + PLAYER_WIDTH, 127 + PLAYER_HEIGHT⟩⟩ }

/-! ### The order of the pops of the work queue -/

/-- The statements of `World::Update` from the test of the key `C` to the call of
`UpdateLighting`: in debug mode, in a frame in which the key `C` has just been pressed
(`keyC`), the captured list becomes the work queue.  `fuel` bounds the number of pops
of `UpdateLighting`. -/
def World.Update.lighting (fuel : Nat) (keyC : Bool) (w : World) : Option World :=
  let w := if w.g_debugPointsEnabled && keyC then
      { w with m_dirtyBlocks := w.m_nextDirtyBlocksDebug, m_nextDirtyBlocksDebug := [] }
    else w
  World.UpdateLighting fuel w

/-- The final test of `CalculateIdealLightingForBlock` as a function of the light level
`L` of the world, the sky flag of the cell and the value `M` of `maxAdjacentLighting`. -/
def idealOf (L : Nat) (sky : Bool) (M : Nat) : Nat :=
  if sky = true ∧ M = L then M else (M + 255) % 256

/-- The rank of a cell that stores the light value `x` and has the ideal light value
`f`: 0 when the cell stores its ideal value, and when it is a sky cell below the light
level `L` whose ideal value is `L`; `4 L + 3` for a sky cell that stores `L` and has a
smaller ideal value; and `4 max(x, f) + 4` otherwise. -/
def relaxRank (L : Nat) (sky : Bool) (x f : Nat) : Nat :=
  if x = f then 0
  else if sky = true ∧ x < L ∧ f = L then 0
  else if sky = true ∧ x = L ∧ f < L then 4 * L + 3
  else 4 * max x f + 4

/-- A bound on the ranks that the neighbours of a cell get when the light value of the
cell changes from `x` to its ideal value `f`. -/
def spreadRank (L : Nat) (sky : Bool) (x f : Nat) : Nat :=
  if sky = true ∧ ((x < L ∧ f = L) ∨ (x = L ∧ f < L)) then 4 * L else 4 * max x f + 3

/-- The weight of a rank: 0 for the rank 0, and `8 ^ r` for a rank `r` above 0. -/
def rankWeight (r : Nat) : Nat := if r = 0 then 0 else 8 ^ r

/-- The weight every sky cell below the light level `L` of the world carries. -/
def skyDebt (L : Nat) (sky : Bool) (x : Nat) : Nat :=
  if sky = true ∧ x < L then 8 ^ (4 * L + 2) else 0


/-- The world `w'` has the work queue of `w` with at most `n` locations pushed on it,
each of them a neighbour of the location `l` that has a chunk; nothing is pushed in
debug mode. -/
def World.Pushes (w : World) (l : BlockLocation) (n : Nat) (w' : World) : Prop :=
  ∃ pushed : List BlockLocation,
    w'.m_dirtyBlocks = pushed ++ w.m_dirtyBlocks ∧ pushed.length ≤ n ∧
    (w.g_debugPointsEnabled = true → pushed = []) ∧
    ∀ x, x ∈ pushed →
      x.m_chunk.isSome = true ∧ ∃ off, off ∈ neighborSteps ∧ x = w.GetBlockLocation l off

/-- The weight of a cell in the potential of the relaxation. -/
def World.cellPotential (w : World) (c : Nat × Nat) : Nat :=
  let block := (w.m_heap c.1).m_blocks c.2
  rankWeight (relaxRank w.m_lightLevel block.IsSky block.GetLightValue
      (w.CalculateIdealLightingForBlock ⟨some c.1, c.2⟩))
    + skyDebt w.m_lightLevel block.IsSky block.GetLightValue

/-! ### Sky flags and columns -/

/-- The sky flags of the chunk at address `p` match its columns: the cells flagged sky
are exactly the cells of air with only air above them in their column, up to the top
of the chunk. -/
def World.SkyMatchesColumns (w : World) (p : Nat) : Prop :=
  ∀ i, i < BLOCKS_PER_CHUNK →
    (((w.m_heap p).m_blocks i).IsSky = true ↔
      ∀ k, i + BLOCKS_PER_CHUNK_LAYER * k < BLOCKS_PER_CHUNK →
        ((w.m_heap p).m_blocks (i + BLOCKS_PER_CHUNK_LAYER * k)).m_type = BT_AIR)

/-- The all-stone one-chunk world with one cell of air at `(0, 0, 80)`, in which the
feet of the player stand: the cell above it, which holds the top of the player box, is
stone. -/
def nicheWorld : World :=
  { World.new with
    m_heap := fun _ =>
      { Chunk.new with
        m_blocks := fun i => if i = 20480 then ⟨BT_AIR, 0⟩ else ⟨BT_STONE, 0⟩ }
    m_heapSize := 1
    m_activeChunks := [(⟨0, 0⟩, 0)] }

/-- The location `l` is the cell with the local coordinates `c` of the chunk at address
`q`. -/
def BlockLocation.IsCell (l : BlockLocation) (q : Nat) (c : LocalCoords) : Prop :=
  l.m_chunk = some q ∧ l.m_index < BLOCKS_PER_CHUNK ∧ Chunk.GetLocalCoordsAtIndex l.m_index = c

/-- Each dirty list of `w'` is the list of `w` with new entries in front of it, and
every new entry is a cell of the chunk at address `p` or of a chunk that this chunk
links to. -/
def World.PushedNear (w w' : World) (p : Nat) : Prop :=
  ∀ d : Bool, ∃ created : List BlockLocation,
    w'.dirtyList d = created ++ w.dirtyList d ∧
    ∀ l, l ∈ created →
      ∃ r k, l = ⟨some r, k⟩ ∧ (r = p ∨ ∃ g, (w.m_heap p).link g = some r)

/-! ### Terrain generation -/

def PERLIN_MINIMUM_SNOW_BIOME : ℚ := 1 / 2

/-- The conversion `(int)f` of a `float`, which drops the fraction. -/
def floatToInt (f : ℚ) : Int := if 0 ≤ f then Int.floor f else Int.ceil f

/-- The value of the expression `PERLIN_MINIMUM_SNOW_BIOME + (SEA_LEVEL - height) * 0.03f`
of `Chunk::PopulateWithBlocks`: `height` is converted to `float`, and the difference,
the product with the `float` nearest to 0.03 and the sum are each rounded to `float`. -/
def Chunk.PopulateWithBlocks.snowLine (height : Int) : ℚ :=
  floatAdd PERLIN_MINIMUM_SNOW_BIOME
    (floatMul (floatSub SEA_LEVEL (roundToFloat (height : ℚ))) (roundToFloat (3 / 100)))

/-- The block type the second loop of `Chunk::PopulateWithBlocks` gives the cell
`index`. -/
def Chunk.PopulateWithBlocks.blockType (groundHeightForEachColumn dirtHeightForEachColumn : Nat → Int)
    (biomeForEachColumn : Nat → ℚ) (index : Nat) : Nat :=
  let height : Int :=
    (((index &&& BLOCKINDEX_Z_MASK) >>> (CHUNKS_WIDE_EXPONENT + CHUNKS_LONG_EXPONENT) : Nat) : Int)
  let column : Nat := index &&& CHUNK_LAYER_MASK
  if height > groundHeightForEachColumn column then
    if height > floatToInt SEA_LEVEL then BT_AIR
    else if biomeForEachColumn column < Chunk.PopulateWithBlocks.snowLine height then BT_WATER
    else BT_ICE
  else if height = groundHeightForEachColumn column then
    if height = floatToInt SEA_LEVEL then
      if biomeForEachColumn column < PERLIN_MINIMUM_SNOW_BIOME then BT_SAND else BT_SNOW
    else if height > floatToInt SEA_LEVEL then
      if biomeForEachColumn column < PERLIN_MINIMUM_SNOW_BIOME then BT_GRASS else BT_SNOW
    else BT_DIRT
  else if height > groundHeightForEachColumn column - dirtHeightForEachColumn column then BT_DIRT
  else BT_STONE

/-- The second loop of `Chunk::PopulateWithBlocks`, which determines the block types.
The three arrays that the first loop fills from Perlin noise (engine code, not among
the sources) are parameters, one entry per column; a biome value is the rational that
the `float` stands for. -/
def Chunk.PopulateWithBlocks (c : Chunk)
    (groundHeightForEachColumn dirtHeightForEachColumn : Nat → Int)
    (biomeForEachColumn : Nat → ℚ) : Chunk :=
  (List.range BLOCKS_PER_CHUNK).foldl
    (fun c index =>
      let type := Chunk.PopulateWithBlocks.blockType groundHeightForEachColumn
        dirtHeightForEachColumn biomeForEachColumn index
      c.setBlock index ⟨type, (g_blockDefinitions type).m_inherentLightValue⟩)
    c

/-! ### Border cells on deactivation -/

/-- The test of the four `Chunk::Dirty...BorderNonopaqueBlocks` methods on the cell `j`
of the chunk at address `r`: the block is not opaque and not flagged lighting-dirty. -/
def World.borderCandidate (w : World) (r j : Nat) : Prop :=
  (g_blockDefinitions ((w.m_heap r).m_blocks j).m_type).m_isOpaque = false ∧
    ((w.m_heap r).m_blocks j).IsLightingDirty = false

/-- From `w` to `w'` exactly the cells selected by `M` that pass the border test have
been flagged lighting-dirty and pushed once on the dirty list `d`; every other cell
has its block and its number of entries on that list unchanged, and the other list,
the debug switch and the active map are unchanged. -/
def World.FacesDirtied (d : Bool) (M : Nat → Nat → Prop) (w w' : World) : Prop :=
  w'.g_debugPointsEnabled = w.g_debugPointsEnabled ∧
  w'.m_activeChunks = w.m_activeChunks ∧
  w'.dirtyList (!d) = w.dirtyList (!d) ∧
  ∀ r j,
    (M r j → w.borderCandidate r j →
      (w'.m_heap r).m_blocks j = ((w.m_heap r).m_blocks j).DirtyLighting ∧
      (w'.dirtyList d).count ⟨some r, j⟩ = (w.dirtyList d).count ⟨some r, j⟩ + 1) ∧
    (¬(M r j ∧ w.borderCandidate r j) → World.CellSame r j d w w')

/-- The face on which the neighbour in direction `g` of a chunk adjoins that chunk, as
a condition on the local coordinates of the neighbour. -/
def Dir.adjoiningFace (g : Dir) (l : LocalCoords) : Prop :=
  match g with
  | .north => l.y = 0
  | .south => l.y = 15
  | .east => l.x = 0
  | .west => l.x = 15

instance Dir.decidableAdjoiningFace (g : Dir) (l : LocalCoords) : Decidable (g.adjoiningFace l) :=
  match g with
  | .north => inferInstanceAs (Decidable (l.y = 0))
  | .south => inferInstanceAs (Decidable (l.y = 15))
  | .east => inferInstanceAs (Decidable (l.x = 0))
  | .west => inferInstanceAs (Decidable (l.x = 15))

/-- The world `twoChunkWorld` with an air cell at the local coordinate `(0, 15, 0)` of
the chunk `(0, 0)`, on the face that adjoins the chunk `(0, 1)`. -/
def notchWorld : World := twoChunkWorld.setBlock 0 240 ⟨BT_AIR, 0⟩

/-! ### Sky seeding on activation -/

/-- Every block of `w'` is the block of `w` in the same cell, or that block flagged
lighting-dirty. -/
def World.OnlyDirtied (w w' : World) : Prop :=
  ∀ r k, (w'.m_heap r).m_blocks k = (w.m_heap r).m_blocks k ∨
    (w'.m_heap r).m_blocks k = ((w.m_heap r).m_blocks k).DirtyLighting

/-- The cell `index` of the chunk at address `p` and the cells above it in its column,
up to the top of the chunk, are air. -/
def World.AirAbove (w : World) (p index : Nat) : Prop :=
  ∀ k, index + BLOCKS_PER_CHUNK_LAYER * k < BLOCKS_PER_CHUNK →
    ((w.m_heap p).m_blocks (index + BLOCKS_PER_CHUNK_LAYER * k)).m_type = BT_AIR

/-- From `w` to `w'` no block type has changed; the cells of the chunk at address `p`
selected by `S` that have only air from themselves up to the top of the chunk are
flagged sky and hold the ambient light level; every other cell has kept its sky flag
and its light value. -/
def World.SkySeeded (p : Nat) (S : Nat → Prop) (w w' : World) : Prop :=
  w'.m_lightLevel = w.m_lightLevel ∧
  ∀ r k,
    ((w'.m_heap r).m_blocks k).m_type = ((w.m_heap r).m_blocks k).m_type ∧
    ((r = p ∧ S k ∧ w.AirAbove p k) →
      ((w'.m_heap r).m_blocks k).IsSky = true ∧
      ((w'.m_heap r).m_blocks k).GetLightValue = w.m_lightLevel) ∧
    (¬(r = p ∧ S k ∧ w.AirAbove p k) →
      ((w'.m_heap r).m_blocks k).IsSky = ((w.m_heap r).m_blocks k).IsSky ∧
      ((w'.m_heap r).m_blocks k).GetLightValue = ((w.m_heap r).m_blocks k).GetLightValue)

/-- The content of a chunk of air, as `PopulateFromTempRLEBuffer` stores it. -/
def airBlocks : Nat → Block := fun _ => ⟨BT_AIR, 0⟩

/-! ### The states reached in play -/

/-- What a ray-cast edit does to the world, with lights pushed on the work queue: a
dirty flag is only set on a cell that is pushed, a cell whose block has changed is
flagged, and when the light value of a cell has changed, its neighbours that are not
opaque are flagged. -/
structure World.Edited (w w' : World) : Prop where
  frame : w.Frame w'
  fresh : ∀ r k, ((w'.m_heap r).m_blocks k).IsLightingDirty = true →
    ((w.m_heap r).m_blocks k).IsLightingDirty = true ∨ ⟨some r, k⟩ ∈ w'.m_dirtyBlocks
  queue : ∀ l, l ∈ w.m_dirtyBlocks → l ∈ w'.m_dirtyBlocks
  kept : ∀ r k, ((w'.m_heap r).m_blocks k).IsLightingDirty = false →
    (w'.m_heap r).m_blocks k = (w.m_heap r).m_blocks k
  lit : ∀ r k, ((w'.m_heap r).m_blocks k).GetLightValue ≠ ((w.m_heap r).m_blocks k).GetLightValue →
    ∀ off r2 k2, off ∈ neighborSteps → w.GetBlockLocation ⟨some r, k⟩ off = ⟨some r2, k2⟩ →
      (g_blockDefinitions ((w'.m_heap r2).m_blocks k2).m_type).m_isOpaque = false →
      ((w'.m_heap r2).m_blocks k2).IsLightingDirty = true

/-- The statements of `World::Update` under the test of the key `X`: the debug mode is
switched, and when it is switched off the captured list becomes the work queue. -/
def World.Update.toggleDebug (w : World) : World :=
  let w := { w with g_debugPointsEnabled := !w.g_debugPointsEnabled }
  if !w.g_debugPointsEnabled then
    { w with m_dirtyBlocks := w.m_nextDirtyBlocksDebug, m_nextDirtyBlocksDebug := [] }
  else w

/-- The content of a chunk of stone with one cell of air in its top layer, at
`(1, 1, 127)`, as `PopulateFromTempRLEBuffer` stores it. -/
def pitBlocks : Nat → Block := fun i => if i = 32529 then ⟨BT_AIR, 0⟩ else ⟨BT_STONE, 0⟩

/-- The world after the chunk `(0, 0)` with the content `pitBlocks` is linked in and the
loop body of `OnChunkActivated` has run on its cell of air. -/
def pitSeed : World :=
  (World.OnChunkActivated.cell (World.ActivateChunk.linked World.new ⟨0, 0⟩ pitBlocks) 0 32529
    false).1

/-- The impact of a ray on the top face of the cell `(1, 1, 126)`, below the cell of air
of `pitBlocks`. -/
def pitBelowImpact : Raycast3DResult := ⟨true, ⟨1, 1, 127⟩, ⟨1, 1, 126⟩, ⟨0, 0, 1⟩⟩

/-- The impact of a ray on the top face of the cell `(2, 1, 127)`, next to the cell of
air of `pitBlocks`. -/
def pitBesideImpact : Raycast3DResult := ⟨true, ⟨2, 1, 128⟩, ⟨2, 1, 127⟩, ⟨0, 0, 1⟩⟩

/-- The scenario of the two holes with the lighting updated after the first hole. -/
def twoHolesLit : Option World := do
  let w ← pitSeed.DestroyBlockWithRaycast pitBelowImpact pitSeed.g_debugPointsEnabled
  let w ← World.UpdateLighting 8 w
  w.DestroyBlockWithRaycast pitBesideImpact w.g_debugPointsEnabled

/-- The light values of the cells `(1, 1, 127)`, `(1, 1, 126)` and `(2, 1, 127)` of the
chunk at address 0, and the two lists of dirty locations. -/
def pitLights (w : World) : List Nat × List BlockLocation × List BlockLocation :=
  ([((w.m_heap 0).m_blocks 32529).GetLightValue, ((w.m_heap 0).m_blocks 32273).GetLightValue,
    ((w.m_heap 0).m_blocks 32530).GetLightValue], w.m_dirtyBlocks, w.m_nextDirtyBlocksDebug)

/-- A rank of the chunk objects under which the links are layered: a link of a chunk
object that has been handed out leads to a chunk object that has been handed out and
whose rank is not smaller, and a link to a chunk object whose rank is not larger is
mirrored. -/
structure World.Layered (ρ : Nat → Nat) (w : World) : Prop where
  alloc : ∀ q d r, q < w.m_heapSize → (w.m_heap q).link d = some r → r < w.m_heapSize
  rank : ∀ q d r, q < w.m_heapSize → (w.m_heap q).link d = some r → ρ q ≤ ρ r
  back : ∀ q d r, q < w.m_heapSize → (w.m_heap q).link d = some r → ρ r ≤ ρ q →
    (w.m_heap r).link d.opposite = some q

/-- The locations on the work queue that have a chunk are cells of chunk objects that
have been handed out. -/
def World.QueueAllocated (w : World) : Prop :=
  ∀ p i, (⟨some p, i⟩ : BlockLocation) ∈ w.m_dirtyBlocks →
    p < w.m_heapSize ∧ i < BLOCKS_PER_CHUNK

/-- A bound on the weight of a cell in the potential of the relaxation. -/
def World.cellBound (w : World) : Nat := 8 ^ (4 * w.m_lightLevel + 65)

/-- The base of the weights of the ranks of the chunk objects: it exceeds the sum of
the bounds on the weights of all cells of all chunk objects. -/
def World.layerBase (w : World) : Nat := w.m_heapSize * BLOCKS_PER_CHUNK * w.cellBound + 1

/-- The cells of the chunk objects that have been handed out, as pairs of an address and
an index. -/
def World.allCells (w : World) : Finset (Nat × Nat) :=
  Finset.range w.m_heapSize ×ˢ Finset.range BLOCKS_PER_CHUNK

/-- The potential of the relaxation: the sum of the weights of the cells of the chunk
objects, a cell of a chunk object of rank `r` counting `layerBase ^ r` times. -/
def World.layeredPotential (ρ : Nat → Nat) (w : World) : Nat :=
  w.allCells.sum (fun c => w.layerBase ^ ρ c.1 * w.cellPotential c)

/-- A bound on the number of pops `UpdateLighting` makes: the length of the queue in
debug mode, where nothing is pushed on it, and otherwise the length of the queue plus
six times the potential. -/
def World.layeredMeasure (ρ : Nat → Nat) (w : World) : Nat :=
  if w.g_debugPointsEnabled then w.m_dirtyBlocks.length
  else 6 * w.layeredPotential ρ + w.m_dirtyBlocks.length

/-- The links of the chunk objects that have been handed out lead to chunk objects that
have been handed out. -/
def World.LinksAllocated (w : World) : Prop :=
  ∀ q d r, q < w.m_heapSize → (w.m_heap q).link d = some r → r < w.m_heapSize

/-- The locations on the two dirty lists that have a chunk are cells of chunk objects
that have been handed out. -/
def World.ListsAllocated (w : World) : Prop :=
  ∀ d p i, (⟨some p, i⟩ : BlockLocation) ∈ w.dirtyList d →
    p < w.m_heapSize ∧ i < BLOCKS_PER_CHUNK

/-- The world `w'` differs from `w` at most in the cells and stale flags of its chunks
and in its two dirty lists, and a location on a dirty list of `w'` is on that list of
`w` or is a cell of a chunk object that has been handed out. -/
structure World.Enqueued (w w' : World) : Prop where
  frame : w.Frame w'
  cells : ∀ d l, l ∈ w'.dirtyList d → l ∈ w.dirtyList d ∨
    ∃ r k, l = ⟨some r, k⟩ ∧ r < w.m_heapSize ∧ k < BLOCKS_PER_CHUNK

/-- The state the play keeps: the links of the active chunks are consistent, the
locations on the dirty lists that have a chunk are cells of chunk objects that have been
handed out, the active chunks have the rank `T`, and a chunk object that is no longer
active has a smaller rank and links only to chunk objects of a larger rank than its
own. -/
structure World.Ranked (ρ : Nat → Nat) (T : Nat) (w : World) : Prop where
  inv : w.StreamInv
  lists : w.ListsAllocated
  live : ∀ q, w.IsLive q → ρ q = T
  dead : ∀ q, q < w.m_heapSize → ¬ w.IsLive q →
    ρ q < T ∧ ∀ d r, (w.m_heap q).link d = some r → r < w.m_heapSize ∧ ρ q < ρ r

/-- The world states reached in play from the initial world: chunks are activated at
coordinates that are not active and deactivated, blocks are placed and destroyed at the
impact of a ray, the lists going to the list the debug mode selects, the viewer and the
player box move, the debug mode is switched with the key `X`, and the lighting is
updated, with the captured list released on the key `C`. -/
inductive World.PlayReachable : World → Prop where
  | start : World.PlayReachable World.new
  | activate (w : World) (chunkCoords : ChunkCoords) (blocks : Nat → Block)
      (h : World.PlayReachable w) (hnew : w.IsChunkActive chunkCoords = false) :
      World.PlayReachable (w.ActivateChunk chunkCoords blocks)
  | deactivate (w w' : World) (chunkCoords : ChunkCoords) (h : World.PlayReachable w)
      (hd : w.DeactivateChunk chunkCoords = some w') : World.PlayReachable w'
  | place (w w' : World) (blocktype : Nat) (raycastResult : Raycast3DResult)
      (h : World.PlayReachable w) (himpact : raycastResult.m_didImpact = true)
      (hp : w.PlaceBlockWithRaycast blocktype raycastResult w.g_debugPointsEnabled = some w') :
      World.PlayReachable w'
  | destroy (w w' : World) (raycastResult : Raycast3DResult)
      (h : World.PlayReachable w) (himpact : raycastResult.m_didImpact = true)
      (hp : w.DestroyBlockWithRaycast raycastResult w.g_debugPointsEnabled = some w') :
      World.PlayReachable w'
  | move (w : World) (camera : WorldCoords) (box : AABB3D) (h : World.PlayReachable w) :
      World.PlayReachable { w with m_cameraPosition := camera, m_playerBox := box }
  | toggle (w : World) (h : World.PlayReachable w) :
      World.PlayReachable (World.Update.toggleDebug w)
  | light (w w' : World) (fuel : Nat) (keyC : Bool) (h : World.PlayReachable w)
      (hl : World.Update.lighting fuel keyC w = some w') : World.PlayReachable w'

/-- The scenario of the stale entry: in `pitSeed` the cell `(1, 1, 126)` is destroyed
and then the chunk `(0, 0)` is deactivated, with no update of the lighting in between. -/
def staleEntry : Option World := do
  let w ← pitSeed.DestroyBlockWithRaycast pitBelowImpact pitSeed.g_debugPointsEnabled
  w.DeactivateChunk ⟨0, 0⟩

/-! ## Index arithmetic for neighbour steps -/

theorem and_15 (i : Nat) : i &&& 15 = i % 16 := Nat.and_pow_two_sub_one_eq_mod i 4

theorem and_240_small : ∀ r, r < 256 → r &&& 240 = r / 16 * 16 := by decide!

theorem and_240 (i : Nat) : i &&& 240 = i / 16 % 16 * 16 := by
  have h1 : i &&& 240 = (i % 256) &&& 240 := by
    have e : (255 : Nat) &&& 240 = 240 := by decide
    have e2 : i &&& 255 = i % 256 := Nat.and_pow_two_sub_one_eq_mod i 8
    rw [← e2, Nat.and_assoc, e]
  rw [h1, and_240_small _ (Nat.mod_lt _ (by norm_num))]
  omega

theorem toBlockIndex_natCast (n : Nat) (h : n < 65536) : toBlockIndex (n : Int) = n := by
  unfold toBlockIndex
  omega

theorem toBlockIndex_sub (a b : Nat) (h : b ≤ a) (ha : a < 65536) :
    toBlockIndex ((a : Int) - (b : Int)) = a - b := by
  unfold toBlockIndex
  omega

theorem toBlockIndex_sub_wrap (a b : Nat) (h : a < b) (hb : b ≤ 65536) :
    toBlockIndex ((a : Int) - (b : Int)) = 65536 + a - b := by
  unfold toBlockIndex
  omega

theorem toBlockIndex_add (a b : Nat) (h : a + b < 65536) :
    toBlockIndex ((a : Int) + (b : Int)) = a + b := by
  unfold toBlockIndex
  omega

/-- The cell above, when the index is below `BLOCKS_PER_CHUNK`. -/
theorem World.GetBlockLocation_up (w : World) (p index : Nat) (h : index < BLOCKS_PER_CHUNK) :
    w.GetBlockLocation ⟨some p, index⟩ STEP_UP
      = if index + 256 < BLOCKS_PER_CHUNK then ⟨some p, index + 256⟩ else ⟨none, index⟩ := by
  have hB : BLOCKS_PER_CHUNK = 32768 := by decide
  rw [hB] at h ⊢
  unfold World.GetBlockLocation
  have e1 : ¬ STEP_UP = STEP_EAST := by decide
  have e2 : ¬ STEP_UP = STEP_WEST := by decide
  have e3 : ¬ STEP_UP = STEP_NORTH := by decide
  have e4 : ¬ STEP_UP = STEP_SOUTH := by decide
  have e5 : toBlockIndex ((index : Int) + STEP_UP) = index + 256 := by
    have : STEP_UP = ((256 : Nat) : Int) := by decide
    rw [this, toBlockIndex_add _ _ (by omega)]
  simp only [e1, e2, e3, e4, if_false, true_or, if_true, e5, hB]

/-- The cell below, when the index is below `BLOCKS_PER_CHUNK`. -/
theorem World.GetBlockLocation_down (w : World) (p index : Nat) (h : index < BLOCKS_PER_CHUNK) :
    w.GetBlockLocation ⟨some p, index⟩ STEP_DOWN
      = if 256 ≤ index then ⟨some p, index - 256⟩ else ⟨none, index⟩ := by
  have hB : BLOCKS_PER_CHUNK = 32768 := by decide
  rw [hB] at h
  unfold World.GetBlockLocation
  have e1 : ¬ STEP_DOWN = STEP_EAST := by decide
  have e2 : ¬ STEP_DOWN = STEP_WEST := by decide
  have e3 : ¬ STEP_DOWN = STEP_NORTH := by decide
  have e4 : ¬ STEP_DOWN = STEP_SOUTH := by decide
  have e0 : (index : Int) + STEP_DOWN = (index : Int) - ((256 : Nat) : Int) := by
    have : STEP_DOWN = -((256 : Nat) : Int) := by decide
    rw [this]; ring
  simp only [e1, e2, e3, e4, if_false, or_true, if_true, e0, hB]
  by_cases h2 : 256 ≤ index
  · rw [toBlockIndex_sub _ _ h2 (by omega), if_pos (by omega), if_pos h2]
  · rw [toBlockIndex_sub_wrap _ _ (by omega) (by omega), if_neg (by omega), if_neg h2]

/-- A lateral step never leads to a cell of the same column of the same chunk: the
column of the cell reached differs from the column of the start. -/
theorem World.GetBlockLocation_lateral (w : World) (p index : Nat)
    (h : index < BLOCKS_PER_CHUNK) (off : Int)
    (hoff : off = STEP_NORTH ∨ off = STEP_SOUTH ∨ off = STEP_EAST ∨ off = STEP_WEST) :
    (w.GetBlockLocation ⟨some p, index⟩ off).m_chunk = none ∨
      (w.GetBlockLocation ⟨some p, index⟩ off).m_index % 256 ≠ index % 256 := by
  have hB : BLOCKS_PER_CHUNK = 32768 := by decide
  rw [hB] at h
  have mx : BLOCKINDEX_X_MASK = 15 := by decide
  have my : BLOCKINDEX_Y_MASK = 240 := by decide
  have n1 : ¬ STEP_NORTH = STEP_EAST := by decide
  have n2 : ¬ STEP_NORTH = STEP_WEST := by decide
  have s1 : ¬ STEP_SOUTH = STEP_EAST := by decide
  have s2 : ¬ STEP_SOUTH = STEP_WEST := by decide
  have s3 : ¬ STEP_SOUTH = STEP_NORTH := by decide
  have w1 : ¬ STEP_WEST = STEP_EAST := by decide
  have cE : STEP_EAST = ((1 : Nat) : Int) := by decide
  have cW : (index : Int) + STEP_WEST = (index : Int) - ((1 : Nat) : Int) := by
    have : STEP_WEST = -((1 : Nat) : Int) := by decide
    rw [this]; ring
  have cN : STEP_NORTH = ((16 : Nat) : Int) := by decide
  have cS : (index : Int) + STEP_SOUTH = (index : Int) - ((16 : Nat) : Int) := by
    have : STEP_SOUTH = -((16 : Nat) : Int) := by decide
    rw [this]; ring
  have h240 := and_240 index
  have h15 := and_15 index
  unfold World.GetBlockLocation
  rcases hoff with rfl | rfl | rfl | rfl
  · simp only [n1, n2, if_false, if_true, my, h240]
    split
    · rename_i hy
      split
      · right
        show toBlockIndex ((index : Int) - ((240 : Nat) : Int)) % 256 ≠ index % 256
        rw [toBlockIndex_sub _ _ (by omega) (by omega)]
        omega
      · left; rfl
    · rename_i hy
      right
      show toBlockIndex ((index : Int) + STEP_NORTH) % 256 ≠ index % 256
      rw [cN, toBlockIndex_add _ _ (by omega)]
      omega
  · simp only [s1, s2, s3, if_false, if_true, my, h240]
    split
    · rename_i hy
      split
      · right
        show toBlockIndex ((index : Int) + ((240 : Nat) : Int)) % 256 ≠ index % 256
        rw [toBlockIndex_add _ _ (by omega)]
        omega
      · left; rfl
    · rename_i hy
      right
      show toBlockIndex ((index : Int) + STEP_SOUTH) % 256 ≠ index % 256
      rw [cS, toBlockIndex_sub _ _ (by omega) (by omega)]
      omega
  · simp only [if_true, mx, h15]
    split
    · rename_i hx
      split
      · right
        show toBlockIndex ((index : Int) - ((15 : Nat) : Int)) % 256 ≠ index % 256
        rw [toBlockIndex_sub _ _ (by omega) (by omega)]
        omega
      · left; rfl
    · rename_i hx
      right
      show toBlockIndex ((index : Int) + STEP_EAST) % 256 ≠ index % 256
      rw [cE, toBlockIndex_add _ _ (by omega)]
      omega
  · simp only [w1, if_false, if_true, mx, h15]
    split
    · rename_i hx
      split
      · right
        show toBlockIndex ((index : Int) + ((15 : Nat) : Int)) % 256 ≠ index % 256
        rw [toBlockIndex_add _ _ (by omega)]
        omega
      · left; rfl
    · rename_i hx
      right
      show toBlockIndex ((index : Int) + STEP_WEST) % 256 ≠ index % 256
      rw [cW, toBlockIndex_sub _ _ (by omega) (by omega)]
      omega

/-! ## The effect of the lighting bookkeeping on single cells -/

theorem World.blocks_setBlock (w : World) (q i : Nat) (b : Block) (r j : Nat) :
    ((w.setBlock q i b).m_heap r).m_blocks j
      = if r = q ∧ j = i then b else (w.m_heap r).m_blocks j := by
  unfold World.setBlock World.setChunk Chunk.setBlock
  by_cases hr : r = q
  · subst hr
    by_cases hj : j = i
    · simp [hj]
    · simp [hj]
  · simp [hr]

theorem World.blocks_dirtyVbo (w : World) (q r j : Nat) :
    ((w.dirtyVbo q).m_heap r).m_blocks j = (w.m_heap r).m_blocks j := by
  unfold World.dirtyVbo World.setChunk
  by_cases hr : r = q
  · subst hr; simp
  · simp [hr]

theorem World.blocks_pushDirty (w : World) (d : Bool) (l : BlockLocation) (r j : Nat) :
    ((w.pushDirty d l).m_heap r).m_blocks j = (w.m_heap r).m_blocks j := by
  unfold World.pushDirty
  split <;> rfl

theorem World.dirtyList_setBlock (w : World) (q i : Nat) (b : Block) (d : Bool) :
    (w.setBlock q i b).dirtyList d = w.dirtyList d := rfl

theorem World.dirtyList_dirtyVbo (w : World) (q : Nat) (d : Bool) :
    (w.dirtyVbo q).dirtyList d = w.dirtyList d := rfl

theorem World.dirtyList_pushDirty (w : World) (d : Bool) (l : BlockLocation) (d' : Bool) :
    (w.pushDirty d l).dirtyList d' = if d' = d then l :: w.dirtyList d' else w.dirtyList d' := by
  unfold World.pushDirty World.dirtyList
  cases d <;> cases d' <;> simp

theorem World.cellSame_refl (p j : Nat) (d : Bool) (w : World) : World.CellSame p j d w w :=
  ⟨rfl, rfl⟩

theorem World.cellSame_trans {p j : Nat} {d : Bool} {a b c : World}
    (h1 : World.CellSame p j d a b) (h2 : World.CellSame p j d b c) : World.CellSame p j d a c :=
  ⟨h2.1.trans h1.1, h2.2.trans h1.2⟩

/-- A neighbour step that does not lead to the cell leaves it alone. -/
theorem World.dirtyNeighbor_cellSame (w : World) (l : BlockLocation) (off : Int) (p j : Nat)
    (d : Bool) (hne : w.GetBlockLocation l off ≠ ⟨some p, j⟩) :
    World.CellSame p j d w (w.dirtyNeighbor l off) := by
  unfold World.dirtyNeighbor
  simp only
  cases ht : (w.GetBlockLocation l off).m_chunk with
  | none => exact World.cellSame_refl p j d w
  | some q =>
    simp only
    have hcell : ¬ (p = q ∧ j = (w.GetBlockLocation l off).m_index) := by
      intro h
      apply hne
      rcases hloc : w.GetBlockLocation l off with ⟨c, i⟩
      rw [hloc] at ht h
      simp only at ht h
      rw [ht, h.1, h.2]
    split
    · constructor
      · rw [World.blocks_pushDirty, World.blocks_setBlock, if_neg hcell, World.blocks_dirtyVbo]
      · rw [World.dirtyList_pushDirty]
        split
        · rw [List.count_cons_of_ne (fun h => hne h.symm)]
          rfl
        · rfl
    · exact ⟨World.blocks_dirtyVbo _ _ _ _, rfl⟩

/-- A neighbour step that leads to the cell flags it dirty and pushes it once, when it
is neither opaque nor dirty yet, and leaves it alone otherwise. -/
theorem World.dirtyNeighbor_hit (w : World) (l : BlockLocation) (off : Int) (p j : Nat)
    (d : Bool) (hloc : w.GetBlockLocation l off = ⟨some p, j⟩) :
    if (!(g_blockDefinitions ((w.m_heap p).m_blocks j).m_type).m_isOpaque
        && !((w.m_heap p).m_blocks j).IsLightingDirty) = true then
      ((w.dirtyNeighbor l off).m_heap p).m_blocks j = ((w.m_heap p).m_blocks j).DirtyLighting ∧
      ((w.dirtyNeighbor l off).dirtyList d).count ⟨some p, j⟩
        = (w.dirtyList d).count ⟨some p, j⟩ + (if d = w.g_debugPointsEnabled then 1 else 0)
    else World.CellSame p j d w (w.dirtyNeighbor l off) := by
  unfold World.dirtyNeighbor
  simp only [hloc]
  have hb : (w.dirtyVbo p).GetBlock ⟨some p, j⟩ = (w.m_heap p).m_blocks j := by
    unfold World.GetBlock
    simp only
    exact World.blocks_dirtyVbo _ _ _ _
  rw [hb]
  split
  · constructor
    · rw [World.blocks_pushDirty, World.blocks_setBlock, if_pos ⟨rfl, rfl⟩]
    · rw [World.dirtyList_pushDirty]
      split
      · rw [List.count_cons_self]
        rfl
      · rfl
  · exact ⟨World.blocks_dirtyVbo _ _ _ _, rfl⟩

/-! ## The flag bits of a cell -/

theorem or_and_right (a b c : Nat) : (a ||| b) &&& c = (a &&& c) ||| (b &&& c) := by
  apply Nat.eq_of_testBit_eq
  intro i
  simp only [Nat.testBit_or, Nat.testBit_and]
  cases Nat.testBit a i <;> cases Nat.testBit b i <;> cases Nat.testBit c i <;> rfl

theorem mod256_and (x m : Nat) (hm : 255 &&& m = m) : (x % 256) &&& m = x &&& m := by
  have e : x % 256 = x &&& 255 := (Nat.and_pow_two_sub_one_eq_mod x 8).symm
  rw [e, Nat.and_assoc, hm]

theorem Block.isSky_UnmarkAsSky (b : Block) : b.UnmarkAsSky.IsSky = false := by
  unfold Block.IsSky Block.UnmarkAsSky complement8 BITMASK_BLOCK_IS_SKY
  simp only
  rw [Nat.and_assoc]
  have e : (255 - 16) &&& 16 = 0 := by decide
  rw [e, Nat.and_zero]
  decide

theorem Block.isSky_MarkAsSky (b : Block) : b.MarkAsSky.IsSky = true := by
  unfold Block.IsSky Block.MarkAsSky BITMASK_BLOCK_IS_SKY
  simp only
  rw [or_and_right]
  have e : (16 : Nat) &&& 16 = 16 := by decide
  rw [e]
  have h : (b.m_lightingAndFlags &&& 16 ||| 16) = 16 := by
    apply Nat.eq_of_testBit_eq
    intro i
    rw [Nat.testBit_or, Nat.testBit_and]
    cases h16 : Nat.testBit 16 i <;> simp
  rw [h]
  decide

theorem Block.isSky_DirtyLighting (b : Block) : b.DirtyLighting.IsSky = b.IsSky := by
  unfold Block.IsSky Block.DirtyLighting BITMASK_BLOCK_IS_SKY BITMASK_BLOCK_LIGHT_DIRTY
  simp only
  rw [or_and_right]
  have e : (32 : Nat) &&& 16 = 0 := by decide
  rw [e, Nat.or_zero]

theorem Block.isSky_UndirtyLighting (b : Block) : b.UndirtyLighting.IsSky = b.IsSky := by
  unfold Block.IsSky Block.UndirtyLighting complement8 BITMASK_BLOCK_IS_SKY
    BITMASK_BLOCK_LIGHT_DIRTY
  simp only
  rw [Nat.and_assoc]
  have e : (255 - 32) &&& 16 = 16 := by decide
  rw [e]

theorem Block.isSky_SetLightValue_zero (b : Block) : (b.SetLightValue 0).IsSky = b.IsSky := by
  unfold Block.IsSky Block.SetLightValue complement8 BITMASK_BLOCK_IS_SKY BITMASK_BLOCK_LIGHT
  simp only
  rw [Nat.or_zero, mod256_and _ _ (by decide), Nat.and_assoc]
  have e : (255 - 15) &&& 16 = 16 := by decide
  rw [e]

theorem Block.isDirty_DirtyLighting (b : Block) : b.DirtyLighting.IsLightingDirty = true := by
  unfold Block.IsLightingDirty Block.DirtyLighting BITMASK_BLOCK_LIGHT_DIRTY
  simp only
  rw [or_and_right]
  have e : (32 : Nat) &&& 32 = 32 := by decide
  rw [e]
  have h : (b.m_lightingAndFlags &&& 32 ||| 32) = 32 := by
    apply Nat.eq_of_testBit_eq
    intro i
    rw [Nat.testBit_or, Nat.testBit_and]
    cases h32 : Nat.testBit 32 i <;> simp
  rw [h]
  decide

theorem Block.isDirty_UnmarkAsSky (b : Block) :
    b.UnmarkAsSky.IsLightingDirty = b.IsLightingDirty := by
  unfold Block.IsLightingDirty Block.UnmarkAsSky complement8 BITMASK_BLOCK_IS_SKY
    BITMASK_BLOCK_LIGHT_DIRTY
  simp only
  rw [Nat.and_assoc]
  have e : (255 - 16) &&& 32 = 32 := by decide
  rw [e]

theorem Block.isDirty_SetLightValue_zero (b : Block) :
    (b.SetLightValue 0).IsLightingDirty = b.IsLightingDirty := by
  unfold Block.IsLightingDirty Block.SetLightValue complement8 BITMASK_BLOCK_LIGHT_DIRTY
    BITMASK_BLOCK_LIGHT
  simp only
  rw [Nat.or_zero, mod256_and _ _ (by decide), Nat.and_assoc]
  have e : (255 - 15) &&& 32 = 32 := by decide
  rw [e]

theorem Block.isSky_SetLightValue (b : Block) (v : Nat) (hv : v < 16) :
    (b.SetLightValue v).IsSky = b.IsSky := by
  unfold Block.IsSky Block.SetLightValue complement8 BITMASK_BLOCK_IS_SKY BITMASK_BLOCK_LIGHT
  simp only
  rw [mod256_and _ _ (by decide), or_and_right, Nat.and_assoc]
  have e : (255 - 15) &&& 16 = 16 := by decide
  have e2 : v &&& 16 = 0 := by
    have h15 : v &&& 15 = v := by
      rw [and_15]
      exact Nat.mod_eq_of_lt hv
    have e3 : (15 : Nat) &&& 16 = 0 := by decide
    calc v &&& 16 = (v &&& 15) &&& 16 := by rw [h15]
      _ = 0 := by rw [Nat.and_assoc, e3, Nat.and_zero]
  rw [e, e2, Nat.or_zero]

theorem Block.isDirty_SetLightValue (b : Block) (v : Nat) (hv : v < 16) :
    (b.SetLightValue v).IsLightingDirty = b.IsLightingDirty := by
  unfold Block.IsLightingDirty Block.SetLightValue complement8 BITMASK_BLOCK_LIGHT_DIRTY
    BITMASK_BLOCK_LIGHT
  simp only
  rw [mod256_and _ _ (by decide), or_and_right, Nat.and_assoc]
  have e : (255 - 15) &&& 32 = 32 := by decide
  have e2 : v &&& 32 = 0 := by
    have h15 : v &&& 15 = v := by
      rw [and_15]
      exact Nat.mod_eq_of_lt hv
    have e3 : (15 : Nat) &&& 32 = 0 := by decide
    calc v &&& 32 = (v &&& 15) &&& 32 := by rw [h15]
      _ = 0 := by rw [Nat.and_assoc, e3, Nat.and_zero]
  rw [e, e2, Nat.or_zero]

theorem Block.light_le (b : Block) : b.GetLightValue ≤ 15 := Nat.and_le_right

theorem Block.light_DirtyLighting (b : Block) :
    b.DirtyLighting.GetLightValue = b.GetLightValue := by
  unfold Block.GetLightValue Block.DirtyLighting BITMASK_BLOCK_LIGHT BITMASK_BLOCK_LIGHT_DIRTY
  simp only
  rw [or_and_right]
  have e : (32 : Nat) &&& 15 = 0 := by decide
  rw [e, Nat.or_zero]

theorem Block.light_UndirtyLighting (b : Block) :
    b.UndirtyLighting.GetLightValue = b.GetLightValue := by
  unfold Block.GetLightValue Block.UndirtyLighting complement8 BITMASK_BLOCK_LIGHT
    BITMASK_BLOCK_LIGHT_DIRTY
  simp only
  rw [Nat.and_assoc]
  have e : (255 - 32) &&& 15 = 15 := by decide
  rw [e]

theorem Block.light_SetLightValue (b : Block) (v : Nat) (hv : v < 16) :
    (b.SetLightValue v).GetLightValue = v := by
  unfold Block.GetLightValue Block.SetLightValue complement8 BITMASK_BLOCK_LIGHT
  simp only
  rw [mod256_and _ _ (by decide), or_and_right, Nat.and_assoc]
  have e : (255 - 15) &&& 15 = 0 := by decide
  rw [e, Nat.and_zero, Nat.zero_or, and_15]
  exact Nat.mod_eq_of_lt hv

theorem Block.isDirty_UndirtyLighting (b : Block) : b.UndirtyLighting.IsLightingDirty = false := by
  unfold Block.IsLightingDirty Block.UndirtyLighting complement8 BITMASK_BLOCK_LIGHT_DIRTY
  simp only
  rw [Nat.and_assoc]
  have e : (255 - 32) &&& 32 = 0 := by decide
  rw [e, Nat.and_zero]
  decide

theorem Block.DirtyLighting_idem (b : Block) : b.DirtyLighting.DirtyLighting = b.DirtyLighting := by
  unfold Block.DirtyLighting
  simp only [Nat.or_assoc, Nat.or_self]

theorem inherentLight_le (t : Nat) : (g_blockDefinitions t).m_inherentLightValue ≤ 14 := by
  unfold g_blockDefinitions
  split <;> decide

/-! ## What the lighting bookkeeping leaves alone -/

theorem Chunk.sameLinks_refl (c : Chunk) : c.SameLinks c := ⟨rfl, rfl, rfl, rfl, rfl⟩

theorem Chunk.sameLinks_trans {a b c : Chunk} (h1 : a.SameLinks b) (h2 : b.SameLinks c) :
    a.SameLinks c :=
  ⟨h2.north.trans h1.north, h2.south.trans h1.south, h2.east.trans h1.east,
    h2.west.trans h1.west, h2.mins.trans h1.mins⟩

theorem World.Frame.refl (w : World) : w.Frame w :=
  ⟨rfl, rfl, rfl, rfl, rfl, rfl, rfl, fun _ => Chunk.sameLinks_refl _⟩

theorem World.Frame.trans {a b c : World} (h1 : a.Frame b) (h2 : b.Frame c) : a.Frame c :=
  ⟨h2.heapSize.trans h1.heapSize, h2.active.trans h1.active, h2.lightLevel.trans h1.lightLevel,
    h2.isRunning.trans h1.isRunning, h2.debug.trans h1.debug, h2.camera.trans h1.camera,
    h2.playerBox.trans h1.playerBox, fun q => Chunk.sameLinks_trans (h1.links q) (h2.links q)⟩

theorem World.frame_setChunk (w : World) (p : Nat) (c : Chunk) (h : (w.m_heap p).SameLinks c) :
    w.Frame (w.setChunk p c) := by
  refine ⟨rfl, rfl, rfl, rfl, rfl, rfl, rfl, ?_⟩
  intro q
  by_cases hq : q = p
  · subst hq
    simpa [World.setChunk] using h
  · simpa [World.setChunk, hq] using Chunk.sameLinks_refl _

theorem World.frame_setBlock (w : World) (p index : Nat) (b : Block) :
    w.Frame (w.setBlock p index b) :=
  w.frame_setChunk p _ ⟨rfl, rfl, rfl, rfl, rfl⟩

theorem World.frame_dirtyVbo (w : World) (p : Nat) : w.Frame (w.dirtyVbo p) :=
  w.frame_setChunk p _ ⟨rfl, rfl, rfl, rfl, rfl⟩

theorem World.frame_pushDirty (w : World) (toDebugList : Bool) (l : BlockLocation) :
    w.Frame (w.pushDirty toDebugList l) := by
  unfold World.pushDirty
  split <;> exact ⟨rfl, rfl, rfl, rfl, rfl, rfl, rfl, fun _ => Chunk.sameLinks_refl _⟩

theorem World.frame_dirtyNeighbor (w : World) (l : BlockLocation) (off : Int) :
    w.Frame (w.dirtyNeighbor l off) := by
  unfold World.dirtyNeighbor
  simp only
  split
  · exact World.Frame.refl w
  · split
    · exact ((w.frame_dirtyVbo _).trans (World.frame_setBlock _ _ _ _)).trans
        (World.frame_pushDirty _ _ _)
    · exact w.frame_dirtyVbo _

theorem World.frame_DirtyNonopaqueNeighbors (w : World) (l : BlockLocation) (b : Bool) :
    w.Frame (w.DirtyNonopaqueNeighbors l b) := by
  unfold World.DirtyNonopaqueNeighbors
  simp only
  have h0 : w.Frame (if b = true then (w.dirtyNeighbor l STEP_UP).dirtyNeighbor l STEP_DOWN else w) := by
    split
    · exact (w.frame_dirtyNeighbor l _).trans (World.frame_dirtyNeighbor _ l _)
    · exact World.Frame.refl w
  exact (((h0.trans (World.frame_dirtyNeighbor _ l _)).trans (World.frame_dirtyNeighbor _ l _)).trans
    (World.frame_dirtyNeighbor _ l _)).trans (World.frame_dirtyNeighbor _ l _)

theorem World.frame_UpdateLightingForBlock (w : World) (l : BlockLocation) :
    w.Frame (w.UpdateLightingForBlock l) := by
  unfold World.UpdateLightingForBlock
  split
  · exact World.Frame.refl w
  · simp only
    refine World.Frame.trans ?_ (World.frame_setBlock _ _ _ _)
    split
    · exact (w.frame_setBlock _ _ _).trans (World.frame_DirtyNonopaqueNeighbors _ _ _)
    · exact World.Frame.refl w

theorem World.frame_activatedCell (w : World) (p index : Nat) (endedSky : Bool) :
    w.Frame (World.OnChunkActivated.cell w p index endedSky).1 := by
  unfold World.OnChunkActivated.cell
  simp only
  split
  · exact (w.frame_setBlock _ _ _).trans (World.frame_DirtyNonopaqueNeighbors _ _ _)
  · split
    · exact World.frame_DirtyNonopaqueNeighbors _ _ _
    · split
      · exact (w.frame_setBlock _ _ _).trans (World.frame_pushDirty _ _ _)
      · exact World.Frame.refl w

theorem World.frame_activatedColumn (p : Nat) (fuel index : Nat) (endedSky : Bool) (w : World) :
    w.Frame (World.OnChunkActivated.column p fuel index endedSky w) := by
  induction fuel generalizing index endedSky w with
  | zero => exact World.Frame.refl w
  | succ fuel ih =>
    unfold World.OnChunkActivated.column
    split
    · exact (w.frame_activatedCell p index endedSky).trans (ih _ _ _)
    · exact World.Frame.refl w

theorem World.frame_activatedColumns (p : Nat) (n column : Nat) (w : World) :
    w.Frame (World.OnChunkActivated.columns p n column w) := by
  induction n generalizing column w with
  | zero => exact World.Frame.refl w
  | succ n ih =>
    unfold World.OnChunkActivated.columns
    exact (World.frame_activatedColumn p _ _ _ w).trans (ih _ _)

theorem World.frame_OnChunkActivated (w : World) (p : Nat) : w.Frame (w.OnChunkActivated p) :=
  World.frame_activatedColumns p _ _ w

theorem World.frame_dirtyBorderCell (toDebugList : Bool) (p : Nat) (w : World) (index : Nat) :
    w.Frame (World.dirtyBorderCell toDebugList p w index) := by
  unfold World.dirtyBorderCell
  simp only
  split
  · exact (w.frame_setBlock _ _ _).trans (World.frame_pushDirty _ _ _)
  · exact World.Frame.refl w

theorem World.frame_dirtyBorder (w : World) (toDebugList : Bool) (p first width step : Nat) :
    w.Frame (w.dirtyBorder toDebugList p first width step) := by
  unfold World.dirtyBorder
  apply List.foldlRecOn _ _ w (World.Frame.refl w)
  intro v hv colStart _
  refine World.Frame.trans hv ?_
  apply List.foldlRecOn _ _ v (World.Frame.refl v)
  intro u hu index _
  exact World.Frame.trans hu (World.frame_dirtyBorderCell _ _ _ _)

theorem World.frame_writeAndEnqueue (w : World) (d : Bool) (p index : Nat) (b : Block) :
    w.Frame (w.writeAndEnqueue d p index b) := by
  unfold World.writeAndEnqueue
  simp only
  split
  · exact ((World.frame_setBlock w p index b).trans (World.frame_pushDirty _ d _)).trans
      (World.frame_setBlock _ p index _)
  · exact World.frame_setBlock w p index b

/-! ## The column of a cell under `DirtyNonopaqueNeighbors` -/

/-- A lateral step from a cell never leads to a cell of the column of that cell. -/
theorem World.lateral_ne (w : World) (p index j : Nat) (h : index < BLOCKS_PER_CHUNK)
    (hcol : j % 256 = index % 256) (off : Int)
    (hoff : off = STEP_NORTH ∨ off = STEP_SOUTH ∨ off = STEP_EAST ∨ off = STEP_WEST) :
    w.GetBlockLocation ⟨some p, index⟩ off ≠ ⟨some p, j⟩ := by
  intro he
  rcases World.GetBlockLocation_lateral w p index h off hoff with h1 | h1
  · rw [he] at h1
    exact Option.noConfusion h1
  · rw [he] at h1
    exact h1 hcol

theorem World.up_ne (w : World) (p index j : Nat) (h : index < BLOCKS_PER_CHUNK)
    (hj : j ≠ index + 256) : w.GetBlockLocation ⟨some p, index⟩ STEP_UP ≠ ⟨some p, j⟩ := by
  rw [World.GetBlockLocation_up w p index h]
  split
  · intro he
    injection he with _ h2
    exact hj h2.symm
  · intro he
    injection he with h1 _
    exact Option.noConfusion h1

theorem World.down_ne (w : World) (p index j : Nat) (h : index < BLOCKS_PER_CHUNK)
    (hj : j + 256 ≠ index) : w.GetBlockLocation ⟨some p, index⟩ STEP_DOWN ≠ ⟨some p, j⟩ := by
  rw [World.GetBlockLocation_down w p index h]
  split
  · intro he
    injection he with _ h2
    omega
  · intro he
    injection he with h1 _
    exact Option.noConfusion h1

/-- The four lateral steps of `DirtyNonopaqueNeighbors` leave the column of the cell
alone. -/
theorem World.lateralSteps_cellSame (w : World) (p index j : Nat) (d : Bool)
    (h : index < BLOCKS_PER_CHUNK) (hcol : j % 256 = index % 256) :
    World.CellSame p j d w
      ((((w.dirtyNeighbor ⟨some p, index⟩ STEP_NORTH).dirtyNeighbor ⟨some p, index⟩
        STEP_SOUTH).dirtyNeighbor ⟨some p, index⟩ STEP_EAST).dirtyNeighbor ⟨some p, index⟩
        STEP_WEST) :=
  World.cellSame_trans
    (World.cellSame_trans
      (World.cellSame_trans
        (World.dirtyNeighbor_cellSame _ _ _ _ _ _
          (World.lateral_ne _ p index j h hcol _ (Or.inl rfl)))
        (World.dirtyNeighbor_cellSame _ _ _ _ _ _
          (World.lateral_ne _ p index j h hcol _ (Or.inr (Or.inl rfl)))))
      (World.dirtyNeighbor_cellSame _ _ _ _ _ _
        (World.lateral_ne _ p index j h hcol _ (Or.inr (Or.inr (Or.inl rfl))))))
    (World.dirtyNeighbor_cellSame _ _ _ _ _ _
      (World.lateral_ne _ p index j h hcol _ (Or.inr (Or.inr (Or.inr rfl)))))

/-- The call `DirtyNonopaqueNeighbors(blockLocation, true)` leaves alone every cell of
the column of the cell other than the cell above and the cell below. -/
theorem World.DirtyNonopaqueNeighbors_column (w : World) (p index j : Nat) (d : Bool)
    (h : index < BLOCKS_PER_CHUNK) (hcol : j % 256 = index % 256)
    (hup : j ≠ index + 256) (hdown : j + 256 ≠ index) :
    World.CellSame p j d w (w.DirtyNonopaqueNeighbors ⟨some p, index⟩ true) := by
  unfold World.DirtyNonopaqueNeighbors
  simp only [if_true]
  exact World.cellSame_trans
    (World.cellSame_trans
      (World.dirtyNeighbor_cellSame _ _ _ _ _ _ (World.up_ne _ p index j h hup))
      (World.dirtyNeighbor_cellSame _ _ _ _ _ _ (World.down_ne _ p index j h hdown)))
    (World.lateralSteps_cellSame _ p index j d h hcol)

/-- The call `DirtyNonopaqueNeighbors(blockLocation, true)` flags the cell below dirty
and pushes it once, when that cell is neither opaque nor dirty. -/
theorem World.DirtyNonopaqueNeighbors_below (w : World) (p index : Nat) (d : Bool)
    (h : index < BLOCKS_PER_CHUNK) (h256 : 256 ≤ index)
    (hopq : (g_blockDefinitions ((w.m_heap p).m_blocks (index - 256)).m_type).m_isOpaque
      = false)
    (hclean : ((w.m_heap p).m_blocks (index - 256)).IsLightingDirty = false) :
    ((w.DirtyNonopaqueNeighbors ⟨some p, index⟩ true).m_heap p).m_blocks (index - 256)
        = ((w.m_heap p).m_blocks (index - 256)).DirtyLighting ∧
      ((w.DirtyNonopaqueNeighbors ⟨some p, index⟩ true).dirtyList d).count
          ⟨some p, index - 256⟩
        = (w.dirtyList d).count ⟨some p, index - 256⟩
          + (if d = w.g_debugPointsEnabled then 1 else 0) := by
  unfold World.DirtyNonopaqueNeighbors
  simp only [if_true]
  have hU := World.dirtyNeighbor_cellSame w ⟨some p, index⟩ STEP_UP p (index - 256) d
    (World.up_ne w p index _ h (by omega))
  have hUd := (World.frame_dirtyNeighbor w ⟨some p, index⟩ STEP_UP).debug
  have hloc : (w.dirtyNeighbor ⟨some p, index⟩ STEP_UP).GetBlockLocation ⟨some p, index⟩
      STEP_DOWN = ⟨some p, index - 256⟩ := by
    rw [World.GetBlockLocation_down _ p index h, if_pos h256]
  have hD := World.dirtyNeighbor_hit (w.dirtyNeighbor ⟨some p, index⟩ STEP_UP)
    ⟨some p, index⟩ STEP_DOWN p (index - 256) d hloc
  rw [hU.1, hopq, hclean, hU.2, hUd] at hD
  simp only [Bool.not_false, Bool.and_self, if_true] at hD
  have hL := World.lateralSteps_cellSame
    ((w.dirtyNeighbor ⟨some p, index⟩ STEP_UP).dirtyNeighbor ⟨some p, index⟩ STEP_DOWN)
    p index (index - 256) d h (by omega)
  exact ⟨hL.1.trans hD.1, hL.2.trans hD.2⟩

/-! ## Streaming: which chunk is activated and which is deactivated -/

theorem foldl_invariant {α β : Type} (P : α → Prop) (f : α → β → α) (l : List β) (s : α)
    (h0 : P s) (hstep : ∀ s x, P s → P (f s x)) : P (l.foldl f s) := by
  induction l generalizing s with
  | nil => exact h0
  | cons x xs ih => exact ih (f s x) (hstep s x h0)

/-- After the scan of `ActivateNearestNeededChunk` the candidate distance is at most
the qualification bound, and when it is below the bound it is the distance of the
candidate, which is not active. -/
theorem World.nearestScan_spec (w : World) :
    w.nearestScan.1 ≤ INNER_DISTANCE_THERMOSTAT_QUALIFICATION ∧
    (w.nearestScan.1 < INNER_DISTANCE_THERMOSTAT_QUALIFICATION →
      CalcDistanceSquared w.nearestScan.2
          (Chunk.GetChunkCoordsAtWorldCoords w.m_cameraPosition) = w.nearestScan.1 ∧
        w.IsChunkActive w.nearestScan.2 = false) := by
  unfold World.nearestScan
  simp only
  apply foldl_invariant
    (fun s : Int × ChunkCoords => s.1 ≤ INNER_DISTANCE_THERMOSTAT_QUALIFICATION ∧
      (s.1 < INNER_DISTANCE_THERMOSTAT_QUALIFICATION →
        CalcDistanceSquared s.2 (Chunk.GetChunkCoordsAtWorldCoords w.m_cameraPosition) = s.1 ∧
          w.IsChunkActive s.2 = false))
  · exact ⟨le_refl _, fun h => absurd h (lt_irrefl _)⟩
  · intro s x hs
    apply foldl_invariant
      (fun s : Int × ChunkCoords => s.1 ≤ INNER_DISTANCE_THERMOSTAT_QUALIFICATION ∧
        (s.1 < INNER_DISTANCE_THERMOSTAT_QUALIFICATION →
          CalcDistanceSquared s.2 (Chunk.GetChunkCoordsAtWorldCoords w.m_cameraPosition) = s.1 ∧
            w.IsChunkActive s.2 = false))
    · exact hs
    · intro s y hs
      unfold World.nearestStep
      simp only
      split
      · rename_i hc
        refine ⟨le_trans (le_of_lt hc.1) hs.1, fun _ => ⟨rfl, ?_⟩⟩
        simpa using hc.2
      · exact hs

/-- After the scan of `DeactivateFurthestChunk` the candidate distance is at least
the qualification bound, and when it is above the bound it is the distance of the
candidate, which is a key of the active map. -/
theorem World.furthestScan_spec (w : World) :
    OUTER_DISTANCE_THERMOSTAT_QUALIFICATION ≤ w.furthestScan.1 ∧
    (OUTER_DISTANCE_THERMOSTAT_QUALIFICATION < w.furthestScan.1 →
      CalcDistanceSquared w.furthestScan.2
          (Chunk.GetChunkCoordsAtWorldCoords w.m_cameraPosition) = w.furthestScan.1) := by
  unfold World.furthestScan
  simp only
  apply foldl_invariant
    (fun s : Int × ChunkCoords => OUTER_DISTANCE_THERMOSTAT_QUALIFICATION ≤ s.1 ∧
      (OUTER_DISTANCE_THERMOSTAT_QUALIFICATION < s.1 →
        CalcDistanceSquared s.2 (Chunk.GetChunkCoordsAtWorldCoords w.m_cameraPosition) = s.1))
  · exact ⟨le_refl _, fun h => absurd h (lt_irrefl _)⟩
  · intro s e hs
    split
    · rename_i hc
      exact ⟨le_trans hs.1 (le_of_lt hc), fun _ => rfl⟩
    · exact hs

theorem World.linkNeighbor_camera (w : World) (p : Nat) (c : ChunkCoords)
    (f g : Chunk → Option Nat → Chunk) :
    (w.linkNeighbor p c f g).m_cameraPosition = w.m_cameraPosition := by
  unfold World.linkNeighbor
  split <;> rfl

theorem World.linked_camera (w : World) (c : ChunkCoords) (blocks : Nat → Block) :
    (World.ActivateChunk.linked w c blocks).m_cameraPosition = w.m_cameraPosition := by
  unfold World.ActivateChunk.linked
  simp only [World.linkNeighbor_camera]
  rfl

theorem World.ActivateChunk_camera (w : World) (c : ChunkCoords) (blocks : Nat → Block) :
    (w.ActivateChunk c blocks).m_cameraPosition = w.m_cameraPosition :=
  (World.frame_OnChunkActivated _ _).camera.trans (w.linked_camera c blocks)

theorem World.ActivateNearestNeededChunk_camera (w : World) (create : ChunkCoords → Nat → Block) :
    (w.ActivateNearestNeededChunk create).m_cameraPosition = w.m_cameraPosition := by
  unfold World.ActivateNearestNeededChunk
  split
  · exact w.ActivateChunk_camera _ _
  · rfl

/-- C5. No same-step thrash: when `ActivateNearestNeededChunk` and then
`DeactivateFurthestChunk` run as in one `World::Update` call, whatever the active
chunks, the viewer position and the content of the created chunk, the coordinate
passed to `DeactivateChunk` is not the coordinate passed to `ActivateChunk`. -/
theorem no_same_step_thrash (w : World) (create : ChunkCoords → Nat → Block)
    (activated deactivated : ChunkCoords)
    (ha : w.chunkCoordsToActivate = some activated)
    (hd : (w.ActivateNearestNeededChunk create).chunkCoordsToDeactivate = some deactivated) :
    activated ≠ deactivated := by
  unfold World.chunkCoordsToActivate at ha
  unfold World.chunkCoordsToDeactivate at hd
  simp only at ha hd
  split at ha
  · rename_i h1
    split at hd
    · rename_i h2
      have e1 := (w.nearestScan_spec.2 h1).1
      have e2 := (World.furthestScan_spec (w.ActivateNearestNeededChunk create)).2 h2
      rw [w.ActivateNearestNeededChunk_camera] at e2
      simp only [Option.some.injEq] at ha hd
      rw [ha] at e1
      rw [hd] at e2
      intro heq
      rw [heq, e2] at e1
      rw [← e1] at h1
      have b1 : INNER_DISTANCE_THERMOSTAT_QUALIFICATION = 226 := by decide
      have b2 : OUTER_DISTANCE_THERMOSTAT_QUALIFICATION = 256 := by decide
      rw [b1] at h1
      rw [b2] at h2
      omega
    · exact absurd hd (by simp)
  · exact absurd ha (by simp)

theorem World.linkNeighbor_active (w : World) (p : Nat) (c : ChunkCoords)
    (f g : Chunk → Option Nat → Chunk) :
    (w.linkNeighbor p c f g).m_activeChunks = w.m_activeChunks := by
  unfold World.linkNeighbor
  split <;> rfl

theorem World.linked_active (w : World) (c : ChunkCoords) (blocks : Nat → Block) :
    (World.ActivateChunk.linked w c blocks).m_activeChunks
      = insertChunk c w.m_heapSize w.m_activeChunks := by
  unfold World.ActivateChunk.linked
  simp only [World.linkNeighbor_active]
  rfl

theorem World.ActivateChunk_active (w : World) (c : ChunkCoords) (blocks : Nat → Block) :
    (w.ActivateChunk c blocks).m_activeChunks = insertChunk c w.m_heapSize w.m_activeChunks :=
  (World.frame_OnChunkActivated _ _).active.trans (w.linked_active c blocks)

/-- The coordinate to deactivate depends only on the active map and the viewer. -/
theorem World.chunkCoordsToDeactivate_congr (w v : World)
    (ha : w.m_activeChunks = v.m_activeChunks) (hc : w.m_cameraPosition = v.m_cameraPosition) :
    w.chunkCoordsToDeactivate = v.chunkCoordsToDeactivate := by
  unfold World.chunkCoordsToDeactivate World.furthestScan
  rw [ha, hc]

/-- C6, amended. `ActivateNearestNeededChunk` only ever activates a chunk coordinate
that is not active and whose squared distance from the chunk coordinate of the viewer
is below `INNER_DISTANCE_THERMOSTAT_QUALIFICATION`, that is at most
`INNER_VISIBILITY_DISTANCE` squared (225): a coordinate at 225 qualifies. -/
theorem activation_within_inner_bound (w : World) (activated : ChunkCoords)
    (ha : w.chunkCoordsToActivate = some activated) :
    CalcDistanceSquared activated (Chunk.GetChunkCoordsAtWorldCoords w.m_cameraPosition)
        ≤ INNER_VISIBILITY_DISTANCE * INNER_VISIBILITY_DISTANCE ∧
      w.IsChunkActive activated = false := by
  unfold World.chunkCoordsToActivate at ha
  simp only at ha
  split at ha
  · rename_i h1
    obtain ⟨e1, e2⟩ := w.nearestScan_spec.2 h1
    simp only [Option.some.injEq] at ha
    rw [ha] at e1 e2
    refine ⟨?_, e2⟩
    rw [e1]
    have b1 : INNER_DISTANCE_THERMOSTAT_QUALIFICATION = 226 := by decide
    have b2 : INNER_VISIBILITY_DISTANCE * INNER_VISIBILITY_DISTANCE = 225 := by decide
    rw [b1] at h1
    rw [b2]
    omega
  · exact absurd ha (by simp)

/-- A fold whose steps only lower a measure, each step leaving it low enough for its
own element, ends with a measure that is low enough for every element. -/
theorem foldl_lowers {σ β : Type} (f : σ → β → σ) (μ : σ → Int) (Q : β → Int → Prop)
    (hQ : ∀ x v v', v' ≤ v → Q x v → Q x v')
    (hstep : ∀ s x, μ (f s x) ≤ μ s ∧ Q x (μ (f s x))) (l : List β) (s : σ) :
    μ (l.foldl f s) ≤ μ s ∧ ∀ x ∈ l, Q x (μ (l.foldl f s)) := by
  induction l generalizing s with
  | nil => exact ⟨le_refl _, fun x hx => absurd hx (List.not_mem_nil x)⟩
  | cons a l ih =>
    simp only [List.foldl_cons]
    obtain ⟨h1, h2⟩ := ih (f s a)
    obtain ⟨h3, h4⟩ := hstep s a
    refine ⟨le_trans h1 h3, ?_⟩
    intro x hx
    rcases List.mem_cons.mp hx with rfl | hx
    · exact hQ _ _ _ h1 h4
    · exact h2 x hx

theorem mem_rangeInclusive (lo hi v : Int) (h1 : lo ≤ v) (h2 : v ≤ hi) :
    v ∈ rangeInclusive lo hi := by
  unfold rangeInclusive
  have hm : (v - lo).toNat ∈ List.range (hi + 1 - lo).toNat := List.mem_range.mpr (by omega)
  have he : lo + ((v - lo).toNat : Int) = v := by omega
  exact List.mem_map.mpr ⟨(v - lo).toNat, hm, he⟩

/-- The scan of `ActivateNearestNeededChunk` ends with a candidate distance that is
at most the distance of every inactive coordinate of the scanned square. -/
theorem World.nearestScan_minimal (w : World) (c : ChunkCoords)
    (hx1 : (Chunk.GetChunkCoordsAtWorldCoords w.m_cameraPosition).x - OUTER_VISIBILITY_DISTANCE ≤ c.x)
    (hx2 : c.x ≤ (Chunk.GetChunkCoordsAtWorldCoords w.m_cameraPosition).x + OUTER_VISIBILITY_DISTANCE)
    (hy1 : (Chunk.GetChunkCoordsAtWorldCoords w.m_cameraPosition).y - OUTER_VISIBILITY_DISTANCE ≤ c.y)
    (hy2 : c.y ≤ (Chunk.GetChunkCoordsAtWorldCoords w.m_cameraPosition).y + OUTER_VISIBILITY_DISTANCE)
    (hinactive : w.IsChunkActive c = false) :
    w.nearestScan.1
      ≤ CalcDistanceSquared c (Chunk.GetChunkCoordsAtWorldCoords w.m_cameraPosition) := by
  unfold World.nearestScan
  simp only
  generalize Chunk.GetChunkCoordsAtWorldCoords w.m_cameraPosition = pc at *
  have inner : ∀ (x : Int) (s : Int × ChunkCoords) (y : Int),
      (w.nearestStep pc s ⟨x, y⟩).1 ≤ s.1 ∧
        (w.IsChunkActive ⟨x, y⟩ = false →
          (w.nearestStep pc s ⟨x, y⟩).1 ≤ CalcDistanceSquared ⟨x, y⟩ pc) := by
    intro x s y
    unfold World.nearestStep
    simp only
    split
    · rename_i h
      exact ⟨le_of_lt h.1, fun _ => le_refl _⟩
    · rename_i h
      refine ⟨le_refl _, fun hin => ?_⟩
      by_contra hlt
      exact h ⟨lt_of_not_le hlt, by simp [hin]⟩
  have outer := foldl_lowers
    (fun (s : Int × ChunkCoords) (x : Int) =>
      (rangeInclusive (pc.y - OUTER_VISIBILITY_DISTANCE) (pc.y + OUTER_VISIBILITY_DISTANCE)).foldl
        (fun s y => w.nearestStep pc s ⟨x, y⟩) s)
    (fun s => s.1)
    (fun x v => ∀ y ∈ rangeInclusive (pc.y - OUTER_VISIBILITY_DISTANCE)
        (pc.y + OUTER_VISIBILITY_DISTANCE),
      w.IsChunkActive ⟨x, y⟩ = false → v ≤ CalcDistanceSquared ⟨x, y⟩ pc)
    (fun x v v' hv h y hy hin => le_trans hv (h y hy hin))
    (fun s x => foldl_lowers (fun s y => w.nearestStep pc s ⟨x, y⟩) (fun s => s.1)
      (fun y v => w.IsChunkActive ⟨x, y⟩ = false → v ≤ CalcDistanceSquared ⟨x, y⟩ pc)
      (fun y v v' hv h hin => le_trans hv (h hin))
      (fun s y => inner x s y) _ s)
    (rangeInclusive (pc.x - OUTER_VISIBILITY_DISTANCE) (pc.x + OUTER_VISIBILITY_DISTANCE))
    (INNER_DISTANCE_THERMOSTAT_QUALIFICATION, ⟨0, 0⟩)
  exact outer.2 c.x (mem_rangeInclusive _ _ _ hx1 hx2) c.y (mem_rangeInclusive _ _ _ hy1 hy2)
    hinactive

theorem calcDistanceSquared_self (c : ChunkCoords) : CalcDistanceSquared c c = 0 := by
  unfold CalcDistanceSquared
  ring

theorem calcDistanceSquared_eq_zero (a b : ChunkCoords) (h : CalcDistanceSquared a b ≤ 0) :
    a = b := by
  unfold CalcDistanceSquared at h
  have hx : (a.x - b.x) * (a.x - b.x) = 0 := by nlinarith [mul_self_nonneg (a.x - b.x), mul_self_nonneg (a.y - b.y)]
  have hy : (a.y - b.y) * (a.y - b.y) = 0 := by nlinarith [mul_self_nonneg (a.x - b.x), mul_self_nonneg (a.y - b.y)]
  have ex : a.x = b.x := by
    have := mul_self_eq_zero.mp hx
    omega
  have ey : a.y = b.y := by
    have := mul_self_eq_zero.mp hy
    omega
  cases a
  cases b
  simp only at ex ey
  rw [ex, ey]

/-- When the chunk the viewer stands in is not active, it is the one activated. -/
theorem World.activates_own_chunk (w : World)
    (h : w.IsChunkActive (Chunk.GetChunkCoordsAtWorldCoords w.m_cameraPosition) = false) :
    w.chunkCoordsToActivate = some (Chunk.GetChunkCoordsAtWorldCoords w.m_cameraPosition) := by
  have b0 : OUTER_VISIBILITY_DISTANCE = 16 := by decide
  have b1 : INNER_DISTANCE_THERMOSTAT_QUALIFICATION = 226 := by decide
  have hmin := w.nearestScan_minimal (Chunk.GetChunkCoordsAtWorldCoords w.m_cameraPosition)
    (by rw [b0]; omega) (by rw [b0]; omega) (by rw [b0]; omega) (by rw [b0]; omega) h
  rw [calcDistanceSquared_self] at hmin
  have hlt : w.nearestScan.1 < INNER_DISTANCE_THERMOSTAT_QUALIFICATION := by rw [b1]; omega
  obtain ⟨e1, _⟩ := w.nearestScan_spec.2 hlt
  unfold World.chunkCoordsToActivate
  simp only [hlt, if_true]
  have heq := calcDistanceSquared_eq_zero w.nearestScan.2
    (Chunk.GetChunkCoordsAtWorldCoords w.m_cameraPosition) (by rw [e1]; exact hmin)
  rw [heq]

theorem farWorld_viewer :
    Chunk.GetChunkCoordsAtWorldCoords farWorld.m_cameraPosition = ⟨0, 0⟩ := by decide!

theorem farWorld_activates : farWorld.chunkCoordsToActivate = some ⟨0, 0⟩ := by
  have h := farWorld.activates_own_chunk (by rw [farWorld_viewer]; decide)
  rw [farWorld_viewer] at h
  exact h

theorem farWorld_deactivates (create : ChunkCoords → Nat → Block) :
    (farWorld.ActivateNearestNeededChunk create).chunkCoordsToDeactivate = some ⟨100, 0⟩ := by
  have h : farWorld.ActivateNearestNeededChunk create
      = farWorld.ActivateChunk ⟨0, 0⟩ (create ⟨0, 0⟩) := by
    unfold World.ActivateNearestNeededChunk
    rw [farWorld_activates]
  rw [h, World.chunkCoordsToDeactivate_congr _
    { farWorld with m_activeChunks := insertChunk ⟨0, 0⟩ farWorld.m_heapSize farWorld.m_activeChunks }
    (World.ActivateChunk_active _ _ _) (World.ActivateChunk_camera _ _ _)]
  decide!

theorem no_same_step_thrash_witness :
    (⟨0, 0⟩ : ChunkCoords) ≠ ⟨100, 0⟩ :=
  no_same_step_thrash farWorld (fun _ _ => ⟨BT_STONE, 0⟩) ⟨0, 0⟩ ⟨100, 0⟩ farWorld_activates
    (farWorld_deactivates _)

theorem activation_within_inner_bound_witness :
    CalcDistanceSquared ⟨0, 0⟩ (Chunk.GetChunkCoordsAtWorldCoords farWorld.m_cameraPosition)
        ≤ INNER_VISIBILITY_DISTANCE * INNER_VISIBILITY_DISTANCE ∧
      farWorld.IsChunkActive ⟨0, 0⟩ = false :=
  activation_within_inner_bound farWorld ⟨0, 0⟩ farWorld_activates

theorem diskWorld_viewer :
    Chunk.GetChunkCoordsAtWorldCoords diskWorld.m_cameraPosition = ⟨0, 0⟩ := by decide!

theorem diskWorld_active (c : ChunkCoords) (h : CalcDistanceSquared c ⟨0, 0⟩ < 225) :
    diskWorld.IsChunkActive c = true := by
  obtain ⟨x, y⟩ := c
  have hd : x * x + y * y < 225 := by
    unfold CalcDistanceSquared at h
    simpa using h
  have hx1 : -16 ≤ x := by nlinarith [mul_self_nonneg y]
  have hx2 : x ≤ 16 := by nlinarith [mul_self_nonneg y]
  have hy1 : -16 ≤ y := by nlinarith [mul_self_nonneg x]
  have hy2 : y ≤ 16 := by nlinarith [mul_self_nonneg x]
  unfold World.IsChunkActive diskWorld
  simp only [List.any_eq_true, List.mem_flatMap, List.mem_filterMap, List.mem_range]
  refine ⟨(⟨x, y⟩, (x + 16).toNat * 33 + (y + 16).toNat), ⟨(x + 16).toNat, by omega,
    (y + 16).toNat, by omega, ?_⟩, by simp⟩
  have ex : (((x + 16).toNat : Nat) : Int) - 16 = x := by omega
  have ey : (((y + 16).toNat : Nat) : Int) - 16 = y := by omega
  rw [ex, ey, if_pos h]

/-- C6, as stated, fails: with exactly the chunks at squared distance below 225 from
the viewer active, `ActivateNearestNeededChunk` activates a coordinate whose squared
distance is not below `INNER_VISIBILITY_DISTANCE` squared (it is 225). -/
theorem inner_threshold_counterexample :
    ∃ activated, diskWorld.chunkCoordsToActivate = some activated ∧
      ¬ (CalcDistanceSquared activated (Chunk.GetChunkCoordsAtWorldCoords diskWorld.m_cameraPosition)
          < INNER_VISIBILITY_DISTANCE * INNER_VISIBILITY_DISTANCE) := by
  have b1 : INNER_DISTANCE_THERMOSTAT_QUALIFICATION = 226 := by decide
  have b2 : INNER_VISIBILITY_DISTANCE * INNER_VISIBILITY_DISTANCE = 225 := by decide
  have hin : diskWorld.IsChunkActive ⟨-15, 0⟩ = false := by decide!
  have hmin := diskWorld.nearestScan_minimal ⟨-15, 0⟩
    (by rw [diskWorld_viewer]; decide) (by rw [diskWorld_viewer]; decide)
    (by rw [diskWorld_viewer]; decide) (by rw [diskWorld_viewer]; decide) hin
  rw [diskWorld_viewer] at hmin ⊢
  have h225 : CalcDistanceSquared ⟨-15, 0⟩ ⟨0, 0⟩ = 225 := by decide
  rw [h225] at hmin
  have hlt : diskWorld.nearestScan.1 < INNER_DISTANCE_THERMOSTAT_QUALIFICATION := by
    rw [b1]; omega
  obtain ⟨e1, e2⟩ := diskWorld.nearestScan_spec.2 hlt
  rw [diskWorld_viewer] at e1
  refine ⟨diskWorld.nearestScan.2, ?_, ?_⟩
  · unfold World.chunkCoordsToActivate
    simp only [hlt, if_true]
  · rw [b2]
    intro hc
    rw [diskWorld_active _ hc] at e2
    exact absurd e2 (by simp)

/-! ## The run-length codec -/

theorem populate_loop_eq_iterate (buf : Nat → Nat) (n : Nat) (s : DecodeState) :
    Chunk.PopulateFromTempRLEBuffer.loop buf n s.index s.bufferIndex s.currentBlockType
      s.currentBlockCount s.numBlocksAssigned s.m_blocks
      = ((decodeStep buf)^[n] s).m_blocks := by
  induction n generalizing s with
  | zero => rfl
  | succ n ih =>
    rw [Function.iterate_succ_apply, ← ih (decodeStep buf s)]
    rfl

theorem decode_count (c : Nat) (hc : c < 65536) :
    ((((c >>> 8) % 256) <<< 8) % 65536 + c % 256) % 65536 = c := by
  rw [Nat.shiftRight_eq_div_pow, Nat.shiftLeft_eq]
  omega

/-- While the current run is not used up, every iteration assigns the current type. -/
theorem decode_run (buf : Nat → Nat) (m : Nat) (s : DecodeState)
    (hk : s.numBlocksAssigned + m ≤ s.currentBlockCount) (hc : s.currentBlockCount < 65536) :
    (decodeStep buf)^[m] s =
      ⟨s.index + m, s.bufferIndex, s.currentBlockType, s.currentBlockCount,
        s.numBlocksAssigned + m,
        fun i => if s.index ≤ i ∧ i < s.index + m then
          ⟨s.currentBlockType, (g_blockDefinitions s.currentBlockType).m_inherentLightValue⟩
          else s.m_blocks i⟩ := by
  induction m generalizing s with
  | zero =>
    simp only [Function.iterate_zero, id_eq, Nat.add_zero]
    have : (fun i => if s.index ≤ i ∧ i < s.index then
        (⟨s.currentBlockType, (g_blockDefinitions s.currentBlockType).m_inherentLightValue⟩ : Block)
        else s.m_blocks i) = s.m_blocks := by
      funext i
      rw [if_neg (by omega)]
    rw [this]
  | succ m ih =>
    have hne : s.numBlocksAssigned ≠ s.currentBlockCount := by omega
    have hstep : decodeStep buf s =
        ⟨s.index + 1, s.bufferIndex, s.currentBlockType, s.currentBlockCount,
          s.numBlocksAssigned + 1,
          fun i => if i = s.index then
            ⟨s.currentBlockType, (g_blockDefinitions s.currentBlockType).m_inherentLightValue⟩
            else s.m_blocks i⟩ := by
      simp only [decodeStep, if_neg hne]
      congr 1
      omega
    rw [Function.iterate_succ_apply, hstep, ih _ (by simp only; omega) (by simpa using hc)]
    simp only
    congr 1
    · omega
    · omega
    · funext i
      by_cases h1 : i = s.index
      · subst h1
        simp
      · by_cases h2 : s.index + 1 ≤ i ∧ i < s.index + 1 + m
        · rw [if_pos h2, if_pos (by omega)]
        · rw [if_neg h2, if_neg h1, if_neg (by omega)]

/-- Reading one entry `(t, c)` and assigning its `c` cells. -/
theorem decode_entry (buf : Nat → Nat) (s : DecodeState) (t c : Nat)
    (hread : s.numBlocksAssigned = s.currentBlockCount)
    (h0 : buf s.bufferIndex = t) (h1 : buf (s.bufferIndex + 1) = (c >>> 8) % 256)
    (h2 : buf (s.bufferIndex + 2) = c % 256) (hc1 : 1 ≤ c) (hc : c < 65536) :
    (decodeStep buf)^[c] s =
      ⟨s.index + c, s.bufferIndex + 3, t, c, c,
        fun i => if s.index ≤ i ∧ i < s.index + c then
          ⟨t, (g_blockDefinitions t).m_inherentLightValue⟩ else s.m_blocks i⟩ := by
  obtain ⟨m, rfl⟩ : ∃ m, c = m + 1 := ⟨c - 1, by omega⟩
  have hstep : decodeStep buf s =
      ⟨s.index + 1, s.bufferIndex + 3, t, m + 1, 1,
        fun i => if i = s.index then ⟨t, (g_blockDefinitions t).m_inherentLightValue⟩
          else s.m_blocks i⟩ := by
    simp only [decodeStep, if_pos hread, h0, h1, h2, decode_count (m + 1) hc]
  rw [Function.iterate_succ_apply, hstep, decode_run buf m _ (by simp only; omega) (by simpa using hc)]
  simp only
  congr 1
  · omega
  · omega
  · funext i
    by_cases h1 : i = s.index
    · subst h1
      simp
    · by_cases h2 : s.index + 1 ≤ i ∧ i < s.index + 1 + m
      · rw [if_pos h2, if_pos (by omega)]
      · rw [if_neg h2, if_neg h1, if_neg (by omega)]

theorem encodeFrom_zero (blocks : Nat → Block) (index t c : Nat) (buffer : List Nat) :
    encodeFrom blocks 0 index t c buffer = buffer ++ [t, (c >>> 8) % 256, c % 256] := rfl

theorem encodeFrom_succ_ne (blocks : Nat → Block) (n index t c : Nat) (buffer : List Nat)
    (h : (blocks index).m_type ≠ t) :
    encodeFrom blocks (n + 1) index t c buffer =
      encodeFrom blocks n (index + 1) (blocks index).m_type 1
        (buffer ++ [t, (c >>> 8) % 256, c % 256]) := by
  simp only [encodeFrom, Chunk.CreateRLEBuffer.loop, if_pos h, Chunk.AppendToRLEBuffer]

theorem encodeFrom_succ_eq (blocks : Nat → Block) (n index t c : Nat) (buffer : List Nat)
    (h : (blocks index).m_type = t) :
    encodeFrom blocks (n + 1) index t c buffer =
      encodeFrom blocks n (index + 1) t ((c + 1) % 65536) buffer := by
  simp only [encodeFrom, Chunk.CreateRLEBuffer.loop, h, ne_eq, not_true_eq_false, if_false]

/-- The encoder only appends to the buffer it is given. -/
theorem encodeFrom_extends (blocks : Nat → Block) (n index t c : Nat) (buffer : List Nat) :
    ∃ tail, encodeFrom blocks n index t c buffer = buffer ++ tail := by
  induction n generalizing index t c buffer with
  | zero => exact ⟨_, encodeFrom_zero blocks index t c buffer⟩
  | succ n ih =>
    by_cases h : (blocks index).m_type = t
    · rw [encodeFrom_succ_eq _ _ _ _ _ _ h]
      exact ih _ _ _ _
    · rw [encodeFrom_succ_ne _ _ _ _ _ _ h]
      obtain ⟨tail, ht⟩ := ih (index + 1) (blocks index).m_type 1
        (buffer ++ [t, (c >>> 8) % 256, c % 256])
      exact ⟨[t, (c >>> 8) % 256, c % 256] ++ tail, by rw [ht, List.append_assoc]⟩

theorem getD_entry (buffer tail : List Nat) (a b c : Nat) :
    (buffer ++ ([a, b, c] ++ tail)).getD buffer.length 0 = a ∧
    (buffer ++ ([a, b, c] ++ tail)).getD (buffer.length + 1) 0 = b ∧
    (buffer ++ ([a, b, c] ++ tail)).getD (buffer.length + 2) 0 = c ∧
    buffer.length + 2 < (buffer ++ ([a, b, c] ++ tail)).length := by
  refine ⟨?_, ?_, ?_, ?_⟩
  · rw [List.getD_eq_getElem?_getD, List.getElem?_append_right (Nat.le_refl _), Nat.sub_self]
    rfl
  · rw [List.getD_eq_getElem?_getD, List.getElem?_append_right (Nat.le_add_right _ _),
      Nat.add_sub_cancel_left]
    rfl
  · rw [List.getD_eq_getElem?_getD, List.getElem?_append_right (Nat.le_add_right _ _),
      Nat.add_sub_cancel_left]
    simp
  · simp only [List.length_append, List.length_cons]; omega

/-- Decoding what the encoder writes from a given state of its loop: the cells of the
pending run get its type, the cells still to be encoded get their own type, and the
cells before the pending run are left alone. -/
theorem decode_encodeFrom (blocks : Nat → Block) (buf : Nat → Nat) :
    ∀ (n index t c : Nat) (buffer : List Nat) (s : DecodeState),
      1 ≤ c → c + n ≤ 65535 → c ≤ index →
      s.index = index - c → s.bufferIndex = buffer.length →
      s.numBlocksAssigned = s.currentBlockCount →
      (∀ j, j < (encodeFrom blocks n index t c buffer).length →
        buf j = (encodeFrom blocks n index t c buffer).getD j 0) →
      (∀ i, i < index - c → ((decodeStep buf)^[c + n] s).m_blocks i = s.m_blocks i) ∧
      (∀ i, index - c ≤ i → i < index → ((decodeStep buf)^[c + n] s).m_blocks i
        = ⟨t, (g_blockDefinitions t).m_inherentLightValue⟩) ∧
      (∀ i, index ≤ i → i < index + n → ((decodeStep buf)^[c + n] s).m_blocks i
        = ⟨(blocks i).m_type, (g_blockDefinitions (blocks i).m_type).m_inherentLightValue⟩) := by
  intro n
  induction n with
  | zero =>
    intro index t c buffer s hc1 hcn hci hsi hsb hread hbuf
    rw [encodeFrom_zero] at hbuf
    obtain ⟨g0, g1, g2, glen⟩ := getD_entry buffer [] t ((c >>> 8) % 256) (c % 256)
    simp only [List.append_nil] at g0 g1 g2 glen
    have e := decode_entry buf s t c hread
      (by rw [hsb, hbuf _ (by omega), g0]) (by rw [hsb, hbuf _ (by omega), g1])
      (by rw [hsb, hbuf _ (by omega), g2]) hc1 (by omega)
    rw [Nat.add_zero, e]
    refine ⟨?_, ?_, ?_⟩
    · intro i hi
      simp only
      rw [if_neg (by omega)]
    · intro i h1 h2
      simp only
      rw [if_pos (by omega)]
    · intro i h1 h2
      omega
  | succ n ih =>
    intro index t c buffer s hc1 hcn hci hsi hsb hread hbuf
    by_cases h : (blocks index).m_type = t
    · rw [encodeFrom_succ_eq _ _ _ _ _ _ h, Nat.mod_eq_of_lt (by omega)] at hbuf
      have := ih (index + 1) t (c + 1) buffer s (by omega) (by omega) (by omega) (by omega)
        hsb hread hbuf
      have e : c + (n + 1) = c + 1 + n := by omega
      rw [e]
      obtain ⟨r1, r2, r3⟩ := this
      refine ⟨?_, ?_, ?_⟩
      · intro i hi
        exact r1 i (by omega)
      · intro i h1 h2
        exact r2 i (by omega) (by omega)
      · intro i h1 h2
        by_cases hi : i = index
        · subst hi
          rw [r2 i (by omega) (by omega), h]
        · exact r3 i (by omega) (by omega)
    · rw [encodeFrom_succ_ne _ _ _ _ _ _ h] at hbuf
      obtain ⟨tail, ht⟩ := encodeFrom_extends blocks n (index + 1) (blocks index).m_type 1
        (buffer ++ [t, (c >>> 8) % 256, c % 256])
      rw [ht, List.append_assoc] at hbuf
      obtain ⟨g0, g1, g2, glen⟩ := getD_entry buffer tail t ((c >>> 8) % 256) (c % 256)
      have e := decode_entry buf s t c hread
        (by rw [hsb, hbuf _ (by omega), g0]) (by rw [hsb, hbuf _ (by omega), g1])
        (by rw [hsb, hbuf _ (by omega), g2]) hc1 (by omega)
      have hsplit : (decodeStep buf)^[c + (n + 1)] s
          = (decodeStep buf)^[1 + n] ((decodeStep buf)^[c] s) := by
        rw [← Function.iterate_add_apply]
        congr 1
        omega
      rw [hsplit, e]
      rw [← List.append_assoc, ← ht] at hbuf
      have := ih (index + 1) (blocks index).m_type 1 (buffer ++ [t, (c >>> 8) % 256, c % 256])
        ⟨s.index + c, s.bufferIndex + 3, t, c, c,
          fun i => if s.index ≤ i ∧ i < s.index + c then
            ⟨t, (g_blockDefinitions t).m_inherentLightValue⟩ else s.m_blocks i⟩
        (by omega) (by omega) (by omega) (by simp only; omega)
        (by simp only [List.length_append, List.length_cons, List.length_nil]; omega) rfl hbuf
      obtain ⟨r1, r2, r3⟩ := this
      refine ⟨?_, ?_, ?_⟩
      · intro i hi
        rw [r1 i (by omega)]
        simp only
        rw [if_neg (by omega)]
      · intro i h1 h2
        rw [r1 i (by omega)]
        simp only
        rw [if_pos (by omega)]
      · intro i h1 h2
        by_cases hi : i = index
        · subst hi
          exact r2 i (by omega) (by omega)
        · exact r3 i (by omega) (by omega)

theorem inherent_light_stored (t : Nat) (ht : t < BLOCK_TYPE_COUNT) :
    (⟨t, (g_blockDefinitions t).m_inherentLightValue⟩ : Block).GetLightValue
      = (g_blockDefinitions t).m_inherentLightValue := by
  have h9 : BLOCK_TYPE_COUNT = 9 := rfl
  rw [h9] at ht
  interval_cases t <;> decide

theorem createRLEBuffer_eq (c : Chunk) :
    Chunk.CreateRLEBuffer c = encodeFrom c.m_blocks 32767 1 (c.m_blocks 0).m_type 1 [] := rfl

theorem populate_loop_start (buf : Nat → Nat) (blocks : Nat → Block) (n : Nat) :
    Chunk.PopulateFromTempRLEBuffer.loop buf n 0 0 (buf 0) 0 0 blocks
      = ((decodeStep buf)^[n] ⟨0, 0, buf 0, 0, 0, blocks⟩).m_blocks :=
  populate_loop_eq_iterate buf n ⟨0, 0, buf 0, 0, 0, blocks⟩

theorem populate_eq (buf : Nat → Nat) (target : Chunk) :
    (Chunk.PopulateFromTempRLEBuffer buf target).m_blocks
      = ((decodeStep buf)^[BLOCKS_PER_CHUNK] ⟨0, 0, buf 0, 0, 0, target.m_blocks⟩).m_blocks := by
  simp only [Chunk.PopulateFromTempRLEBuffer]
  rw [populate_loop_start]

/-- C1. Round trip of the run-length codec: for every chunk whose cells carry
defined block types, whatever the static buffer held before the file was loaded
and whatever the target chunk held, `PopulateFromTempRLEBuffer` run on the bytes
`CreateRLEBuffer` produced gives every cell below `BLOCKS_PER_CHUNK` the type of the
original cell at that index and the inherent light value of that type. -/
theorem rle_round_trip (c target : Chunk) (s_tempRLEBuffer : Nat → Nat)
    (hdef : ∀ i, i < BLOCKS_PER_CHUNK → (c.m_blocks i).m_type < BLOCK_TYPE_COUNT)
    (i : Nat) (hi : i < BLOCKS_PER_CHUNK) :
    ((Chunk.PopulateFromTempRLEBuffer
        (LoadFileToExistingBuffer (Chunk.CreateRLEBuffer c) s_tempRLEBuffer) target).m_blocks i).m_type
      = (c.m_blocks i).m_type ∧
    ((Chunk.PopulateFromTempRLEBuffer
        (LoadFileToExistingBuffer (Chunk.CreateRLEBuffer c) s_tempRLEBuffer) target).m_blocks
          i).GetLightValue
      = (g_blockDefinitions (c.m_blocks i).m_type).m_inherentLightValue := by
  have hB : BLOCKS_PER_CHUNK = 32768 := by decide
  rw [hB] at hi
  have key := decode_encodeFrom c.m_blocks
    (LoadFileToExistingBuffer (Chunk.CreateRLEBuffer c) s_tempRLEBuffer)
    32767 1 (c.m_blocks 0).m_type 1 []
    ⟨0, 0, LoadFileToExistingBuffer (Chunk.CreateRLEBuffer c) s_tempRLEBuffer 0, 0, 0,
      target.m_blocks⟩
    (Nat.le_refl 1) (by omega) (Nat.le_refl 1) rfl rfl rfl
    (by
      intro j hj
      rw [← createRLEBuffer_eq] at hj ⊢
      simp only [LoadFileToExistingBuffer, if_pos hj])
  obtain ⟨_, r2, r3⟩ := key
  have hcell : (Chunk.PopulateFromTempRLEBuffer
      (LoadFileToExistingBuffer (Chunk.CreateRLEBuffer c) s_tempRLEBuffer) target).m_blocks i
      = ⟨(c.m_blocks i).m_type, (g_blockDefinitions (c.m_blocks i).m_type).m_inherentLightValue⟩ := by
    have hs : BLOCKS_PER_CHUNK = 1 + 32767 := by decide
    rw [populate_eq, hs]
    by_cases h0 : i = 0
    · subst h0
      exact r2 0 (by omega) (by omega)
    · exact r3 i (by omega) (by omega)
  rw [hcell]
  exact ⟨rfl, inherent_light_stored _ (hdef i (by rw [hB]; exact hi))⟩

theorem rle_round_trip_witness :
    ((Chunk.PopulateFromTempRLEBuffer
        (LoadFileToExistingBuffer (Chunk.CreateRLEBuffer stripedChunk) (fun _ => 0))
          Chunk.new).m_blocks 5).m_type
      = (stripedChunk.m_blocks 5).m_type ∧
    ((Chunk.PopulateFromTempRLEBuffer
        (LoadFileToExistingBuffer (Chunk.CreateRLEBuffer stripedChunk) (fun _ => 0))
          Chunk.new).m_blocks 5).GetLightValue
      = (g_blockDefinitions (stripedChunk.m_blocks 5).m_type).m_inherentLightValue :=
  rle_round_trip stripedChunk Chunk.new (fun _ => 0)
    (fun i _ => Nat.lt_of_lt_of_le (Nat.mod_lt i (by decide)) (by decide)) 5 (by decide)

/-! ## Index arithmetic -/

theorem index_of_nat_coords (a b d : Nat) :
    Chunk.GetIndexAtLocalCoords ⟨a, b, d⟩ = (a ||| (b <<< 4) ||| (d <<< 8)) % 65536 := by
  unfold Chunk.GetIndexAtLocalCoords toBlockIndex
  simp only [CHUNKS_WIDE_EXPONENT, CHUNKS_LONG_EXPONENT]
  have h1 : ((b : Int) <<< ((4 : Nat) : Int)) = ((b <<< 4 : Nat) : Int) := Int.shiftLeft_coe_nat b 4
  have h2 : ((d : Int) <<< ((4 + 4 : Nat) : Int)) = ((d <<< 8 : Nat) : Int) :=
    Int.shiftLeft_coe_nat d 8
  rw [h1, h2]
  have h3 : Int.lor (Int.lor (a : Int) ((b <<< 4 : Nat) : Int)) ((d <<< 8 : Nat) : Int)
      = ((a ||| (b <<< 4) ||| (d <<< 8) : Nat) : Int) := rfl
  rw [h3]
  omega

theorem packed_eq_sum (a b d : Nat) (ha : a < 16) (hb : b < 16) :
    a ||| (b <<< 4) ||| (d <<< 8) = a + 16 * b + 256 * d := by
  have e1 : b <<< 4 = 2 ^ 4 * b := by rw [Nat.shiftLeft_eq]; ring
  have e2 : d <<< 8 = 2 ^ 8 * d := by rw [Nat.shiftLeft_eq]; ring
  have s1 : a ||| 2 ^ 4 * b = 2 ^ 4 * b + a := by
    rw [Nat.lor_comm]; exact (Nat.mul_add_lt_is_or (by omega) b).symm
  have s2 : (2 ^ 4 * b + a) ||| 2 ^ 8 * d = 2 ^ 8 * d + (2 ^ 4 * b + a) := by
    rw [Nat.lor_comm]; exact (Nat.mul_add_lt_is_or (by omega) d).symm
  rw [e1, e2, s1, s2]; omega

theorem coords_of_index (i : Nat) :
    Chunk.GetLocalCoordsAtIndex i = ⟨((i % 16 : Nat) : Int), ((i % 256 / 16 : Nat) : Int),
      ((i / 256 : Nat) : Int)⟩ := by
  unfold Chunk.GetLocalCoordsAtIndex
  have m1 : i &&& CHUNK_X_MASK = i % 16 := Nat.and_pow_two_sub_one_eq_mod i 4
  have m2 : i &&& CHUNK_LAYER_MASK = i % 256 := Nat.and_pow_two_sub_one_eq_mod i 8
  simp only [m1, m2, CHUNKS_WIDE_EXPONENT, CHUNKS_LONG_EXPONENT, Nat.shiftRight_eq_div_pow]

/-- C2. `GetIndexAtLocalCoords` and `GetLocalCoordsAtIndex` are mutually inverse
between the valid local coordinates and the indices below `BLOCKS_PER_CHUNK`: a
valid coordinate has an index below `BLOCKS_PER_CHUNK` whose coordinates are the
coordinate itself, and an index below `BLOCKS_PER_CHUNK` has valid coordinates
whose index is the index itself. -/
theorem index_bijection (c : LocalCoords) (i : Nat) (hc : c.Valid)
    (hi : i < BLOCKS_PER_CHUNK) :
    (Chunk.GetIndexAtLocalCoords c < BLOCKS_PER_CHUNK ∧
      Chunk.GetLocalCoordsAtIndex (Chunk.GetIndexAtLocalCoords c) = c) ∧
    ((Chunk.GetLocalCoordsAtIndex i).Valid ∧
      Chunk.GetIndexAtLocalCoords (Chunk.GetLocalCoordsAtIndex i) = i) := by
  have hB : BLOCKS_PER_CHUNK = 32768 := by decide
  have hX : BLOCKS_PER_CHUNK_X = 16 := by decide
  have hY : BLOCKS_PER_CHUNK_Y = 16 := by decide
  have hZ : BLOCKS_PER_CHUNK_Z = 128 := by decide
  rw [hB] at hi ⊢
  constructor
  · obtain ⟨x, y, z⟩ := c
    obtain ⟨hx0, hx1, hy0, hy1, hz0, hz1⟩ := hc
    simp only [hX, hY, hZ] at hx1 hy1 hz1
    obtain ⟨a, rfl⟩ := Int.eq_ofNat_of_zero_le hx0
    obtain ⟨b, rfl⟩ := Int.eq_ofNat_of_zero_le hy0
    obtain ⟨d, rfl⟩ := Int.eq_ofNat_of_zero_le hz0
    have ha : a < 16 := by exact_mod_cast hx1
    have hb : b < 16 := by exact_mod_cast hy1
    have hd : d < 128 := by exact_mod_cast hz1
    rw [index_of_nat_coords, packed_eq_sum a b d ha hb, coords_of_index]
    have hlt : a + 16 * b + 256 * d < 65536 := by omega
    rw [Nat.mod_eq_of_lt hlt]
    refine ⟨by omega, ?_⟩
    have e1 : (a + 16 * b + 256 * d) % 16 = a := by omega
    have e2 : (a + 16 * b + 256 * d) % 256 / 16 = b := by omega
    have e3 : (a + 16 * b + 256 * d) / 256 = d := by omega
    rw [e1, e2, e3]
  · rw [coords_of_index]
    refine ⟨?_, ?_⟩
    · simp only [LocalCoords.Valid, hX, hY, hZ]
      have h1 : i % 16 < 16 := Nat.mod_lt _ (by norm_num)
      have h2 : i % 256 / 16 < 16 := by omega
      have h3 : i / 256 < 128 := by omega
      refine ⟨by positivity, by exact_mod_cast h1, by positivity, by exact_mod_cast h2,
        by positivity, by exact_mod_cast h3⟩
    · rw [index_of_nat_coords, packed_eq_sum _ _ _ (Nat.mod_lt _ (by norm_num)) (by omega)]
      omega

theorem index_bijection_witness :
    (Chunk.GetIndexAtLocalCoords ⟨3, 5, 7⟩ < BLOCKS_PER_CHUNK ∧
      Chunk.GetLocalCoordsAtIndex (Chunk.GetIndexAtLocalCoords ⟨3, 5, 7⟩) = ⟨3, 5, 7⟩) ∧
    ((Chunk.GetLocalCoordsAtIndex 1000).Valid ∧
      Chunk.GetIndexAtLocalCoords (Chunk.GetLocalCoordsAtIndex 1000) = 1000) :=
  index_bijection ⟨3, 5, 7⟩ 1000 (by decide) (by decide)

/-! ## Neighbour links -/

theorem findChunk_eq (w : World) (c : ChunkCoords) : w.findChunk c = findIn w.m_activeChunks c :=
  rfl

theorem findIn_insertChunk (c : ChunkCoords) (p : Nat) (l : List (ChunkCoords × Nat))
    (c' : ChunkCoords) :
    findIn (insertChunk c p l) c' = if c' = c then some p else findIn l c' := by
  induction l with
  | nil =>
    unfold insertChunk findIn
    by_cases h : c' = c
    · subst h; simp
    · have h' : ¬ c = c' := fun e => h e.symm
      simp [h, h']
  | cons e rest ih =>
    unfold insertChunk
    by_cases he : e.1 = c
    · rw [if_pos he]
      by_cases h : c' = c
      · subst h; simp [findIn]
      · have h' : ¬ c = c' := fun e => h e.symm
        have h2 : ¬ e.1 = c' := fun e' => h (e'.symm.trans he)
        simp [findIn, h, h', h2]
    · rw [if_neg he]
      by_cases h2 : e.1 = c'
      · have h : ¬ c' = c := fun e' => he (h2.trans e')
        simp [findIn, h2, h]
      · have : findIn (e :: insertChunk c p rest) c' = findIn (insertChunk c p rest) c' := by
          simp [findIn, h2]
        rw [this, ih]
        simp [findIn, h2]

theorem findIn_filter (c : ChunkCoords) (l : List (ChunkCoords × Nat)) (c' : ChunkCoords) :
    findIn (l.filter (fun e => e.1 ≠ c)) c' = if c' = c then none else findIn l c' := by
  induction l with
  | nil => simp [findIn]
  | cons e rest ih =>
    by_cases he : e.1 = c
    · have : (e :: rest).filter (fun e => e.1 ≠ c) = rest.filter (fun e => e.1 ≠ c) := by
        simp [List.filter_cons, he]
      rw [this, ih]
      by_cases h : c' = c
      · simp [h]
      · have h2 : ¬ e.1 = c' := fun e' => h (e'.symm.trans he)
        simp [findIn, h, h2]
    · have : (e :: rest).filter (fun e => e.1 ≠ c)
          = e :: rest.filter (fun e => e.1 ≠ c) := by
        simp [List.filter_cons, he]
      rw [this]
      by_cases h2 : e.1 = c'
      · have h : ¬ c' = c := fun e' => he (h2.trans e')
        simp [findIn, h2, h]
      · have e1 : findIn (e :: rest.filter (fun e => e.1 ≠ c)) c'
            = findIn (rest.filter (fun e => e.1 ≠ c)) c' := by
          simp [findIn, h2]
        rw [e1, ih]
        simp [findIn, h2]

theorem keys_insertChunk (c : ChunkCoords) (p : Nat) (l : List (ChunkCoords × Nat)) :
    (insertChunk c p l).map Prod.fst = if c ∈ l.map Prod.fst then l.map Prod.fst
      else l.map Prod.fst ++ [c] := by
  induction l with
  | nil => simp [insertChunk]
  | cons e rest ih =>
    unfold insertChunk
    by_cases he : e.1 = c
    · simp [he]
    · have hne : ¬ c = e.1 := fun h => he h.symm
      rw [if_neg he]
      simp only [List.map_cons, List.mem_cons, hne, false_or, ih]
      split <;> simp

theorem nodup_insertChunk (c : ChunkCoords) (p : Nat) (l : List (ChunkCoords × Nat))
    (h : (l.map Prod.fst).Nodup) : ((insertChunk c p l).map Prod.fst).Nodup := by
  rw [keys_insertChunk]
  split
  · exact h
  · rename_i hc
    rw [List.nodup_append]
    refine ⟨h, List.nodup_singleton c, ?_⟩
    intro a ha hb
    rw [List.mem_singleton] at hb
    exact hc (hb ▸ ha)

theorem findIn_of_mem (l : List (ChunkCoords × Nat)) (h : (l.map Prod.fst).Nodup)
    (c : ChunkCoords) (p : Nat) (hm : (c, p) ∈ l) : findIn l c = some p := by
  induction l with
  | nil => exact absurd hm (List.not_mem_nil _)
  | cons e rest ih =>
    rw [List.map_cons, List.nodup_cons] at h
    rcases List.mem_cons.mp hm with he | hr
    · subst he
      simp [findIn]
    · have hne : ¬ e.1 = c := by
        intro heq
        apply h.1
        rw [heq]
        exact List.mem_map.mpr ⟨(c, p), hr, rfl⟩
      have : findIn (e :: rest) c = findIn rest c := by simp [findIn, hne]
      rw [this]
      exact ih h.2 hr

theorem adjacent_opposite (c : ChunkCoords) (d : Dir) : (c.adjacent d.opposite).adjacent d = c := by
  cases c
  cases d <;> simp [ChunkCoords.adjacent, Dir.opposite]

theorem adjacent_eq (c c' : ChunkCoords) (d : Dir) (h : c'.adjacent d = c) :
    c' = c.adjacent d.opposite := by
  cases c
  cases c'
  cases d <;> simp only [ChunkCoords.adjacent, Dir.opposite, ChunkCoords.mk.injEq] at h ⊢ <;>
    omega

theorem adjacent_ne (c : ChunkCoords) (d : Dir) : c.adjacent d ≠ c := by
  cases c
  cases d <;> simp [ChunkCoords.adjacent]

theorem link_setLink (c : Chunk) (d g : Dir) (l : Option Nat) :
    (Chunk.setLink d c l).link g = if g = d then l else c.link g := by
  cases d <;> cases g <;> rfl

theorem sameLinks_link {c c' : Chunk} (h : c.SameLinks c') (g : Dir) : c'.link g = c.link g := by
  cases g
  · exact h.north
  · exact h.south
  · exact h.east
  · exact h.west

theorem World.linkNeighbor_findChunk (w : World) (p : Nat) (n : ChunkCoords)
    (f g : Chunk → Option Nat → Chunk) (c : ChunkCoords) :
    (w.linkNeighbor p n f g).findChunk c = w.findChunk c := by
  unfold World.findChunk
  rw [World.linkNeighbor_active]

/-- The links after one of the four linking blocks of `ActivateChunk`. -/
theorem World.linkNeighbor_link (w : World) (p : Nat) (n : ChunkCoords) (d e : Dir)
    (hfresh : ∀ q, w.findChunk n = some q → q ≠ p) (r : Nat) (g : Dir) :
    ((w.linkNeighbor p n (Chunk.setLink d) (Chunk.setLink e)).m_heap r).link g =
      if r = p ∧ g = d then w.findChunk n
      else if w.findChunk n = some r ∧ g = e then some p
      else (w.m_heap r).link g := by
  unfold World.linkNeighbor
  cases hq : w.findChunk n with
  | none =>
    simp only [World.setChunk]
    by_cases hr : r = p
    · subst hr
      simp only [if_true, link_setLink, true_and]
      split <;> simp
    · simp [hr]
  | some q =>
    have hqp : q ≠ p := hfresh q hq
    simp only [World.setChunk]
    by_cases hr : r = p
    · subst hr
      have h1 : ¬ r = q := fun h => hqp h.symm
      simp only [h1, if_false, if_true, link_setLink, true_and, Option.some.injEq]
      split
      · rfl
      · have h2 : ¬ (q = r ∧ g = e) := fun h => hqp h.1
        rw [if_neg h2]
    · by_cases hrq : r = q
      · subst hrq
        simp only [if_true, link_setLink, hr, false_and, if_false, true_and]
      · have h2 : ¬ q = r := fun h => hrq h.symm
        simp [hr, hrq, h2]

/-- The links after the part of `ActivateChunk` that links the new chunk. -/
theorem World.linked_link (w : World) (c : ChunkCoords) (blocks : Nat → Block)
    (halloc : ∀ c' q, w.findChunk c' = some q → q < w.m_heapSize) (r : Nat) (g : Dir) :
    ((World.ActivateChunk.linked w c blocks).m_heap r).link g =
      if r = w.m_heapSize then w.findChunk (c.adjacent g)
      else if w.findChunk (c.adjacent g.opposite) = some r then some w.m_heapSize
      else (w.m_heap r).link g := by
  have hfresh : ∀ (n : ChunkCoords) (q : Nat), w.findChunk n = some q → q ≠ w.m_heapSize :=
    fun n q h => Nat.ne_of_lt (halloc n q h)
  have hstart : ∀ (r : Nat) (g : Dir),
      (((({ w.setChunk w.m_heapSize
            { Chunk.new with
              m_blocks := blocks
              m_worldCoordsMins := Chunk.GetWorldCoordsAtChunkCoords c } with
          m_heapSize := w.m_heapSize + 1 } : World)).m_heap r).link g)
        = if r = w.m_heapSize then none else (w.m_heap r).link g := by
    intro r g
    simp only [World.setChunk]
    split
    · cases g <;> rfl
    · rfl
  have hfind0 : ∀ n, ({ w.setChunk w.m_heapSize
            { Chunk.new with
              m_blocks := blocks
              m_worldCoordsMins := Chunk.GetWorldCoordsAtChunkCoords c } with
          m_heapSize := w.m_heapSize + 1 } : World).findChunk n = w.findChunk n := fun _ => rfl
  show ((((((({ w.setChunk w.m_heapSize
            { Chunk.new with
              m_blocks := blocks
              m_worldCoordsMins := Chunk.GetWorldCoordsAtChunkCoords c } with
          m_heapSize := w.m_heapSize + 1 } : World).linkNeighbor w.m_heapSize (c.adjacent .north)
            (Chunk.setLink .north) (Chunk.setLink .south)).linkNeighbor w.m_heapSize
            (c.adjacent .south) (Chunk.setLink .south) (Chunk.setLink .north)).linkNeighbor
            w.m_heapSize (c.adjacent .east) (Chunk.setLink .east) (Chunk.setLink .west)).linkNeighbor
            w.m_heapSize (c.adjacent .west) (Chunk.setLink .west) (Chunk.setLink .east)).m_heap
            r).link g) = _
  rw [World.linkNeighbor_link _ _ _ _ _
    (by intro q hq; simp only [World.linkNeighbor_findChunk, hfind0] at hq; exact hfresh _ q hq)]
  rw [World.linkNeighbor_link _ _ _ _ _
    (by intro q hq; simp only [World.linkNeighbor_findChunk, hfind0] at hq; exact hfresh _ q hq)]
  rw [World.linkNeighbor_link _ _ _ _ _
    (by intro q hq; simp only [World.linkNeighbor_findChunk, hfind0] at hq; exact hfresh _ q hq)]
  rw [World.linkNeighbor_link _ _ _ _ _
    (by intro q hq; simp only [World.linkNeighbor_findChunk, hfind0] at hq; exact hfresh _ q hq)]
  simp only [World.linkNeighbor_findChunk, hfind0, hstart]
  have hnot : ∀ n, ¬ w.findChunk n = some w.m_heapSize := fun n h => hfresh n _ h rfl
  by_cases hr : r = w.m_heapSize
  · subst hr
    cases g <;> simp [Dir.opposite, hnot]
  · cases g <;> simp [hr, Dir.opposite]

/-- What one of the four unlinking blocks of `DeactivateChunk` leaves alone, and the
links after it. -/
theorem World.unlinkNeighbor_spec (w : World) (n : ChunkCoords) (e : Dir)
    (dirty : World → Bool → Nat → World) (hframe : ∀ (v : World) (b : Bool) (q : Nat), World.Frame v (dirty v b q)) :
    (w.unlinkNeighbor n (Chunk.setLink e) dirty).m_activeChunks = w.m_activeChunks ∧
    (w.unlinkNeighbor n (Chunk.setLink e) dirty).m_heapSize = w.m_heapSize ∧
    (w.unlinkNeighbor n (Chunk.setLink e) dirty).m_isRunning = w.m_isRunning ∧
    ∀ r g, ((w.unlinkNeighbor n (Chunk.setLink e) dirty).m_heap r).link g =
      if w.findChunk n = some r ∧ g = e then none else (w.m_heap r).link g := by
  unfold World.unlinkNeighbor
  cases hq : w.findChunk n with
  | none => exact ⟨rfl, rfl, rfl, fun r g => by simp⟩
  | some q =>
    simp only
    have hf := hframe (w.setChunk q (Chunk.setLink e (w.m_heap q) none)) w.g_debugPointsEnabled q
    refine ⟨hf.active, hf.heapSize, hf.isRunning, ?_⟩
    intro r g
    rw [sameLinks_link (hf.links r) g]
    simp only [World.setChunk, Option.some.injEq]
    by_cases hr : r = q
    · subst hr
      simp only [if_true, link_setLink, true_and]
    · have h2 : ¬ q = r := fun h => hr h.symm
      simp [hr, h2]

theorem World.unlinkNeighbor_findChunk (w : World) (n : ChunkCoords) (e : Dir)
    (dirty : World → Bool → Nat → World) (hframe : ∀ (v : World) (b : Bool) (q : Nat), World.Frame v (dirty v b q))
    (c : ChunkCoords) :
    (w.unlinkNeighbor n (Chunk.setLink e) dirty).findChunk c = w.findChunk c := by
  unfold World.findChunk
  rw [(w.unlinkNeighbor_spec n e dirty hframe).1]

/-- The state after the unlinking part of `DeactivateChunk`. -/
theorem World.unlinked_spec (w : World) (c : ChunkCoords) :
    (World.DeactivateChunk.unlinked w c).m_activeChunks = w.m_activeChunks ∧
    (World.DeactivateChunk.unlinked w c).m_heapSize = w.m_heapSize ∧
    (World.DeactivateChunk.unlinked w c).m_isRunning = w.m_isRunning ∧
    ∀ r g, ((World.DeactivateChunk.unlinked w c).m_heap r).link g =
      if w.findChunk (c.adjacent g.opposite) = some r then none else (w.m_heap r).link g := by
  have f1 : ∀ (v : World) (b : Bool) (q : Nat),
      World.Frame v (World.DirtySouthBorderNonopaqueBlocks v b q) :=
    fun v b q => World.frame_dirtyBorder v b q _ _ _
  have f2 : ∀ (v : World) (b : Bool) (q : Nat),
      World.Frame v (World.DirtyNorthBorderNonopaqueBlocks v b q) :=
    fun v b q => World.frame_dirtyBorder v b q _ _ _
  have f3 : ∀ (v : World) (b : Bool) (q : Nat),
      World.Frame v (World.DirtyWestBorderNonopaqueBlocks v b q) :=
    fun v b q => World.frame_dirtyBorder v b q _ _ _
  have f4 : ∀ (v : World) (b : Bool) (q : Nat),
      World.Frame v (World.DirtyEastBorderNonopaqueBlocks v b q) :=
    fun v b q => World.frame_dirtyBorder v b q _ _ _
  have e : World.DeactivateChunk.unlinked w c =
      (((w.unlinkNeighbor (c.adjacent .north) (Chunk.setLink .south)
        World.DirtySouthBorderNonopaqueBlocks).unlinkNeighbor (c.adjacent .south)
        (Chunk.setLink .north) World.DirtyNorthBorderNonopaqueBlocks).unlinkNeighbor
        (c.adjacent .east) (Chunk.setLink .west) World.DirtyWestBorderNonopaqueBlocks).unlinkNeighbor
        (c.adjacent .west) (Chunk.setLink .east) World.DirtyEastBorderNonopaqueBlocks := rfl
  have s1 := w.unlinkNeighbor_spec (c.adjacent .north) .south _ f1
  have s2 := (w.unlinkNeighbor (c.adjacent .north) (Chunk.setLink .south)
    World.DirtySouthBorderNonopaqueBlocks).unlinkNeighbor_spec (c.adjacent .south) .north _ f2
  have s3 := ((w.unlinkNeighbor (c.adjacent .north) (Chunk.setLink .south)
    World.DirtySouthBorderNonopaqueBlocks).unlinkNeighbor (c.adjacent .south)
    (Chunk.setLink .north) World.DirtyNorthBorderNonopaqueBlocks).unlinkNeighbor_spec
    (c.adjacent .east) .west _ f3
  have s4 := (((w.unlinkNeighbor (c.adjacent .north) (Chunk.setLink .south)
    World.DirtySouthBorderNonopaqueBlocks).unlinkNeighbor (c.adjacent .south)
    (Chunk.setLink .north) World.DirtyNorthBorderNonopaqueBlocks).unlinkNeighbor
    (c.adjacent .east) (Chunk.setLink .west) World.DirtyWestBorderNonopaqueBlocks).unlinkNeighbor_spec
    (c.adjacent .west) .east _ f4
  rw [e]
  refine ⟨?_, ?_, ?_, ?_⟩
  · rw [s4.1, s3.1, s2.1, s1.1]
  · rw [s4.2.1, s3.2.1, s2.2.1, s1.2.1]
  · rw [s4.2.2.1, s3.2.2.1, s2.2.2.1, s1.2.2.1]
  · intro r g
    rw [s4.2.2.2, s3.2.2.2, s2.2.2.2, s1.2.2.2]
    simp only [World.unlinkNeighbor_findChunk _ _ _ _ f1, World.unlinkNeighbor_findChunk _ _ _ _ f2,
      World.unlinkNeighbor_findChunk _ _ _ _ f3]
    cases g <;> simp [Dir.opposite]

/-- The state after `DeactivateChunk` in a running world. -/
theorem World.DeactivateChunk_spec (w w' : World) (c : ChunkCoords)
    (hrun : w.m_isRunning = true) (h : w.DeactivateChunk c = some w') :
    w'.m_activeChunks = w.m_activeChunks.filter (fun e => e.1 ≠ c) ∧
    w'.m_heapSize = w.m_heapSize ∧ w'.m_isRunning = true ∧
    ∀ r g, (w'.m_heap r).link g =
      if w.findChunk (c.adjacent g.opposite) = some r then none else (w.m_heap r).link g := by
  unfold World.DeactivateChunk at h
  cases hc : w.findChunk c with
  | none => simp [hc] at h
  | some p =>
    simp only [hc, hrun, if_true, Option.some.injEq] at h
    obtain ⟨u1, u2, u3, u4⟩ := w.unlinked_spec c
    rw [← h]
    refine ⟨?_, u2, u3.trans hrun, u4⟩
    show List.filter _ (World.DeactivateChunk.unlinked w c).m_activeChunks = _
    rw [u1]

theorem World.linked_heapSize (w : World) (c : ChunkCoords) (blocks : Nat → Block) :
    (World.ActivateChunk.linked w c blocks).m_heapSize = w.m_heapSize + 1 := by
  unfold World.ActivateChunk.linked World.linkNeighbor
  simp only
  repeat' split
  all_goals rfl

theorem World.linked_isRunning (w : World) (c : ChunkCoords) (blocks : Nat → Block) :
    (World.ActivateChunk.linked w c blocks).m_isRunning = w.m_isRunning := by
  unfold World.ActivateChunk.linked World.linkNeighbor
  simp only
  repeat' split
  all_goals rfl

theorem World.StreamInv.of_frame {w w' : World} (hf : w.Frame w') (h : w.StreamInv) :
    w'.StreamInv := by
  have hfind : ∀ c, w'.findChunk c = w.findChunk c := by
    intro c
    unfold World.findChunk
    rw [hf.active]
  refine ⟨hf.isRunning.trans h.running, by rw [hf.active]; exact h.keys, ?_, ?_, ?_⟩
  · intro c c' p h1 h2
    rw [hfind] at h1 h2
    exact h.inj c c' p h1 h2
  · intro c p h1
    rw [hfind] at h1
    rw [hf.heapSize]
    exact h.alloc c p h1
  · intro c p d h1
    rw [hfind] at h1
    rw [hfind, sameLinks_link (hf.links p) d]
    exact h.mirror c p d h1

theorem World.StreamInv.activate {w : World} (h : w.StreamInv) (c : ChunkCoords)
    (blocks : Nat → Block) : (w.ActivateChunk c blocks).StreamInv := by
  apply World.StreamInv.of_frame (World.frame_OnChunkActivated _ _)
  have hfind : ∀ c', (World.ActivateChunk.linked w c blocks).findChunk c'
      = if c' = c then some w.m_heapSize else w.findChunk c' := by
    intro c'
    rw [findChunk_eq, World.linked_active, findIn_insertChunk]
    rfl
  refine ⟨(w.linked_isRunning c blocks).trans h.running, ?_, ?_, ?_, ?_⟩
  · rw [World.linked_active]
    exact nodup_insertChunk _ _ _ h.keys
  · intro c1 c2 p h1 h2
    rw [hfind] at h1 h2
    by_cases e1 : c1 = c
    · by_cases e2 : c2 = c
      · rw [e1, e2]
      · rw [if_pos e1] at h1
        rw [if_neg e2] at h2
        have := h.alloc c2 p h2
        simp only [Option.some.injEq] at h1
        omega
    · by_cases e2 : c2 = c
      · rw [if_neg e1] at h1
        rw [if_pos e2] at h2
        have := h.alloc c1 p h1
        simp only [Option.some.injEq] at h2
        omega
      · rw [if_neg e1] at h1
        rw [if_neg e2] at h2
        exact h.inj c1 c2 p h1 h2
  · intro c1 p h1
    rw [hfind] at h1
    rw [World.linked_heapSize]
    by_cases e1 : c1 = c
    · rw [if_pos e1] at h1
      simp only [Option.some.injEq] at h1
      omega
    · rw [if_neg e1] at h1
      have := h.alloc c1 p h1
      omega
  · intro c1 p d h1
    rw [hfind] at h1
    rw [World.linked_link w c blocks h.alloc, hfind]
    by_cases e1 : c1 = c
    · rw [if_pos e1] at h1
      simp only [Option.some.injEq] at h1
      rw [if_pos h1.symm, e1, if_neg (adjacent_ne c d)]
    · rw [if_neg e1] at h1
      have hp : p ≠ w.m_heapSize := Nat.ne_of_lt (h.alloc c1 p h1)
      rw [if_neg hp]
      by_cases e2 : w.findChunk (c.adjacent d.opposite) = some p
      · rw [if_pos e2]
        have e3 : c1 = c.adjacent d.opposite := h.inj _ _ p h1 e2
        rw [e3, adjacent_opposite, if_pos rfl]
      · rw [if_neg e2]
        have e3 : ¬ c1.adjacent d = c := by
          intro e4
          apply e2
          rw [← adjacent_eq c c1 d e4]
          exact h1
        rw [if_neg e3]
        exact h.mirror c1 p d h1

theorem World.StreamInv.deactivate {w w' : World} (h : w.StreamInv) (c : ChunkCoords)
    (hd : w.DeactivateChunk c = some w') : w'.StreamInv := by
  obtain ⟨s1, s2, s3, s4⟩ := w.DeactivateChunk_spec w' c h.running hd
  have hfind : ∀ c', w'.findChunk c' = if c' = c then none else w.findChunk c' := by
    intro c'
    rw [findChunk_eq, s1, findIn_filter]
    rfl
  refine ⟨s3, ?_, ?_, ?_, ?_⟩
  · rw [s1]
    exact (List.filter_sublist _).map Prod.fst |>.nodup h.keys
  · intro c1 c2 p h1 h2
    rw [hfind] at h1 h2
    by_cases e1 : c1 = c
    · rw [if_pos e1] at h1
      exact absurd h1 (by simp)
    · by_cases e2 : c2 = c
      · rw [if_pos e2] at h2
        exact absurd h2 (by simp)
      · rw [if_neg e1] at h1
        rw [if_neg e2] at h2
        exact h.inj c1 c2 p h1 h2
  · intro c1 p h1
    rw [hfind] at h1
    rw [s2]
    by_cases e1 : c1 = c
    · rw [if_pos e1] at h1
      exact absurd h1 (by simp)
    · rw [if_neg e1] at h1
      exact h.alloc c1 p h1
  · intro c1 p d h1
    rw [hfind] at h1
    by_cases e1 : c1 = c
    · rw [if_pos e1] at h1
      exact absurd h1 (by simp)
    · rw [if_neg e1] at h1
      rw [s4, hfind]
      by_cases e2 : w.findChunk (c.adjacent d.opposite) = some p
      · rw [if_pos e2]
        have e3 : c1 = c.adjacent d.opposite := h.inj _ _ p h1 e2
        rw [e3, adjacent_opposite, if_pos rfl]
      · rw [if_neg e2]
        have e3 : ¬ c1.adjacent d = c := by
          intro e4
          apply e2
          rw [← adjacent_eq c c1 d e4]
          exact h1
        rw [if_neg e3]
        exact h.mirror c1 p d h1

theorem World.StreamReachable.inv {w : World} (h : w.StreamReachable) : w.StreamInv := by
  induction h with
  | start w hempty hrunning =>
    refine ⟨hrunning, by rw [hempty]; exact List.nodup_nil, ?_, ?_, ?_⟩
    · intro c c' p h1
      rw [findChunk_eq, hempty] at h1
      exact absurd h1 (by simp [findIn])
    · intro c p h1
      rw [findChunk_eq, hempty] at h1
      exact absurd h1 (by simp [findIn])
    · intro c p d h1
      rw [findChunk_eq, hempty] at h1
      exact absurd h1 (by simp [findIn])
  | activate w c blocks _ ih => exact ih.activate c blocks
  | deactivate w w' c _ hd ih => exact ih.deactivate c hd

/-- C4. Neighbour symmetry: in every world state reached from a running world without
active chunks by `ActivateChunk` and `DeactivateChunk` calls, for all active chunks A
(at address `pa`) and B (at address `pb`), the north link of A is B if and only if
the south link of B is A, and the east link of A is B if and only if the west link
of B is A. -/
theorem neighbour_symmetry (w : World) (hreach : w.StreamReachable) (a b : ChunkCoords)
    (pa pb : Nat) (ha : (a, pa) ∈ w.m_activeChunks) (hb : (b, pb) ∈ w.m_activeChunks) :
    ((w.m_heap pa).m_chunkToNorth = some pb ↔ (w.m_heap pb).m_chunkToSouth = some pa) ∧
    ((w.m_heap pa).m_chunkToEast = some pb ↔ (w.m_heap pb).m_chunkToWest = some pa) := by
  have inv := hreach.inv
  have fa : w.findChunk a = some pa := findIn_of_mem _ inv.keys a pa ha
  have fb : w.findChunk b = some pb := findIn_of_mem _ inv.keys b pb hb
  have key : ∀ d : Dir, (w.m_heap pa).link d = some pb ↔ (w.m_heap pb).link d.opposite = some pa := by
    intro d
    rw [inv.mirror a pa d fa, inv.mirror b pb d.opposite fb]
    constructor
    · intro h1
      have e : b = a.adjacent d := inv.inj _ _ pb fb h1
      rw [e]
      have e2 : (a.adjacent d).adjacent d.opposite = a := by
        cases a
        cases d <;> simp [ChunkCoords.adjacent, Dir.opposite]
      rw [e2]
      exact fa
    · intro h1
      have e : a = b.adjacent d.opposite := inv.inj _ _ pa fa h1
      rw [e, adjacent_opposite]
      exact fb
  exact ⟨key .north, key .east⟩

theorem World.ActivateChunk_heapSize (w : World) (c : ChunkCoords) (blocks : Nat → Block) :
    (w.ActivateChunk c blocks).m_heapSize = w.m_heapSize + 1 :=
  (World.frame_OnChunkActivated _ _).heapSize.trans (w.linked_heapSize c blocks)

theorem twoChunkWorld_active : twoChunkWorld.m_activeChunks = [(⟨0, 0⟩, 0), (⟨0, 1⟩, 1)] := by
  unfold twoChunkWorld
  rw [World.ActivateChunk_active, World.ActivateChunk_active, World.ActivateChunk_heapSize]
  decide

theorem twoChunkWorld_reachable : twoChunkWorld.StreamReachable :=
  World.StreamReachable.activate _ _ _
    (World.StreamReachable.activate _ _ _ (World.StreamReachable.start World.new rfl rfl))

theorem neighbour_symmetry_witness :
    ((twoChunkWorld.m_heap 0).m_chunkToNorth = some 1 ↔
      (twoChunkWorld.m_heap 1).m_chunkToSouth = some 0) ∧
    ((twoChunkWorld.m_heap 0).m_chunkToEast = some 1 ↔
      (twoChunkWorld.m_heap 1).m_chunkToWest = some 0) :=
  neighbour_symmetry twoChunkWorld twoChunkWorld_reachable ⟨0, 0⟩ ⟨0, 1⟩ 0 1
    (by rw [twoChunkWorld_active]; decide) (by rw [twoChunkWorld_active]; decide)

/-! ## Ray casting from inside a block -/

/-- C9. A ray cast whose start point lies in an active chunk, in a cell of the chunk
(index below `BLOCKS_PER_CHUNK`) whose type is visible, returns a result without
impact, whatever the end point. -/
theorem raycast_from_inside_visible (w : World) (start end_ : WorldCoords) (p : Nat)
    (hactive : w.findChunk (Chunk.GetChunkCoordsAtWorldCoords start) = some p)
    (hindex : Chunk.GetIndexAtWorldCoords start < BLOCKS_PER_CHUNK)
    (hvisible : ((w.m_heap p).m_blocks (Chunk.GetIndexAtWorldCoords start)).IsVisible = true) :
    ∃ result, w.Raycast3D start end_ = some result ∧ result.m_didImpact = false := by
  refine ⟨Raycast3D.noImpact start, ?_, rfl⟩
  unfold World.Raycast3D
  simp only [hactive]
  rw [if_neg (by omega)]
  unfold Block.IsVisible at hvisible
  rw [if_pos hvisible]

theorem raycast_from_inside_visible_witness :
    ∃ result, (uniformWorld ⟨BT_STONE, 0⟩).Raycast3D ⟨1 / 2, 1 / 2, 3 / 2⟩ ⟨5, 7, 9⟩ = some result ∧
      result.m_didImpact = false :=
  raycast_from_inside_visible (uniformWorld ⟨BT_STONE, 0⟩) ⟨1 / 2, 1 / 2, 3 / 2⟩ ⟨5, 7, 9⟩ 0
    (by decide!) (by decide!) (by decide!)

/-! ## The ideal light of a cell -/

theorem World.maxWithNeighbor_eq (w : World) (l : BlockLocation) (off : Int) (m : Nat) :
    w.maxWithNeighbor l off m
      = max m (([off].filterMap (fun indexOffset =>
          let location := w.GetBlockLocation l indexOffset
          if location.m_chunk.isSome then some (w.GetBlock location).GetLightValue
          else none)).foldr max 0) := by
  unfold World.maxWithNeighbor
  simp only [List.filterMap_cons, List.filterMap_nil]
  split
  · rename_i h
    simp only [h, if_true, List.foldr_cons, List.foldr_nil]
    split <;> omega
  · rename_i h
    simp only [h, List.foldr_nil]
    simp

theorem foldr_max_append (l1 l2 : List Nat) :
    (l1 ++ l2).foldr max 0 = max (l1.foldr max 0) (l2.foldr max 0) := by
  induction l1 with
  | nil => simp
  | cons a l ih => simp only [List.cons_append, List.foldr_cons, ih, max_assoc]

theorem filterMap_cons_append {α β : Type} (f : α → Option β) (a : α) (rest : List α) :
    (a :: rest).filterMap f = [a].filterMap f ++ rest.filterMap f := by
  rw [← List.filterMap_append]
  rfl

theorem World.maxAdjacentLighting_eq (w : World) (l : BlockLocation) :
    w.maxAdjacentLighting l
      = max (((g_blockDefinitions (w.GetBlock l).m_type).m_inherentLightValue + 1) % 256)
          ((w.neighborLights l).foldr max 0) := by
  unfold World.maxAdjacentLighting World.neighborLights
  simp only [World.maxWithNeighbor_eq]
  conv_rhs =>
    rw [filterMap_cons_append _ STEP_UP, filterMap_cons_append _ STEP_DOWN,
      filterMap_cons_append _ STEP_NORTH, filterMap_cons_append _ STEP_SOUTH,
      filterMap_cons_append _ STEP_EAST]
  simp only [foldr_max_append, max_assoc]

/-- C10, amended. For a cell that is not flagged sky-exposed and has a defined block
type, `CalculateIdealLightingForBlock` returns the larger of the own inherent emission
plus 1 and the largest light value among the neighbours that exist, minus 1; that is,
the larger of the own emission and the largest neighbour light minus 1. -/
theorem ideal_light_formula (w : World) (blockLocation : BlockLocation)
    (hsky : (w.GetBlock blockLocation).IsSky = false)
    (htype : (w.GetBlock blockLocation).m_type < BLOCK_TYPE_COUNT) :
    w.CalculateIdealLightingForBlock blockLocation
      = max ((g_blockDefinitions (w.GetBlock blockLocation).m_type).m_inherentLightValue + 1)
          ((w.neighborLights blockLocation).foldr max 0) - 1 ∧
    w.CalculateIdealLightingForBlock blockLocation
      = max (g_blockDefinitions (w.GetBlock blockLocation).m_type).m_inherentLightValue
          ((w.neighborLights blockLocation).foldr max 0 - 1) := by
  have hlights : ∀ v ∈ w.neighborLights blockLocation, v ≤ 15 := by
    intro v hv
    unfold World.neighborLights at hv
    simp only [List.mem_filterMap] at hv
    obtain ⟨off, _, h⟩ := hv
    split at h
    · simp only [Option.some.injEq] at h
      rw [← h]
      unfold Block.GetLightValue
      exact Nat.and_le_right
    · exact absurd h (by simp)
  have hmax : ∀ l : List Nat, (∀ v ∈ l, v ≤ 15) → l.foldr max 0 ≤ 15 := by
    intro l
    induction l with
    | nil => intro _; simp
    | cons a l ih =>
      intro h
      simp only [List.foldr_cons]
      have h1 := h a (List.mem_cons_self _ _)
      have h2 := ih (fun v hv => h v (List.mem_cons_of_mem _ hv))
      omega
  have hn := hmax _ hlights
  have hinh : (g_blockDefinitions (w.GetBlock blockLocation).m_type).m_inherentLightValue ≤ 14 := by
    have h9 : BLOCK_TYPE_COUNT = 9 := rfl
    rw [h9] at htype
    generalize (w.GetBlock blockLocation).m_type = t at htype
    interval_cases t <;> decide
  unfold World.CalculateIdealLightingForBlock
  simp only [hsky, Bool.false_eq_true, false_and, if_false]
  rw [World.maxAdjacentLighting_eq]
  omega

theorem ideal_light_formula_witness :
    (uniformWorld ⟨BT_GLOWSTONE, 14⟩).CalculateIdealLightingForBlock ⟨some 0, 0⟩
      = max ((g_blockDefinitions
            ((uniformWorld ⟨BT_GLOWSTONE, 14⟩).GetBlock ⟨some 0, 0⟩).m_type).m_inherentLightValue + 1)
          (((uniformWorld ⟨BT_GLOWSTONE, 14⟩).neighborLights ⟨some 0, 0⟩).foldr max 0) - 1 ∧
    (uniformWorld ⟨BT_GLOWSTONE, 14⟩).CalculateIdealLightingForBlock ⟨some 0, 0⟩
      = max (g_blockDefinitions
            ((uniformWorld ⟨BT_GLOWSTONE, 14⟩).GetBlock ⟨some 0, 0⟩).m_type).m_inherentLightValue
          (((uniformWorld ⟨BT_GLOWSTONE, 14⟩).neighborLights ⟨some 0, 0⟩).foldr max 0 - 1) :=
  ideal_light_formula (uniformWorld ⟨BT_GLOWSTONE, 14⟩) ⟨some 0, 0⟩ (by decide) (by decide)

/-- C10, as stated, fails: a glowstone cell (inherent emission 14) that is not
sky-exposed and whose neighbours all have light 14 gets the ideal light 14, while the
larger of own emission and largest neighbour light, minus 1, is 13. -/
theorem ideal_light_counterexample :
    ((uniformWorld ⟨BT_GLOWSTONE, 14⟩).GetBlock ⟨some 0, 0⟩).IsSky = false ∧
    (((uniformWorld ⟨BT_GLOWSTONE, 14⟩).CalculateIdealLightingForBlock ⟨some 0, 0⟩ : Nat) : Int)
      ≠ (uniformWorld ⟨BT_GLOWSTONE, 14⟩).statedIdealLight ⟨some 0, 0⟩ := by
  decide

/-! ## Block edits -/

/-- C8, evaluated where it fails: in `edgeWorld` the impacted cell lies on the east
border of its chunk (local x = 15), the chunk across that border is active and linked,
and its stale flag is clear; `DestroyBlockWithRaycast` turns the cell into air and
sets the stale flag of its own chunk, but the stale flag of the adjacent chunk is
still clear afterwards, because the cell was already flagged lighting-dirty. -/
theorem destroy_on_edge_leaves_neighbour_clean :
    Chunk.GetIndexAtWorldCoords edgeImpact.m_impactWorldCoordsMins = 15 ∧
    (Chunk.GetLocalCoordsAtIndex 15).x = 15 ∧
    edgeWorld.findChunk (Chunk.GetChunkCoordsAtWorldCoords edgeImpact.m_impactWorldCoordsMins)
      = some 0 ∧
    (edgeWorld.m_heap 0).m_chunkToEast = some 1 ∧
    edgeWorld.findChunk ⟨1, 0⟩ = some 1 ∧
    (edgeWorld.DestroyBlockWithRaycast edgeImpact true).map
        (fun w => (((w.m_heap 0).m_blocks 15).m_type, (w.m_heap 0).m_isVboDirty,
          (w.m_heap 1).m_isVboDirty))
      = some (BT_AIR, true, false) := by
  decide!

/-! ## Placing a block under open sky -/

theorem World.writeAndEnqueue_other (w : World) (d : Bool) (p index : Nat) (b : Block)
    (d' : Bool) (j : Nat) (hj : j ≠ index) :
    World.CellSame p j d' w (w.writeAndEnqueue d p index b) := by
  unfold World.writeAndEnqueue
  simp only
  have hcell : ¬ (p = p ∧ j = index) := fun h => hj h.2
  have hloc : (⟨some p, index⟩ : BlockLocation) ≠ ⟨some p, j⟩ := by
    intro he
    injection he with _ h2
    exact hj h2.symm
  split
  · constructor
    · rw [World.blocks_setBlock, if_neg hcell, World.blocks_pushDirty, World.blocks_setBlock,
        if_neg hcell]
    · rw [World.dirtyList_setBlock, World.dirtyList_pushDirty, World.dirtyList_setBlock]
      split
      · rw [List.count_cons_of_ne hloc.symm]
      · rfl
  · constructor
    · rw [World.blocks_setBlock, if_neg hcell]
    · rfl

theorem World.writeAndEnqueue_block (w : World) (d : Bool) (p index : Nat) (b : Block) :
    ((w.writeAndEnqueue d p index b).m_heap p).m_blocks index
      = if b.IsLightingDirty then b else b.DirtyLighting := by
  unfold World.writeAndEnqueue
  simp only
  cases hb : b.IsLightingDirty
  · simp only [Bool.not_false, if_true, Bool.false_eq_true, if_false]
    rw [World.blocks_setBlock, if_pos ⟨rfl, rfl⟩]
  · simp only [Bool.not_true, Bool.false_eq_true, if_false, if_true]
    rw [World.blocks_setBlock, if_pos ⟨rfl, rfl⟩]

theorem World.writeAndEnqueue_count (w : World) (d : Bool) (p index : Nat) (b : Block) :
    ((w.writeAndEnqueue d p index b).dirtyList d).count ⟨some p, index⟩
      = (w.dirtyList d).count ⟨some p, index⟩ + (if b.IsLightingDirty then 0 else 1) := by
  unfold World.writeAndEnqueue
  simp only
  cases hb : b.IsLightingDirty
  · simp only [Bool.not_false, if_true, Bool.false_eq_true, if_false]
    rw [World.dirtyList_setBlock, World.dirtyList_pushDirty, if_pos rfl, List.count_cons_self,
      World.dirtyList_setBlock]
  · simp only [Bool.not_true, Bool.false_eq_true, if_false, if_true]
    rfl

theorem nextIndexBelow (i : Nat) (h : i < BLOCKS_PER_CHUNK) :
    toBlockIndex ((i : Int) - (BLOCKS_PER_CHUNK_LAYER : Nat))
      = if 256 ≤ i then i - 256 else 65280 + i := by
  have hB : BLOCKS_PER_CHUNK = 32768 := by decide
  have hL : BLOCKS_PER_CHUNK_LAYER = 256 := by decide
  rw [hB] at h
  rw [hL]
  split
  · rename_i h2
    rw [toBlockIndex_sub _ _ h2 (by omega)]
  · rename_i h2
    rw [toBlockIndex_sub_wrap _ _ (by omega) (by omega)]
    omega

theorem World.skyLoop_succ (d : Bool) (p fuel index : Nat) (w : World)
    (h : index < BLOCKS_PER_CHUNK) (hair : ((w.m_heap p).m_blocks index).m_type = BT_AIR) :
    World.PlaceBlockWithRaycast.skyLoop d p (fuel + 1) index w
      = World.PlaceBlockWithRaycast.skyLoop d p fuel
          (toBlockIndex ((index : Int) - (BLOCKS_PER_CHUNK_LAYER : Nat)))
          (w.writeAndEnqueue d p index ((w.m_heap p).m_blocks index).UnmarkAsSky) := by
  rw [World.PlaceBlockWithRaycast.skyLoop]
  simp only [if_pos h, hair, ne_eq, not_true_eq_false, if_false]
  rfl

/-- The sky loop leaves alone every cell above the one it starts at. -/
theorem World.skyLoop_above (d : Bool) (p : Nat) (d' : Bool) (j : Nat) :
    ∀ (fuel i : Nat) (v : World), (i < BLOCKS_PER_CHUNK → i < j) →
      World.CellSame p j d' v (World.PlaceBlockWithRaycast.skyLoop d p fuel i v) := by
  intro fuel
  induction fuel with
  | zero =>
    intro i v _
    exact World.cellSame_refl p j d' v
  | succ n ih =>
    intro i v hi
    by_cases h : i < BLOCKS_PER_CHUNK
    · by_cases hair : ((v.m_heap p).m_blocks i).m_type = BT_AIR
      · rw [World.skyLoop_succ d p n i v h hair]
        refine World.cellSame_trans
          (World.writeAndEnqueue_other v d p i _ d' j (Nat.ne_of_gt (hi h))) (ih _ _ ?_)
        rw [nextIndexBelow i h]
        have hB : BLOCKS_PER_CHUNK = 32768 := by decide
        have := hi h
        split <;> omega
      · rw [World.PlaceBlockWithRaycast.skyLoop]
        simp only [if_pos h, ne_eq, hair, not_false_eq_true, if_true]
        exact World.cellSame_refl p j d' v
    · rw [World.PlaceBlockWithRaycast.skyLoop]
      simp only [if_neg h]
      exact World.cellSame_refl p j d' v

/-- The sky loop started at the cell `i` clears the sky flag of the cell `k` layers
below, and pushes that cell when it is not flagged dirty, when the cells from `i` down
to it are air. -/
theorem World.skyLoop_cell (d : Bool) (p : Nat) :
    ∀ (fuel i : Nat) (v : World) (k : Nat), i < BLOCKS_PER_CHUNK → 256 * k ≤ i → k < fuel →
      (∀ m, m ≤ k → ((v.m_heap p).m_blocks (i - 256 * m)).m_type = BT_AIR) →
      (((World.PlaceBlockWithRaycast.skyLoop d p fuel i v).m_heap p).m_blocks
          (i - 256 * k)).IsSky = false ∧
        ((World.PlaceBlockWithRaycast.skyLoop d p fuel i v).dirtyList d).count
            ⟨some p, i - 256 * k⟩
          = (v.dirtyList d).count ⟨some p, i - 256 * k⟩
            + (if ((v.m_heap p).m_blocks (i - 256 * k)).IsLightingDirty then 0 else 1) := by
  intro fuel
  induction fuel with
  | zero =>
    intro i v k _ _ hk
    exact absurd hk (Nat.not_lt_zero k)
  | succ n ih =>
    intro i v k hi hk hfuel hair
    have hair0 : ((v.m_heap p).m_blocks i).m_type = BT_AIR := hair 0 (Nat.zero_le k)
    rw [World.skyLoop_succ d p n i v hi hair0, nextIndexBelow i hi]
    have hB : BLOCKS_PER_CHUNK = 32768 := by decide
    cases k with
    | zero =>
      have hsame := World.skyLoop_above d p d i n (if 256 ≤ i then i - 256 else 65280 + i)
        (v.writeAndEnqueue d p i ((v.m_heap p).m_blocks i).UnmarkAsSky)
        (by split <;> omega)
      simp only [Nat.mul_zero, Nat.sub_zero]
      rw [hsame.1, hsame.2, World.writeAndEnqueue_block, World.writeAndEnqueue_count,
        Block.isDirty_UnmarkAsSky]
      constructor
      · split
        · exact Block.isSky_UnmarkAsSky _
        · rw [Block.isSky_DirtyLighting]
          exact Block.isSky_UnmarkAsSky _
      · rfl
    | succ k =>
      have h256 : 256 ≤ i := by omega
      rw [if_pos h256]
      have hidx : ∀ m, i - 256 - 256 * m = i - 256 * (m + 1) := by
        intro m
        omega
      have hother : ∀ m, World.CellSame p (i - 256 * (m + 1)) d v
          (v.writeAndEnqueue d p i ((v.m_heap p).m_blocks i).UnmarkAsSky) := by
        intro m
        exact World.writeAndEnqueue_other v d p i _ d _ (by omega)
      have hrec := ih (i - 256) (v.writeAndEnqueue d p i ((v.m_heap p).m_blocks i).UnmarkAsSky) k
        (by omega) (by omega) (by omega)
        (by
          intro m hm
          rw [hidx m, (hother m).1]
          exact hair (m + 1) (by omega))
      rw [hidx k, (hother k).1, (hother k).2] at hrec
      exact hrec

/-- The call of `PlaceBlockWithRaycast` that places stone in a cell of air flagged sky,
written with the steps it is made of. -/
theorem World.PlaceBlockWithRaycast_sky (w : World) (r : Raycast3DResult) (d : Bool) (p : Nat)
    (hchunk : w.findChunk (Chunk.GetChunkCoordsAtWorldCoords r.newBlockCoords) = some p)
    (hidx : r.newBlockIndex < BLOCKS_PER_CHUNK)
    (hair : ((w.m_heap p).m_blocks r.newBlockIndex).m_type = BT_AIR)
    (hsky : ((w.m_heap p).m_blocks r.newBlockIndex).IsSky = true)
    (hbox : w.GetPlayerBoxContactPoints.any
      (fun corner => decide (r.newBlockCoords = Vec3.floor corner)) = false) :
    w.PlaceBlockWithRaycast BT_STONE r d
      = some (World.PlaceBlockWithRaycast.skyLoop d p (BLOCKS_PER_CHUNK_Z + 1)
          (toBlockIndex ((r.newBlockIndex : Int) - (BLOCKS_PER_CHUNK_LAYER : Nat)))
          (((w.dirtyVbo p).writeAndEnqueue d p r.newBlockIndex
            (({ (w.m_heap p).m_blocks r.newBlockIndex with m_type := BT_STONE }
              : Block).UnmarkAsSky.SetLightValue 0)).DirtyNonopaqueNeighbors
            ⟨some p, r.newBlockIndex⟩ true)) := by
  unfold Raycast3DResult.newBlockIndex Raycast3DResult.newBlockCoords at *
  unfold World.PlaceBlockWithRaycast
  simp only [hchunk, if_neg (Nat.not_le.mpr hidx), hair, ne_eq, not_true_eq_false, if_false,
    hbox, Bool.false_eq_true, hsky, if_true]
  rfl

/-- C7, amended.  When `PlaceBlockWithRaycast` places a stone block into
a cell of air that is flagged sky, and no cell of the column at or below it is flagged
dirty or held by the dirty list the call writes to, then afterwards the placed cell is
stone, and the placed cell and every cell below it down to the first cell that is not
air (that cell excluded) are not flagged sky and occur exactly once in that list. -/
theorem place_under_open_sky (w : World) (r : Raycast3DResult) (p : Nat)
    (hchunk : w.findChunk (Chunk.GetChunkCoordsAtWorldCoords r.newBlockCoords) = some p)
    (hidx : r.newBlockIndex < BLOCKS_PER_CHUNK)
    (hair : ((w.m_heap p).m_blocks r.newBlockIndex).m_type = BT_AIR)
    (hsky : ((w.m_heap p).m_blocks r.newBlockIndex).IsSky = true)
    (hbox : w.GetPlayerBoxContactPoints.any
      (fun corner => decide (r.newBlockCoords = Vec3.floor corner)) = false)
    (hclean : ∀ k, 256 * k ≤ r.newBlockIndex →
      ((w.m_heap p).m_blocks (r.newBlockIndex - 256 * k)).IsLightingDirty = false ∧
      (w.dirtyList w.g_debugPointsEnabled).count ⟨some p, r.newBlockIndex - 256 * k⟩ = 0) :
    ∃ w', w.PlaceBlockWithRaycast BT_STONE r w.g_debugPointsEnabled = some w' ∧
      ((w'.m_heap p).m_blocks r.newBlockIndex).m_type = BT_STONE ∧
      ∀ k, 256 * k ≤ r.newBlockIndex →
        (∀ i, 1 ≤ i → i ≤ k →
          ((w.m_heap p).m_blocks (r.newBlockIndex - 256 * i)).m_type = BT_AIR) →
        ((w'.m_heap p).m_blocks (r.newBlockIndex - 256 * k)).IsSky = false ∧
        (w'.dirtyList w.g_debugPointsEnabled).count ⟨some p, r.newBlockIndex - 256 * k⟩
          = 1 := by
  refine ⟨_, World.PlaceBlockWithRaycast_sky w r w.g_debugPointsEnabled p hchunk hidx hair hsky
    hbox, ?_⟩
  generalize hI : r.newBlockIndex = I at hidx hair hsky hclean ⊢
  generalize hd : w.g_debugPointsEnabled = d at hclean ⊢
  have hB : BLOCKS_PER_CHUNK = 32768 := by decide
  -- the block written to the placed cell
  generalize hb0 : (({ (w.m_heap p).m_blocks I with m_type := BT_STONE } :
    Block).UnmarkAsSky.SetLightValue 0) = b0
  have hb0type : b0.m_type = BT_STONE := by rw [← hb0]; rfl
  have hb0sky : b0.IsSky = false := by
    rw [← hb0, Block.isSky_SetLightValue _ 0 (by decide)]
    exact Block.isSky_UnmarkAsSky _
  have hb0dirty : b0.IsLightingDirty = false := by
    rw [← hb0, Block.isDirty_SetLightValue _ 0 (by decide), Block.isDirty_UnmarkAsSky]
    have h0 := (hclean 0 (Nat.zero_le _)).1
    simp only [Nat.mul_zero, Nat.sub_zero] at h0
    exact h0
  -- the three stages
  have hv : ∀ j, World.CellSame p j d w (w.dirtyVbo p) := fun j =>
    ⟨World.blocks_dirtyVbo _ _ _ _, rfl⟩
  generalize hw1 : (w.dirtyVbo p).writeAndEnqueue d p I b0 = w1
  have hw1d : w1.g_debugPointsEnabled = d := by
    rw [← hw1, (World.frame_writeAndEnqueue _ _ _ _ _).debug, (World.frame_dirtyVbo _ _).debug, hd]
  have h1 : ∀ j, j ≠ I → World.CellSame p j d w w1 := by
    intro j hj
    rw [← hw1]
    exact World.cellSame_trans (hv j) (World.writeAndEnqueue_other _ d p I b0 d j hj)
  have h1b : (w1.m_heap p).m_blocks I = b0.DirtyLighting := by
    rw [← hw1, World.writeAndEnqueue_block, hb0dirty]
    rfl
  have h1c : (w1.dirtyList d).count ⟨some p, I⟩ = 1 := by
    rw [← hw1, World.writeAndEnqueue_count, hb0dirty, (hv I).2]
    have h0 := (hclean 0 (Nat.zero_le _)).2
    simp only [Nat.mul_zero, Nat.sub_zero] at h0
    rw [h0]
    rfl
  generalize hw2 : w1.DirtyNonopaqueNeighbors ⟨some p, I⟩ true = w2
  have h2 : ∀ j, j % 256 = I % 256 → j ≠ I + 256 → j + 256 ≠ I → World.CellSame p j d w1 w2 := by
    intro j hcol hup hdown
    rw [← hw2]
    exact World.DirtyNonopaqueNeighbors_column w1 p I j d hidx hcol hup hdown
  have hnext := nextIndexBelow I hidx
  rw [hnext]
  generalize hw3 : World.PlaceBlockWithRaycast.skyLoop d p (BLOCKS_PER_CHUNK_Z + 1)
    (if 256 ≤ I then I - 256 else 65280 + I) w2 = w3
  have h3 : World.CellSame p I d w2 w3 := by
    rw [← hw3]
    exact World.skyLoop_above d p d I _ _ w2 (by split <;> omega)
  have hplaced : (w3.m_heap p).m_blocks I = b0.DirtyLighting := by
    rw [h3.1, (h2 I rfl (by omega) (by omega)).1, h1b]
  have hplacedCount : (w3.dirtyList d).count ⟨some p, I⟩ = 1 := by
    rw [h3.2, (h2 I rfl (by omega) (by omega)).2, h1c]
  refine ⟨by rw [hplaced]; exact hb0type, ?_⟩
  intro k hk hairs
  rcases k with _ | k
  · simp only [Nat.mul_zero, Nat.sub_zero]
    refine ⟨?_, hplacedCount⟩
    rw [hplaced, Block.isSky_DirtyLighting]
    exact hb0sky
  · have h256 : 256 ≤ I := by omega
    rw [if_pos h256] at hw3
    -- the cell below the placed cell
    have hbelowAir : ((w1.m_heap p).m_blocks (I - 256)).m_type = BT_AIR := by
      rw [(h1 (I - 256) (by omega)).1]
      have := hairs 1 (le_refl 1) (by omega)
      simpa using this
    have hbelowClean : ((w1.m_heap p).m_blocks (I - 256)).IsLightingDirty = false := by
      rw [(h1 (I - 256) (by omega)).1]
      have := (hclean 1 (by omega)).1
      simpa using this
    have hbelowCount : (w1.dirtyList d).count ⟨some p, I - 256⟩ = 0 := by
      rw [(h1 (I - 256) (by omega)).2]
      have := (hclean 1 (by omega)).2
      simpa using this
    have hbelow := World.DirtyNonopaqueNeighbors_below w1 p I d hidx h256
      (by rw [hbelowAir]; rfl) hbelowClean
    rw [hw2, hbelowCount, hw1d] at hbelow
    simp only [if_true, Nat.zero_add] at hbelow
    -- the cells further down
    have hfar : ∀ m, 1 ≤ m → 256 * (m + 1) ≤ I →
        World.CellSame p (I - 256 - 256 * m) d w w2 := by
      intro m hm hmI
      exact World.cellSame_trans (h1 _ (by omega)) (h2 _ (by omega) (by omega) (by omega))
    have hidx2 : ∀ m, I - 256 - 256 * m = I - 256 * (m + 1) := by
      intro m
      omega
    have hloop := World.skyLoop_cell d p (BLOCKS_PER_CHUNK_Z + 1) (I - 256) w2 k (by omega)
      (by omega) (by
        have hZ : BLOCKS_PER_CHUNK_Z = 128 := by decide
        omega)
      (by
        intro m hm
        rcases m with _ | m
        · simp only [Nat.mul_zero, Nat.sub_zero]
          rw [hbelow.1]
          exact hbelowAir
        · rw [(hfar (m + 1) (by omega) (by omega)).1, hidx2]
          exact hairs (m + 1 + 1) (by omega) (by omega))
    rw [hw3] at hloop
    rcases k with _ | k
    · have e0 : I - 256 - 256 * 0 = I - 256 := by omega
      have e1 : I - 256 * (0 + 1) = I - 256 := by omega
      rw [e0, hbelow.1, hbelow.2, Block.isDirty_DirtyLighting] at hloop
      rw [e1]
      exact hloop
    · rw [(hfar (k + 1) (by omega) (by omega)).1, (hfar (k + 1) (by omega) (by omega)).2,
        hidx2] at hloop
      rw [(hclean (k + 1 + 1) hk).1, (hclean (k + 1 + 1) hk).2] at hloop
      exact hloop

theorem waterImpact_index : waterImpact.newBlockIndex = 25600 := by decide!

theorem waterWorld_clean : ∀ k, k < 101 →
    ((waterWorld.m_heap 0).m_blocks (25600 - 256 * k)).IsLightingDirty = false ∧
    (waterWorld.dirtyList waterWorld.g_debugPointsEnabled).count ⟨some 0, 25600 - 256 * k⟩
      = 0 := by
  decide!

theorem place_under_open_sky_witness :
    ∃ w', waterWorld.PlaceBlockWithRaycast BT_STONE waterImpact waterWorld.g_debugPointsEnabled
        = some w' ∧
      ((w'.m_heap 0).m_blocks waterImpact.newBlockIndex).m_type = BT_STONE ∧
      ∀ k, 256 * k ≤ waterImpact.newBlockIndex →
        (∀ i, 1 ≤ i → i ≤ k →
          ((waterWorld.m_heap 0).m_blocks (waterImpact.newBlockIndex - 256 * i)).m_type
            = BT_AIR) →
        ((w'.m_heap 0).m_blocks (waterImpact.newBlockIndex - 256 * k)).IsSky = false ∧
        (w'.dirtyList waterWorld.g_debugPointsEnabled).count
            ⟨some 0, waterImpact.newBlockIndex - 256 * k⟩
          = 1 :=
  place_under_open_sky waterWorld waterImpact 0 (by decide!) (by decide!) (by decide!)
    (by decide!) (by decide!)
    (fun k hk => by
      rw [waterImpact_index] at hk ⊢
      exact waterWorld_clean k (by omega))

/-- C7 as stated fails in `waterWorld`: the impact places stone into the cell of air at
height 100 of the column, which is flagged sky, and no cell of the column is flagged
dirty beforehand.  The cell at height 80 is water; it lies below the placed cell and
above the next opaque cell, the stone at height 69, yet it does not occur in the dirty
queue afterwards: the loop stops at the first cell that is not air. -/
theorem place_under_open_sky_counterexample :
    ∃ w', waterWorld.PlaceBlockWithRaycast BT_STONE waterImpact waterWorld.g_debugPointsEnabled
        = some w' ∧
      waterWorld.g_debugPointsEnabled = false ∧
      waterImpact.newBlockIndex = 256 * 100 ∧
      ((waterWorld.m_heap 0).m_blocks (256 * 100)).m_type = BT_AIR ∧
      ((waterWorld.m_heap 0).m_blocks (256 * 100)).IsSky = true ∧
      (∀ z, z < 128 → ((waterWorld.m_heap 0).m_blocks (256 * z)).IsLightingDirty = false) ∧
      waterWorld.m_dirtyBlocks = [] ∧
      ((w'.m_heap 0).m_blocks (256 * 100)).m_type = BT_STONE ∧
      (∀ z, 70 ≤ z → z < 100 →
        (g_blockDefinitions ((w'.m_heap 0).m_blocks (256 * z)).m_type).m_isOpaque = false) ∧
      (g_blockDefinitions ((w'.m_heap 0).m_blocks (256 * 69)).m_type).m_isOpaque = true ∧
      w'.m_dirtyBlocks.count ⟨some 0, 256 * 80⟩ = 0 := by
  refine ⟨_, World.PlaceBlockWithRaycast_sky waterWorld waterImpact false 0 (by decide!)
    (by decide!) (by decide!) (by decide!) (by decide!), ?_⟩
  decide!

/-! ## The neighbour relation between cells is symmetric -/

theorem World.GetBlockLocation_east (w : World) (p index : Nat) (h : index < BLOCKS_PER_CHUNK) :
    w.GetBlockLocation ⟨some p, index⟩ STEP_EAST
      = if index % 16 = 15 then
          match (w.m_heap p).m_chunkToEast with
          | some e => ⟨some e, index - 15⟩
          | none => ⟨none, index⟩
        else ⟨some p, index + 1⟩ := by
  have hB : BLOCKS_PER_CHUNK = 32768 := by decide
  rw [hB] at h
  have mx : BLOCKINDEX_X_MASK = 15 := by decide
  have cE : STEP_EAST = ((1 : Nat) : Int) := by decide
  unfold World.GetBlockLocation
  simp only [if_true, mx, and_15]
  split
  · rename_i hx
    have e : toBlockIndex ((index : Int) - ((15 : Nat) : Int)) = index - 15 :=
      toBlockIndex_sub _ _ (by omega) (by omega)
    split <;> simp_all
  · rename_i hx
    rw [cE, toBlockIndex_add _ _ (by omega)]

theorem World.GetBlockLocation_west (w : World) (p index : Nat) (h : index < BLOCKS_PER_CHUNK) :
    w.GetBlockLocation ⟨some p, index⟩ STEP_WEST
      = if index % 16 = 0 then
          match (w.m_heap p).m_chunkToWest with
          | some e => ⟨some e, index + 15⟩
          | none => ⟨none, index⟩
        else ⟨some p, index - 1⟩ := by
  have hB : BLOCKS_PER_CHUNK = 32768 := by decide
  rw [hB] at h
  have mx : BLOCKINDEX_X_MASK = 15 := by decide
  have w1 : ¬ STEP_WEST = STEP_EAST := by decide
  have cW : (index : Int) + STEP_WEST = (index : Int) - ((1 : Nat) : Int) := by
    have : STEP_WEST = -((1 : Nat) : Int) := by decide
    rw [this]; ring
  unfold World.GetBlockLocation
  simp only [w1, if_false, if_true, mx, and_15]
  split
  · rename_i hx
    have e : toBlockIndex ((index : Int) + ((15 : Nat) : Int)) = index + 15 :=
      toBlockIndex_add _ _ (by omega)
    split <;> simp_all
  · rename_i hx
    rw [cW, toBlockIndex_sub _ _ (by omega) (by omega)]

theorem World.GetBlockLocation_north (w : World) (p index : Nat) (h : index < BLOCKS_PER_CHUNK) :
    w.GetBlockLocation ⟨some p, index⟩ STEP_NORTH
      = if index / 16 % 16 = 15 then
          match (w.m_heap p).m_chunkToNorth with
          | some e => ⟨some e, index - 240⟩
          | none => ⟨none, index⟩
        else ⟨some p, index + 16⟩ := by
  have hB : BLOCKS_PER_CHUNK = 32768 := by decide
  rw [hB] at h
  have my : BLOCKINDEX_Y_MASK = 240 := by decide
  have n1 : ¬ STEP_NORTH = STEP_EAST := by decide
  have n2 : ¬ STEP_NORTH = STEP_WEST := by decide
  have cN : STEP_NORTH = ((16 : Nat) : Int) := by decide
  unfold World.GetBlockLocation
  simp only [n1, n2, if_false, if_true, my, and_240]
  have hiff : (index / 16 % 16 * 16 = 240) ↔ (index / 16 % 16 = 15) := by omega
  simp only [hiff]
  split
  · rename_i hy
    have e : toBlockIndex ((index : Int) - ((240 : Nat) : Int)) = index - 240 :=
      toBlockIndex_sub _ _ (by omega) (by omega)
    split <;> simp_all
  · rename_i hy
    rw [cN, toBlockIndex_add _ _ (by omega)]

theorem World.GetBlockLocation_south (w : World) (p index : Nat) (h : index < BLOCKS_PER_CHUNK) :
    w.GetBlockLocation ⟨some p, index⟩ STEP_SOUTH
      = if index / 16 % 16 = 0 then
          match (w.m_heap p).m_chunkToSouth with
          | some e => ⟨some e, index + 240⟩
          | none => ⟨none, index⟩
        else ⟨some p, index - 16⟩ := by
  have hB : BLOCKS_PER_CHUNK = 32768 := by decide
  rw [hB] at h
  have my : BLOCKINDEX_Y_MASK = 240 := by decide
  have s1 : ¬ STEP_SOUTH = STEP_EAST := by decide
  have s2 : ¬ STEP_SOUTH = STEP_WEST := by decide
  have s3 : ¬ STEP_SOUTH = STEP_NORTH := by decide
  have cS : (index : Int) + STEP_SOUTH = (index : Int) - ((16 : Nat) : Int) := by
    have : STEP_SOUTH = -((16 : Nat) : Int) := by decide
    rw [this]; ring
  unfold World.GetBlockLocation
  simp only [s1, s2, s3, if_false, if_true, my, and_240]
  have hiff : (index / 16 % 16 * 16 = 0) ↔ (index / 16 % 16 = 0) := by omega
  simp only [hiff]
  split
  · rename_i hy
    have e : toBlockIndex ((index : Int) + ((240 : Nat) : Int)) = index + 240 :=
      toBlockIndex_add _ _ (by omega)
    split <;> simp_all
  · rename_i hy
    rw [cS, toBlockIndex_sub _ _ (by omega) (by omega)]

theorem World.east_symm (w : World) (q j p i : Nat) (hj : j < BLOCKS_PER_CHUNK)
    (hlink : (w.m_heap q).m_chunkToEast = some p → (w.m_heap p).m_chunkToWest = some q)
    (h : w.GetBlockLocation ⟨some q, j⟩ STEP_EAST = ⟨some p, i⟩) :
    w.GetBlockLocation ⟨some p, i⟩ STEP_WEST = ⟨some q, j⟩ := by
  have hB : BLOCKS_PER_CHUNK = 32768 := by decide
  rw [World.GetBlockLocation_east w q j hj] at h
  split at h
  · rename_i hx
    cases he : (w.m_heap q).m_chunkToEast with
    | none =>
      rw [he] at h
      injection h with h1 _
      exact Option.noConfusion h1
    | some e =>
      rw [he] at h
      have h1 := congrArg BlockLocation.m_chunk h
      have h2 := congrArg BlockLocation.m_index h
      simp only [Option.some.injEq] at h1 h2
      subst h1
      rw [World.GetBlockLocation_west w e i (by omega), if_pos (by omega), hlink he]
      simp only [BlockLocation.mk.injEq, true_and]
      omega
  · rename_i hx
    have h1 := congrArg BlockLocation.m_chunk h
    have h2 := congrArg BlockLocation.m_index h
    simp only [Option.some.injEq] at h1 h2
    subst h1
    rw [World.GetBlockLocation_west w q i (by omega), if_neg (by omega)]
    simp only [BlockLocation.mk.injEq, true_and]
    omega

theorem World.west_symm (w : World) (q j p i : Nat) (hj : j < BLOCKS_PER_CHUNK)
    (hlink : (w.m_heap q).m_chunkToWest = some p → (w.m_heap p).m_chunkToEast = some q)
    (h : w.GetBlockLocation ⟨some q, j⟩ STEP_WEST = ⟨some p, i⟩) :
    w.GetBlockLocation ⟨some p, i⟩ STEP_EAST = ⟨some q, j⟩ := by
  have hB : BLOCKS_PER_CHUNK = 32768 := by decide
  rw [World.GetBlockLocation_west w q j hj] at h
  split at h
  · rename_i hx
    cases he : (w.m_heap q).m_chunkToWest with
    | none =>
      rw [he] at h
      injection h with h1 _
      exact Option.noConfusion h1
    | some e =>
      rw [he] at h
      have h1 := congrArg BlockLocation.m_chunk h
      have h2 := congrArg BlockLocation.m_index h
      simp only [Option.some.injEq] at h1 h2
      subst h1
      rw [World.GetBlockLocation_east w e i (by omega), if_pos (by omega), hlink he]
      simp only [BlockLocation.mk.injEq, true_and]
      omega
  · rename_i hx
    have h1 := congrArg BlockLocation.m_chunk h
    have h2 := congrArg BlockLocation.m_index h
    simp only [Option.some.injEq] at h1 h2
    subst h1
    rw [World.GetBlockLocation_east w q i (by omega), if_neg (by omega)]
    simp only [BlockLocation.mk.injEq, true_and]
    omega

theorem World.north_symm (w : World) (q j p i : Nat) (hj : j < BLOCKS_PER_CHUNK)
    (hlink : (w.m_heap q).m_chunkToNorth = some p → (w.m_heap p).m_chunkToSouth = some q)
    (h : w.GetBlockLocation ⟨some q, j⟩ STEP_NORTH = ⟨some p, i⟩) :
    w.GetBlockLocation ⟨some p, i⟩ STEP_SOUTH = ⟨some q, j⟩ := by
  have hB : BLOCKS_PER_CHUNK = 32768 := by decide
  rw [World.GetBlockLocation_north w q j hj] at h
  split at h
  · rename_i hx
    cases he : (w.m_heap q).m_chunkToNorth with
    | none =>
      rw [he] at h
      injection h with h1 _
      exact Option.noConfusion h1
    | some e =>
      rw [he] at h
      have h1 := congrArg BlockLocation.m_chunk h
      have h2 := congrArg BlockLocation.m_index h
      simp only [Option.some.injEq] at h1 h2
      subst h1
      rw [World.GetBlockLocation_south w e i (by omega), if_pos (by omega), hlink he]
      simp only [BlockLocation.mk.injEq, true_and]
      omega
  · rename_i hx
    have h1 := congrArg BlockLocation.m_chunk h
    have h2 := congrArg BlockLocation.m_index h
    simp only [Option.some.injEq] at h1 h2
    subst h1
    rw [World.GetBlockLocation_south w q i (by omega), if_neg (by omega)]
    simp only [BlockLocation.mk.injEq, true_and]
    omega

theorem World.south_symm (w : World) (q j p i : Nat) (hj : j < BLOCKS_PER_CHUNK)
    (hlink : (w.m_heap q).m_chunkToSouth = some p → (w.m_heap p).m_chunkToNorth = some q)
    (h : w.GetBlockLocation ⟨some q, j⟩ STEP_SOUTH = ⟨some p, i⟩) :
    w.GetBlockLocation ⟨some p, i⟩ STEP_NORTH = ⟨some q, j⟩ := by
  have hB : BLOCKS_PER_CHUNK = 32768 := by decide
  rw [World.GetBlockLocation_south w q j hj] at h
  split at h
  · rename_i hx
    cases he : (w.m_heap q).m_chunkToSouth with
    | none =>
      rw [he] at h
      injection h with h1 _
      exact Option.noConfusion h1
    | some e =>
      rw [he] at h
      have h1 := congrArg BlockLocation.m_chunk h
      have h2 := congrArg BlockLocation.m_index h
      simp only [Option.some.injEq] at h1 h2
      subst h1
      rw [World.GetBlockLocation_north w e i (by omega), if_pos (by omega), hlink he]
      simp only [BlockLocation.mk.injEq, true_and]
      omega
  · rename_i hx
    have h1 := congrArg BlockLocation.m_chunk h
    have h2 := congrArg BlockLocation.m_index h
    simp only [Option.some.injEq] at h1 h2
    subst h1
    rw [World.GetBlockLocation_north w q i (by omega), if_neg (by omega)]
    simp only [BlockLocation.mk.injEq, true_and]
    omega

theorem World.up_symm (w : World) (q j p i : Nat) (hj : j < BLOCKS_PER_CHUNK)
    (h : w.GetBlockLocation ⟨some q, j⟩ STEP_UP = ⟨some p, i⟩) :
    w.GetBlockLocation ⟨some p, i⟩ STEP_DOWN = ⟨some q, j⟩ := by
  have hB : BLOCKS_PER_CHUNK = 32768 := by decide
  rw [World.GetBlockLocation_up w q j hj] at h
  split at h
  · have h1 := congrArg BlockLocation.m_chunk h
    have h2 := congrArg BlockLocation.m_index h
    simp only [Option.some.injEq] at h1 h2
    subst h1
    rw [World.GetBlockLocation_down w q i (by omega), if_pos (by omega)]
    simp only [BlockLocation.mk.injEq, true_and]
    omega
  · injection h with h1 _
    exact Option.noConfusion h1

theorem World.down_symm (w : World) (q j p i : Nat) (hj : j < BLOCKS_PER_CHUNK)
    (h : w.GetBlockLocation ⟨some q, j⟩ STEP_DOWN = ⟨some p, i⟩) :
    w.GetBlockLocation ⟨some p, i⟩ STEP_UP = ⟨some q, j⟩ := by
  have hB : BLOCKS_PER_CHUNK = 32768 := by decide
  rw [World.GetBlockLocation_down w q j hj] at h
  split at h
  · have h1 := congrArg BlockLocation.m_chunk h
    have h2 := congrArg BlockLocation.m_index h
    simp only [Option.some.injEq] at h1 h2
    subst h1
    rw [World.GetBlockLocation_up w q i (by omega), if_pos (by omega)]
    simp only [BlockLocation.mk.injEq, true_and]
    omega
  · injection h with h1 _
    exact Option.noConfusion h1

/-- A cell is not among its own neighbours. -/
theorem World.neighbor_irrefl (w : World) (p i : Nat) (off : Int) (hi : i < BLOCKS_PER_CHUNK)
    (hoff : off ∈ neighborSteps) : w.GetBlockLocation ⟨some p, i⟩ off ≠ ⟨some p, i⟩ := by
  simp only [neighborSteps, List.mem_cons, List.mem_singleton, List.not_mem_nil, or_false]
    at hoff
  rcases hoff with rfl | rfl | rfl | rfl | rfl | rfl
  · exact World.up_ne w p i i hi (by omega)
  · exact World.down_ne w p i i hi (by omega)
  · exact World.lateral_ne w p i i hi rfl _ (Or.inl rfl)
  · exact World.lateral_ne w p i i hi rfl _ (Or.inr (Or.inl rfl))
  · exact World.lateral_ne w p i i hi rfl _ (Or.inr (Or.inr (Or.inl rfl)))
  · exact World.lateral_ne w p i i hi rfl _ (Or.inr (Or.inr (Or.inr rfl)))

/-! ## Lighting: the state after the queue is drained -/

theorem World.activatedCell_inert (w : World) (p index : Nat) (endedSky : Bool)
    (h : ((w.m_heap p).m_blocks index).Inert) :
    World.OnChunkActivated.cell w p index endedSky = (w, true) := by
  obtain ⟨h1, h2, h3⟩ := h
  unfold World.OnChunkActivated.cell
  simp only [h1, h2, h3, decide_False, Bool.and_false, Bool.false_eq_true, if_false, ne_eq,
    not_true_eq_false, Bool.not_true, Bool.false_and]

theorem World.GetBlockLocation_frame {w w' : World} (h : w.Frame w') (l : BlockLocation)
    (off : Int) : w'.GetBlockLocation l off = w.GetBlockLocation l off := by
  unfold World.GetBlockLocation
  cases hc : l.m_chunk with
  | none => rfl
  | some p =>
    simp only
    rw [(h.links p).north, (h.links p).south, (h.links p).east, (h.links p).west]

theorem World.maxWithNeighbor_le (w : World) (l : BlockLocation) (off : Int) (m : Nat)
    (hm : m ≤ 15) : w.maxWithNeighbor l off m ≤ 15 := by
  unfold World.maxWithNeighbor
  simp only
  split
  · split
    · exact Block.light_le _
    · exact hm
  · exact hm

theorem World.le_maxWithNeighbor (w : World) (l : BlockLocation) (off : Int) (m : Nat) :
    m ≤ w.maxWithNeighbor l off m := by
  unfold World.maxWithNeighbor
  simp only
  split
  · split
    · rename_i h
      exact Nat.le_of_lt h
    · exact Nat.le_refl m
  · exact Nat.le_refl m

theorem World.maxAdjacentLighting_bounds (w : World) (l : BlockLocation) :
    1 ≤ w.maxAdjacentLighting l ∧ w.maxAdjacentLighting l ≤ 15 := by
  unfold World.maxAdjacentLighting
  simp only
  have hi := inherentLight_le (w.GetBlock l).m_type
  have h0 : ((g_blockDefinitions (w.GetBlock l).m_type).m_inherentLightValue + 1) % 256
      = (g_blockDefinitions (w.GetBlock l).m_type).m_inherentLightValue + 1 :=
    Nat.mod_eq_of_lt (by omega)
  rw [h0]
  constructor
  · refine Nat.le_trans ?_ (World.le_maxWithNeighbor _ _ _ _)
    refine Nat.le_trans ?_ (World.le_maxWithNeighbor _ _ _ _)
    refine Nat.le_trans ?_ (World.le_maxWithNeighbor _ _ _ _)
    refine Nat.le_trans ?_ (World.le_maxWithNeighbor _ _ _ _)
    refine Nat.le_trans ?_ (World.le_maxWithNeighbor _ _ _ _)
    refine Nat.le_trans ?_ (World.le_maxWithNeighbor _ _ _ _)
    omega
  · apply World.maxWithNeighbor_le
    apply World.maxWithNeighbor_le
    apply World.maxWithNeighbor_le
    apply World.maxWithNeighbor_le
    apply World.maxWithNeighbor_le
    apply World.maxWithNeighbor_le
    omega

/-- The ideal light of a cell is a light value: it is below 16. -/
theorem World.ideal_lt (w : World) (l : BlockLocation) :
    w.CalculateIdealLightingForBlock l < 16 := by
  unfold World.CalculateIdealLightingForBlock
  simp only
  have h := World.maxAdjacentLighting_bounds w l
  split
  · omega
  · omega

theorem World.maxWithNeighbor_congr {w w' : World} (h : w.Frame w') (l : BlockLocation)
    (off : Int) (m : Nat)
    (hl : ∀ r k, w.GetBlockLocation l off = ⟨some r, k⟩ →
      ((w'.m_heap r).m_blocks k).GetLightValue = ((w.m_heap r).m_blocks k).GetLightValue) :
    w'.maxWithNeighbor l off m = w.maxWithNeighbor l off m := by
  unfold World.maxWithNeighbor
  simp only
  rw [World.GetBlockLocation_frame h]
  rcases hloc : w.GetBlockLocation l off with ⟨c, k⟩
  cases c with
  | none => rfl
  | some r =>
    have := hl r k hloc
    simp only [World.GetBlock, Option.isSome_some, if_true]
    rw [this]

/-- The ideal light of a cell depends on the world through the links and the light
level, the type and the sky flag of the cell, and the light values of its neighbours. -/
theorem World.ideal_congr {w w' : World} (h : w.Frame w') (q j : Nat)
    (htype : ((w'.m_heap q).m_blocks j).m_type = ((w.m_heap q).m_blocks j).m_type)
    (hsky : ((w'.m_heap q).m_blocks j).IsSky = ((w.m_heap q).m_blocks j).IsSky)
    (hl : ∀ off r k, off ∈ neighborSteps → w.GetBlockLocation ⟨some q, j⟩ off = ⟨some r, k⟩ →
      ((w'.m_heap r).m_blocks k).GetLightValue = ((w.m_heap r).m_blocks k).GetLightValue) :
    w'.CalculateIdealLightingForBlock ⟨some q, j⟩
      = w.CalculateIdealLightingForBlock ⟨some q, j⟩ := by
  have hmax : w'.maxAdjacentLighting ⟨some q, j⟩ = w.maxAdjacentLighting ⟨some q, j⟩ := by
    unfold World.maxAdjacentLighting
    simp only [World.GetBlock, htype]
    have hU := fun m => World.maxWithNeighbor_congr h ⟨some q, j⟩ STEP_UP m
      (fun r k => hl STEP_UP r k (by simp [neighborSteps]))
    have hD := fun m => World.maxWithNeighbor_congr h ⟨some q, j⟩ STEP_DOWN m
      (fun r k => hl STEP_DOWN r k (by simp [neighborSteps]))
    have hN := fun m => World.maxWithNeighbor_congr h ⟨some q, j⟩ STEP_NORTH m
      (fun r k => hl STEP_NORTH r k (by simp [neighborSteps]))
    have hS := fun m => World.maxWithNeighbor_congr h ⟨some q, j⟩ STEP_SOUTH m
      (fun r k => hl STEP_SOUTH r k (by simp [neighborSteps]))
    have hE := fun m => World.maxWithNeighbor_congr h ⟨some q, j⟩ STEP_EAST m
      (fun r k => hl STEP_EAST r k (by simp [neighborSteps]))
    have hW := fun m => World.maxWithNeighbor_congr h ⟨some q, j⟩ STEP_WEST m
      (fun r k => hl STEP_WEST r k (by simp [neighborSteps]))
    rw [hU, hD, hN, hS, hE, hW]
  unfold World.CalculateIdealLightingForBlock
  simp only [World.GetBlock, hmax, hsky, h.lightLevel]

/-! ## Steps that only set dirty flags -/

theorem World.dirtied_refl (w : World) : w.Dirtied w :=
  ⟨World.Frame.refl w, fun _ _ => Or.inl rfl, fun _ h => h⟩

theorem World.dirtied_trans {a b c : World} (h1 : a.Dirtied b) (h2 : b.Dirtied c) :
    a.Dirtied c := by
  refine ⟨h1.frame.trans h2.frame, ?_, fun l h => h2.queue l (h1.queue l h)⟩
  intro r k
  rcases h2.cells r k with e2 | ⟨e2, q2⟩
  · rcases h1.cells r k with e1 | ⟨e1, q1⟩
    · exact Or.inl (e2.trans e1)
    · exact Or.inr ⟨e2.trans e1, h2.queue _ q1⟩
  · rcases h1.cells r k with e1 | ⟨e1, _⟩
    · exact Or.inr ⟨by rw [e2, e1], q2⟩
    · exact Or.inr ⟨by rw [e2, e1, Block.DirtyLighting_idem], q2⟩

theorem World.dirtyNeighbor_dirtied (w : World) (l : BlockLocation) (off : Int)
    (hdebug : w.g_debugPointsEnabled = false) : w.Dirtied (w.dirtyNeighbor l off) := by
  refine ⟨World.frame_dirtyNeighbor w l off, ?_, ?_⟩
  · intro r k
    unfold World.dirtyNeighbor
    simp only [hdebug]
    rcases hloc : w.GetBlockLocation l off with ⟨c, idx⟩
    cases c with
    | none => exact Or.inl rfl
    | some q =>
      simp only
      split
      · by_cases hc : r = q ∧ k = idx
        · right
          obtain ⟨rfl, rfl⟩ := hc
          constructor
          · rw [World.blocks_pushDirty, World.blocks_setBlock, if_pos ⟨rfl, rfl⟩]
            unfold World.GetBlock
            simp only
            rw [World.blocks_dirtyVbo]
          · unfold World.pushDirty
            simp
        · left
          rw [World.blocks_pushDirty, World.blocks_setBlock, if_neg hc, World.blocks_dirtyVbo]
      · exact Or.inl (World.blocks_dirtyVbo _ _ _ _)
  · intro x hx
    unfold World.dirtyNeighbor
    simp only [hdebug]
    rcases hloc : w.GetBlockLocation l off with ⟨c, idx⟩
    cases c with
    | none => exact hx
    | some q =>
      simp only
      split
      · unfold World.pushDirty
        simp only [Bool.false_eq_true, if_false]
        exact List.mem_cons_of_mem _ hx
      · exact hx

theorem World.DirtyNonopaqueNeighbors_dirtied (w : World) (l : BlockLocation) (b : Bool)
    (hdebug : w.g_debugPointsEnabled = false) :
    w.Dirtied (w.DirtyNonopaqueNeighbors l b) := by
  have step : ∀ (v : World) (off : Int), w.Dirtied v → w.Dirtied (v.dirtyNeighbor l off) := by
    intro v off hv
    exact World.dirtied_trans hv
      (World.dirtyNeighbor_dirtied v l off (hv.frame.debug.trans hdebug))
  unfold World.DirtyNonopaqueNeighbors
  simp only
  cases b
  · simp only [Bool.false_eq_true, if_false]
    exact step _ _ (step _ _ (step _ _ (step _ _ (World.dirtied_refl w))))
  · simp only [if_true]
    exact step _ _ (step _ _ (step _ _ (step _ _ (step _ _ (step _ _ (World.dirtied_refl w))))))

theorem World.dirtied_type {w w' : World} (h : w.Dirtied w') (r k : Nat) :
    ((w'.m_heap r).m_blocks k).m_type = ((w.m_heap r).m_blocks k).m_type := by
  rcases h.cells r k with e | ⟨e, _⟩ <;> rw [e]
  rfl

theorem World.dirtied_sky {w w' : World} (h : w.Dirtied w') (r k : Nat) :
    ((w'.m_heap r).m_blocks k).IsSky = ((w.m_heap r).m_blocks k).IsSky := by
  rcases h.cells r k with e | ⟨e, _⟩ <;> rw [e]
  exact Block.isSky_DirtyLighting _

theorem World.dirtied_light {w w' : World} (h : w.Dirtied w') (r k : Nat) :
    ((w'.m_heap r).m_blocks k).GetLightValue = ((w.m_heap r).m_blocks k).GetLightValue := by
  rcases h.cells r k with e | ⟨e, _⟩ <;> rw [e]
  exact Block.light_DirtyLighting _

theorem World.dirtied_mono {w w' : World} (h : w.Dirtied w') (r k : Nat)
    (hd : ((w.m_heap r).m_blocks k).IsLightingDirty = true) :
    ((w'.m_heap r).m_blocks k).IsLightingDirty = true := by
  rcases h.cells r k with e | ⟨e, _⟩ <;> rw [e]
  · exact hd
  · exact Block.isDirty_DirtyLighting _

theorem World.dirtied_fresh {w w' : World} (h : w.Dirtied w') (r k : Nat)
    (hd : ((w'.m_heap r).m_blocks k).IsLightingDirty = true) :
    ((w.m_heap r).m_blocks k).IsLightingDirty = true ∨ ⟨some r, k⟩ ∈ w'.m_dirtyBlocks := by
  rcases h.cells r k with e | ⟨_, hq⟩
  · rw [e] at hd
    exact Or.inl hd
  · exact Or.inr hq

/-- A neighbour step flags the cell it leads to dirty, when that cell is not opaque. -/
theorem World.dirtyNeighbor_marks (w : World) (l : BlockLocation) (off : Int) (r k : Nat)
    (hloc : w.GetBlockLocation l off = ⟨some r, k⟩)
    (hopq : (g_blockDefinitions ((w.m_heap r).m_blocks k).m_type).m_isOpaque = false) :
    (((w.dirtyNeighbor l off).m_heap r).m_blocks k).IsLightingDirty = true := by
  have h := World.dirtyNeighbor_hit w l off r k false hloc
  rw [hopq] at h
  cases hd : ((w.m_heap r).m_blocks k).IsLightingDirty
  · rw [hd] at h
    simp only [Bool.not_false, Bool.and_self, if_true] at h
    rw [h.1]
    exact Block.isDirty_DirtyLighting _
  · rw [hd] at h
    simp only [Bool.not_false, Bool.not_true, Bool.and_false, Bool.false_eq_true, if_false] at h
    rw [h.1]
    exact hd

/-! ## One call of `UpdateLightingForBlock` -/

/-- The call `DirtyNonopaqueNeighbors(blockLocation, true)` flags every neighbour of the
cell that is not opaque. -/
theorem World.DirtyNonopaqueNeighbors_marks (w : World) (l : BlockLocation) (off : Int)
    (r k : Nat) (hdebug : w.g_debugPointsEnabled = false) (hoff : off ∈ neighborSteps)
    (hloc : w.GetBlockLocation l off = ⟨some r, k⟩)
    (hopq : (g_blockDefinitions ((w.m_heap r).m_blocks k).m_type).m_isOpaque = false) :
    (((w.DirtyNonopaqueNeighbors l true).m_heap r).m_blocks k).IsLightingDirty = true := by
  -- a step for `off` taken in a world reached by flagging marks the cell
  have mark : ∀ v : World, w.Dirtied v →
      (((v.dirtyNeighbor l off).m_heap r).m_blocks k).IsLightingDirty = true := by
    intro v hv
    apply World.dirtyNeighbor_marks v l off r k
    · rw [World.GetBlockLocation_frame hv.frame]
      exact hloc
    · rw [World.dirtied_type hv]
      exact hopq
  -- later steps keep the flag
  have keep : ∀ (v : World) (o : Int), w.Dirtied v →
      ((v.m_heap r).m_blocks k).IsLightingDirty = true →
      (((v.dirtyNeighbor l o).m_heap r).m_blocks k).IsLightingDirty = true := by
    intro v o hv hd
    exact World.dirtied_mono
      (World.dirtyNeighbor_dirtied v l o (hv.frame.debug.trans hdebug)) r k hd
  have next : ∀ (v : World) (o : Int), w.Dirtied v → w.Dirtied (v.dirtyNeighbor l o) := by
    intro v o hv
    exact World.dirtied_trans hv
      (World.dirtyNeighbor_dirtied v l o (hv.frame.debug.trans hdebug))
  unfold World.DirtyNonopaqueNeighbors
  simp only [if_true]
  have d0 := World.dirtied_refl w
  have d1 := next _ STEP_UP d0
  have d2 := next _ STEP_DOWN d1
  have d3 := next _ STEP_NORTH d2
  have d4 := next _ STEP_SOUTH d3
  have d5 := next _ STEP_EAST d4
  simp only [neighborSteps, List.mem_cons, List.mem_singleton, List.not_mem_nil, or_false]
    at hoff
  rcases hoff with rfl | rfl | rfl | rfl | rfl | rfl
  · exact keep _ _ d5 (keep _ _ d4 (keep _ _ d3 (keep _ _ d2 (keep _ _ d1 (mark _ d0)))))
  · exact keep _ _ d5 (keep _ _ d4 (keep _ _ d3 (keep _ _ d2 (mark _ d1))))
  · exact keep _ _ d5 (keep _ _ d4 (keep _ _ d3 (mark _ d2)))
  · exact keep _ _ d5 (keep _ _ d4 (mark _ d3))
  · exact keep _ _ d5 (mark _ d4)
  · exact mark _ d5

/-- The last statement of `UpdateLightingForBlock` after statements that wrote a light
value to the cell and flagged cells dirty. -/
theorem World.relit_of (w w1 w2 : World) (p i : Nat) (hF : w.Frame w1)
    (hq : w1.m_dirtyBlocks = w.m_dirtyBlocks)
    (hcell : ∀ r k, ¬ (r = p ∧ k = i) → (w1.m_heap r).m_blocks k = (w.m_heap r).m_blocks k)
    (htype : ((w1.m_heap p).m_blocks i).m_type = ((w.m_heap p).m_blocks i).m_type)
    (hsky : ((w1.m_heap p).m_blocks i).IsSky = ((w.m_heap p).m_blocks i).IsSky)
    (hown : ((w1.m_heap p).m_blocks i).GetLightValue
      = w.CalculateIdealLightingForBlock ⟨some p, i⟩)
    (hD : w1.Dirtied w2)
    (hmarks : ((w.m_heap p).m_blocks i).GetLightValue
        ≠ w.CalculateIdealLightingForBlock ⟨some p, i⟩ →
      ∀ off r k, off ∈ neighborSteps → w.GetBlockLocation ⟨some p, i⟩ off = ⟨some r, k⟩ →
        ¬ (r = p ∧ k = i) →
        (g_blockDefinitions ((w.m_heap r).m_blocks k).m_type).m_isOpaque = false →
        ((w2.m_heap r).m_blocks k).IsLightingDirty = true) :
    w.Relit p i (w2.setBlock p i ((w2.m_heap p).m_blocks i).UndirtyLighting) := by
  have hother : ∀ r k, ¬ (r = p ∧ k = i) →
      ((w2.setBlock p i ((w2.m_heap p).m_blocks i).UndirtyLighting).m_heap r).m_blocks k
        = (w2.m_heap r).m_blocks k := by
    intro r k hne
    rw [World.blocks_setBlock, if_neg hne]
  have hself : ((w2.setBlock p i ((w2.m_heap p).m_blocks i).UndirtyLighting).m_heap p).m_blocks i
      = ((w2.m_heap p).m_blocks i).UndirtyLighting := by
    rw [World.blocks_setBlock, if_pos ⟨rfl, rfl⟩]
  refine ⟨(hF.trans hD.frame).trans (World.frame_setBlock _ _ _ _), ?_, ?_, ?_, ?_, ?_, ?_, ?_,
    ?_, ?_⟩
  · intro r k
    by_cases hc : r = p ∧ k = i
    · obtain ⟨rfl, rfl⟩ := hc
      rw [hself]
      show ((w2.m_heap r).m_blocks k).m_type = _
      rw [World.dirtied_type hD, htype]
    · rw [hother r k hc, World.dirtied_type hD, hcell r k hc]
  · intro r k
    by_cases hc : r = p ∧ k = i
    · obtain ⟨rfl, rfl⟩ := hc
      rw [hself, Block.isSky_UndirtyLighting, World.dirtied_sky hD, hsky]
    · rw [hother r k hc, World.dirtied_sky hD, hcell r k hc]
  · intro r k hc
    rw [hother r k hc, World.dirtied_light hD, hcell r k hc]
  · rw [hself, Block.light_UndirtyLighting, World.dirtied_light hD, hown]
  · rw [hself]
    exact Block.isDirty_UndirtyLighting _
  · intro r k hc hd
    rw [hother r k hc]
    apply World.dirtied_mono hD
    rw [hcell r k hc]
    exact hd
  · intro r k hc hd
    rw [hother r k hc] at hd
    rcases World.dirtied_fresh hD r k hd with h | h
    · rw [hcell r k hc] at h
      exact Or.inl h
    · exact Or.inr h
  · intro l hl
    apply hD.queue
    rw [hq]
    exact hl
  · intro hne off r k hoff hloc hc hop
    rw [hother r k hc]
    exact hmarks hne off r k hoff hloc hc hop

theorem World.UpdateLightingForBlock_relit (w : World) (p i : Nat)
    (hdebug : w.g_debugPointsEnabled = false) :
    w.Relit p i (w.UpdateLightingForBlock ⟨some p, i⟩) := by
  unfold World.UpdateLightingForBlock
  simp only [World.GetBlock]
  by_cases hEq : ((w.m_heap p).m_blocks i).GetLightValue
      = w.CalculateIdealLightingForBlock ⟨some p, i⟩
  · simp only [ne_eq, hEq, not_true_eq_false, if_false]
    exact World.relit_of w w w p i (World.Frame.refl w) rfl (fun _ _ _ => rfl) rfl rfl hEq
      (World.dirtied_refl w) (fun hne => absurd hEq hne)
  · simp only [ne_eq, hEq, not_false_eq_true, if_true]
    have hlt := World.ideal_lt w ⟨some p, i⟩
    have hF := World.frame_setBlock w p i
      (((w.m_heap p).m_blocks i).SetLightValue (w.CalculateIdealLightingForBlock ⟨some p, i⟩))
    have hself : ((w.setBlock p i (((w.m_heap p).m_blocks i).SetLightValue
        (w.CalculateIdealLightingForBlock ⟨some p, i⟩))).m_heap p).m_blocks i
        = ((w.m_heap p).m_blocks i).SetLightValue
          (w.CalculateIdealLightingForBlock ⟨some p, i⟩) := by
      rw [World.blocks_setBlock, if_pos ⟨rfl, rfl⟩]
    have hcell : ∀ r k, ¬ (r = p ∧ k = i) →
        ((w.setBlock p i (((w.m_heap p).m_blocks i).SetLightValue
          (w.CalculateIdealLightingForBlock ⟨some p, i⟩))).m_heap r).m_blocks k
          = (w.m_heap r).m_blocks k := by
      intro r k hc
      rw [World.blocks_setBlock, if_neg hc]
    refine World.relit_of w _ _ p i hF rfl hcell ?_ ?_ ?_
      (World.DirtyNonopaqueNeighbors_dirtied _ _ true (hF.debug.trans hdebug)) ?_
    · rw [hself]
      rfl
    · rw [hself]
      exact Block.isSky_SetLightValue _ _ hlt
    · rw [hself]
      exact Block.light_SetLightValue _ _ hlt
    · intro _ off r k hoff hloc hc hop
      apply World.DirtyNonopaqueNeighbors_marks _ _ off r k (hF.debug.trans hdebug) hoff
      · rw [World.GetBlockLocation_frame hF]
        exact hloc
      · rw [hcell r k hc]
        exact hop

/-! ## The queue discipline is kept by `UpdateLighting` -/

theorem World.findChunk_frame {w w' : World} (h : w.Frame w') (c : ChunkCoords) :
    w'.findChunk c = w.findChunk c := by
  unfold World.findChunk
  rw [h.active]

theorem ldiff_mask (k n : Nat) : Nat.ldiff (2 ^ k - 1) n = 2 ^ k - (n % 2 ^ k + 1) := by
  apply Nat.eq_of_testBit_eq
  intro i
  rw [Nat.testBit_ldiff, Nat.testBit_two_pow_sub_one,
    Nat.testBit_two_pow_sub_succ (Nat.mod_lt n (Nat.two_pow_pos k)), Nat.testBit_mod_two_pow]
  by_cases h : i < k
  · simp [h]
  · simp [h]

/-- The bitwise `and` of an `int` with the mask `2 ^ k - 1` is the remainder of the
division by `2 ^ k`, also for a negative `int` (two's complement). -/
theorem land_mask (x : Int) (k : Nat) :
    Int.land x ((2 ^ k - 1 : Nat) : Int) = x % ((2 ^ k : Nat) : Int) := by
  cases x with
  | ofNat n =>
    show ((n &&& (2 ^ k - 1) : Nat) : Int) = (n : Int) % ((2 ^ k : Nat) : Int)
    rw [Nat.and_pow_two_sub_one_eq_mod]
    exact Int.natCast_mod n (2 ^ k)
  | negSucc n =>
    show ((Nat.ldiff (2 ^ k - 1) n : Nat) : Int) = Int.negSucc n % ((2 ^ k : Nat) : Int)
    rw [ldiff_mask, Int.negSucc_emod n (by exact_mod_cast Nat.two_pow_pos k)]
    have h1 := Nat.mod_lt n (Nat.two_pow_pos k)
    have h2 : ((n % 2 ^ k : Nat) : Int) = (n : Int) % ((2 ^ k : Nat) : Int) :=
      Int.natCast_mod n (2 ^ k)
    omega

theorem land_x_mask (x : Int) : Int.land x CHUNK_X_MASK = x % 16 := land_mask x 4

theorem land_y_mask (x : Int) : Int.land x CHUNK_Y_MASK = x % 16 := land_mask x 4

theorem land_z_mask (x : Int) : Int.land x CHUNK_Z_MASK = x % 128 := land_mask x 7

/-- The index of a world coordinate whose floored height is below the height of a
chunk, as a sum. -/
theorem index_of_world_coords (worldCoords : WorldCoords)
    (hz : RoundDownToInt worldCoords.z < BLOCKS_PER_CHUNK_Z) :
    Chunk.GetIndexAtWorldCoords worldCoords
      = (RoundDownToInt worldCoords.x % 16).toNat + 16 * (RoundDownToInt worldCoords.y % 16).toNat
        + 256 * (RoundDownToInt worldCoords.z % 128).toNat := by
  unfold Chunk.GetIndexAtWorldCoords
  simp only [ge_iff_le, not_le.mpr hz, if_false, land_x_mask, land_y_mask, land_z_mask]
  have hx := Int.emod_nonneg (RoundDownToInt worldCoords.x) (by decide : (16 : Int) ≠ 0)
  have hy := Int.emod_nonneg (RoundDownToInt worldCoords.y) (by decide : (16 : Int) ≠ 0)
  have hz' := Int.emod_nonneg (RoundDownToInt worldCoords.z) (by decide : (128 : Int) ≠ 0)
  have hx2 := Int.emod_lt_of_pos (RoundDownToInt worldCoords.x) (by decide : (0 : Int) < 16)
  have hy2 := Int.emod_lt_of_pos (RoundDownToInt worldCoords.y) (by decide : (0 : Int) < 16)
  have hz2 := Int.emod_lt_of_pos (RoundDownToInt worldCoords.z) (by decide : (0 : Int) < 128)
  obtain ⟨a, ha⟩ := Int.eq_ofNat_of_zero_le hx
  obtain ⟨b, hb⟩ := Int.eq_ofNat_of_zero_le hy
  obtain ⟨d, hd⟩ := Int.eq_ofNat_of_zero_le hz'
  rw [ha, hb, hd]
  have e := index_of_nat_coords a b d
  unfold Chunk.GetIndexAtLocalCoords at e
  simp only at e
  rw [e, packed_eq_sum a b d (by omega) (by omega)]
  simp only [Int.toNat_ofNat]
  omega

/-- C17.  Invalid-index sentinel: `GetIndexAtWorldCoords` returns 65535, which is not
below `BLOCKS_PER_CHUNK`, when the floored z coordinate is at least the height of a
chunk (128); otherwise it returns an index below `BLOCKS_PER_CHUNK` whose local
coordinates are the floored x and y modulo 16 and the floored z modulo 128. -/
theorem invalid_index_sentinel (worldCoords : WorldCoords) :
    BLOCKS_PER_CHUNK_Z = 128 ∧
    ((BLOCKS_PER_CHUNK_Z : Int) ≤ RoundDownToInt worldCoords.z →
      Chunk.GetIndexAtWorldCoords worldCoords = 65535 ∧
      BLOCKS_PER_CHUNK ≤ Chunk.GetIndexAtWorldCoords worldCoords) ∧
    (RoundDownToInt worldCoords.z < (BLOCKS_PER_CHUNK_Z : Int) →
      Chunk.GetIndexAtWorldCoords worldCoords < BLOCKS_PER_CHUNK ∧
      Chunk.GetLocalCoordsAtIndex (Chunk.GetIndexAtWorldCoords worldCoords)
        = ⟨RoundDownToInt worldCoords.x % 16, RoundDownToInt worldCoords.y % 16,
          RoundDownToInt worldCoords.z % 128⟩) := by
  have hB : BLOCKS_PER_CHUNK = 32768 := by decide
  refine ⟨by decide, ?_, ?_⟩
  · intro hz
    have e : Chunk.GetIndexAtWorldCoords worldCoords = 65535 := by
      unfold Chunk.GetIndexAtWorldCoords
      simp only [ge_iff_le, hz, if_true]
      decide
    rw [e, hB]
    exact ⟨rfl, by omega⟩
  · intro hz
    rw [index_of_world_coords worldCoords hz, coords_of_index, hB]
    have hx := Int.emod_nonneg (RoundDownToInt worldCoords.x) (by decide : (16 : Int) ≠ 0)
    have hy := Int.emod_nonneg (RoundDownToInt worldCoords.y) (by decide : (16 : Int) ≠ 0)
    have hz' := Int.emod_nonneg (RoundDownToInt worldCoords.z) (by decide : (128 : Int) ≠ 0)
    have hx2 := Int.emod_lt_of_pos (RoundDownToInt worldCoords.x) (by decide : (0 : Int) < 16)
    have hy2 := Int.emod_lt_of_pos (RoundDownToInt worldCoords.y) (by decide : (0 : Int) < 16)
    have hz2 := Int.emod_lt_of_pos (RoundDownToInt worldCoords.z) (by decide : (0 : Int) < 128)
    generalize RoundDownToInt worldCoords.x % 16 = a at *
    generalize RoundDownToInt worldCoords.y % 16 = b at *
    generalize RoundDownToInt worldCoords.z % 128 = d at *
    refine ⟨by omega, ?_⟩
    have e1 : (((a.toNat + 16 * b.toNat + 256 * d.toNat) % 16 : Nat) : Int) = a := by omega
    have e2 : (((a.toNat + 16 * b.toNat + 256 * d.toNat) % 256 / 16 : Nat) : Int) = b := by
      omega
    have e3 : (((a.toNat + 16 * b.toNat + 256 * d.toNat) / 256 : Nat) : Int) = d := by omega
    rw [e1, e2, e3]

theorem invalid_index_sentinel_witness :
    BLOCKS_PER_CHUNK_Z = 128 ∧
    ((BLOCKS_PER_CHUNK_Z : Int) ≤ RoundDownToInt (128 : ℚ) →
      Chunk.GetIndexAtWorldCoords ⟨-3 / 2, 20, 128⟩ = 65535 ∧
      BLOCKS_PER_CHUNK ≤ Chunk.GetIndexAtWorldCoords ⟨-3 / 2, 20, 128⟩) ∧
    (RoundDownToInt (128 : ℚ) < (BLOCKS_PER_CHUNK_Z : Int) →
      Chunk.GetIndexAtWorldCoords ⟨-3 / 2, 20, 128⟩ < BLOCKS_PER_CHUNK ∧
      Chunk.GetLocalCoordsAtIndex (Chunk.GetIndexAtWorldCoords ⟨-3 / 2, 20, 128⟩)
        = ⟨RoundDownToInt (-3 / 2 : ℚ) % 16, RoundDownToInt (20 : ℚ) % 16,
          RoundDownToInt (128 : ℚ) % 128⟩) :=
  invalid_index_sentinel ⟨-3 / 2, 20, 128⟩

/-! ## Links and the active set -/

theorem World.isChunkActive_iff (w : World) (c : ChunkCoords) :
    w.IsChunkActive c = true ↔ ∃ p, w.findChunk c = some p := by
  unfold World.IsChunkActive World.findChunk
  generalize w.m_activeChunks = l
  induction l with
  | nil => simp
  | cons e rest ih =>
    obtain ⟨ec, ep⟩ := e
    simp only [List.any_cons, Bool.or_eq_true, decide_eq_true_eq, List.find?_cons]
    by_cases h : ec = c
    · subst h
      simp
    · have h' : ¬ c = ec := fun x => h x.symm
      simp only [h, h', false_or, decide_False]
      exact ih

theorem Chunk.link_north (c : Chunk) : c.link Dir.north = c.m_chunkToNorth := rfl

theorem Chunk.link_south (c : Chunk) : c.link Dir.south = c.m_chunkToSouth := rfl

theorem World.linkOfMirror (w : World) (inv : w.StreamInv) (c : ChunkCoords) (p : Nat) (d : Dir)
    (q : Nat) (fc : w.findChunk c = some p) (fa : w.findChunk (c.adjacent d) = some q) :
    (w.m_heap p).link d = some q := by
  rw [inv.mirror c p d fc, fa]

theorem any_filter_ne (l : List (ChunkCoords × Nat)) (c : ChunkCoords) :
    (l.filter (fun e => e.1 ≠ c)).any (fun e => c = e.1) = false := by
  induction l with
  | nil => rfl
  | cons e rest ih =>
    by_cases h : e.1 = c
    · simp only [List.filter_cons, h, ne_eq, not_true_eq_false, decide_False,
        Bool.false_eq_true, if_false]
      exact ih
    · have h' : ¬ c = e.1 := fun x => h x.symm
      simp only [List.filter_cons, h, ne_eq, not_false_eq_true, decide_True, if_true,
        List.any_cons, h', decide_False, Bool.false_or]
      exact ih

/-- While the world shuts down, `DeactivateChunk` leaves the links of the chunks next to
the removed one as they are: a chunk `c'` whose link in the direction `d` leads to the
removed chunk `c` keeps that link, and `c` is no longer active. -/
theorem World.shutdown_keeps_link (w : World) (c c' : ChunkCoords) (p p' : Nat) (d : Dir)
    (hc : w.findChunk c = some p) (hne : c' ≠ c) (hc' : (c', p') ∈ w.m_activeChunks)
    (hl : (w.m_heap p').link d ≠ none) (hadj : c'.adjacent d = c) :
    ∃ w', ({ w with m_isRunning := false } : World).DeactivateChunk c = some w' ∧
      (c', p') ∈ w'.m_activeChunks ∧ (w'.m_heap p').link d ≠ none ∧
      w'.IsChunkActive (c'.adjacent d) = false := by
  refine ⟨{ ({ w with m_isRunning := false } : World) with
      m_activeChunks := w.m_activeChunks.filter (fun e => e.1 ≠ c) }, ?_, ?_, hl, ?_⟩
  · unfold World.DeactivateChunk
    have f : ({ w with m_isRunning := false } : World).findChunk c = some p := hc
    rw [f]
    rfl
  · show (c', p') ∈ w.m_activeChunks.filter (fun e => e.1 ≠ c)
    rw [List.mem_filter]
    exact ⟨hc', by simpa using hne⟩
  · rw [hadj]
    exact any_filter_ne _ c

/-- C14, amended.  In every world state reached from a running world without active
chunks by `ActivateChunk` and `DeactivateChunk` calls while the world is running, for
every chunk in the active set and each of the four lateral directions, the link of the
chunk in that direction is not `NULL` if and only if the adjacent chunk coordinate is
active. -/
theorem links_mirror_active_set (w : World) (hreach : w.StreamReachable) (c : ChunkCoords)
    (p : Nat) (d : Dir) (hc : (c, p) ∈ w.m_activeChunks) :
    ((w.m_heap p).link d ≠ none ↔ w.IsChunkActive (c.adjacent d) = true) := by
  have inv := hreach.inv
  have fc : w.findChunk c = some p := findIn_of_mem _ inv.keys c p hc
  rw [inv.mirror c p d fc, World.isChunkActive_iff]
  cases h : w.findChunk (c.adjacent d) with
  | none => simp
  | some q => simp

theorem links_mirror_active_set_witness :
    ((twoChunkWorld.m_heap 1).link Dir.south ≠ none
      ↔ twoChunkWorld.IsChunkActive ((⟨0, 1⟩ : ChunkCoords).adjacent Dir.south) = true) :=
  links_mirror_active_set twoChunkWorld twoChunkWorld_reachable ⟨0, 1⟩ 1 Dir.south
    (by rw [twoChunkWorld_active]; decide)

theorem twoChunkWorld_find :
    twoChunkWorld.findChunk ⟨0, 0⟩ = some 0 ∧ twoChunkWorld.findChunk ⟨0, 1⟩ = some 1 := by
  constructor
  · rw [findChunk_eq, twoChunkWorld_active]
    decide
  · rw [findChunk_eq, twoChunkWorld_active]
    decide

/-- C14 as stated fails while the world shuts down.  `World::Shutdown` clears
`m_isRunning` and then calls `DeactivateChunk` on one active chunk after the other.
Starting from the two adjacent chunks of `twoChunkWorld`, whichever of the two is
deactivated first, the chunk that remains keeps its link to it although the coordinate
is no longer active. -/
theorem shutdown_links_counterexample :
    (∃ w', ({ twoChunkWorld with m_isRunning := false } : World).DeactivateChunk ⟨0, 0⟩
        = some w' ∧
      ((⟨0, 1⟩ : ChunkCoords), 1) ∈ w'.m_activeChunks ∧
      (w'.m_heap 1).link Dir.south ≠ none ∧
      w'.IsChunkActive ((⟨0, 1⟩ : ChunkCoords).adjacent Dir.south) = false) ∧
    (∃ w', ({ twoChunkWorld with m_isRunning := false } : World).DeactivateChunk ⟨0, 1⟩
        = some w' ∧
      ((⟨0, 0⟩ : ChunkCoords), 0) ∈ w'.m_activeChunks ∧
      (w'.m_heap 0).link Dir.north ≠ none ∧
      w'.IsChunkActive ((⟨0, 0⟩ : ChunkCoords).adjacent Dir.north) = false) := by
  have inv := twoChunkWorld_reachable.inv
  have f := twoChunkWorld_find
  have e1 : (⟨0, 1⟩ : ChunkCoords).adjacent Dir.south = ⟨0, 0⟩ := by decide
  have e0 : (⟨0, 0⟩ : ChunkCoords).adjacent Dir.north = ⟨0, 1⟩ := by decide
  have l1 := World.linkOfMirror twoChunkWorld inv ⟨0, 1⟩ 1 Dir.south 0 f.2 (by rw [e1]; exact f.1)
  have l0 := World.linkOfMirror twoChunkWorld inv ⟨0, 0⟩ 0 Dir.north 1 f.1 (by rw [e0]; exact f.2)
  have m1 : ((⟨0, 1⟩ : ChunkCoords), 1) ∈ twoChunkWorld.m_activeChunks := by
    rw [twoChunkWorld_active]
    decide
  have m0 : ((⟨0, 0⟩ : ChunkCoords), 0) ∈ twoChunkWorld.m_activeChunks := by
    rw [twoChunkWorld_active]
    decide
  exact ⟨World.shutdown_keeps_link twoChunkWorld ⟨0, 0⟩ ⟨0, 1⟩ 0 1 Dir.south f.1 (by decide) m1
      (by rw [l1]; exact Option.some_ne_none _) e1,
    World.shutdown_keeps_link twoChunkWorld ⟨0, 1⟩ ⟨0, 0⟩ 1 0 Dir.north f.2 (by decide) m0
      (by rw [l0]; exact Option.some_ne_none _) e0⟩

/-! ### The sentinel index and the sweep of the player box -/

/-- C18.  Each of the three operations reads the cell array with the sentinel index.
`Raycast3D` from a start point with Z 128 inside the active chunk,
`PlaceBlockWithRaycast` for an impact on the top face of a cell of the top layer, and
`MovePlayerWithRaycast` for a player whose box reaches above the chunk all obtain the
index 65535 from `GetIndexAtWorldCoords` and use it on `m_blocks` unchecked. -/
theorem sentinel_used_unchecked :
    (Chunk.GetIndexAtWorldCoords ⟨1 / 2, 1 / 2, 128⟩ = 65535 ∧
      ((uniformWorld ⟨BT_AIR, 0⟩).Raycast3D ⟨1 / 2, 1 / 2, 128⟩ ⟨1 / 2, 1 / 2, 0⟩).isNone = true) ∧
    (Chunk.GetIndexAtWorldCoords ⟨1, 1, 128⟩ = 65535 ∧
      ((uniformWorld ⟨BT_STONE, 0⟩).PlaceBlockWithRaycast BT_STONE
        ⟨true, ⟨3 / 2, 3 / 2, 128⟩, ⟨1, 1, 127⟩, ⟨0, 0, 1⟩⟩ false).isNone = true) ∧
    (Chunk.GetIndexAtWorldCoords ⟨1, 1, 127 + PLAYER_HEIGHT + SWEEP_INCREMENT⟩ = 65535 ∧
      (summitWorld.MovePlayerWithRaycast PlayerMotion.rest ⟨0, 0, 1⟩ 1 0 1).map (fun _ => ()) =
        Access.outOfRange) := by
  refine ⟨⟨by decide!, by decide!⟩, ⟨by decide!, by decide!⟩, by decide!, by decide!⟩

/-- The loop over the contact points of the stuck check only raises the player. -/
theorem World.stuckCorners_lifts (l : List WorldCoords) (w w' : World) (ob : Option Bool)
    (h : World.MovePlayerWhenStuckInsideBlocks.corners l w = .done (w', ob)) :
    ∃ k : Nat, w' = (fun v : World => v.translatePlayer MOVE_UP)^[k] w := by
  induction l generalizing w with
  | nil =>
    simp only [World.MovePlayerWhenStuckInsideBlocks.corners, Access.done.injEq,
      Prod.mk.injEq] at h
    exact ⟨0, h.1.symm⟩
  | cons corner rest ih =>
    unfold World.MovePlayerWhenStuckInsideBlocks.corners at h
    split at h
    · simp only [Access.done.injEq, Prod.mk.injEq] at h
      exact ⟨0, h.1.symm⟩
    · simp only at h
      split_ifs at h with h1 h2
      · obtain ⟨k, hk⟩ := ih _ h
        exact ⟨k + 1, by rw [hk, Function.iterate_succ_apply]⟩
      · simp only [Access.done.injEq, Prod.mk.injEq] at h
        exact ⟨0, h.1.symm⟩

/-- The stuck check only raises the player. -/
theorem World.MovePlayerWhenStuckInsideBlocks_lifts (fuel : Nat) (w w' : World) (b : Bool)
    (h : w.MovePlayerWhenStuckInsideBlocks fuel = .done (w', b)) :
    ∃ k : Nat, w' = (fun v : World => v.translatePlayer MOVE_UP)^[k] w := by
  induction fuel generalizing w with
  | zero => simp [World.MovePlayerWhenStuckInsideBlocks] at h
  | succ fuel ih =>
    unfold World.MovePlayerWhenStuckInsideBlocks at h
    split at h
    · rename_i w1 b1 heq
      simp only [Access.done.injEq, Prod.mk.injEq] at h
      obtain ⟨k, hk⟩ := World.stuckCorners_lifts _ _ _ _ heq
      exact ⟨k, by rw [← h.1, hk]⟩
    · rename_i w1 heq
      obtain ⟨k, hk⟩ := World.stuckCorners_lifts _ _ _ _ heq
      obtain ⟨j, hj⟩ := ih _ h
      exact ⟨j + k, by rw [hj, hk, Function.iterate_add_apply]⟩
    · exact absurd h (by simp)
    · exact absurd h (by simp)

/-- The loop over the contact points of a step of the sweep, when it stops at a
contact point outside the active chunks, has left the player box, the camera and the
increment as they were. -/
theorem World.sweepCorners_outside (cosCameraYaw sinCameraYaw : ℚ) (l : List WorldCoords)
    (s s' : SweepState)
    (h : World.MovePlayerWithRaycast.corners cosCameraYaw sinCameraYaw l s =
      .done (s', .outside)) :
    s'.world = s.world ∧ s'.motion = s.motion ∧ s'.raycastIncrement = s.raycastIncrement := by
  induction l generalizing s with
  | nil => simp [World.MovePlayerWithRaycast.corners] at h
  | cons corner rest ih =>
    unfold World.MovePlayerWithRaycast.corners at h
    split at h
    · simp only [Access.done.injEq, Prod.mk.injEq, and_true] at h
      subst h
      exact ⟨rfl, rfl, rfl⟩
    · simp only at h
      split_ifs at h
      all_goals first
        | exact absurd h (by simp)
        | (have h3 := ih _ h; exact h3)

/-- A step of the sweep that stops at a contact point outside the active chunks
leaves the player translated by the increment. -/
theorem World.sweepStep_outside (cosCameraYaw sinCameraYaw : ℚ) (s s' : SweepState)
    (h : World.MovePlayerWithRaycast.step cosCameraYaw sinCameraYaw s = .done (s', .outside)) :
    s'.world = s.world.translatePlayer s.raycastIncrement ∧ s'.motion = s.motion := by
  obtain ⟨h1, h2, -⟩ := World.sweepCorners_outside _ _ _ _ _ h
  exact ⟨h1, h2⟩

/-- The sweep, when it returns at a contact point outside the active chunks, has made
some steps that did not return and then a step whose translation it keeps. -/
theorem World.sweepLoop_outside (cosCameraYaw sinCameraYaw : ℚ) (fuel : Nat) (t : ℚ)
    (s : SweepState) (r : MoveResult)
    (h : World.MovePlayerWithRaycast.loop cosCameraYaw sinCameraYaw fuel t s = .done r)
    (hout : r.taken = .outside) :
    ∃ (n : Nat) (s0 : SweepState),
      World.MovePlayerWithRaycast.stepsThrough cosCameraYaw sinCameraYaw n s = some s0 ∧
      (∀ k, k ≤ n → (fun u => floatAdd u SWEEP_INCREMENT)^[k] t < 1) ∧
      r.world = s0.world.translatePlayer s0.raycastIncrement ∧ r.motion = s0.motion := by
  induction fuel generalizing t s with
  | zero => simp [World.MovePlayerWithRaycast.loop] at h
  | succ fuel ih =>
    unfold World.MovePlayerWithRaycast.loop at h
    split_ifs at h with ht
    · split at h
      · rename_i s1 heq
        simp only [Access.done.injEq] at h
        obtain ⟨h1, h2⟩ := World.sweepStep_outside _ _ _ _ heq
        refine ⟨0, s, rfl, ?_, ?_, ?_⟩
        · intro k hk
          have hk0 : k = 0 := by omega
          subst hk0
          exact ht
        · rw [← h]; exact h1
        · rw [← h]; exact h2
      · simp only [Access.done.injEq] at h
        rw [← h] at hout
        exact absurd hout (by simp)
      · rename_i s1 heq
        obtain ⟨n, s0, hn, htn, hw, hm⟩ := ih _ _ h
        refine ⟨n + 1, s0, ?_, ?_, hw, hm⟩
        · simp only [World.MovePlayerWithRaycast.stepsThrough, heq]
          exact hn
        · intro k hk
          cases k with
          | zero => exact ht
          | succ j =>
            rw [Function.iterate_succ_apply]
            exact htn j (by omega)
      · rename_i s1 heq
        obtain ⟨n, s0, hn, htn, hw, hm⟩ := ih _ _ h
        refine ⟨n + 1, s0, ?_, ?_, hw, hm⟩
        · simp only [World.MovePlayerWithRaycast.stepsThrough, heq]
          exact hn
        · intro k hk
          cases k with
          | zero => exact ht
          | succ j =>
            rw [Function.iterate_succ_apply]
            exact htn j (by omega)
      · exact absurd h (by simp)
      · exact absurd h (by simp)
    · simp only [Access.done.injEq] at h
      rw [← h] at hout
      exact absurd hout (by simp)

/-- The sweep does not return as the check at the start does. -/
theorem World.sweepLoop_taken (cosCameraYaw sinCameraYaw : ℚ) (fuel : Nat) (t : ℚ)
    (s : SweepState) (r : MoveResult)
    (h : World.MovePlayerWithRaycast.loop cosCameraYaw sinCameraYaw fuel t s = .done r) :
    r.taken ≠ .notWithinWorld := by
  induction fuel generalizing t s with
  | zero => simp [World.MovePlayerWithRaycast.loop] at h
  | succ fuel ih =>
    unfold World.MovePlayerWithRaycast.loop at h
    split_ifs at h with ht
    · split at h
      · simp only [Access.done.injEq] at h
        rw [← h]; simp
      · simp only [Access.done.injEq] at h
        rw [← h]; simp
      · exact ih _ _ h
      · exact ih _ _ h
      · exact absurd h (by simp)
      · exact absurd h (by simp)
    · simp only [Access.done.injEq] at h
      rw [← h]; simp

/-- After 100 additions of the increment the variable `t` of the sweep is below 1. -/
theorem sweep_time_left : (fun u => floatAdd u SWEEP_INCREMENT)^[100] 0 < 1 := by decide!

/-- After 101 additions of the increment the variable `t` of the sweep is not below 1. -/
theorem sweep_time_up : ¬ (fun u => floatAdd u SWEEP_INCREMENT)^[101] 0 < 1 := by decide!

/-- C19, amended.  When `MovePlayerWithRaycast` returns because a contact point of the
player box lies in a chunk coordinate without an active chunk, the movement made before
is kept.  If this happens in the check at the start (`MovePlayerWhenStuckInsideBlocks`
returns false), the world is the one before the call with the player raised by `MOVE_UP`
some number of times.  If it happens in a step of the sweep, at most 100 steps have been
made before and stay applied: the world is the one at the start of that step but for the
player box and the camera position, and these are the ones at the start of that step,
either as they are or translated by the increment of that step.  The 101st step is
reached: the variable `t` of the loop, a `float`, is below 1 after 100 additions of
`RAYCAST_INCREMENT` and not after 101. -/
theorem sweep_abort_keeps_step (w : World) (motion : PlayerMotion)
    (totalPlayerTranslation : WorldCoords) (cosCameraYaw sinCameraYaw : ℚ) (fuel : Nat)
    (r : MoveResult)
    (hcall : w.MovePlayerWithRaycast motion totalPlayerTranslation cosCameraYaw sinCameraYaw fuel
      = .done r) :
    (r.taken = .notWithinWorld →
      w.MovePlayerWhenStuckInsideBlocks fuel = .done (r.world, false) ∧
      r.motion = motion ∧
      ∃ k : Nat, r.world = (fun v : World => v.translatePlayer MOVE_UP)^[k] w) ∧
    (r.taken = .outside →
      ∃ (w1 : World) (n : Nat) (s0 : SweepState),
        w.MovePlayerWhenStuckInsideBlocks fuel = .done (w1, true) ∧
        World.MovePlayerWithRaycast.stepsThrough cosCameraYaw sinCameraYaw n
          ⟨w1, motion, Vec3.scale totalPlayerTranslation SWEEP_INCREMENT, false⟩ = some s0 ∧
        n ≤ 100 ∧
        r.world = { s0.world with
          m_playerBox := r.world.m_playerBox, m_cameraPosition := r.world.m_cameraPosition } ∧
        ((r.world.m_playerBox = s0.world.m_playerBox ∧
            r.world.m_cameraPosition = s0.world.m_cameraPosition) ∨
          (r.world.m_playerBox = s0.world.m_playerBox.Translate s0.raycastIncrement ∧
            r.world.m_cameraPosition
              = Vec3.add s0.world.m_cameraPosition s0.raycastIncrement)) ∧
        r.motion = s0.motion) ∧
    ((fun u => floatAdd u SWEEP_INCREMENT)^[100] 0 < 1 ∧
      ¬ (fun u => floatAdd u SWEEP_INCREMENT)^[101] 0 < 1) := by
  refine ⟨?_, ?_, sweep_time_left, sweep_time_up⟩
  all_goals unfold World.MovePlayerWithRaycast at hcall
  all_goals split_ifs at hcall with hz
  · simp only [Access.done.injEq] at hcall
    subst hcall
    exact fun h => absurd h (by simp)
  · simp only at hcall
    split at hcall
    · rename_i w1 heq
      simp only [Access.done.injEq] at hcall
      subst hcall
      exact fun _ => ⟨heq, rfl, World.MovePlayerWhenStuckInsideBlocks_lifts _ _ _ _ heq⟩
    · rename_i w1 heq
      intro htaken
      exact absurd htaken (World.sweepLoop_taken _ _ _ _ _ _ hcall)
    · exact absurd hcall (by simp)
    · exact absurd hcall (by simp)
  · simp only [Access.done.injEq] at hcall
    subst hcall
    exact fun h => absurd h (by simp)
  · simp only at hcall
    split at hcall
    · rename_i w1 heq
      simp only [Access.done.injEq] at hcall
      subst hcall
      exact fun h => absurd h (by simp)
    · rename_i w1 heq
      intro hout
      obtain ⟨n, s0, hn, htn, hw, hm⟩ := World.sweepLoop_outside _ _ _ _ _ _ hcall hout
      refine ⟨w1, n, s0, heq, hn, ?_, ?_, Or.inr ⟨?_, ?_⟩, hm⟩
      · by_contra hlt
        exact sweep_time_up (htn 101 (by omega))
      · rw [hw]; rfl
      · rw [hw]; rfl
      · rw [hw]; rfl
    · exact absurd hcall (by simp)
    · exact absurd hcall (by simp)

theorem Access.of_map_done {α β : Type} (f : α → β) (a : Access α) (b : β)
    (h : a.map f = .done b) : ∃ x, a = .done x ∧ f x = b := by
  cases a with
  | done x => exact ⟨x, rfl, by simpa [Access.map] using h⟩
  | outOfRange => simp [Access.map] at h
  | unfinished => simp [Access.map] at h

/-- The player of `ledgeWorld` moves to the west: the sweep stops in its second step. -/
theorem ledgeWorld_move_west :
    (ledgeWorld.MovePlayerWithRaycast PlayerMotion.rest ⟨-1, 0, 0⟩ 1 0 1).map
        (fun r => r.taken) = .done .outside := by
  decide!

theorem sweep_abort_keeps_step_witness :
    ∃ r : MoveResult,
      ledgeWorld.MovePlayerWithRaycast PlayerMotion.rest ⟨-1, 0, 0⟩ 1 0 1 = .done r ∧
      r.taken = .outside ∧
      ((r.taken = .notWithinWorld →
        ledgeWorld.MovePlayerWhenStuckInsideBlocks 1 = .done (r.world, false) ∧
        r.motion = PlayerMotion.rest ∧
        ∃ k : Nat, r.world = (fun v : World => v.translatePlayer MOVE_UP)^[k] ledgeWorld) ∧
      (r.taken = .outside →
        ∃ (w1 : World) (n : Nat) (s0 : SweepState),
          ledgeWorld.MovePlayerWhenStuckInsideBlocks 1 = .done (w1, true) ∧
          World.MovePlayerWithRaycast.stepsThrough 1 0 n
            ⟨w1, PlayerMotion.rest, Vec3.scale ⟨-1, 0, 0⟩ SWEEP_INCREMENT, false⟩ = some s0 ∧
          n ≤ 100 ∧
          r.world = { s0.world with
            m_playerBox := r.world.m_playerBox, m_cameraPosition := r.world.m_cameraPosition } ∧
          ((r.world.m_playerBox = s0.world.m_playerBox ∧
              r.world.m_cameraPosition = s0.world.m_cameraPosition) ∨
            (r.world.m_playerBox = s0.world.m_playerBox.Translate s0.raycastIncrement ∧
              r.world.m_cameraPosition
                = Vec3.add s0.world.m_cameraPosition s0.raycastIncrement)) ∧
          r.motion = s0.motion) ∧
      ((fun u => floatAdd u SWEEP_INCREMENT)^[100] 0 < 1 ∧
        ¬ (fun u => floatAdd u SWEEP_INCREMENT)^[101] 0 < 1)) := by
  obtain ⟨r, hr, ht⟩ := Access.of_map_done _ _ _ ledgeWorld_move_west
  exact ⟨r, hr, ht, sweep_abort_keeps_step _ _ _ _ _ _ r hr⟩

/-- C19 fails.  In `ledgeWorld`, all air, the player box begins 1/64 east of the western
edge of the only active chunk.  A move by `(-1, 0, 0)` makes the first step of the
sweep, which takes the box to `1/64 - RAYCAST_INCREMENT`, still in the chunk, and
returns in the second step at the first contact point, whose chunk coordinate `(-1, 0)`
is not active: the first step is not taken back, so the player box and the camera are
not where they were before the call.  In the all-stone world with the player box across
the eastern edge of the chunk, the check at the start raises the player by `MOVE_UP`
for the first contact point and returns false at the second. -/
theorem sweep_abort_counterexample :
    (ledgeWorld.m_playerBox.mins = ⟨1 / 64, 0, 80⟩ ∧
      ledgeWorld.m_cameraPosition = ⟨1 / 64 + 3 / 10, 3 / 10, 80 + 162 / 100⟩ ∧
      ledgeWorld.IsChunkActive
        (Chunk.GetChunkCoordsAtWorldCoords ⟨1 / 64 - SWEEP_INCREMENT, 0, 80⟩) = true ∧
      ledgeWorld.IsChunkActive
        (Chunk.GetChunkCoordsAtWorldCoords ⟨1 / 64 - 2 * SWEEP_INCREMENT, 0, 80⟩) = false ∧
      (World.MovePlayerWithRaycast.stepsThrough 1 0 1
          ⟨ledgeWorld, PlayerMotion.rest, Vec3.scale ⟨-1, 0, 0⟩ SWEEP_INCREMENT, false⟩).map
            (fun s => (s.world.m_playerBox.mins, s.world.m_cameraPosition))
        = some (⟨1 / 64 - SWEEP_INCREMENT, 0, 80⟩,
            ⟨1 / 64 + 3 / 10 - SWEEP_INCREMENT, 3 / 10, 80 + 162 / 100⟩) ∧
      (ledgeWorld.MovePlayerWithRaycast PlayerMotion.rest ⟨-1, 0, 0⟩ 1 0 1).map
          (fun r => (r.taken, r.world.m_playerBox.mins, r.world.m_cameraPosition))
        = .done (.outside, ⟨1 / 64 - 2 * SWEEP_INCREMENT, 0, 80⟩,
            ⟨1 / 64 + 3 / 10 - 2 * SWEEP_INCREMENT, 3 / 10, 80 + 162 / 100⟩) ∧
      (1 / 64 - SWEEP_INCREMENT : ℚ) ≠ 1 / 64 ∧ (1 / 64 - 2 * SWEEP_INCREMENT : ℚ) ≠ 1 / 64) ∧
    (brinkWorld.m_playerBox.mins = ⟨31 / 2, 0, 80⟩ ∧
      brinkWorld.IsChunkActive
        (Chunk.GetChunkCoordsAtWorldCoords ⟨31 / 2 + 6 / 10, 0, 80⟩) = false ∧
      (brinkWorld.MovePlayerWithRaycast PlayerMotion.rest ⟨1, 0, 0⟩ 1 0 1).map
          (fun r => (r.taken, r.world.m_playerBox.mins, r.world.m_cameraPosition))
        = .done (.notWithinWorld, ⟨31 / 2, 0, 80 + 1 / 10⟩,
            ⟨31 / 2 + 3 / 10, 3 / 10, 80 + 162 / 100 + 1 / 10⟩)) := by
  refine ⟨⟨by decide!, by decide!, by decide!, by decide!, by decide!, by decide!, by decide!,
    by decide!⟩, by decide!, by decide!, by decide!⟩

/-! ## The runs of the run-length stream -/

theorem rleExpand_append (a b : List (Nat × Nat)) :
    rleExpand (a ++ b) = rleExpand a ++ rleExpand b := by
  unfold rleExpand
  exact List.flatMap_append _ _ _

theorem rleExpand_grow (runs : List (Nat × Nat)) (t c : Nat) :
    rleExpand (runs ++ [(t, c + 1)]) = rleExpand (runs ++ [(t, c)]) ++ [t] := by
  rw [rleExpand_append, rleExpand_append, List.append_assoc]
  congr 1
  unfold rleExpand
  simp only [List.flatMap_cons, List.flatMap_nil, List.append_nil]
  exact List.replicate_succ' c t

theorem rleExpand_new (runs : List (Nat × Nat)) (t : Nat) :
    rleExpand (runs ++ [(t, 1)]) = rleExpand runs ++ [t] := by
  rw [rleExpand_append]
  rfl

theorem rleExpand_length (runs : List (Nat × Nat)) :
    (rleExpand runs).length = (runs.map Prod.snd).sum := by
  induction runs with
  | nil => rfl
  | cons e rest ih =>
    have h : rleExpand (e :: rest) = List.replicate e.2 e.1 ++ rleExpand rest := by
      unfold rleExpand
      exact List.flatMap_cons _ _ _
    rw [h, List.length_append, List.length_replicate, ih, List.map_cons, List.sum_cons]

theorem chain_last_count (runs : List (Nat × Nat)) (t c c' : Nat)
    (h : List.Chain' (fun a b : Nat × Nat => a.1 ≠ b.1) (runs ++ [(t, c)])) :
    List.Chain' (fun a b : Nat × Nat => a.1 ≠ b.1) (runs ++ [(t, c')]) := by
  rw [List.chain'_append] at h ⊢
  refine ⟨h.1, List.chain'_singleton _, ?_⟩
  intro x hx y hy
  have hy' : y = (t, c') := by
    have := hy
    simp at this
    exact this.symm
  have := h.2.2 x hx (t, c) (by simp)
  rw [hy']
  exact this

theorem chain_new_run (runs : List (Nat × Nat)) (t c t' : Nat) (hne : t' ≠ t)
    (h : List.Chain' (fun a b : Nat × Nat => a.1 ≠ b.1) (runs ++ [(t, c)])) :
    List.Chain' (fun a b : Nat × Nat => a.1 ≠ b.1) ((runs ++ [(t, c)]) ++ [(t', 1)]) := by
  rw [List.chain'_append]
  refine ⟨h, List.chain'_singleton _, ?_⟩
  intro x hx y hy
  have hy' : y = (t', 1) := by
    have := hy
    simp at this
    exact this.symm
  have hx' : x = (t, c) := by
    rw [List.getLast?_append_of_ne_nil _ (by simp)] at hx
    simpa using hx.symm
  rw [hx', hy']
  exact fun e => hne e.symm

theorem entry_bytes (t c : Nat) (hc : c ≤ 32768) :
    [t, (c >>> 8) % 256, c % 256] = rleEntry (t, c) := by
  unfold rleEntry
  simp only [Nat.shiftRight_eq_div_pow]
  have : c / 2 ^ 8 % 256 = c / 256 := by omega
  rw [this]

/-- The encoder entered with a list of finished runs and a current run writes a list of
runs that stands for the type ids of all cells. -/
theorem encodeFrom_runs (blocks : Nat → Block) :
    ∀ (n index t c : Nat) (buffer : List Nat) (runs : List (Nat × Nat)),
      index + n ≤ 32768 → 1 ≤ c → c ≤ index →
      buffer = runs.flatMap rleEntry →
      (∀ e ∈ runs, 1 ≤ e.2 ∧ e.2 ≤ 32768) →
      List.Chain' (fun a b : Nat × Nat => a.1 ≠ b.1) (runs ++ [(t, c)]) →
      rleExpand (runs ++ [(t, c)]) = (List.range index).map (fun i => (blocks i).m_type) →
      ∃ runs' : List (Nat × Nat),
        encodeFrom blocks n index t c buffer = runs'.flatMap rleEntry ∧
        (∀ e ∈ runs', 1 ≤ e.2 ∧ e.2 ≤ 32768) ∧
        List.Chain' (fun a b : Nat × Nat => a.1 ≠ b.1) runs' ∧
        rleExpand runs' = (List.range (index + n)).map (fun i => (blocks i).m_type) := by
  intro n
  induction n with
  | zero =>
    intro index t c buffer runs hn hc1 hc2 hbuf hruns hchain hexp
    refine ⟨runs ++ [(t, c)], ?_, ?_, hchain, hexp⟩
    · rw [encodeFrom_zero, entry_bytes t c (by omega), hbuf, List.flatMap_append]
      simp only [List.flatMap_cons, List.flatMap_nil, List.append_nil]
    · intro e he
      rcases List.mem_append.mp he with h | h
      · exact hruns e h
      · have : e = (t, c) := by simpa using h
        rw [this]
        exact ⟨hc1, by omega⟩
  | succ n ih =>
    intro index t c buffer runs hn hc1 hc2 hbuf hruns hchain hexp
    have hidx : index + (n + 1) = (index + 1) + n := by omega
    rw [hidx]
    by_cases h : (blocks index).m_type = t
    · rw [encodeFrom_succ_eq _ _ _ _ _ _ h, Nat.mod_eq_of_lt (by omega : c + 1 < 65536)]
      apply ih (index + 1) t (c + 1) buffer runs (by omega) (by omega) (by omega) hbuf hruns
        (chain_last_count runs t c (c + 1) hchain)
      rw [rleExpand_grow, hexp, List.range_succ, List.map_append, List.map_singleton, h]
    · rw [encodeFrom_succ_ne _ _ _ _ _ _ h]
      apply ih (index + 1) (blocks index).m_type 1 _ (runs ++ [(t, c)]) (by omega) (by omega)
        (by omega)
      · rw [entry_bytes t c (by omega), hbuf, List.flatMap_append]
        simp only [List.flatMap_cons, List.flatMap_nil, List.append_nil]
      · intro e he
        rcases List.mem_append.mp he with h' | h'
        · exact hruns e h'
        · have : e = (t, c) := by simpa using h'
          rw [this]
          exact ⟨hc1, by omega⟩
      · exact chain_new_run runs t c _ h hchain
      · rw [rleExpand_new, hexp, List.range_succ, List.map_append, List.map_singleton]

/-- C20.  Run counts never wrap: the bytes `CreateRLEBuffer` produces are the 3-byte
entries (type id, count high byte, count low byte) of a list of runs in which every
count lies between 1 and 32768, adjacent runs have different type ids, the runs stand
for the type ids of the cells in index order (so that every count is the length of a
maximal run), and the counts sum to `BLOCKS_PER_CHUNK` = 32768. -/
theorem run_counts_never_wrap (c : Chunk) :
    BLOCKS_PER_CHUNK = 32768 ∧
    ∃ runs : List (Nat × Nat),
      c.CreateRLEBuffer = runs.flatMap rleEntry ∧
      (∀ e ∈ runs, 1 ≤ e.2 ∧ e.2 ≤ 32768 ∧ e.2 / 256 < 256) ∧
      List.Chain' (fun a b : Nat × Nat => a.1 ≠ b.1) runs ∧
      rleExpand runs = (List.range BLOCKS_PER_CHUNK).map (fun i => (c.m_blocks i).m_type) ∧
      (runs.map Prod.snd).sum = BLOCKS_PER_CHUNK := by
  have hB : BLOCKS_PER_CHUNK = 32768 := by decide
  refine ⟨hB, ?_⟩
  rw [createRLEBuffer_eq, hB]
  obtain ⟨runs, h1, h2, h3, h4⟩ := encodeFrom_runs c.m_blocks 32767 1 (c.m_blocks 0).m_type 1 []
    [] (by omega) (by omega) (by omega) rfl (fun e he => absurd he (List.not_mem_nil e))
    (List.chain'_singleton _) rfl
  refine ⟨runs, h1, ?_, h3, h4, ?_⟩
  · intro e he
    obtain ⟨a, b⟩ := h2 e he
    exact ⟨a, b, by omega⟩
  · rw [← rleExpand_length, h4, List.length_map, List.length_range]

/-! ## The ideal light of a cell flagged sky -/

/-- C11, amended.  For a cell flagged sky, `CalculateIdealLightingForBlock` returns the
light level of the world when the largest of the own emission plus 1 and the light
values of the neighbours equals that level, and that largest value minus 1 otherwise.
So the result is at least the light level of the world exactly when the own emission
plus 1 or the light of some neighbour is. -/
theorem sky_ideal_light (w : World) (blockLocation : BlockLocation)
    (hsky : (w.GetBlock blockLocation).IsSky = true) :
    w.maxAdjacentLighting blockLocation
      = max ((g_blockDefinitions (w.GetBlock blockLocation).m_type).m_inherentLightValue + 1)
          ((w.neighborLights blockLocation).foldr max 0) ∧
    w.CalculateIdealLightingForBlock blockLocation
      = (if w.maxAdjacentLighting blockLocation = w.m_lightLevel then w.m_lightLevel
        else w.maxAdjacentLighting blockLocation - 1) ∧
    (w.m_lightLevel ≤ w.CalculateIdealLightingForBlock blockLocation
      ↔ w.m_lightLevel ≤ w.maxAdjacentLighting blockLocation) := by
  have hb := World.maxAdjacentLighting_bounds w blockLocation
  have hi := inherentLight_le (w.GetBlock blockLocation).m_type
  have hm := World.maxAdjacentLighting_eq w blockLocation
  rw [Nat.mod_eq_of_lt (by omega)] at hm
  refine ⟨hm, ?_⟩
  unfold World.CalculateIdealLightingForBlock
  simp only [hsky, true_and]
  split
  · rename_i h
    rw [h]
    simp
  · rename_i h
    have e : (w.maxAdjacentLighting blockLocation + 255) % 256
        = w.maxAdjacentLighting blockLocation - 1 := by omega
    rw [e]
    refine ⟨rfl, ?_⟩
    omega

theorem sky_ideal_light_witness :
    pitWorld.maxAdjacentLighting ⟨some 0, 32529⟩
      = max ((g_blockDefinitions (pitWorld.GetBlock ⟨some 0, 32529⟩).m_type).m_inherentLightValue
          + 1) ((pitWorld.neighborLights ⟨some 0, 32529⟩).foldr max 0) ∧
    pitWorld.CalculateIdealLightingForBlock ⟨some 0, 32529⟩
      = (if pitWorld.maxAdjacentLighting ⟨some 0, 32529⟩ = pitWorld.m_lightLevel then
          pitWorld.m_lightLevel
        else pitWorld.maxAdjacentLighting ⟨some 0, 32529⟩ - 1) ∧
    (pitWorld.m_lightLevel ≤ pitWorld.CalculateIdealLightingForBlock ⟨some 0, 32529⟩
      ↔ pitWorld.m_lightLevel ≤ pitWorld.maxAdjacentLighting ⟨some 0, 32529⟩) :=
  sky_ideal_light pitWorld ⟨some 0, 32529⟩ (by decide)

/-- C11 as stated fails.  In `pitWorld` the cell `(1, 1, 127)` is flagged sky and the
light level of the world is 15; its neighbours are cells of stone that store the light
value 0 and it emits no light, so that nothing stronger than the light level of the
world reaches it.  `CalculateIdealLightingForBlock` returns 0 for it, which is below
the light level of the world. -/
theorem sky_floor_counterexample :
    Chunk.GetIndexAtLocalCoords ⟨1, 1, 127⟩ = 32529 ∧
    (pitWorld.GetBlock ⟨some 0, 32529⟩).IsSky = true ∧
    pitWorld.m_lightLevel = 15 ∧
    (g_blockDefinitions (pitWorld.GetBlock ⟨some 0, 32529⟩).m_type).m_inherentLightValue = 0 ∧
    pitWorld.neighborLights ⟨some 0, 32529⟩ = [0, 0, 0, 0, 0] ∧
    pitWorld.CalculateIdealLightingForBlock ⟨some 0, 32529⟩ = 0 := by
  decide

/-! ## Streaming: nearest first, furthest first -/

theorem calcDistanceSquared_outside (c pc : ChunkCoords)
    (h : c.x < pc.x - OUTER_VISIBILITY_DISTANCE ∨ pc.x + OUTER_VISIBILITY_DISTANCE < c.x ∨
      c.y < pc.y - OUTER_VISIBILITY_DISTANCE ∨ pc.y + OUTER_VISIBILITY_DISTANCE < c.y) :
    289 ≤ CalcDistanceSquared c pc := by
  have h16 : OUTER_VISIBILITY_DISTANCE = 16 := by decide
  rw [h16] at h
  unfold CalcDistanceSquared
  rcases h with h | h | h | h
  · nlinarith [mul_self_nonneg (c.y - pc.y), mul_self_nonneg (c.x - pc.x)]
  · nlinarith [mul_self_nonneg (c.y - pc.y), mul_self_nonneg (c.x - pc.x)]
  · nlinarith [mul_self_nonneg (c.y - pc.y), mul_self_nonneg (c.x - pc.x)]
  · nlinarith [mul_self_nonneg (c.y - pc.y), mul_self_nonneg (c.x - pc.x)]

/-- The candidate distance after the scan of `ActivateNearestNeededChunk` is at most
the distance of every inactive coordinate, inside the scanned square or outside. -/
theorem World.nearestScan_least (w : World) (c : ChunkCoords)
    (hinactive : w.IsChunkActive c = false) :
    w.nearestScan.1
      ≤ CalcDistanceSquared c (Chunk.GetChunkCoordsAtWorldCoords w.m_cameraPosition) := by
  by_cases hin :
      ((Chunk.GetChunkCoordsAtWorldCoords w.m_cameraPosition).x - OUTER_VISIBILITY_DISTANCE ≤ c.x
        ∧ c.x ≤ (Chunk.GetChunkCoordsAtWorldCoords w.m_cameraPosition).x
          + OUTER_VISIBILITY_DISTANCE) ∧
      ((Chunk.GetChunkCoordsAtWorldCoords w.m_cameraPosition).y - OUTER_VISIBILITY_DISTANCE ≤ c.y
        ∧ c.y ≤ (Chunk.GetChunkCoordsAtWorldCoords w.m_cameraPosition).y
          + OUTER_VISIBILITY_DISTANCE)
  · exact World.nearestScan_minimal w c hin.1.1 hin.1.2 hin.2.1 hin.2.2 hinactive
  · have hout := calcDistanceSquared_outside c
      (Chunk.GetChunkCoordsAtWorldCoords w.m_cameraPosition) (by omega)
    have hle := w.nearestScan_spec.1
    have b1 : INNER_DISTANCE_THERMOSTAT_QUALIFICATION = 226 := by decide
    rw [b1] at hle
    omega

theorem World.isChunkActive_insert (w : World) (c c' : ChunkCoords) (blocks : Nat → Block) :
    (w.ActivateChunk c blocks).IsChunkActive c' = true
      ↔ (w.IsChunkActive c' = true ∨ c' = c) := by
  rw [World.isChunkActive_iff, World.isChunkActive_iff]
  simp only [findChunk_eq, World.ActivateChunk_active, findIn_insertChunk]
  by_cases h : c' = c
  · simp [h]
  · simp [h]

/-- C15.  Nearest-first activation: `ActivateNearestNeededChunk` either activates
exactly one coordinate, which was inactive, qualifies (its squared distance from the
chunk coordinate of the viewer is below `INNER_DISTANCE_THERMOSTAT_QUALIFICATION`) and
is at most as far from the viewer as every other inactive coordinate, inside the
scanned square or outside; or no inactive coordinate qualifies and the world is
unchanged. -/
theorem nearest_first_activation (w : World) (create : ChunkCoords → Nat → Block) :
    (∃ c, w.chunkCoordsToActivate = some c ∧
        w.IsChunkActive c = false ∧
        CalcDistanceSquared c (Chunk.GetChunkCoordsAtWorldCoords w.m_cameraPosition)
          < INNER_DISTANCE_THERMOSTAT_QUALIFICATION ∧
        (∀ c', w.IsChunkActive c' = false →
          CalcDistanceSquared c (Chunk.GetChunkCoordsAtWorldCoords w.m_cameraPosition)
            ≤ CalcDistanceSquared c' (Chunk.GetChunkCoordsAtWorldCoords w.m_cameraPosition)) ∧
        ∀ c', (w.ActivateNearestNeededChunk create).IsChunkActive c' = true ↔
          (w.IsChunkActive c' = true ∨ c' = c)) ∨
    (w.chunkCoordsToActivate = none ∧
      (∀ c', w.IsChunkActive c' = false →
        INNER_DISTANCE_THERMOSTAT_QUALIFICATION
          ≤ CalcDistanceSquared c' (Chunk.GetChunkCoordsAtWorldCoords w.m_cameraPosition)) ∧
      w.ActivateNearestNeededChunk create = w) := by
  by_cases h : w.nearestScan.1 < INNER_DISTANCE_THERMOSTAT_QUALIFICATION
  · left
    have hsome : w.chunkCoordsToActivate = some w.nearestScan.2 := by
      unfold World.chunkCoordsToActivate
      simp only [h, if_true]
    obtain ⟨e1, e2⟩ := w.nearestScan_spec.2 h
    refine ⟨w.nearestScan.2, hsome, e2, by rw [e1]; exact h, ?_, ?_⟩
    · intro c' hc'
      rw [e1]
      exact World.nearestScan_least w c' hc'
    · intro c'
      unfold World.ActivateNearestNeededChunk
      rw [hsome]
      exact World.isChunkActive_insert w _ c' _
  · right
    have hnone : w.chunkCoordsToActivate = none := by
      unfold World.chunkCoordsToActivate
      simp only [h, if_false]
    refine ⟨hnone, ?_, ?_⟩
    · intro c' hc'
      exact le_trans (not_lt.mp h) (World.nearestScan_least w c' hc')
    · unfold World.ActivateNearestNeededChunk
      rw [hnone]

/-- The scan of `DeactivateFurthestChunk` started in any state: the candidate distance
does not fall, it ends at least as large as the distance of every chunk scanned, and the
state either is the one the scan started in or holds a key of the list with its
distance. -/
theorem furthestFold_spec (pc : ChunkCoords) (l : List (ChunkCoords × Nat))
    (s : Int × ChunkCoords) :
    s.1 ≤ (l.foldl (fun s e =>
        if CalcDistanceSquared e.1 pc > s.1 then (CalcDistanceSquared e.1 pc, e.1) else s) s).1 ∧
    (∀ e ∈ l, CalcDistanceSquared e.1 pc ≤ (l.foldl (fun s e =>
        if CalcDistanceSquared e.1 pc > s.1 then (CalcDistanceSquared e.1 pc, e.1) else s) s).1) ∧
    ((l.foldl (fun s e =>
        if CalcDistanceSquared e.1 pc > s.1 then (CalcDistanceSquared e.1 pc, e.1) else s) s) = s ∨
      ∃ e ∈ l, (l.foldl (fun s e =>
        if CalcDistanceSquared e.1 pc > s.1 then (CalcDistanceSquared e.1 pc, e.1) else s) s)
          = (CalcDistanceSquared e.1 pc, e.1)) := by
  induction l generalizing s with
  | nil => exact ⟨le_refl _, fun e he => absurd he (List.not_mem_nil e), Or.inl rfl⟩
  | cons a l ih =>
    simp only [List.foldl_cons]
    obtain ⟨h1, h2, h3⟩ := ih
      (if CalcDistanceSquared a.1 pc > s.1 then (CalcDistanceSquared a.1 pc, a.1) else s)
    have hstep : s.1 ≤ (if CalcDistanceSquared a.1 pc > s.1 then
          (CalcDistanceSquared a.1 pc, a.1) else s).1 ∧
        CalcDistanceSquared a.1 pc ≤ (if CalcDistanceSquared a.1 pc > s.1 then
          (CalcDistanceSquared a.1 pc, a.1) else s).1 := by
      split
      · rename_i h
        exact ⟨le_of_lt h, le_refl _⟩
      · rename_i h
        exact ⟨le_refl _, not_lt.mp h⟩
    refine ⟨le_trans hstep.1 h1, ?_, ?_⟩
    · intro e he
      rcases List.mem_cons.mp he with rfl | he
      · exact le_trans hstep.2 h1
      · exact h2 e he
    · rcases h3 with h3 | ⟨e, he, h3⟩
      · rw [h3]
        split
        · exact Or.inr ⟨a, List.mem_cons_self _ _, rfl⟩
        · exact Or.inl rfl
      · exact Or.inr ⟨e, List.mem_cons_of_mem _ he, h3⟩

theorem World.isChunkActive_of_mem (w : World) (e : ChunkCoords × Nat)
    (h : e ∈ w.m_activeChunks) : w.IsChunkActive e.1 = true := by
  unfold World.IsChunkActive
  rw [List.any_eq_true]
  exact ⟨e, h, by simp⟩

theorem World.DeactivateChunk_active (w w' : World) (c : ChunkCoords)
    (h : w.DeactivateChunk c = some w') :
    w'.m_activeChunks = w.m_activeChunks.filter (fun e => e.1 ≠ c) := by
  unfold World.DeactivateChunk at h
  cases hf : w.findChunk c with
  | none =>
    rw [hf] at h
    exact Option.noConfusion h
  | some p =>
    rw [hf] at h
    simp only [Option.some.injEq] at h
    rw [← h]
    cases hr : w.m_isRunning
    · rfl
    · simp only [if_true]
      rw [(World.unlinked_spec w c).1]

theorem World.DeactivateChunk_isSome (w : World) (c : ChunkCoords)
    (h : w.IsChunkActive c = true) : ∃ w', w.DeactivateChunk c = some w' := by
  obtain ⟨p, hp⟩ := (World.isChunkActive_iff w c).mp h
  unfold World.DeactivateChunk
  rw [hp]
  exact ⟨_, rfl⟩

/-- C16.  Furthest-first deactivation: `DeactivateFurthestChunk` either removes exactly
the entries of one coordinate, which was active, is further from the chunk coordinate
of the viewer than `OUTER_DISTANCE_THERMOSTAT_QUALIFICATION` = 256 (squared distance)
and is at least as far as every active chunk; or no active chunk is further than 256
and the world is unchanged. -/
theorem furthest_first_deactivation (w : World) :
    OUTER_DISTANCE_THERMOSTAT_QUALIFICATION = 256 ∧
    ((∃ c w', w.chunkCoordsToDeactivate = some c ∧ w.DeactivateFurthestChunk = some w' ∧
        w.IsChunkActive c = true ∧
        OUTER_DISTANCE_THERMOSTAT_QUALIFICATION
          < CalcDistanceSquared c (Chunk.GetChunkCoordsAtWorldCoords w.m_cameraPosition) ∧
        (∀ e ∈ w.m_activeChunks,
          CalcDistanceSquared e.1 (Chunk.GetChunkCoordsAtWorldCoords w.m_cameraPosition)
            ≤ CalcDistanceSquared c (Chunk.GetChunkCoordsAtWorldCoords w.m_cameraPosition)) ∧
        w'.m_activeChunks = w.m_activeChunks.filter (fun e => e.1 ≠ c)) ∨
    (w.chunkCoordsToDeactivate = none ∧ w.DeactivateFurthestChunk = some w ∧
      ∀ e ∈ w.m_activeChunks,
        CalcDistanceSquared e.1 (Chunk.GetChunkCoordsAtWorldCoords w.m_cameraPosition)
          ≤ OUTER_DISTANCE_THERMOSTAT_QUALIFICATION)) := by
  refine ⟨by decide, ?_⟩
  have hspec := furthestFold_spec (Chunk.GetChunkCoordsAtWorldCoords w.m_cameraPosition)
    w.m_activeChunks (OUTER_DISTANCE_THERMOSTAT_QUALIFICATION, ⟨0, 0⟩)
  have hscan : w.furthestScan = w.m_activeChunks.foldl (fun s e =>
      if CalcDistanceSquared e.1 (Chunk.GetChunkCoordsAtWorldCoords w.m_cameraPosition) > s.1
      then (CalcDistanceSquared e.1 (Chunk.GetChunkCoordsAtWorldCoords w.m_cameraPosition), e.1)
      else s) (OUTER_DISTANCE_THERMOSTAT_QUALIFICATION, ⟨0, 0⟩) := rfl
  rw [← hscan] at hspec
  obtain ⟨h1, h2, h3⟩ := hspec
  by_cases h : w.furthestScan.1 > OUTER_DISTANCE_THERMOSTAT_QUALIFICATION
  · left
    have hsome : w.chunkCoordsToDeactivate = some w.furthestScan.2 := by
      unfold World.chunkCoordsToDeactivate
      simp only [h, if_true]
    rcases h3 with h3 | ⟨e, he, h3⟩
    · rw [h3] at h
      exact absurd h (lt_irrefl _)
    · have hactive : w.IsChunkActive w.furthestScan.2 = true := by
        rw [h3]
        exact World.isChunkActive_of_mem w e he
      obtain ⟨w', hw'⟩ := World.DeactivateChunk_isSome w _ hactive
      have hd : CalcDistanceSquared w.furthestScan.2
          (Chunk.GetChunkCoordsAtWorldCoords w.m_cameraPosition) = w.furthestScan.1 := by
        rw [h3]
      refine ⟨w.furthestScan.2, w', hsome, ?_, hactive, by rw [hd]; exact h, ?_,
        World.DeactivateChunk_active w w' _ hw'⟩
      · unfold World.DeactivateFurthestChunk
        rw [hsome]
        exact hw'
      · intro e' he'
        rw [hd]
        exact h2 e' he'
  · right
    have hnone : w.chunkCoordsToDeactivate = none := by
      unfold World.chunkCoordsToDeactivate
      simp only [h, if_false]
    refine ⟨hnone, ?_, ?_⟩
    · unfold World.DeactivateFurthestChunk
      rw [hnone]
    · intro e he
      exact le_trans (h2 e he) (not_lt.mp h)

/-! ### The order of the pops of the work queue -/

theorem idealOf_pos (L : Nat) (M : Nat) (h : M = L) : idealOf L true M = M := by
  unfold idealOf
  simp [h]

theorem idealOf_neg (L : Nat) (sky : Bool) (M : Nat) (h1 : 1 ≤ M) (h2 : M ≤ 15)
    (h : ¬ (sky = true ∧ M = L)) : idealOf L sky M = M - 1 := by
  unfold idealOf
  rw [if_neg h]
  omega

theorem relaxRank_neighbor_dark (L : Nat) (skyc : Bool) (Mc x xn R : Nat)
    (h1 : 1 ≤ Mc) (h2 : Mc ≤ 15) (hx : x ≤ 15) (hxn : xn ≤ Mc) (hR1 : 1 ≤ R) (hR : R ≤ 15)
    (hne : x ≠ idealOf L skyc Mc) :
    relaxRank L false xn (idealOf L false (max R (idealOf L skyc Mc)))
      ≤ max (relaxRank L false xn (idealOf L false (max R x)))
          (spreadRank L skyc x (idealOf L skyc Mc)) := by
  have hi : idealOf L skyc Mc = Mc ∨ idealOf L skyc Mc = Mc - 1 := by
    unfold idealOf
    split_ifs
    · exact Or.inl rfl
    · exact Or.inr (by omega)
  generalize idealOf L skyc Mc = i at hi hne ⊢
  rw [idealOf_neg L false (max R i) (by omega) (by omega) (by simp),
    idealOf_neg L false (max R x) (by omega) (by omega) (by simp)]
  unfold relaxRank spreadRank
  simp only [Bool.false_eq_true, false_and, if_false]
  split_ifs <;> omega

set_option maxHeartbeats 4000000 in
theorem relaxRank_neighbor_sky (L : Nat) (skyc : Bool) (Mc x xn R : Nat)
    (h1 : 1 ≤ Mc) (h2 : Mc ≤ 15) (hx : x ≤ 15) (hxn : xn ≤ Mc) (hR1 : 1 ≤ R) (hR : R ≤ 15)
    (hne : x ≠ idealOf L skyc Mc) :
    relaxRank L true xn (idealOf L true (max R (idealOf L skyc Mc)))
      ≤ max (relaxRank L true xn (idealOf L true (max R x)))
          (spreadRank L skyc x (idealOf L skyc Mc)) := by
  have key : ∀ i : Nat, x ≠ i → i ≤ 15 →
      ((skyc = true ∧ Mc = L ∧ i = Mc) ∨ (¬ (skyc = true ∧ Mc = L) ∧ i + 1 = Mc)) →
      relaxRank L true xn (idealOf L true (max R i))
        ≤ max (relaxRank L true xn (idealOf L true (max R x))) (spreadRank L skyc x i) := by
    intro i hne hi15 hi
    by_cases a2 : max R x = L
    · rw [idealOf_pos L (max R x) a2]
      by_cases a3 : max R i = L
      · rw [idealOf_pos L (max R i) a3, a2, a3]
        exact le_max_left _ _
      · rw [idealOf_neg L true (max R i) (by omega) (by omega) (by simp [a3])]
        unfold relaxRank spreadRank
        cases skyc <;>
          simp only [true_and, Bool.false_eq_true, false_and, if_false, not_false_eq_true,
            false_or] at hi ⊢ <;>
          split_ifs <;> omega
    · rw [idealOf_neg L true (max R x) (by omega) (by omega) (by simp [a2])]
      by_cases a3 : max R i = L
      · rw [idealOf_pos L (max R i) a3]
        unfold relaxRank spreadRank
        cases skyc <;>
          simp only [true_and, Bool.false_eq_true, false_and, if_false, not_false_eq_true,
            false_or] at hi ⊢ <;>
          split_ifs <;> omega
      · rw [idealOf_neg L true (max R i) (by omega) (by omega) (by simp [a3])]
        unfold relaxRank spreadRank
        cases skyc <;>
          simp only [true_and, Bool.false_eq_true, false_and, if_false, not_false_eq_true,
            false_or] at hi ⊢ <;>
          split_ifs <;> omega
  apply key _ hne
  · unfold idealOf
    split_ifs <;> omega
  · unfold idealOf
    split_ifs with h
    · exact Or.inl ⟨h.1, h.2, rfl⟩
    · exact Or.inr ⟨h, by omega⟩

theorem rankWeight_mono {a b : Nat} (h : a ≤ b) : rankWeight a ≤ rankWeight b := by
  unfold rankWeight
  split_ifs with ha hb
  · exact Nat.le_refl _
  · exact Nat.zero_le _
  · omega
  · exact Nat.pow_le_pow_right (by decide) h

theorem relaxRank_own (L : Nat) (sky : Bool) (x f : Nat) (hne : x ≠ f) :
    skyDebt L sky f + 6 * rankWeight (spreadRank L sky x f) + 1
      ≤ rankWeight (relaxRank L sky x f) + skyDebt L sky x := by
  have general : ∀ d : Nat, d ≤ 8 ^ (4 * max x f + 3) →
      d + 6 * rankWeight (4 * max x f + 3) + 1 ≤ rankWeight (4 * max x f + 4) := by
    intro d hd
    unfold rankWeight
    rw [if_neg (by omega), if_neg (by omega)]
    have e : 8 ^ (4 * max x f + 4) = 8 * 8 ^ (4 * max x f + 3) := by
      rw [pow_succ]; ring
    have pos : 1 ≤ 8 ^ (4 * max x f + 3) := Nat.one_le_pow _ _ (by decide)
    omega
  cases sky
  · unfold skyDebt spreadRank relaxRank
    simp only [Bool.false_eq_true, false_and, if_false, if_neg hne, Nat.add_zero, Nat.zero_add]
    have := general 0 (Nat.zero_le _)
    omega
  · by_cases c1 : x < L ∧ f = L
    · have hL : ¬ f < L := by omega
      unfold skyDebt spreadRank relaxRank rankWeight
      simp only [true_and, if_neg hne, if_pos c1, if_pos c1.1, if_neg hL, if_pos (Or.inl c1),
        if_true]
      rw [if_neg (by omega)]
      have e : 8 ^ (4 * L + 2) = 64 * 8 ^ (4 * L) := by
        rw [pow_add]; ring
      have pos : 1 ≤ 8 ^ (4 * L) := Nat.one_le_pow _ _ (by decide)
      omega
    · by_cases c2 : x = L ∧ f < L
      · have hL : ¬ x < L := by omega
        unfold skyDebt spreadRank relaxRank rankWeight
        simp only [true_and, if_neg hne, if_neg c1, if_pos c2, if_pos c2.2, if_neg hL,
          if_pos (Or.inr c2)]
        rw [if_neg (by omega), if_neg (by omega)]
        have e : 8 ^ (4 * L + 2) = 64 * 8 ^ (4 * L) := by
          rw [pow_add]; ring
        have e3 : 8 ^ (4 * L + 3) = 512 * 8 ^ (4 * L) := by
          rw [pow_add]; ring
        have pos : 1 ≤ 8 ^ (4 * L) := Nat.one_le_pow _ _ (by decide)
        omega
      · have c3 : ¬ (x < L ∧ f = L ∨ x = L ∧ f < L) := by tauto
        unfold spreadRank relaxRank
        simp only [true_and, if_neg hne, if_neg c1, if_neg c2, if_neg c3]
        unfold skyDebt
        simp only [true_and]
        by_cases hf : f < L
        · rw [if_pos hf]
          by_cases hx : x < L
          · rw [if_pos hx]
            have := general 0 (Nat.zero_le _)
            omega
          · rw [if_neg hx]
            have hle : 8 ^ (4 * L + 2) ≤ 8 ^ (4 * max x f + 3) :=
              Nat.pow_le_pow_right (by decide) (by omega)
            have := general _ hle
            omega
        · rw [if_neg hf]
          have := general 0 (Nat.zero_le _)
          refine le_trans ?_ (Nat.le_add_right _ _)
          omega

/-- The rank of a neighbour after the light value of a cell changes from `x` to its
ideal value is at most the larger of its rank before and the spread rank of the
change. -/
theorem relaxRank_neighbor (L : Nat) (skyc skyn : Bool) (Mc x xn R : Nat)
    (h1 : 1 ≤ Mc) (h2 : Mc ≤ 15) (hx : x ≤ 15) (hxn : xn ≤ Mc) (hR1 : 1 ≤ R) (hR : R ≤ 15)
    (hne : x ≠ idealOf L skyc Mc) :
    relaxRank L skyn xn (idealOf L skyn (max R (idealOf L skyc Mc)))
      ≤ max (relaxRank L skyn xn (idealOf L skyn (max R x)))
          (spreadRank L skyc x (idealOf L skyc Mc)) := by
  cases skyn
  · exact relaxRank_neighbor_dark L skyc Mc x xn R h1 h2 hx hxn hR1 hR hne
  · exact relaxRank_neighbor_sky L skyc Mc x xn R h1 h2 hx hxn hR1 hR hne

theorem rankWeight_max (a b : Nat) : rankWeight (max a b) ≤ rankWeight a + rankWeight b := by
  rcases le_total a b with h | h
  · rw [max_eq_right h]; exact Nat.le_add_left _ _
  · rw [max_eq_left h]; exact Nat.le_add_right _ _

/-! ### Termination of the drain -/

theorem World.pushes_refl (w : World) (l : BlockLocation) (n : Nat) : w.Pushes l n w :=
  ⟨[], rfl, Nat.zero_le _, fun _ => rfl, fun _ h => absurd h (List.not_mem_nil _)⟩

theorem World.pushes_trans {w v u : World} {l : BlockLocation} {n m : Nat}
    (hF : w.Frame v) (h1 : w.Pushes l n v) (h2 : v.Pushes l m u) : w.Pushes l (n + m) u := by
  obtain ⟨a, ha, hla, hda, hxa⟩ := h1
  obtain ⟨b, hb, hlb, hdb, hxb⟩ := h2
  refine ⟨b ++ a, ?_, ?_, ?_, ?_⟩
  · rw [hb, ha, List.append_assoc]
  · rw [List.length_append]; omega
  · intro hd
    rw [hda hd, hdb (hF.debug.trans hd)]
    rfl
  · intro x hx
    rcases List.mem_append.mp hx with h | h
    · obtain ⟨hs, off, hoff, he⟩ := hxb x h
      exact ⟨hs, off, hoff, by rw [he, World.GetBlockLocation_frame hF]⟩
    · exact hxa x h

theorem World.pushes_of_queue (w v : World) (l : BlockLocation) (n : Nat)
    (h : v.m_dirtyBlocks = w.m_dirtyBlocks) : w.Pushes l n v :=
  ⟨[], h, Nat.zero_le _, fun _ => rfl, fun _ h => absurd h (List.not_mem_nil _)⟩

theorem World.dirtyNeighbor_pushes (w : World) (l : BlockLocation) (off : Int)
    (hoff : off ∈ neighborSteps) : w.Pushes l 1 (w.dirtyNeighbor l off) := by
  unfold World.dirtyNeighbor
  simp only
  rcases hloc : w.GetBlockLocation l off with ⟨c, idx⟩
  cases c with
  | none => exact World.pushes_refl w l 1
  | some q =>
    simp only
    split
    · cases hd : w.g_debugPointsEnabled with
      | true =>
        apply World.pushes_of_queue
        unfold World.pushDirty
        simp
        rfl
      | false =>
        refine ⟨[⟨some q, idx⟩], ?_, Nat.le_refl _, ?_, ?_⟩
        · unfold World.pushDirty
          simp
          rfl
        · intro h
          rw [hd] at h
          exact absurd h (by decide)
        · intro x hx
          rw [List.mem_singleton] at hx
          subst hx
          exact ⟨rfl, off, hoff, hloc.symm⟩
    · exact World.pushes_of_queue _ _ _ _ rfl

theorem World.DirtyNonopaqueNeighbors_pushes (w : World) (l : BlockLocation) :
    w.Pushes l 6 (w.DirtyNonopaqueNeighbors l true) := by
  unfold World.DirtyNonopaqueNeighbors
  simp only [if_true]
  have step : ∀ (v : World) (n : Nat) (off : Int), off ∈ neighborSteps → w.Frame v →
      w.Pushes l n v → w.Frame (v.dirtyNeighbor l off) ∧ w.Pushes l (n + 1) (v.dirtyNeighbor l off) := by
    intro v n off hoff hF hP
    refine ⟨hF.trans (World.frame_dirtyNeighbor v l off), World.pushes_trans hF hP ?_⟩
    obtain ⟨a, ha, hla, hda, hxa⟩ := World.dirtyNeighbor_pushes v l off hoff
    exact ⟨a, ha, hla, hda, hxa⟩
  have s1 := step w 0 STEP_UP (by simp [neighborSteps]) (World.Frame.refl w) (World.pushes_refl w l 0)
  have s2 := step _ _ STEP_DOWN (by simp [neighborSteps]) s1.1 s1.2
  have s3 := step _ _ STEP_NORTH (by simp [neighborSteps]) s2.1 s2.2
  have s4 := step _ _ STEP_SOUTH (by simp [neighborSteps]) s3.1 s3.2
  have s5 := step _ _ STEP_EAST (by simp [neighborSteps]) s4.1 s4.2
  have s6 := step _ _ STEP_WEST (by simp [neighborSteps]) s5.1 s5.2
  exact s6.2

theorem World.pushes_congr {w v u : World} {l : BlockLocation} {n : Nat}
    (h : w.Pushes l n v) (hq : u.m_dirtyBlocks = v.m_dirtyBlocks) : w.Pushes l n u := by
  obtain ⟨a, ha, hla, hda, hxa⟩ := h
  exact ⟨a, hq.trans ha, hla, hda, hxa⟩

/-- A call of `UpdateLightingForBlock` pushes at most six locations on the work queue,
all of them neighbours of the cell that have a chunk, and none when the cell stores its
ideal light value. -/
theorem World.UpdateLightingForBlock_pushes (w : World) (p i : Nat) :
    w.Pushes ⟨some p, i⟩ 6 (w.UpdateLightingForBlock ⟨some p, i⟩) ∧
    (((w.m_heap p).m_blocks i).GetLightValue = w.CalculateIdealLightingForBlock ⟨some p, i⟩ →
      (w.UpdateLightingForBlock ⟨some p, i⟩).m_dirtyBlocks = w.m_dirtyBlocks) := by
  unfold World.UpdateLightingForBlock
  simp only [World.GetBlock]
  by_cases hEq : ((w.m_heap p).m_blocks i).GetLightValue
      = w.CalculateIdealLightingForBlock ⟨some p, i⟩
  · simp only [ne_eq, hEq, not_true_eq_false, if_false]
    exact ⟨World.pushes_of_queue _ _ _ _ rfl, fun _ => rfl⟩
  · simp only [ne_eq, hEq, not_false_eq_true, if_true]
    refine ⟨?_, fun h => h.elim⟩
    have hF := World.frame_setBlock w p i
      (((w.m_heap p).m_blocks i).SetLightValue (w.CalculateIdealLightingForBlock ⟨some p, i⟩))
    have h1 := World.pushes_trans hF (World.pushes_of_queue w _ ⟨some p, i⟩ 0 rfl)
      (World.DirtyNonopaqueNeighbors_pushes _ ⟨some p, i⟩)
    rw [Nat.zero_add] at h1
    exact World.pushes_congr h1 rfl

theorem World.ideal_eq_idealOf (w : World) (l : BlockLocation) :
    w.CalculateIdealLightingForBlock l
      = idealOf w.m_lightLevel (w.GetBlock l).IsSky (w.maxAdjacentLighting l) := rfl

theorem le_foldr_max (l : List Nat) (a : Nat) (h : a ∈ l) : a ≤ l.foldr max 0 := by
  induction l with
  | nil => exact absurd h (List.not_mem_nil _)
  | cons b rest ih =>
    simp only [List.foldr_cons]
    rcases List.mem_cons.mp h with rfl | h
    · exact le_max_left _ _
    · exact le_trans (ih h) (le_max_right _ _)

/-- The light value of a neighbour is at most the maximum the ideal light is computed
from. -/
theorem World.light_le_maxAdjacent (w : World) (l : BlockLocation) (off : Int) (r k : Nat)
    (hoff : off ∈ neighborSteps) (hloc : w.GetBlockLocation l off = ⟨some r, k⟩) :
    ((w.m_heap r).m_blocks k).GetLightValue ≤ w.maxAdjacentLighting l := by
  rw [World.maxAdjacentLighting_eq]
  refine le_trans (le_foldr_max _ _ ?_) (le_max_right _ _)
  unfold World.neighborLights
  rw [List.mem_filterMap]
  refine ⟨off, hoff, ?_⟩
  simp only [hloc, Option.isSome_some, if_true, World.GetBlock]

/-- The maximum of a list of values of which those at the places `P` change from `x`
to `y`: both maxima are built from the same maximum `R` of the other values. -/
theorem foldr_max_split {α : Type} (f g : α → Option Nat) (P : α → Prop) (x y : Nat)
    (hP : ∀ a, P a → f a = some x ∧ g a = some y)
    (hN : ∀ a, ¬ P a → g a = f a)
    (hB : ∀ a v, f a = some v → v ≤ 15) (steps : List α) :
    ∃ R : Nat, R ≤ 15 ∧
      (((∃ a, a ∈ steps ∧ P a) ∧ (steps.filterMap f).foldr max 0 = max R x ∧
          (steps.filterMap g).foldr max 0 = max R y) ∨
       (¬ (∃ a, a ∈ steps ∧ P a) ∧ (steps.filterMap f).foldr max 0 = R ∧
          (steps.filterMap g).foldr max 0 = R)) := by
  induction steps with
  | nil => exact ⟨0, Nat.zero_le _, Or.inr ⟨by simp, by simp, by simp⟩⟩
  | cons a rest ih =>
    obtain ⟨R, hR, ih⟩ := ih
    by_cases hPa : P a
    · have hex : ∃ o, o ∈ a :: rest ∧ P o := ⟨a, List.mem_cons_self _ _, hPa⟩
      obtain ⟨e1, e2⟩ := hP a hPa
      refine ⟨R, hR, Or.inl ⟨hex, ?_, ?_⟩⟩
      · rw [List.filterMap_cons_some e1, List.foldr_cons]
        rcases ih with ⟨_, h1, _⟩ | ⟨_, h1, _⟩ <;> rw [h1] <;> omega
      · rw [List.filterMap_cons_some e2, List.foldr_cons]
        rcases ih with ⟨_, _, h2⟩ | ⟨_, _, h2⟩ <;> rw [h2] <;> omega
    · have hiff : (∃ o, o ∈ a :: rest ∧ P o) ↔ (∃ o, o ∈ rest ∧ P o) := by
        constructor
        · rintro ⟨o, ho, he⟩
          rcases List.mem_cons.mp ho with rfl | ho
          · exact absurd he hPa
          · exact ⟨o, ho, he⟩
        · rintro ⟨o, ho, he⟩
          exact ⟨o, List.mem_cons_of_mem _ ho, he⟩
      have eg := hN a hPa
      cases hf : f a with
      | none =>
        rw [hf] at eg
        refine ⟨R, hR, ?_⟩
        rw [List.filterMap_cons_none hf, List.filterMap_cons_none eg, hiff]
        exact ih
      | some v =>
        rw [hf] at eg
        have hv := hB a v hf
        refine ⟨max v R, by omega, ?_⟩
        rw [List.filterMap_cons_some hf, List.filterMap_cons_some eg, List.foldr_cons,
          List.foldr_cons, hiff]
        rcases ih with ⟨hex, h1, h2⟩ | ⟨hex, h1, h2⟩
        · exact Or.inl ⟨hex, by rw [h1]; omega, by rw [h2]; omega⟩
        · exact Or.inr ⟨hex, by rw [h1], by rw [h2]⟩

/-- The maximum `CalculateIdealLightingForBlock` starts from, before and after the light
value of the cell `(p, i)` changes from `x` to `y`: both maxima are built from the same
maximum `R` of the own emission and the other neighbours, and they differ at most when
the cell is a neighbour of the location `l`. -/
theorem World.maxAdjacent_split (w w' : World) (hF : w.Frame w') (l : BlockLocation)
    (p i x y : Nat)
    (htype : (w'.GetBlock l).m_type = (w.GetBlock l).m_type)
    (hx : ((w.m_heap p).m_blocks i).GetLightValue = x)
    (hy : ((w'.m_heap p).m_blocks i).GetLightValue = y)
    (hlight : ∀ r k, ¬ (r = p ∧ k = i) →
      ((w'.m_heap r).m_blocks k).GetLightValue = ((w.m_heap r).m_blocks k).GetLightValue) :
    ∃ R : Nat, 1 ≤ R ∧ R ≤ 15 ∧
      (((∃ off, off ∈ neighborSteps ∧ w.GetBlockLocation l off = ⟨some p, i⟩) ∧
          w.maxAdjacentLighting l = max R x ∧ w'.maxAdjacentLighting l = max R y) ∨
       (¬ (∃ off, off ∈ neighborSteps ∧ w.GetBlockLocation l off = ⟨some p, i⟩) ∧
          w.maxAdjacentLighting l = R ∧ w'.maxAdjacentLighting l = R)) := by
  obtain ⟨R, hR, h⟩ := foldr_max_split
    (fun indexOffset =>
      let location := w.GetBlockLocation l indexOffset
      if location.m_chunk.isSome then some (w.GetBlock location).GetLightValue else none)
    (fun indexOffset =>
      let location := w'.GetBlockLocation l indexOffset
      if location.m_chunk.isSome then some (w'.GetBlock location).GetLightValue else none)
    (fun off => w.GetBlockLocation l off = ⟨some p, i⟩) x y
    (by
      intro off hoff
      simp only [World.GetBlockLocation_frame hF, hoff, Option.isSome_some, if_true,
        World.GetBlock, hx, hy, and_self])
    (by
      intro off hoff
      simp only [World.GetBlockLocation_frame hF]
      rcases hl : w.GetBlockLocation l off with ⟨ch, k⟩
      cases ch with
      | none => rfl
      | some r =>
        have hne : ¬ (r = p ∧ k = i) := by
          rintro ⟨rfl, rfl⟩
          exact hoff hl
        simp only [Option.isSome_some, if_true, World.GetBlock, hlight r k hne])
    (by
      intro off v hv
      simp only at hv
      split at hv
      · injection hv with hv
        rw [← hv]
        exact Block.light_le _
      · exact Option.noConfusion hv)
    neighborSteps
  have hi := inherentLight_le (w.GetBlock l).m_type
  have h0 : ((g_blockDefinitions (w.GetBlock l).m_type).m_inherentLightValue + 1) % 256
      = (g_blockDefinitions (w.GetBlock l).m_type).m_inherentLightValue + 1 :=
    Nat.mod_eq_of_lt (by omega)
  have e1 : w.maxAdjacentLighting l
      = max ((g_blockDefinitions (w.GetBlock l).m_type).m_inherentLightValue + 1)
          ((neighborSteps.filterMap (fun indexOffset =>
            let location := w.GetBlockLocation l indexOffset
            if location.m_chunk.isSome then some (w.GetBlock location).GetLightValue
            else none)).foldr max 0) := by
    rw [World.maxAdjacentLighting_eq, h0]
    rfl
  have e2 : w'.maxAdjacentLighting l
      = max ((g_blockDefinitions (w.GetBlock l).m_type).m_inherentLightValue + 1)
          ((neighborSteps.filterMap (fun indexOffset =>
            let location := w'.GetBlockLocation l indexOffset
            if location.m_chunk.isSome then some (w'.GetBlock location).GetLightValue
            else none)).foldr max 0) := by
    rw [World.maxAdjacentLighting_eq, htype, h0]
    rfl
  refine ⟨max ((g_blockDefinitions (w.GetBlock l).m_type).m_inherentLightValue + 1) R,
    le_trans (by omega) (le_max_left _ _), by omega, ?_⟩
  rcases h with ⟨hex, h1, h2⟩ | ⟨hex, h1, h2⟩
  · refine Or.inl ⟨hex, ?_, ?_⟩
    · rw [e1, h1, max_assoc]
    · rw [e2, h2, max_assoc]
  · refine Or.inr ⟨hex, ?_, ?_⟩
    · rw [e1, h1]
    · rw [e2, h2]

/-- After the light value of the cell `(p, i)` is set to its ideal value, the cell
weighs what it owes as a sky cell below the light level. -/
theorem World.cellPotential_own (w w' : World) (p i : Nat) (hF : w.Frame w')
    (hi : i < BLOCKS_PER_CHUNK)
    (htype : ∀ r k, ((w'.m_heap r).m_blocks k).m_type = ((w.m_heap r).m_blocks k).m_type)
    (hsky : ∀ r k, ((w'.m_heap r).m_blocks k).IsSky = ((w.m_heap r).m_blocks k).IsSky)
    (hlight : ∀ r k, ¬ (r = p ∧ k = i) →
      ((w'.m_heap r).m_blocks k).GetLightValue = ((w.m_heap r).m_blocks k).GetLightValue)
    (hown : ((w'.m_heap p).m_blocks i).GetLightValue
      = w.CalculateIdealLightingForBlock ⟨some p, i⟩) :
    w'.cellPotential (p, i)
      = skyDebt w.m_lightLevel ((w.m_heap p).m_blocks i).IsSky
          (w.CalculateIdealLightingForBlock ⟨some p, i⟩) := by
  have hideal : w'.CalculateIdealLightingForBlock ⟨some p, i⟩
      = w.CalculateIdealLightingForBlock ⟨some p, i⟩ := by
    apply World.ideal_congr hF p i (htype p i) (hsky p i)
    intro off r k hoff hloc
    apply hlight
    rintro ⟨rfl, rfl⟩
    exact World.neighbor_irrefl w r k off hi hoff hloc
  unfold World.cellPotential
  simp only [hideal, hown, hsky, hF.lightLevel]
  unfold relaxRank rankWeight
  simp

/-- The weight of a cell other than `(p, i)` after the light value of `(p, i)` is set to
its ideal value: it is unchanged when `(p, i)` is not a neighbour of the cell, and grows
by at most the weight of the spread rank of the change otherwise. -/
theorem World.cellPotential_other (w w' : World) (p i r k : Nat) (hF : w.Frame w')
    (hback : (∃ off, off ∈ neighborSteps ∧ w.GetBlockLocation ⟨some r, k⟩ off = ⟨some p, i⟩) →
      ∃ back, back ∈ neighborSteps ∧ w.GetBlockLocation ⟨some p, i⟩ back = ⟨some r, k⟩)
    (hrk : ¬ (r = p ∧ k = i))
    (htype : ∀ r k, ((w'.m_heap r).m_blocks k).m_type = ((w.m_heap r).m_blocks k).m_type)
    (hsky : ∀ r k, ((w'.m_heap r).m_blocks k).IsSky = ((w.m_heap r).m_blocks k).IsSky)
    (hlight : ∀ r k, ¬ (r = p ∧ k = i) →
      ((w'.m_heap r).m_blocks k).GetLightValue = ((w.m_heap r).m_blocks k).GetLightValue)
    (hown : ((w'.m_heap p).m_blocks i).GetLightValue
      = w.CalculateIdealLightingForBlock ⟨some p, i⟩)
    (hne : ((w.m_heap p).m_blocks i).GetLightValue
      ≠ w.CalculateIdealLightingForBlock ⟨some p, i⟩) :
    ((∃ back, back ∈ neighborSteps ∧ w.GetBlockLocation ⟨some p, i⟩ back = ⟨some r, k⟩) ∧
      w'.cellPotential (r, k) ≤ w.cellPotential (r, k)
        + rankWeight (spreadRank w.m_lightLevel ((w.m_heap p).m_blocks i).IsSky
            ((w.m_heap p).m_blocks i).GetLightValue
            (w.CalculateIdealLightingForBlock ⟨some p, i⟩))) ∨
    w'.cellPotential (r, k) = w.cellPotential (r, k) := by
  obtain ⟨R, hR1, hR, hsplit⟩ := World.maxAdjacent_split w w' hF ⟨some r, k⟩ p i _ _
    (htype r k) rfl hown hlight
  have hcell : ∀ v : World, v.cellPotential (r, k)
      = rankWeight (relaxRank v.m_lightLevel ((v.m_heap r).m_blocks k).IsSky
          ((v.m_heap r).m_blocks k).GetLightValue
          (idealOf v.m_lightLevel ((v.m_heap r).m_blocks k).IsSky
            (v.maxAdjacentLighting ⟨some r, k⟩)))
        + skyDebt v.m_lightLevel ((v.m_heap r).m_blocks k).IsSky
            ((v.m_heap r).m_blocks k).GetLightValue := fun _ => rfl
  rw [hcell w, hcell w', hsky r k, hlight r k hrk, hF.lightLevel]
  rcases hsplit with ⟨hex, h1, h2⟩ | ⟨_, h1, h2⟩
  · left
    obtain ⟨back, hb, hloc⟩ := hback hex
    refine ⟨⟨back, hb, hloc⟩, ?_⟩
    have hMc := World.maxAdjacentLighting_bounds w ⟨some p, i⟩
    have hxn := World.light_le_maxAdjacent w ⟨some p, i⟩ back r k hb hloc
    have hx := Block.light_le ((w.m_heap p).m_blocks i)
    rw [h1, h2]
    rw [World.ideal_eq_idealOf] at hne ⊢
    simp only [World.GetBlock] at hne ⊢
    have key := relaxRank_neighbor w.m_lightLevel ((w.m_heap p).m_blocks i).IsSky
      ((w.m_heap r).m_blocks k).IsSky (w.maxAdjacentLighting ⟨some p, i⟩)
      ((w.m_heap p).m_blocks i).GetLightValue ((w.m_heap r).m_blocks k).GetLightValue R
      hMc.1 hMc.2 hx hxn hR1 hR hne
    have h3 := le_trans (rankWeight_mono key) (rankWeight_max _ _)
    omega
  · right
    rw [h1, h2]

/-- A neighbour of a cell of a chunk is a cell of that chunk or of a chunk it links
to. -/
theorem World.neighbor_cell (w : World) (p i r k : Nat) (off : Int)
    (hi : i < BLOCKS_PER_CHUNK) (hoff : off ∈ neighborSteps)
    (hloc : w.GetBlockLocation ⟨some p, i⟩ off = ⟨some r, k⟩) :
    k < BLOCKS_PER_CHUNK ∧ (r = p ∨ ∃ d, (w.m_heap p).link d = some r) := by
  have hB : BLOCKS_PER_CHUNK = 32768 := by decide
  simp only [neighborSteps, List.mem_cons, List.mem_singleton, List.not_mem_nil, or_false]
    at hoff
  rw [hB]
  rw [hB] at hi
  have inj : ∀ {a b : Option Nat} {c d : Nat}, (⟨a, c⟩ : BlockLocation) = ⟨b, d⟩ →
      a = b ∧ c = d := by
    intro a b c d h
    exact ⟨congrArg BlockLocation.m_chunk h, congrArg BlockLocation.m_index h⟩
  rcases hoff with rfl | rfl | rfl | rfl | rfl | rfl
  · rw [World.GetBlockLocation_up w p i (by rw [hB]; exact hi), hB] at hloc
    split_ifs at hloc with h
    · obtain ⟨h1, h2⟩ := inj hloc
      simp only [Option.some.injEq] at h1
      exact ⟨by omega, Or.inl h1.symm⟩
    · exact absurd (inj hloc).1 (by simp)
  · rw [World.GetBlockLocation_down w p i (by rw [hB]; exact hi)] at hloc
    split_ifs at hloc with h
    · obtain ⟨h1, h2⟩ := inj hloc
      simp only [Option.some.injEq] at h1
      exact ⟨by omega, Or.inl h1.symm⟩
    · exact absurd (inj hloc).1 (by simp)
  · rw [World.GetBlockLocation_north w p i (by rw [hB]; exact hi)] at hloc
    split_ifs at hloc with h
    · cases hl : (w.m_heap p).m_chunkToNorth with
      | none =>
        rw [hl] at hloc
        exact absurd (inj hloc).1 (by simp)
      | some e =>
        rw [hl] at hloc
        obtain ⟨h1, h2⟩ := inj hloc
        simp only [Option.some.injEq] at h1
        exact ⟨by omega, Or.inr ⟨Dir.north, by rw [← h1]; exact hl⟩⟩
    · obtain ⟨h1, h2⟩ := inj hloc
      simp only [Option.some.injEq] at h1
      exact ⟨by omega, Or.inl h1.symm⟩
  · rw [World.GetBlockLocation_south w p i (by rw [hB]; exact hi)] at hloc
    split_ifs at hloc with h
    · cases hl : (w.m_heap p).m_chunkToSouth with
      | none =>
        rw [hl] at hloc
        exact absurd (inj hloc).1 (by simp)
      | some e =>
        rw [hl] at hloc
        obtain ⟨h1, h2⟩ := inj hloc
        simp only [Option.some.injEq] at h1
        exact ⟨by omega, Or.inr ⟨Dir.south, by rw [← h1]; exact hl⟩⟩
    · obtain ⟨h1, h2⟩ := inj hloc
      simp only [Option.some.injEq] at h1
      exact ⟨by omega, Or.inl h1.symm⟩
  · rw [World.GetBlockLocation_east w p i (by rw [hB]; exact hi)] at hloc
    split_ifs at hloc with h
    · cases hl : (w.m_heap p).m_chunkToEast with
      | none =>
        rw [hl] at hloc
        exact absurd (inj hloc).1 (by simp)
      | some e =>
        rw [hl] at hloc
        obtain ⟨h1, h2⟩ := inj hloc
        simp only [Option.some.injEq] at h1
        exact ⟨by omega, Or.inr ⟨Dir.east, by rw [← h1]; exact hl⟩⟩
    · obtain ⟨h1, h2⟩ := inj hloc
      simp only [Option.some.injEq] at h1
      exact ⟨by omega, Or.inl h1.symm⟩
  · rw [World.GetBlockLocation_west w p i (by rw [hB]; exact hi)] at hloc
    split_ifs at hloc with h
    · cases hl : (w.m_heap p).m_chunkToWest with
      | none =>
        rw [hl] at hloc
        exact absurd (inj hloc).1 (by simp)
      | some e =>
        rw [hl] at hloc
        obtain ⟨h1, h2⟩ := inj hloc
        simp only [Option.some.injEq] at h1
        exact ⟨by omega, Or.inr ⟨Dir.west, by rw [← h1]; exact hl⟩⟩
    · obtain ⟨h1, h2⟩ := inj hloc
      simp only [Option.some.injEq] at h1
      exact ⟨by omega, Or.inl h1.symm⟩

/-- When `UpdateLighting` returns, the work queue is empty. -/
theorem World.UpdateLighting_empty (fuel : Nat) (w w' : World)
    (h : World.UpdateLighting fuel w = some w') : w'.m_dirtyBlocks = [] := by
  induction fuel generalizing w with
  | zero =>
    unfold World.UpdateLighting at h
    split at h
    · rename_i he
      injection h with h
      subst h
      exact List.isEmpty_iff.mp he
    · exact Option.noConfusion h
  | succ n ih =>
    unfold World.UpdateLighting at h
    cases hq : w.m_dirtyBlocks with
    | nil =>
      rw [hq] at h
      simp only at h
      injection h with h
      subst h
      exact hq
    | cons l rest =>
      rw [hq] at h
      simp only at h
      obtain ⟨c, i⟩ := l
      cases c with
      | none => exact ih _ h
      | some p => exact ih _ h

/-! ### Edits and moves at the borders -/

/-- C27.  `MovePlayerWhenStuckInsideBlocks` returns true with contact points inside
solid cells.  In `nicheWorld` the first contact point, the corner `(0, 0, 80)`, lies in
a cell of air, so the method returns true at once, without moving the player; the four
upper corners of the player box lie in the cell `(0, 0, 81)`, which is stone. -/
theorem unstuck_pass_leaves_corners_inside :
    nicheWorld.m_playerBox.mins = ⟨0, 0, 80⟩ ∧
    nicheWorld.m_playerBox.maxs = ⟨6 / 10, 6 / 10, 80 + 185 / 100⟩ ∧
    (nicheWorld.MovePlayerWhenStuckInsideBlocks 1).map
        (fun r => (r.2, r.1.m_playerBox.mins, r.1.m_playerBox.maxs,
          r.1.GetPlayerBoxContactPoints.map (fun corner =>
            (r.1.IsChunkActive (Chunk.GetChunkCoordsAtWorldCoords corner),
              (g_blockDefinitions
                ((r.1.m_heap 0).m_blocks (Chunk.GetIndexAtWorldCoords corner)).m_type).m_isSolid))))
      = .done (true, ⟨0, 0, 80⟩, ⟨6 / 10, 6 / 10, 80 + 185 / 100⟩,
          [(true, false), (true, false), (true, false), (true, false),
           (true, true), (true, true), (true, true), (true, true),
           (true, false), (true, false), (true, false), (true, false)]) := by
  refine ⟨by decide!, by decide!, by decide!⟩

/-- C30.  `DestroyBlockWithRaycast` writes to a missing neighbour chunk.  In the
all-stone one-chunk world the impacted cell `(15, 1, 1)` lies on the east border of the
chunk `(0, 0)`, the chunk east of it is not active, so `GetBlockLocation` returns a
location without chunk for the step east, and the method assigns `m_isVboDirty` through
that chunk pointer: the call has no result.  The same holds for the cell `(0, 1, 1)` on
the west border, where the step east stays in the chunk and the step west leaves it. -/
theorem destroy_at_world_edge_writes_null :
    (Chunk.GetIndexAtWorldCoords ⟨15, 1, 1⟩ = 287 ∧
      Chunk.GetLocalCoordsAtIndex 287 = ⟨15, 1, 1⟩ ∧
      (uniformWorld ⟨BT_STONE, 0⟩).findChunk (Chunk.GetChunkCoordsAtWorldCoords ⟨15, 1, 1⟩)
        = some 0 ∧
      (uniformWorld ⟨BT_STONE, 0⟩).IsChunkActive ⟨1, 0⟩ = false ∧
      (uniformWorld ⟨BT_STONE, 0⟩).GetBlockLocation ⟨some 0, 287⟩ STEP_EAST = ⟨none, 287⟩ ∧
      ((uniformWorld ⟨BT_STONE, 0⟩).DestroyBlockWithRaycast
        ⟨true, ⟨15, 2, 2⟩, ⟨15, 1, 1⟩, ⟨0, 0, 1⟩⟩ false).isNone = true) ∧
    (Chunk.GetIndexAtWorldCoords ⟨0, 1, 1⟩ = 272 ∧
      (uniformWorld ⟨BT_STONE, 0⟩).GetBlockLocation ⟨some 0, 272⟩ STEP_EAST = ⟨some 0, 273⟩ ∧
      (uniformWorld ⟨BT_STONE, 0⟩).GetBlockLocation ⟨some 0, 272⟩ STEP_WEST = ⟨none, 272⟩ ∧
      ((uniformWorld ⟨BT_STONE, 0⟩).DestroyBlockWithRaycast
        ⟨true, ⟨0, 2, 2⟩, ⟨0, 1, 1⟩, ⟨0, 0, 1⟩⟩ false).isNone = true) := by
  refine ⟨⟨by decide!, by decide!, by decide!, by decide!, by decide!, by decide!⟩,
    by decide!, by decide!, by decide!, by decide!⟩

/-- C25.  Destroying a cell of the top layer breaks the match of sky flags and columns.
In the all-stone one-chunk world no cell is air and no cell is flagged sky, so the sky
flags match the columns.  `DestroyBlockWithRaycast` on the cell `(1, 1, 127)` turns it
into air; the test `index < BLOCKS_PER_CHUNK` for the cell above fails, the cell is not
flagged sky, and it is a cell of air with nothing above it. -/
theorem destroy_top_layer_breaks_sky :
    (uniformWorld ⟨BT_STONE, 0⟩).SkyMatchesColumns 0 ∧
    Chunk.GetIndexAtWorldCoords ⟨1, 1, 127⟩ = 32529 ∧
    Chunk.GetLocalCoordsAtIndex 32529 = ⟨1, 1, 127⟩ ∧
    ((uniformWorld ⟨BT_STONE, 0⟩).DestroyBlockWithRaycast
        ⟨true, ⟨1, 2, 128⟩, ⟨1, 1, 127⟩, ⟨0, 0, 1⟩⟩ false).map
        (fun w => (((w.m_heap 0).m_blocks 32529).m_type, ((w.m_heap 0).m_blocks 32529).IsSky))
      = some (BT_AIR, false) ∧
    ∀ w', (uniformWorld ⟨BT_STONE, 0⟩).DestroyBlockWithRaycast
        ⟨true, ⟨1, 2, 128⟩, ⟨1, 1, 127⟩, ⟨0, 0, 1⟩⟩ false = some w' →
      ¬ w'.SkyMatchesColumns 0 := by
  have hrun : ((uniformWorld ⟨BT_STONE, 0⟩).DestroyBlockWithRaycast
        ⟨true, ⟨1, 2, 128⟩, ⟨1, 1, 127⟩, ⟨0, 0, 1⟩⟩ false).map
        (fun w => (((w.m_heap 0).m_blocks 32529).m_type, ((w.m_heap 0).m_blocks 32529).IsSky))
      = some (BT_AIR, false) := by decide!
  refine ⟨?_, by decide!, by decide!, hrun, ?_⟩
  · intro i hi
    have hblk : ∀ j, ((uniformWorld ⟨BT_STONE, 0⟩).m_heap 0).m_blocks j = ⟨BT_STONE, 0⟩ :=
      fun _ => rfl
    constructor
    · intro h
      rw [hblk] at h
      exact absurd h (by decide)
    · intro h
      have h0 := h 0 (by simpa using hi)
      rw [hblk] at h0
      exact absurd h0 (by decide)
  · intro w' hw' hinv
    rw [hw'] at hrun
    simp only [Option.map_some', Option.some.injEq, Prod.mk.injEq] at hrun
    have hsky := (hinv 32529 (by decide)).mpr (by
      intro k hk
      have hk0 : k = 0 := by
        have hB : BLOCKS_PER_CHUNK = 32768 := by decide
        have hL : BLOCKS_PER_CHUNK_LAYER = 256 := by decide
        rw [hB, hL] at hk
        omega
      subst hk0
      exact hrun.1)
    rw [hrun.2] at hsky
    exact absurd hsky (by decide)

/-! ### The face hit by a ray -/

/-- The face normal `Raycast3D` assigns, as a function of the difference of the current
and the previous index. -/
theorem Raycast3D.impact_normal (index previousIndex : Nat) (pos : WorldCoords) (d : Int)
    (h1 : (index : Int) - (previousIndex : Int) = d) :
    (Raycast3D.impact index previousIndex pos).m_impactSurfaceNormal
      = (if toBlockIndex d &&& BLOCKINDEX_Z_MASK
            = 1 <<< (CHUNKS_WIDE_EXPONENT + CHUNKS_LONG_EXPONENT) then ⟨0, 0, -1⟩
        else if toBlockIndex (-d) &&& BLOCKINDEX_Z_MASK
            = 1 <<< (CHUNKS_WIDE_EXPONENT + CHUNKS_LONG_EXPONENT) then ⟨0, 0, 1⟩
        else if toBlockIndex d &&& BLOCKINDEX_X_MASK = 1 then ⟨-1, 0, 0⟩
        else if toBlockIndex (-d) &&& BLOCKINDEX_X_MASK = 1 then ⟨1, 0, 0⟩
        else if toBlockIndex d &&& BLOCKINDEX_Y_MASK = 1 <<< CHUNKS_WIDE_EXPONENT
          then ⟨0, -1, 0⟩
        else ⟨0, 1, 0⟩) := by
  have h2 : (previousIndex : Int) - (index : Int) = -d := by omega
  unfold Raycast3D.impact
  simp only [h1, h2]
  split_ifs <;> rfl

/-- C26.  For a previous and a current index of cells whose local coordinates differ by
one step along one axis, where a step along x or y may wrap from 15 to 0 or from 0 to
15 as it does across a chunk edge, the face classification of `Raycast3D` gives the
normal against the direction of travel: `(0, 0, -1)` for a step up, `(0, 0, 1)` for a
step down, `(-1, 0, 0)` for a step to larger x, `(1, 0, 0)` for a step to smaller x,
`(0, -1, 0)` for a step to larger y and `(0, 1, 0)` for a step to smaller y. -/
theorem face_from_index_difference (previousIndex index : Nat) (pos : WorldCoords)
    (hp : previousIndex < BLOCKS_PER_CHUNK) (hi : index < BLOCKS_PER_CHUNK) :
    ((Chunk.GetLocalCoordsAtIndex index).x = (Chunk.GetLocalCoordsAtIndex previousIndex).x ∧
      (Chunk.GetLocalCoordsAtIndex index).y = (Chunk.GetLocalCoordsAtIndex previousIndex).y ∧
      (Chunk.GetLocalCoordsAtIndex index).z = (Chunk.GetLocalCoordsAtIndex previousIndex).z + 1 →
      (Raycast3D.impact index previousIndex pos).m_impactSurfaceNormal = ⟨0, 0, -1⟩) ∧
    ((Chunk.GetLocalCoordsAtIndex index).x = (Chunk.GetLocalCoordsAtIndex previousIndex).x ∧
      (Chunk.GetLocalCoordsAtIndex index).y = (Chunk.GetLocalCoordsAtIndex previousIndex).y ∧
      (Chunk.GetLocalCoordsAtIndex index).z = (Chunk.GetLocalCoordsAtIndex previousIndex).z - 1 →
      (Raycast3D.impact index previousIndex pos).m_impactSurfaceNormal = ⟨0, 0, 1⟩) ∧
    ((Chunk.GetLocalCoordsAtIndex index).x
        = ((Chunk.GetLocalCoordsAtIndex previousIndex).x + 1) % 16 ∧
      (Chunk.GetLocalCoordsAtIndex index).y = (Chunk.GetLocalCoordsAtIndex previousIndex).y ∧
      (Chunk.GetLocalCoordsAtIndex index).z = (Chunk.GetLocalCoordsAtIndex previousIndex).z →
      (Raycast3D.impact index previousIndex pos).m_impactSurfaceNormal = ⟨-1, 0, 0⟩) ∧
    ((Chunk.GetLocalCoordsAtIndex index).x
        = ((Chunk.GetLocalCoordsAtIndex previousIndex).x - 1) % 16 ∧
      (Chunk.GetLocalCoordsAtIndex index).y = (Chunk.GetLocalCoordsAtIndex previousIndex).y ∧
      (Chunk.GetLocalCoordsAtIndex index).z = (Chunk.GetLocalCoordsAtIndex previousIndex).z →
      (Raycast3D.impact index previousIndex pos).m_impactSurfaceNormal = ⟨1, 0, 0⟩) ∧
    ((Chunk.GetLocalCoordsAtIndex index).x = (Chunk.GetLocalCoordsAtIndex previousIndex).x ∧
      (Chunk.GetLocalCoordsAtIndex index).y
        = ((Chunk.GetLocalCoordsAtIndex previousIndex).y + 1) % 16 ∧
      (Chunk.GetLocalCoordsAtIndex index).z = (Chunk.GetLocalCoordsAtIndex previousIndex).z →
      (Raycast3D.impact index previousIndex pos).m_impactSurfaceNormal = ⟨0, -1, 0⟩) ∧
    ((Chunk.GetLocalCoordsAtIndex index).x = (Chunk.GetLocalCoordsAtIndex previousIndex).x ∧
      (Chunk.GetLocalCoordsAtIndex index).y
        = ((Chunk.GetLocalCoordsAtIndex previousIndex).y - 1) % 16 ∧
      (Chunk.GetLocalCoordsAtIndex index).z = (Chunk.GetLocalCoordsAtIndex previousIndex).z →
      (Raycast3D.impact index previousIndex pos).m_impactSurfaceNormal = ⟨0, 1, 0⟩) := by
  have hB : BLOCKS_PER_CHUNK = 32768 := by decide
  rw [hB] at hp hi
  rw [coords_of_index index, coords_of_index previousIndex]
  simp only
  refine ⟨?_, ?_, ?_, ?_, ?_, ?_⟩
  · rintro ⟨h1, h2, h3⟩
    rw [Raycast3D.impact_normal index previousIndex pos 256 (by omega)]
    decide
  · rintro ⟨h1, h2, h3⟩
    rw [Raycast3D.impact_normal index previousIndex pos (-256) (by omega)]
    decide
  · rintro ⟨h1, h2, h3⟩
    by_cases hw : previousIndex % 16 = 15
    · rw [Raycast3D.impact_normal index previousIndex pos (-15) (by omega)]
      decide
    · rw [Raycast3D.impact_normal index previousIndex pos 1 (by omega)]
      decide
  · rintro ⟨h1, h2, h3⟩
    by_cases hw : previousIndex % 16 = 0
    · rw [Raycast3D.impact_normal index previousIndex pos 15 (by omega)]
      decide
    · rw [Raycast3D.impact_normal index previousIndex pos (-1) (by omega)]
      decide
  · rintro ⟨h1, h2, h3⟩
    by_cases hw : previousIndex % 256 / 16 = 15
    · rw [Raycast3D.impact_normal index previousIndex pos (-240) (by omega)]
      decide
    · rw [Raycast3D.impact_normal index previousIndex pos 16 (by omega)]
      decide
  · rintro ⟨h1, h2, h3⟩
    by_cases hw : previousIndex % 256 / 16 = 0
    · rw [Raycast3D.impact_normal index previousIndex pos 240 (by omega)]
      decide
    · rw [Raycast3D.impact_normal index previousIndex pos (-16) (by omega)]
      decide

theorem face_from_index_difference_witness :
    (15 : Nat) < BLOCKS_PER_CHUNK ∧ (0 : Nat) < BLOCKS_PER_CHUNK ∧
    Chunk.GetLocalCoordsAtIndex 15 = ⟨15, 0, 0⟩ ∧ Chunk.GetLocalCoordsAtIndex 0 = ⟨0, 0, 0⟩ ∧
    (Raycast3D.impact 0 15 ⟨16, 1 / 2, 1 / 2⟩).m_impactSurfaceNormal = ⟨-1, 0, 0⟩ :=
  ⟨by decide, by decide, by decide, by decide,
    (face_from_index_difference 15 0 ⟨16, 1 / 2, 1 / 2⟩ (by decide) (by decide)).2.2.1
      ⟨by decide, by decide, by decide⟩⟩

/-! ### Stepping to a neighbour -/

/-- C28.  From a cell of a chunk, `GetBlockLocation` steps to the cell whose local
coordinates differ by one along the axis of the step.  A step up or down stays in the
chunk, and gives a location without chunk above z = 127 and below z = 0.  A lateral
step stays in the chunk while the coordinate stays within 0..15; off the edge it gives
the cell on the opposite face of the chunk the link names, with the other two
coordinates kept, and a location without chunk when that link is null. -/
theorem neighbour_stepping (w : World) (p index : Nat) (hi : index < BLOCKS_PER_CHUNK) :
    ((Chunk.GetLocalCoordsAtIndex index).z < 127 →
      (w.GetBlockLocation ⟨some p, index⟩ STEP_UP).IsCell p
        ⟨(Chunk.GetLocalCoordsAtIndex index).x, (Chunk.GetLocalCoordsAtIndex index).y,
          (Chunk.GetLocalCoordsAtIndex index).z + 1⟩) ∧
    ((Chunk.GetLocalCoordsAtIndex index).z = 127 →
      (w.GetBlockLocation ⟨some p, index⟩ STEP_UP).m_chunk = none) ∧
    (0 < (Chunk.GetLocalCoordsAtIndex index).z →
      (w.GetBlockLocation ⟨some p, index⟩ STEP_DOWN).IsCell p
        ⟨(Chunk.GetLocalCoordsAtIndex index).x, (Chunk.GetLocalCoordsAtIndex index).y,
          (Chunk.GetLocalCoordsAtIndex index).z - 1⟩) ∧
    ((Chunk.GetLocalCoordsAtIndex index).z = 0 →
      (w.GetBlockLocation ⟨some p, index⟩ STEP_DOWN).m_chunk = none) ∧
    ((Chunk.GetLocalCoordsAtIndex index).x < 15 →
      (w.GetBlockLocation ⟨some p, index⟩ STEP_EAST).IsCell p
        ⟨(Chunk.GetLocalCoordsAtIndex index).x + 1, (Chunk.GetLocalCoordsAtIndex index).y,
          (Chunk.GetLocalCoordsAtIndex index).z⟩) ∧
    ((Chunk.GetLocalCoordsAtIndex index).x = 15 →
      (∀ e, (w.m_heap p).m_chunkToEast = some e →
        (w.GetBlockLocation ⟨some p, index⟩ STEP_EAST).IsCell e
          ⟨0, (Chunk.GetLocalCoordsAtIndex index).y, (Chunk.GetLocalCoordsAtIndex index).z⟩) ∧
      ((w.m_heap p).m_chunkToEast = none →
        (w.GetBlockLocation ⟨some p, index⟩ STEP_EAST).m_chunk = none)) ∧
    (0 < (Chunk.GetLocalCoordsAtIndex index).x →
      (w.GetBlockLocation ⟨some p, index⟩ STEP_WEST).IsCell p
        ⟨(Chunk.GetLocalCoordsAtIndex index).x - 1, (Chunk.GetLocalCoordsAtIndex index).y,
          (Chunk.GetLocalCoordsAtIndex index).z⟩) ∧
    ((Chunk.GetLocalCoordsAtIndex index).x = 0 →
      (∀ e, (w.m_heap p).m_chunkToWest = some e →
        (w.GetBlockLocation ⟨some p, index⟩ STEP_WEST).IsCell e
          ⟨15, (Chunk.GetLocalCoordsAtIndex index).y, (Chunk.GetLocalCoordsAtIndex index).z⟩) ∧
      ((w.m_heap p).m_chunkToWest = none →
        (w.GetBlockLocation ⟨some p, index⟩ STEP_WEST).m_chunk = none)) ∧
    ((Chunk.GetLocalCoordsAtIndex index).y < 15 →
      (w.GetBlockLocation ⟨some p, index⟩ STEP_NORTH).IsCell p
        ⟨(Chunk.GetLocalCoordsAtIndex index).x, (Chunk.GetLocalCoordsAtIndex index).y + 1,
          (Chunk.GetLocalCoordsAtIndex index).z⟩) ∧
    ((Chunk.GetLocalCoordsAtIndex index).y = 15 →
      (∀ e, (w.m_heap p).m_chunkToNorth = some e →
        (w.GetBlockLocation ⟨some p, index⟩ STEP_NORTH).IsCell e
          ⟨(Chunk.GetLocalCoordsAtIndex index).x, 0, (Chunk.GetLocalCoordsAtIndex index).z⟩) ∧
      ((w.m_heap p).m_chunkToNorth = none →
        (w.GetBlockLocation ⟨some p, index⟩ STEP_NORTH).m_chunk = none)) ∧
    (0 < (Chunk.GetLocalCoordsAtIndex index).y →
      (w.GetBlockLocation ⟨some p, index⟩ STEP_SOUTH).IsCell p
        ⟨(Chunk.GetLocalCoordsAtIndex index).x, (Chunk.GetLocalCoordsAtIndex index).y - 1,
          (Chunk.GetLocalCoordsAtIndex index).z⟩) ∧
    ((Chunk.GetLocalCoordsAtIndex index).y = 0 →
      (∀ e, (w.m_heap p).m_chunkToSouth = some e →
        (w.GetBlockLocation ⟨some p, index⟩ STEP_SOUTH).IsCell e
          ⟨(Chunk.GetLocalCoordsAtIndex index).x, 15, (Chunk.GetLocalCoordsAtIndex index).z⟩) ∧
      ((w.m_heap p).m_chunkToSouth = none →
        (w.GetBlockLocation ⟨some p, index⟩ STEP_SOUTH).m_chunk = none)) := by
  have hB : BLOCKS_PER_CHUNK = 32768 := by decide
  have hi' : index < 32768 := by rw [hB] at hi; exact hi
  rw [World.GetBlockLocation_up w p index hi, World.GetBlockLocation_down w p index hi,
    World.GetBlockLocation_east w p index hi, World.GetBlockLocation_west w p index hi,
    World.GetBlockLocation_north w p index hi, World.GetBlockLocation_south w p index hi]
  have cell : ∀ (q j : Nat) (c : LocalCoords), j < 32768 →
      (⟨((j % 16 : Nat) : Int), ((j % 256 / 16 : Nat) : Int), ((j / 256 : Nat) : Int)⟩
        : LocalCoords) = c →
      (⟨some q, j⟩ : BlockLocation).IsCell q c := by
    intro q j c hj hc
    refine ⟨rfl, by rw [hB]; exact hj, ?_⟩
    rw [coords_of_index]
    exact hc
  have mk : ∀ (a b c a' b' c' : Int), a = a' → b = b' → c = c' →
      (⟨a, b, c⟩ : LocalCoords) = ⟨a', b', c'⟩ := by
    intro a b c a' b' c' h1 h2 h3
    rw [h1, h2, h3]
  rw [coords_of_index index, hB]
  simp only
  refine ⟨?_, ?_, ?_, ?_, ?_, ?_, ?_, ?_, ?_, ?_, ?_, ?_⟩
  · intro h
    rw [if_pos (by omega)]
    exact cell _ _ _ (by omega) (mk _ _ _ _ _ _ (by omega) (by omega) (by omega))
  · intro h
    rw [if_neg (by omega)]
  · intro h
    rw [if_pos (by omega)]
    exact cell _ _ _ (by omega) (mk _ _ _ _ _ _ (by omega) (by omega) (by omega))
  · intro h
    rw [if_neg (by omega)]
  · intro h
    rw [if_neg (by omega)]
    exact cell _ _ _ (by omega) (mk _ _ _ _ _ _ (by omega) (by omega) (by omega))
  · intro h
    rw [if_pos (by omega)]
    refine ⟨?_, ?_⟩
    · intro e he
      rw [he]
      exact cell _ _ _ (by omega) (mk _ _ _ _ _ _ (by omega) (by omega) (by omega))
    · intro he
      rw [he]
  · intro h
    rw [if_neg (by omega)]
    exact cell _ _ _ (by omega) (mk _ _ _ _ _ _ (by omega) (by omega) (by omega))
  · intro h
    rw [if_pos (by omega)]
    refine ⟨?_, ?_⟩
    · intro e he
      rw [he]
      exact cell _ _ _ (by omega) (mk _ _ _ _ _ _ (by omega) (by omega) (by omega))
    · intro he
      rw [he]
  · intro h
    rw [if_neg (by omega)]
    exact cell _ _ _ (by omega) (mk _ _ _ _ _ _ (by omega) (by omega) (by omega))
  · intro h
    rw [if_pos (by omega)]
    refine ⟨?_, ?_⟩
    · intro e he
      rw [he]
      exact cell _ _ _ (by omega) (mk _ _ _ _ _ _ (by omega) (by omega) (by omega))
    · intro he
      rw [he]
  · intro h
    rw [if_neg (by omega)]
    exact cell _ _ _ (by omega) (mk _ _ _ _ _ _ (by omega) (by omega) (by omega))
  · intro h
    rw [if_pos (by omega)]
    refine ⟨?_, ?_⟩
    · intro e he
      rw [he]
      exact cell _ _ _ (by omega) (mk _ _ _ _ _ _ (by omega) (by omega) (by omega))
    · intro he
      rw [he]

theorem neighbour_stepping_witness :
    (15 : Nat) < BLOCKS_PER_CHUNK ∧ (Chunk.GetLocalCoordsAtIndex 15).z < 127 ∧
    ((uniformWorld ⟨BT_STONE, 0⟩).GetBlockLocation ⟨some 0, 15⟩ STEP_UP).IsCell 0
      ⟨(Chunk.GetLocalCoordsAtIndex 15).x, (Chunk.GetLocalCoordsAtIndex 15).y,
        (Chunk.GetLocalCoordsAtIndex 15).z + 1⟩ :=
  ⟨by decide, by decide,
    (neighbour_stepping (uniformWorld ⟨BT_STONE, 0⟩) 0 15 (by decide)).1 (by decide)⟩

/-! ### The range of the light value -/

theorem foldr_max_le (l : List Nat) (n : Nat) (h : ∀ x, x ∈ l → x ≤ n) : l.foldr max 0 ≤ n := by
  induction l with
  | nil => exact Nat.zero_le _
  | cons a rest ih =>
    simp only [List.foldr_cons]
    exact max_le (h a (List.mem_cons_self _ _))
      (ih (fun x hx => h x (List.mem_cons_of_mem _ hx)))

/-- C21.  `CalculateIdealLightingForBlock` returns a value in 0..15: the maximum it
starts from lies in 1..15, so the subtraction of 1 does not wrap, and the value is that
maximum or one less.  Stored with `SetLightValue` in any block, the value is read back
by `GetLightValue` and leaves the type, the sky flag and the dirty flag of the block
unchanged.  The final test keeps the value in range for every table: with an inherent
light value of at most 15, neighbours storing at most 15 and a light level of the world
of at most 15, the result is at most 15. -/
theorem light_stays_in_range (w : World) (blockLocation : BlockLocation) (b : Block) :
    (w.CalculateIdealLightingForBlock blockLocation ≤ 15 ∧
      1 ≤ w.maxAdjacentLighting blockLocation ∧ w.maxAdjacentLighting blockLocation ≤ 15 ∧
      (w.CalculateIdealLightingForBlock blockLocation = w.maxAdjacentLighting blockLocation ∨
        w.CalculateIdealLightingForBlock blockLocation + 1
          = w.maxAdjacentLighting blockLocation)) ∧
    ((b.SetLightValue (w.CalculateIdealLightingForBlock blockLocation)).GetLightValue
        = w.CalculateIdealLightingForBlock blockLocation ∧
      (b.SetLightValue (w.CalculateIdealLightingForBlock blockLocation)).IsSky = b.IsSky ∧
      (b.SetLightValue (w.CalculateIdealLightingForBlock blockLocation)).IsLightingDirty
        = b.IsLightingDirty ∧
      (b.SetLightValue (w.CalculateIdealLightingForBlock blockLocation)).m_type = b.m_type) ∧
    (w.CalculateIdealLightingForBlock blockLocation
        = idealOf w.m_lightLevel (w.GetBlock blockLocation).IsSky
            (max (((g_blockDefinitions (w.GetBlock blockLocation).m_type).m_inherentLightValue
              + 1) % 256) ((w.neighborLights blockLocation).foldr max 0)) ∧
      ∀ (lightLevel inherentLightValue : Nat) (sky : Bool) (lights : List Nat),
        inherentLightValue ≤ 15 → lightLevel ≤ 15 → (∀ x, x ∈ lights → x ≤ 15) →
        idealOf lightLevel sky (max ((inherentLightValue + 1) % 256) (lights.foldr max 0))
          ≤ 15) := by
  have hb := World.maxAdjacentLighting_bounds w blockLocation
  have hlt := World.ideal_lt w blockLocation
  refine ⟨⟨by omega, hb.1, hb.2, ?_⟩, ⟨Block.light_SetLightValue _ _ hlt,
    Block.isSky_SetLightValue _ _ hlt, Block.isDirty_SetLightValue _ _ hlt, rfl⟩, ?_, ?_⟩
  · unfold World.CalculateIdealLightingForBlock
    simp only
    split
    · exact Or.inl rfl
    · right
      omega
  · rw [World.ideal_eq_idealOf, World.maxAdjacentLighting_eq]
  · intro L inh sky lights hinh hL hl
    have h1 := foldr_max_le lights 15 hl
    unfold idealOf
    split_ifs with h
    · omega
    · omega

theorem light_stays_in_range_witness :
    idealOf 15 true (max ((15 + 1) % 256) ([15, 3].foldr max 0)) ≤ 15 :=
  (light_stays_in_range World.new ⟨none, 0⟩ Block.default).2.2.2 15 15 true [15, 3]
    (by decide) (by decide) (by decide)

/-! ### The locations an activation pushes -/

theorem World.pushedNear_refl (w : World) (p : Nat) : w.PushedNear w p :=
  fun _ => ⟨[], rfl, fun _ h => absurd h (List.not_mem_nil _)⟩

theorem World.pushedNear_trans {w v u : World} {p : Nat} (hF : w.Frame v)
    (h1 : w.PushedNear v p) (h2 : v.PushedNear u p) : w.PushedNear u p := by
  intro d
  obtain ⟨c1, e1, k1⟩ := h1 d
  obtain ⟨c2, e2, k2⟩ := h2 d
  refine ⟨c2 ++ c1, by rw [e2, e1, List.append_assoc], ?_⟩
  intro l hl
  rcases List.mem_append.mp hl with h | h
  · obtain ⟨r, k, he, hr⟩ := k2 l h
    refine ⟨r, k, he, ?_⟩
    rcases hr with h | ⟨g, hg⟩
    · exact Or.inl h
    · exact Or.inr ⟨g, by rw [← sameLinks_link (hF.links p) g]; exact hg⟩
  · exact k1 l h

theorem World.pushedNear_of_lists (w v : World) (p : Nat)
    (h : ∀ d, v.dirtyList d = w.dirtyList d) : w.PushedNear v p :=
  fun d => ⟨[], by rw [h d]; rfl, fun _ h => absurd h (List.not_mem_nil _)⟩

theorem World.pushedNear_push (w : World) (p r k : Nat) (dbg : Bool)
    (hr : r = p ∨ ∃ g, (w.m_heap p).link g = some r) :
    w.PushedNear (w.pushDirty dbg ⟨some r, k⟩) p := by
  intro d
  rw [World.dirtyList_pushDirty]
  split_ifs
  · refine ⟨[⟨some r, k⟩], rfl, ?_⟩
    intro l hl
    exact ⟨r, k, List.mem_singleton.mp hl, hr⟩
  · exact ⟨[], rfl, fun _ h => absurd h (List.not_mem_nil _)⟩

theorem World.pushedNear_dirtyNeighbor (w : World) (p index : Nat) (off : Int)
    (hi : index < BLOCKS_PER_CHUNK) (hoff : off ∈ neighborSteps) :
    w.PushedNear (w.dirtyNeighbor ⟨some p, index⟩ off) p := by
  unfold World.dirtyNeighbor
  simp only
  rcases hloc : w.GetBlockLocation ⟨some p, index⟩ off with ⟨c, idx⟩
  cases c with
  | none => exact World.pushedNear_refl w p
  | some q =>
    simp only
    obtain ⟨_, hq⟩ := World.neighbor_cell w p index q idx off hi hoff hloc
    split
    · have hF : w.Frame ((w.dirtyVbo q).setBlock q idx
          (((w.dirtyVbo q).GetBlock ⟨some q, idx⟩).DirtyLighting)) :=
        (w.frame_dirtyVbo q).trans (World.frame_setBlock _ _ _ _)
      refine World.pushedNear_trans hF (World.pushedNear_of_lists _ _ _ (fun _ => rfl)) ?_
      apply World.pushedNear_push
      rcases hq with h | ⟨g, hg⟩
      · exact Or.inl h
      · exact Or.inr ⟨g, by rw [sameLinks_link (hF.links p) g]; exact hg⟩
    · exact World.pushedNear_of_lists _ _ _ (fun _ => rfl)

theorem World.pushedNear_DirtyNonopaqueNeighbors (w : World) (p index : Nat) (b : Bool)
    (hi : index < BLOCKS_PER_CHUNK) :
    w.PushedNear (w.DirtyNonopaqueNeighbors ⟨some p, index⟩ b) p := by
  have step : ∀ (v : World) (off : Int), off ∈ neighborSteps →
      w.Frame v ∧ w.PushedNear v p →
      w.Frame (v.dirtyNeighbor ⟨some p, index⟩ off) ∧
        w.PushedNear (v.dirtyNeighbor ⟨some p, index⟩ off) p := by
    intro v off hoff hv
    exact ⟨hv.1.trans (World.frame_dirtyNeighbor v _ off),
      World.pushedNear_trans hv.1 hv.2 (World.pushedNear_dirtyNeighbor v p index off hi hoff)⟩
  have h0 : w.Frame w ∧ w.PushedNear w p := ⟨World.Frame.refl w, World.pushedNear_refl w p⟩
  unfold World.DirtyNonopaqueNeighbors
  simp only
  cases b
  · simp only [Bool.false_eq_true, if_false]
    exact (step _ STEP_WEST (by simp [neighborSteps])
      (step _ STEP_EAST (by simp [neighborSteps])
        (step _ STEP_SOUTH (by simp [neighborSteps])
          (step _ STEP_NORTH (by simp [neighborSteps]) h0)))).2
  · simp only [if_true]
    exact (step _ STEP_WEST (by simp [neighborSteps])
      (step _ STEP_EAST (by simp [neighborSteps])
        (step _ STEP_SOUTH (by simp [neighborSteps])
          (step _ STEP_NORTH (by simp [neighborSteps])
            (step _ STEP_DOWN (by simp [neighborSteps])
              (step _ STEP_UP (by simp [neighborSteps]) h0)))))).2

theorem World.pushedNear_activatedCell (w : World) (p index : Nat) (endedSky : Bool)
    (hi : index < BLOCKS_PER_CHUNK) :
    w.PushedNear (World.OnChunkActivated.cell w p index endedSky).1 p := by
  unfold World.OnChunkActivated.cell
  simp only
  split_ifs
  · exact World.pushedNear_trans (World.frame_setBlock _ _ _ _)
      (World.pushedNear_of_lists _ _ _ (fun _ => rfl))
      (World.pushedNear_DirtyNonopaqueNeighbors _ p index false hi)
  · exact World.pushedNear_DirtyNonopaqueNeighbors _ p index true hi
  · exact World.pushedNear_trans (World.frame_setBlock _ _ _ _)
      (World.pushedNear_of_lists _ _ _ (fun _ => rfl))
      (World.pushedNear_push _ p p index _ (Or.inl rfl))
  · exact World.pushedNear_refl w p

theorem World.pushedNear_activatedColumn (p : Nat) (fuel index : Nat) (endedSky : Bool)
    (w : World) : w.PushedNear (World.OnChunkActivated.column p fuel index endedSky w) p := by
  induction fuel generalizing index endedSky w with
  | zero => exact World.pushedNear_refl w p
  | succ n ih =>
    rw [World.OnChunkActivated.column]
    split
    · rename_i hi
      exact World.pushedNear_trans (World.frame_activatedCell w p index endedSky)
        (World.pushedNear_activatedCell w p index endedSky hi) (ih _ _ _)
    · exact World.pushedNear_refl w p

theorem World.pushedNear_activatedColumns (p : Nat) (n column : Nat) (w : World) :
    w.PushedNear (World.OnChunkActivated.columns p n column w) p := by
  induction n generalizing column w with
  | zero => exact World.pushedNear_refl w p
  | succ n ih =>
    rw [World.OnChunkActivated.columns]
    exact World.pushedNear_trans (World.frame_activatedColumn p _ _ _ w)
      (World.pushedNear_activatedColumn p _ _ _ w) (ih _ _)

/-- Every location `OnChunkActivated` pushes on a dirty list is a cell of the activated
chunk or of a chunk it links to. -/
theorem World.pushedNear_OnChunkActivated (w : World) (p : Nat) :
    w.PushedNear (w.OnChunkActivated p) p :=
  World.pushedNear_activatedColumns p _ _ w

theorem World.linked_dirtyList (w : World) (c : ChunkCoords) (blocks : Nat → Block) (d : Bool) :
    (World.ActivateChunk.linked w c blocks).dirtyList d = w.dirtyList d := by
  unfold World.ActivateChunk.linked World.linkNeighbor
  simp only
  repeat' split
  all_goals rfl

theorem farWorld_streamInv : farWorld.StreamInv := by
  have hfind : ∀ c p, farWorld.findChunk c = some p → c = ⟨100, 0⟩ ∧ p = 0 := by
    intro c p h
    rw [findChunk_eq] at h
    by_cases hc : c = ⟨100, 0⟩
    · subst hc
      have : findIn farWorld.m_activeChunks ⟨100, 0⟩ = some 0 := by decide
      rw [this] at h
      exact ⟨rfl, (Option.some.inj h).symm⟩
    · have : findIn farWorld.m_activeChunks c = none := by
        show findIn [(⟨100, 0⟩, 0)] c = none
        unfold findIn
        rw [List.find?_cons_of_neg]
        · rfl
        · simpa using fun h => hc h.symm
      rw [this] at h
      exact absurd h (by simp)
  refine ⟨rfl, by decide, ?_, ?_, ?_⟩
  · intro c c' p h1 h2
    rw [(hfind c p h1).1, (hfind c' p h2).1]
  · intro c p h1
    rw [(hfind c p h1).2]
    decide
  · intro c p d h1
    obtain ⟨hc, hp⟩ := hfind c p h1
    subst hc
    subst hp
    cases d <;> decide

theorem adjacent_distance (a v : ChunkCoords) (d : Dir)
    (h : CalcDistanceSquared a v ≤ 225) : CalcDistanceSquared (a.adjacent d) v ≤ 256 := by
  unfold CalcDistanceSquared at *
  have hx : -15 ≤ a.x - v.x ∧ a.x - v.x ≤ 15 := by constructor <;> nlinarith
  have hy : -15 ≤ a.y - v.y ∧ a.y - v.y ≤ 15 := by constructor <;> nlinarith
  cases d <;> simp only [ChunkCoords.adjacent] <;> nlinarith

/-- The dirty lists after `ActivateChunk` are the lists before it with new entries in
front, each a cell of the new chunk or of a chunk the new chunk links to. -/
theorem World.ActivateChunk_pushed (w : World) (c : ChunkCoords) (blocks : Nat → Block)
    (dbg : Bool) :
    ∃ created : List BlockLocation,
      (w.ActivateChunk c blocks).dirtyList dbg = created ++ w.dirtyList dbg ∧
      ∀ l, l ∈ created → ∃ r k, l = ⟨some r, k⟩ ∧
        (r = w.m_heapSize ∨
          ∃ g, ((w.ActivateChunk c blocks).m_heap w.m_heapSize).link g = some r) := by
  obtain ⟨created, e, hc⟩ :=
    World.pushedNear_OnChunkActivated (World.ActivateChunk.linked w c blocks) w.m_heapSize dbg
  rw [World.linked_dirtyList] at e
  have hF := World.frame_OnChunkActivated (World.ActivateChunk.linked w c blocks) w.m_heapSize
  rw [World.ActivateChunk]
  refine ⟨created, e, ?_⟩
  intro l hl
  obtain ⟨r, k, he, hr⟩ := hc l hl
  refine ⟨r, k, he, ?_⟩
  rcases hr with h | ⟨g, hg⟩
  · exact Or.inl h
  · exact Or.inr ⟨g, by rw [sameLinks_link (hF.links w.m_heapSize) g]; exact hg⟩

theorem World.ActivateNearestNeededChunk_of (w : World) (create : ChunkCoords → Nat → Block)
    (c : ChunkCoords) (h : w.chunkCoordsToActivate = some c) :
    w.ActivateNearestNeededChunk create = w.ActivateChunk c (create c) := by
  unfold World.ActivateNearestNeededChunk
  rw [h]

theorem World.DeactivateFurthestChunk_of (w : World) (c : ChunkCoords)
    (h : w.chunkCoordsToDeactivate = some c) :
    w.DeactivateFurthestChunk = w.DeactivateChunk c := by
  unfold World.DeactivateFurthestChunk
  rw [h]

theorem World.OnChunkActivated_first (w : World) (p : Nat) :
    w.OnChunkActivated p
      = World.OnChunkActivated.columns p 255 2
          (World.OnChunkActivated.column p 128 (toBlockIndex (32767 - 256))
            (World.OnChunkActivated.cell w p 32767 false).2
            (World.OnChunkActivated.cell w p 32767 false).1) := by
  have e1 : World.OnChunkActivated w p = World.OnChunkActivated.columns p (255 + 1) 1 w := rfl
  have e2 : toBlockIndex ((BLOCKS_PER_CHUNK : Int) - ((1 : Nat) : Int)) = 32767 := by decide
  have e3 : World.OnChunkActivated.column p (BLOCKS_PER_CHUNK_Z + 1) 32767 false w
      = World.OnChunkActivated.column p 128 (toBlockIndex (32767 - 256))
          (World.OnChunkActivated.cell w p 32767 false).2
          (World.OnChunkActivated.cell w p 32767 false).1 := by
    have : BLOCKS_PER_CHUNK_Z + 1 = 128 + 1 := rfl
    rw [this, World.OnChunkActivated.column, if_pos (by decide)]
    rfl
  rw [e1, World.OnChunkActivated.columns, e2, e3]

/-- What the first cell `OnChunkActivated` visits pushes on a dirty list stays on it. -/
theorem World.OnChunkActivated_seeds (w : World) (p : Nat) (d : Bool)
    (h : (⟨some p, 32751⟩ : BlockLocation)
      ∈ (World.OnChunkActivated.cell w p 32767 false).1.dirtyList d) :
    (⟨some p, 32751⟩ : BlockLocation) ∈ (w.OnChunkActivated p).dirtyList d := by
  rw [World.OnChunkActivated_first]
  obtain ⟨c1, e1, -⟩ := World.pushedNear_activatedColumns p 255 2
    (World.OnChunkActivated.column p 128 (toBlockIndex (32767 - 256))
      (World.OnChunkActivated.cell w p 32767 false).2
      (World.OnChunkActivated.cell w p 32767 false).1) d
  obtain ⟨c2, e2, -⟩ := World.pushedNear_activatedColumn p 128 (toBlockIndex (32767 - 256))
    (World.OnChunkActivated.cell w p 32767 false).2
    (World.OnChunkActivated.cell w p 32767 false).1 d
  rw [e1, e2]
  exact List.mem_append_right _ (List.mem_append_right _ h)

/-- Activating a chunk of air in `farWorld` flags the first cell visited, the cell
`(15, 15, 127)`, as sky and pushes its neighbour to the south, an air cell of the new
chunk, on the work queue. -/
theorem farWorld_air_seeds :
    (⟨some 1, 32751⟩ : BlockLocation)
      ∈ (farWorld.ActivateChunk ⟨0, 0⟩ airBlocks).dirtyList false := by
  rw [World.ActivateChunk]
  have h1 : farWorld.m_heapSize = 1 := rfl
  rw [h1]
  apply World.OnChunkActivated_seeds
  decide!

/-- C29.  In one call of `Update` on a world whose neighbour links are consistent, let
`activated` be the coordinate `ActivateNearestNeededChunk` activates and `deactivated`
the coordinate `DeactivateFurthestChunk` then removes, with `w2` the world after it.
The activated coordinate has squared distance at most 225 from the viewer and the
removed one more than 256, each lateral neighbour of the activated coordinate has
squared distance at most 256, so the removed chunk is neither the activated chunk nor
one of its four lateral neighbours.  Hence each dirty list after the activation is
the list before it with new entries in front, and every new entry refers to a chunk
that is active at a coordinate other than the removed one, is not the removed chunk,
and is still active in `w2`. -/
theorem seeded_entries_stay_valid (w : World) (create : ChunkCoords → Nat → Block)
    (activated deactivated : ChunkCoords) (w2 : World)
    (hinv : w.StreamInv)
    (ha : w.chunkCoordsToActivate = some activated)
    (hd : (w.ActivateNearestNeededChunk create).chunkCoordsToDeactivate = some deactivated)
    (h2 : (w.ActivateNearestNeededChunk create).DeactivateFurthestChunk = some w2) :
    CalcDistanceSquared activated
        (Chunk.GetChunkCoordsAtWorldCoords w.m_cameraPosition) ≤ 225 ∧
    256 < CalcDistanceSquared deactivated
        (Chunk.GetChunkCoordsAtWorldCoords w.m_cameraPosition) ∧
    deactivated ≠ activated ∧
    (∀ d : Dir,
      CalcDistanceSquared (activated.adjacent d)
          (Chunk.GetChunkCoordsAtWorldCoords w.m_cameraPosition) ≤ 256 ∧
        deactivated ≠ activated.adjacent d) ∧
    ∀ dbg : Bool, ∃ created : List BlockLocation,
      (w.ActivateNearestNeededChunk create).dirtyList dbg = created ++ w.dirtyList dbg ∧
      ∀ l, l ∈ created → ∃ r k c, l = ⟨some r, k⟩ ∧ c ≠ deactivated ∧
        (w.ActivateNearestNeededChunk create).findChunk c = some r ∧
        (w.ActivateNearestNeededChunk create).findChunk deactivated ≠ some r ∧
        w2.findChunk c = some r := by
  have b1 : INNER_DISTANCE_THERMOSTAT_QUALIFICATION = 226 := by decide
  have b2 : OUTER_DISTANCE_THERMOSTAT_QUALIFICATION = 256 := by decide
  have hnear : CalcDistanceSquared activated
      (Chunk.GetChunkCoordsAtWorldCoords w.m_cameraPosition) ≤ 225 := by
    unfold World.chunkCoordsToActivate at ha
    simp only at ha
    split at ha
    · rename_i h1
      have e1 := (w.nearestScan_spec.2 h1).1
      simp only [Option.some.injEq] at ha
      rw [ha] at e1
      rw [b1] at h1
      omega
    · exact absurd ha (by simp)
  have hfar : 256 < CalcDistanceSquared deactivated
      (Chunk.GetChunkCoordsAtWorldCoords w.m_cameraPosition) := by
    unfold World.chunkCoordsToDeactivate at hd
    simp only at hd
    split at hd
    · rename_i h1
      have e2 := (World.furthestScan_spec (w.ActivateNearestNeededChunk create)).2 h1
      rw [w.ActivateNearestNeededChunk_camera] at e2
      simp only [Option.some.injEq] at hd
      rw [hd] at e2
      rw [b2] at h1
      omega
    · exact absurd hd (by simp)
  have hne : deactivated ≠ activated := by
    intro h
    rw [h] at hfar
    omega
  have hadj : ∀ d : Dir,
      CalcDistanceSquared (activated.adjacent d)
          (Chunk.GetChunkCoordsAtWorldCoords w.m_cameraPosition) ≤ 256 ∧
        deactivated ≠ activated.adjacent d := by
    intro d
    have h := adjacent_distance activated _ d hnear
    refine ⟨h, ?_⟩
    intro he
    rw [he] at hfar
    omega
  refine ⟨hnear, hfar, hne, hadj, ?_⟩
  rw [World.DeactivateFurthestChunk_of _ _ hd] at h2
  rw [w.ActivateNearestNeededChunk_of create activated ha] at h2 hd ⊢
  have hinv1 : (w.ActivateChunk activated (create activated)).StreamInv :=
    hinv.activate activated (create activated)
  have hself : (w.ActivateChunk activated (create activated)).findChunk activated
      = some w.m_heapSize := by
    rw [findChunk_eq, World.ActivateChunk_active, findIn_insertChunk, if_pos rfl]
  have hw2 : ∀ c, c ≠ deactivated →
      w2.findChunk c = (w.ActivateChunk activated (create activated)).findChunk c := by
    intro c hc
    rw [findChunk_eq, World.DeactivateChunk_active _ _ _ h2, findIn_filter, if_neg hc, findChunk_eq]
  intro dbg
  obtain ⟨created, e, hc⟩ := World.ActivateChunk_pushed w activated (create activated) dbg
  refine ⟨created, e, ?_⟩
  intro l hl
  obtain ⟨r, k, he, hr⟩ := hc l hl
  have key : ∃ c, c ≠ deactivated ∧
      (w.ActivateChunk activated (create activated)).findChunk c = some r := by
    rcases hr with h | ⟨g, hg⟩
    · exact ⟨activated, hne.symm, by rw [h]; exact hself⟩
    · refine ⟨activated.adjacent g, (hadj g).2.symm, ?_⟩
      rw [← hinv1.mirror activated w.m_heapSize g hself]
      exact hg
  obtain ⟨c, hcd, hfc⟩ := key
  refine ⟨r, k, c, he, hcd, hfc, ?_, ?_⟩
  · intro hdr
    exact hcd (hinv1.inj c deactivated r hfc hdr)
  · rw [hw2 c hcd]
    exact hfc

theorem seeded_entries_stay_valid_witness :
    ∃ w2, (farWorld.ActivateNearestNeededChunk (fun _ => airBlocks)).DeactivateFurthestChunk
        = some w2 ∧
      farWorld.dirtyList false = [] ∧
      (⟨some 1, 32751⟩ : BlockLocation)
        ∈ (farWorld.ActivateNearestNeededChunk (fun _ => airBlocks)).dirtyList false ∧
      (∃ c : ChunkCoords, c ≠ ⟨100, 0⟩ ∧
        (farWorld.ActivateNearestNeededChunk (fun _ => airBlocks)).findChunk c = some 1 ∧
        (farWorld.ActivateNearestNeededChunk (fun _ => airBlocks)).findChunk ⟨100, 0⟩ ≠ some 1 ∧
        w2.findChunk c = some 1) ∧
      CalcDistanceSquared ⟨0, 0⟩
        (Chunk.GetChunkCoordsAtWorldCoords farWorld.m_cameraPosition) ≤ 225 ∧
      (⟨100, 0⟩ : ChunkCoords) ≠ ⟨0, 0⟩ ∧
      ∀ dbg : Bool, ∃ created : List BlockLocation,
        (farWorld.ActivateNearestNeededChunk (fun _ => airBlocks)).dirtyList dbg
          = created ++ farWorld.dirtyList dbg ∧
        ∀ l, l ∈ created → ∃ r k c, l = ⟨some r, k⟩ ∧ c ≠ ⟨100, 0⟩ ∧
          (farWorld.ActivateNearestNeededChunk (fun _ => airBlocks)).findChunk c = some r ∧
          (farWorld.ActivateNearestNeededChunk (fun _ => airBlocks)).findChunk ⟨100, 0⟩
            ≠ some r ∧
          w2.findChunk c = some r := by
  have hd := farWorld_deactivates (fun _ => airBlocks)
  have hA := farWorld.ActivateNearestNeededChunk_of (fun _ => airBlocks) _ farWorld_activates
  have hact : (farWorld.ActivateNearestNeededChunk (fun _ => airBlocks)).IsChunkActive
      ⟨100, 0⟩ = true := by
    rw [hA]
    unfold World.IsChunkActive
    rw [World.ActivateChunk_active]
    decide
  obtain ⟨w2, h2⟩ := World.DeactivateChunk_isSome _ _ hact
  have h2f : (farWorld.ActivateNearestNeededChunk (fun _ => airBlocks)).DeactivateFurthestChunk
      = some w2 := by
    rw [World.DeactivateFurthestChunk_of _ _ hd]
    exact h2
  have h := seeded_entries_stay_valid farWorld (fun _ => airBlocks) ⟨0, 0⟩ ⟨100, 0⟩ w2
    farWorld_streamInv farWorld_activates hd h2f
  have hmem : (⟨some 1, 32751⟩ : BlockLocation)
      ∈ (farWorld.ActivateNearestNeededChunk (fun _ => airBlocks)).dirtyList false := by
    rw [hA]
    exact farWorld_air_seeds
  have hempty : farWorld.dirtyList false = [] := rfl
  refine ⟨w2, h2f, hempty, hmem, ?_, h.1, h.2.2.1, h.2.2.2.2⟩
  obtain ⟨created, e, hc⟩ := h.2.2.2.2 false
  rw [hempty, List.append_nil] at e
  rw [e] at hmem
  obtain ⟨r, k, c, he, hcd, h1, h3, h4⟩ := hc _ hmem
  have hr : r = 1 := (Option.some.inj (congrArg BlockLocation.m_chunk he)).symm
  subst hr
  exact ⟨c, hcd, h1, h3, h4⟩

/-! ### Terrain generation -/

theorem floatToInt_seaLevel : floatToInt SEA_LEVEL = 80 := by decide!

theorem height_of_index (index : Nat) (h : index < BLOCKS_PER_CHUNK) :
    (index &&& BLOCKINDEX_Z_MASK) >>> (CHUNKS_WIDE_EXPONENT + CHUNKS_LONG_EXPONENT)
      = index / 256 := by
  have e1 : BLOCKINDEX_Z_MASK = 32512 := by decide
  have e2 : CHUNKS_WIDE_EXPONENT + CHUNKS_LONG_EXPONENT = 8 := by decide
  have e3 : BLOCKS_PER_CHUNK = 32768 := by decide
  have e4 : (32512 : Nat) = (2 ^ 7 - 1) <<< 8 := by decide
  have e5 : (index &&& 32512) >>> 8 = (index >>> 8) &&& (2 ^ 7 - 1) := by
    apply Nat.eq_of_testBit_eq
    intro j
    rw [e4, Nat.testBit_shiftRight, Nat.testBit_and, Nat.testBit_and, Nat.testBit_shiftRight,
      Nat.testBit_shiftLeft]
    simp
  rw [e1, e2, e5, Nat.and_pow_two_sub_one_eq_mod, Nat.shiftRight_eq_div_pow]
  rw [e3] at h
  omega

theorem Chunk.populate_blocks (ground dirt : Nat → Int) (biome : Nat → ℚ) (n : Nat) (c : Chunk)
    (j : Nat) :
    ((List.range n).foldl
      (fun c index =>
        let type := Chunk.PopulateWithBlocks.blockType ground dirt biome index
        c.setBlock index ⟨type, (g_blockDefinitions type).m_inherentLightValue⟩)
      c).m_blocks j
      = if j < n then
          ⟨Chunk.PopulateWithBlocks.blockType ground dirt biome j,
            (g_blockDefinitions
              (Chunk.PopulateWithBlocks.blockType ground dirt biome j)).m_inherentLightValue⟩
        else c.m_blocks j := by
  induction n with
  | zero => simp
  | succ n ih =>
    rw [List.range_succ, List.foldl_append, List.foldl_cons, List.foldl_nil]
    have hs : ∀ (d : Chunk) (i : Nat) (b : Block),
        (d.setBlock i b).m_blocks j = if j = i then b else d.m_blocks j := fun _ _ _ => rfl
    simp only
    rw [hs, ih]
    by_cases h1 : j = n
    · subst h1
      simp
    · rw [if_neg h1]
      by_cases h2 : j < n
      · rw [if_pos h2, if_pos (by omega)]
      · rw [if_neg h2, if_neg (by omega)]

/-- The block `PopulateWithBlocks` leaves in a cell of the chunk. -/
theorem Chunk.PopulateWithBlocks_cell (c : Chunk) (ground dirt : Nat → Int) (biome : Nat → ℚ)
    (index : Nat) (hi : index < BLOCKS_PER_CHUNK) :
    (c.PopulateWithBlocks ground dirt biome).m_blocks index
      = ⟨Chunk.PopulateWithBlocks.blockType ground dirt biome index,
        (g_blockDefinitions
          (Chunk.PopulateWithBlocks.blockType ground dirt biome index)).m_inherentLightValue⟩ := by
  unfold Chunk.PopulateWithBlocks
  rw [Chunk.populate_blocks ground dirt biome BLOCKS_PER_CHUNK c index, if_pos hi]

/-- The block type of a cell in terms of its height and column. -/
theorem Chunk.blockType_eq (ground dirt : Nat → Int) (biome : Nat → ℚ) (index : Nat)
    (hi : index < BLOCKS_PER_CHUNK) :
    Chunk.PopulateWithBlocks.blockType ground dirt biome index
      = if ((index / 256 : Nat) : Int) > ground (index % BLOCKS_PER_CHUNK_LAYER) then
          if ((index / 256 : Nat) : Int) > 80 then BT_AIR
          else if biome (index % BLOCKS_PER_CHUNK_LAYER)
              < Chunk.PopulateWithBlocks.snowLine ((index / 256 : Nat) : Int) then BT_WATER
          else BT_ICE
        else if ((index / 256 : Nat) : Int) = ground (index % BLOCKS_PER_CHUNK_LAYER) then
          if ((index / 256 : Nat) : Int) = 80 then
            if biome (index % BLOCKS_PER_CHUNK_LAYER) < 1 / 2 then BT_SAND else BT_SNOW
          else if ((index / 256 : Nat) : Int) > 80 then
            if biome (index % BLOCKS_PER_CHUNK_LAYER) < 1 / 2 then BT_GRASS else BT_SNOW
          else BT_DIRT
        else if ((index / 256 : Nat) : Int) > ground (index % BLOCKS_PER_CHUNK_LAYER)
            - dirt (index % BLOCKS_PER_CHUNK_LAYER) then BT_DIRT
        else BT_STONE := by
  have hcol : index &&& CHUNK_LAYER_MASK = index % BLOCKS_PER_CHUNK_LAYER :=
    Nat.and_pow_two_sub_one_eq_mod index 8
  have e1 : PERLIN_MINIMUM_SNOW_BIOME = 1 / 2 := rfl
  unfold Chunk.PopulateWithBlocks.blockType
  simp only
  rw [height_of_index index hi, hcol, floatToInt_seaLevel, e1]

/-- The line between water and ice lies, for every height from 0 to 80, within
`3 / 10000000` of `1/2 + (80 - height) * 3/100`, and for a cell one below sea level it
is the `float` `2222981 / 4194304`, so that a column with this biome value gets ice
there. -/
theorem snowLine_values :
    Chunk.PopulateWithBlocks.snowLine 79 = 2222981 / 4194304 ∧
    Chunk.PopulateWithBlocks.snowLine 80 = 1 / 2 ∧
    ∀ h : Nat, h ≤ 80 →
      |Chunk.PopulateWithBlocks.snowLine (h : Int) - (1 / 2 + (80 - (h : ℚ)) * (3 / 100))|
        ≤ 3 / 10000000 := by
  refine ⟨by decide!, by decide!, ?_⟩
  have key : ∀ h : Fin 81,
      |Chunk.PopulateWithBlocks.snowLine ((h : Nat) : Int)
          - (1 / 2 + (80 - ((h : Nat) : ℚ)) * (3 / 100))| ≤ 3 / 10000000 := by decide!
  intro h hh
  exact key ⟨h, by omega⟩

/-- C22.  For a cell `index` of the chunk, with `h` its local height, `g` the ground
height, `k` the dirt depth and `b` the biome value of its column, `PopulateWithBlocks`
stores a block of a type `t` whose light and flags byte is the inherent light value of
`t`, where `t` is: air when `h > g` and `h > 80`; water or ice when `h > g` and
`h ≤ 80`, so in particular below sea level, water exactly when `b` is below the value
of the expression `PERLIN_MINIMUM_SNOW_BIOME + (SEA_LEVEL - height) * 0.03f` in `float`
arithmetic; when `h = g`, sand or snow at `h = 80`, grass or snow at `h > 80`, sand and
grass exactly when `b < 1/2`, and dirt at `h < 80`; dirt when `h < g` and `g - h < k`;
stone when `h < g` and `g - h ≥ k`. -/
theorem terrain_classification (c : Chunk) (ground dirt : Nat → Int) (biome : Nat → ℚ)
    (index : Nat) (hi : index < BLOCKS_PER_CHUNK) :
    ∃ (t : Nat) (h g k : Int) (b : ℚ),
      (c.PopulateWithBlocks ground dirt biome).m_blocks index
        = ⟨t, (g_blockDefinitions t).m_inherentLightValue⟩ ∧
      h = (Chunk.GetLocalCoordsAtIndex index).z ∧
      g = ground (index % BLOCKS_PER_CHUNK_LAYER) ∧
      k = dirt (index % BLOCKS_PER_CHUNK_LAYER) ∧
      b = biome (index % BLOCKS_PER_CHUNK_LAYER) ∧
      (h > g → h > 80 → t = BT_AIR) ∧
      (h > g → h ≤ 80 →
        t = (if b < Chunk.PopulateWithBlocks.snowLine h then BT_WATER else BT_ICE)) ∧
      (h = g → h = 80 → t = (if b < 1 / 2 then BT_SAND else BT_SNOW)) ∧
      (h = g → h > 80 → t = (if b < 1 / 2 then BT_GRASS else BT_SNOW)) ∧
      (h = g → h < 80 → t = BT_DIRT) ∧
      (h < g → g - h < k → t = BT_DIRT) ∧
      (h < g → k ≤ g - h → t = BT_STONE) := by
  refine ⟨_, _, _, _, _, Chunk.PopulateWithBlocks_cell c ground dirt biome index hi,
    rfl, rfl, rfl, rfl, ?_⟩
  rw [Chunk.blockType_eq ground dirt biome index hi, coords_of_index]
  simp only
  refine ⟨?_, ?_, ?_, ?_, ?_, ?_, ?_⟩
  · intro h1 h2
    rw [if_pos h1, if_pos h2]
  · intro h1 h2
    rw [if_pos h1, if_neg (by omega)]
  · intro h1 h2
    rw [if_neg (by omega), if_pos h1, if_pos h2]
  · intro h1 h2
    rw [if_neg (by omega), if_pos h1, if_neg (by omega), if_pos h2]
  · intro h1 h2
    rw [if_neg (by omega), if_pos h1, if_neg (by omega), if_neg (by omega)]
  · intro h1 h2
    rw [if_neg (by omega), if_neg (by omega), if_pos (by omega)]
  · intro h1 h2
    rw [if_neg (by omega), if_neg (by omega), if_neg (by omega)]

theorem terrain_classification_witness :
    20224 < BLOCKS_PER_CHUNK ∧
    (Chunk.new.PopulateWithBlocks (fun _ => 70) (fun _ => 10)
        (fun _ => 2222981 / 4194304)).m_blocks 20224
      = ⟨BT_ICE, 0⟩ := by
  obtain ⟨t, h, g, k, b, hb, eh, eg, ek, eb, _, h2, _⟩ :=
    terrain_classification Chunk.new (fun _ => 70) (fun _ => 10)
      (fun _ => 2222981 / 4194304) 20224 (by decide)
  have hz : (Chunk.GetLocalCoordsAtIndex 20224).z = 79 := by decide
  rw [hz] at eh
  have ht : t = BT_ICE := by
    rw [h2 (by rw [eh, eg]; decide) (by rw [eh]; decide), eh, eb, snowLine_values.1]
    exact if_neg (by norm_num)
  rw [hb, ht]
  exact ⟨by decide, by decide⟩

/-! ### Border cells on deactivation -/

theorem World.facesDirtied_congr {d : Bool} {M M' : Nat → Nat → Prop} {w w' : World}
    (h : World.FacesDirtied d M w w') (hM : ∀ r j, M r j ↔ M' r j) :
    World.FacesDirtied d M' w w' := by
  obtain ⟨h1, h2, h3, h4⟩ := h
  refine ⟨h1, h2, h3, fun r j => ⟨fun hm hc => (h4 r j).1 ((hM r j).2 hm) hc, fun hn => ?_⟩⟩
  exact (h4 r j).2 (fun hh => hn ⟨(hM r j).1 hh.1, hh.2⟩)

theorem World.facesDirtied_refl (d : Bool) (w : World) :
    World.FacesDirtied d (fun _ _ => False) w w :=
  ⟨rfl, rfl, rfl, fun _ _ => ⟨fun h => h.elim, fun _ => World.cellSame_refl _ _ _ _⟩⟩

theorem World.borderCandidate_congr {w v : World} {r j : Nat}
    (h : (v.m_heap r).m_blocks j = (w.m_heap r).m_blocks j) :
    v.borderCandidate r j ↔ w.borderCandidate r j := by
  unfold World.borderCandidate
  rw [h]

theorem World.facesDirtied_trans {d : Bool} {M1 M2 : Nat → Nat → Prop} {w v u : World}
    (h1 : World.FacesDirtied d M1 w v) (h2 : World.FacesDirtied d M2 v u) :
    World.FacesDirtied d (fun r j => M1 r j ∨ M2 r j) w u := by
  obtain ⟨a1, a2, a3, a4⟩ := h1
  obtain ⟨b1, b2, b3, b4⟩ := h2
  refine ⟨b1.trans a1, b2.trans a2, b3.trans a3, fun r j => ?_⟩
  by_cases hc : w.borderCandidate r j
  · by_cases hm1 : M1 r j
    · obtain ⟨e1, e2⟩ := (a4 r j).1 hm1 hc
      have hnc : ¬ v.borderCandidate r j := by
        unfold World.borderCandidate
        rw [e1, Block.isDirty_DirtyLighting]
        simp
      obtain ⟨s1, s2⟩ := (b4 r j).2 (fun hh => hnc hh.2)
      refine ⟨fun _ _ => ⟨s1.trans e1, s2.trans e2⟩, fun hn => ?_⟩
      exact absurd ⟨Or.inl hm1, hc⟩ hn
    · obtain ⟨e1, e2⟩ := (a4 r j).2 (fun hh => hm1 hh.1)
      have hcv : v.borderCandidate r j := (World.borderCandidate_congr e1).2 hc
      by_cases hm2 : M2 r j
      · obtain ⟨s1, s2⟩ := (b4 r j).1 hm2 hcv
        refine ⟨fun _ _ => ⟨by rw [s1, e1], by rw [s2, e2]⟩, fun hn => ?_⟩
        exact absurd ⟨Or.inr hm2, hc⟩ hn
      · obtain ⟨s1, s2⟩ := (b4 r j).2 (fun hh => hm2 hh.1)
        refine ⟨fun hm _ => ?_, fun _ => ⟨s1.trans e1, s2.trans e2⟩⟩
        rcases hm with h | h
        · exact absurd h hm1
        · exact absurd h hm2
  · obtain ⟨e1, e2⟩ := (a4 r j).2 (fun hh => hc hh.2)
    have hcv : ¬ v.borderCandidate r j := fun hh => hc ((World.borderCandidate_congr e1).1 hh)
    obtain ⟨s1, s2⟩ := (b4 r j).2 (fun hh => hcv hh.2)
    exact ⟨fun _ hh => absurd hh hc, fun _ => ⟨s1.trans e1, s2.trans e2⟩⟩

/-- A world that differs from `w` in neither blocks, lists, debug switch nor active map
can take the place of `w`. -/
theorem World.facesDirtied_of_same {d : Bool} {M : Nat → Nat → Prop} {w v u : World}
    (hdebug : v.g_debugPointsEnabled = w.g_debugPointsEnabled)
    (hactive : v.m_activeChunks = w.m_activeChunks)
    (hlist : ∀ e, v.dirtyList e = w.dirtyList e)
    (hblocks : ∀ r j, (v.m_heap r).m_blocks j = (w.m_heap r).m_blocks j)
    (h : World.FacesDirtied d M v u) : World.FacesDirtied d M w u := by
  obtain ⟨b1, b2, b3, b4⟩ := h
  refine ⟨b1.trans hdebug, b2.trans hactive, b3.trans (hlist _), fun r j => ⟨?_, ?_⟩⟩
  · intro hm hc
    obtain ⟨s1, s2⟩ := (b4 r j).1 hm ((World.borderCandidate_congr (hblocks r j)).2 hc)
    exact ⟨by rw [s1, hblocks], by rw [s2, hlist]⟩
  · intro hn
    obtain ⟨s1, s2⟩ := (b4 r j).2
      (fun hh => hn ⟨hh.1, (World.borderCandidate_congr (hblocks r j)).1 hh.2⟩)
    exact ⟨by rw [s1, hblocks], by rw [s2, hlist]⟩

theorem World.facesDirtied_cell (d : Bool) (q : Nat) (w : World) (i : Nat) :
    World.FacesDirtied d (fun r j => r = q ∧ j = i) w (World.dirtyBorderCell d q w i) := by
  unfold World.dirtyBorderCell
  simp only
  split
  · rename_i hcond
    have hF := (w.frame_setBlock q i ((w.m_heap q).m_blocks i).DirtyLighting).trans
      (World.frame_pushDirty _ d ⟨some q, i⟩)
    refine ⟨hF.debug, hF.active, ?_, fun r j => ⟨?_, ?_⟩⟩
    · rw [World.dirtyList_pushDirty, if_neg (by cases d <;> simp), World.dirtyList_setBlock]
    · rintro ⟨hr, hj⟩ _
      subst hr
      subst hj
      rw [World.blocks_pushDirty, World.blocks_setBlock, if_pos ⟨rfl, rfl⟩,
        World.dirtyList_pushDirty, if_pos rfl, World.dirtyList_setBlock]
      exact ⟨rfl, List.count_cons_self _ _⟩
    · intro hn
      have hne : ¬(r = q ∧ j = i) := by
        intro hh
        apply hn
        refine ⟨hh, ?_⟩
        rw [hh.1, hh.2]
        unfold World.borderCandidate
        simpa using hcond
      refine ⟨?_, ?_⟩
      · rw [World.blocks_pushDirty, World.blocks_setBlock, if_neg hne]
      · rw [World.dirtyList_pushDirty, if_pos rfl, World.dirtyList_setBlock]
        apply List.count_cons_of_ne
        intro hh
        apply hne
        exact ⟨Option.some.inj (congrArg BlockLocation.m_chunk hh),
          congrArg BlockLocation.m_index hh⟩
  · rename_i hcond
    refine ⟨rfl, rfl, rfl, fun r j => ⟨?_, fun _ => World.cellSame_refl _ _ _ _⟩⟩
    rintro ⟨hr, hj⟩ hc
    subst hr
    subst hj
    exfalso
    apply hcond
    unfold World.borderCandidate at hc
    simp [hc.1, hc.2]

theorem World.facesDirtied_cells (d : Bool) (q : Nat) (l : List Nat) (w : World) :
    World.FacesDirtied d (fun r j => r = q ∧ j ∈ l) w (l.foldl (World.dirtyBorderCell d q) w) := by
  induction l generalizing w with
  | nil =>
    exact World.facesDirtied_congr (World.facesDirtied_refl d w) (fun r j => by simp)
  | cons i rest ih =>
    rw [List.foldl_cons]
    refine World.facesDirtied_congr
      (World.facesDirtied_trans (World.facesDirtied_cell d q w i) (ih _)) (fun r j => ?_)
    simp only [List.mem_cons]
    tauto

theorem World.facesDirtied_rows (d : Bool) (q : Nat) (inner : Nat → List Nat) (outer : List Nat)
    (w : World) :
    World.FacesDirtied d (fun r j => r = q ∧ ∃ s, s ∈ outer ∧ j ∈ inner s) w
      (outer.foldl (fun w s => (inner s).foldl (World.dirtyBorderCell d q) w) w) := by
  induction outer generalizing w with
  | nil =>
    exact World.facesDirtied_congr (World.facesDirtied_refl d w) (fun r j => by simp)
  | cons s rest ih =>
    rw [List.foldl_cons]
    refine World.facesDirtied_congr
      (World.facesDirtied_trans (World.facesDirtied_cells d q (inner s) w) (ih _)) (fun r j => ?_)
    simp only [List.mem_cons, exists_eq_or_imp]
    tauto

theorem mem_loopValues (start bound step j : Nat) :
    j ∈ loopValues start bound step ↔ start ≤ j ∧ j < bound ∧ (j - start) % step = 0 := by
  unfold loopValues
  rw [List.mem_filterMap]
  constructor
  · rintro ⟨k, hk, hj⟩
    rw [List.mem_range] at hk
    split_ifs at hj with h
    · have := Option.some.inj hj
      subst this
      refine ⟨by omega, by omega, ?_⟩
      rw [Nat.add_sub_cancel_left]
      exact h
  · rintro ⟨h1, h2, h3⟩
    refine ⟨j - start, by rw [List.mem_range]; omega, ?_⟩
    rw [if_pos h3]
    exact congrArg some (by omega)

theorem World.facesDirtied_dirtyBorder (w : World) (d : Bool) (q first width step : Nat) :
    World.FacesDirtied d
      (fun r j => r = q ∧ ∃ s, (first ≤ s ∧ s < BLOCKS_PER_CHUNK ∧
          (s - first) % BLOCKS_PER_CHUNK_LAYER = 0) ∧
        s ≤ j ∧ j < s + width ∧ (j - s) % step = 0)
      w (w.dirtyBorder d q first width step) := by
  unfold World.dirtyBorder
  refine World.facesDirtied_congr (World.facesDirtied_rows d q _ _ w) (fun r j => ?_)
  simp only [mem_loopValues]

theorem east_face (j : Nat) :
    (∃ s, (BLOCKS_PER_CHUNK_X - 1 ≤ s ∧ s < BLOCKS_PER_CHUNK ∧
        (s - (BLOCKS_PER_CHUNK_X - 1)) % BLOCKS_PER_CHUNK_LAYER = 0) ∧
      s ≤ j ∧ j < s + BLOCKS_PER_CHUNK_LAYER ∧ (j - s) % BLOCKS_PER_CHUNK_X = 0)
    ↔ j < BLOCKS_PER_CHUNK ∧ (Chunk.GetLocalCoordsAtIndex j).x = 15 := by
  have e1 : BLOCKS_PER_CHUNK_X = 16 := by decide
  have e2 : BLOCKS_PER_CHUNK_LAYER = 256 := by decide
  have e3 : BLOCKS_PER_CHUNK = 32768 := by decide
  rw [coords_of_index, e1, e2, e3]
  simp only
  constructor
  · rintro ⟨s, ⟨h1, h2, h3⟩, h4, h5, h6⟩
    constructor <;> omega
  · rintro ⟨h1, h2⟩
    exact ⟨j / 256 * 256 + 15, by omega⟩

theorem west_face (j : Nat) :
    (∃ s, (0 ≤ s ∧ s < BLOCKS_PER_CHUNK ∧ (s - 0) % BLOCKS_PER_CHUNK_LAYER = 0) ∧
      s ≤ j ∧ j < s + BLOCKS_PER_CHUNK_LAYER ∧ (j - s) % BLOCKS_PER_CHUNK_X = 0)
    ↔ j < BLOCKS_PER_CHUNK ∧ (Chunk.GetLocalCoordsAtIndex j).x = 0 := by
  have e1 : BLOCKS_PER_CHUNK_X = 16 := by decide
  have e2 : BLOCKS_PER_CHUNK_LAYER = 256 := by decide
  have e3 : BLOCKS_PER_CHUNK = 32768 := by decide
  rw [coords_of_index, e1, e2, e3]
  simp only
  constructor
  · rintro ⟨s, ⟨h1, h2, h3⟩, h4, h5, h6⟩
    constructor <;> omega
  · rintro ⟨h1, h2⟩
    exact ⟨j / 256 * 256, by omega⟩

theorem north_face (j : Nat) :
    (∃ s, (BLOCKS_PER_CHUNK_LAYER - BLOCKS_PER_CHUNK_X ≤ s ∧ s < BLOCKS_PER_CHUNK ∧
        (s - (BLOCKS_PER_CHUNK_LAYER - BLOCKS_PER_CHUNK_X)) % BLOCKS_PER_CHUNK_LAYER = 0) ∧
      s ≤ j ∧ j < s + BLOCKS_PER_CHUNK_X ∧ (j - s) % 1 = 0)
    ↔ j < BLOCKS_PER_CHUNK ∧ (Chunk.GetLocalCoordsAtIndex j).y = 15 := by
  have e1 : BLOCKS_PER_CHUNK_X = 16 := by decide
  have e2 : BLOCKS_PER_CHUNK_LAYER = 256 := by decide
  have e3 : BLOCKS_PER_CHUNK = 32768 := by decide
  rw [coords_of_index, e1, e2, e3]
  simp only
  constructor
  · rintro ⟨s, ⟨h1, h2, h3⟩, h4, h5, h6⟩
    constructor <;> omega
  · rintro ⟨h1, h2⟩
    exact ⟨j / 256 * 256 + 240, by omega⟩

theorem south_face (j : Nat) :
    (∃ s, (0 ≤ s ∧ s < BLOCKS_PER_CHUNK ∧ (s - 0) % BLOCKS_PER_CHUNK_LAYER = 0) ∧
      s ≤ j ∧ j < s + BLOCKS_PER_CHUNK_X ∧ (j - s) % 1 = 0)
    ↔ j < BLOCKS_PER_CHUNK ∧ (Chunk.GetLocalCoordsAtIndex j).y = 0 := by
  have e1 : BLOCKS_PER_CHUNK_X = 16 := by decide
  have e2 : BLOCKS_PER_CHUNK_LAYER = 256 := by decide
  have e3 : BLOCKS_PER_CHUNK = 32768 := by decide
  rw [coords_of_index, e1, e2, e3]
  simp only
  constructor
  · rintro ⟨s, ⟨h1, h2, h3⟩, h4, h5, h6⟩
    constructor <;> omega
  · rintro ⟨h1, h2⟩
    exact ⟨j / 256 * 256, by omega⟩

theorem World.facesDirtied_unlinkNeighbor (w : World) (n : ChunkCoords)
    (clearBack : Chunk → Option Nat → Chunk) (dirty : World → Bool → Nat → World)
    (F : Nat → Prop) (hclear : ∀ (c : Chunk) (l : Option Nat), (clearBack c l).m_blocks = c.m_blocks)
    (hdirty : ∀ (v : World) (b : Bool) (q : Nat),
      World.FacesDirtied b (fun r j => r = q ∧ F j) v (dirty v b q)) :
    World.FacesDirtied w.g_debugPointsEnabled (fun r j => w.findChunk n = some r ∧ F j) w
      (w.unlinkNeighbor n clearBack dirty) := by
  unfold World.unlinkNeighbor
  cases hq : w.findChunk n with
  | none =>
    exact World.facesDirtied_congr (World.facesDirtied_refl _ w) (fun r j => by simp)
  | some q =>
    simp only
    refine World.facesDirtied_of_same (v := w.setChunk q (clearBack (w.m_heap q) none))
      rfl rfl (fun _ => rfl) ?_ ?_
    · intro r j
      unfold World.setChunk
      simp only
      split_ifs with h
      · rw [hclear, h]
      · rfl
    · refine World.facesDirtied_congr (hdirty _ w.g_debugPointsEnabled q) (fun r j => ?_)
      constructor
      · rintro ⟨h1, h2⟩
        exact ⟨by rw [h1], h2⟩
      · rintro ⟨h1, h2⟩
        exact ⟨(Option.some.inj h1).symm, h2⟩

theorem World.facesDirtied_step {w v : World} {M : Nat → Nat → Prop}
    (h : World.FacesDirtied w.g_debugPointsEnabled M w v) (n : ChunkCoords)
    (clearBack : Chunk → Option Nat → Chunk) (dirty : World → Bool → Nat → World)
    (F : Nat → Prop) (hclear : ∀ (c : Chunk) (l : Option Nat), (clearBack c l).m_blocks = c.m_blocks)
    (hdirty : ∀ (v : World) (b : Bool) (q : Nat),
      World.FacesDirtied b (fun r j => r = q ∧ F j) v (dirty v b q)) :
    World.FacesDirtied w.g_debugPointsEnabled
      (fun r j => M r j ∨ (w.findChunk n = some r ∧ F j)) w
      (v.unlinkNeighbor n clearBack dirty) := by
  have h2 := World.facesDirtied_unlinkNeighbor v n clearBack dirty F hclear hdirty
  have hfind : v.findChunk n = w.findChunk n := by
    unfold World.findChunk
    rw [h.2.1]
  rw [h.1, hfind] at h2
  exact World.facesDirtied_trans h h2

theorem World.facesDirtied_south (v : World) (b : Bool) (q : Nat) :
    World.FacesDirtied b
      (fun r j => r = q ∧
        (j < BLOCKS_PER_CHUNK ∧ Dir.north.adjoiningFace (Chunk.GetLocalCoordsAtIndex j)))
      v (v.DirtySouthBorderNonopaqueBlocks b q) :=
  World.facesDirtied_congr (World.facesDirtied_dirtyBorder v b q _ _ _)
    (fun _ j => and_congr_right (fun _ => south_face j))

theorem World.facesDirtied_north (v : World) (b : Bool) (q : Nat) :
    World.FacesDirtied b
      (fun r j => r = q ∧
        (j < BLOCKS_PER_CHUNK ∧ Dir.south.adjoiningFace (Chunk.GetLocalCoordsAtIndex j)))
      v (v.DirtyNorthBorderNonopaqueBlocks b q) :=
  World.facesDirtied_congr (World.facesDirtied_dirtyBorder v b q _ _ _)
    (fun _ j => and_congr_right (fun _ => north_face j))

theorem World.facesDirtied_west (v : World) (b : Bool) (q : Nat) :
    World.FacesDirtied b
      (fun r j => r = q ∧
        (j < BLOCKS_PER_CHUNK ∧ Dir.east.adjoiningFace (Chunk.GetLocalCoordsAtIndex j)))
      v (v.DirtyWestBorderNonopaqueBlocks b q) :=
  World.facesDirtied_congr (World.facesDirtied_dirtyBorder v b q _ _ _)
    (fun _ j => and_congr_right (fun _ => west_face j))

theorem World.facesDirtied_east (v : World) (b : Bool) (q : Nat) :
    World.FacesDirtied b
      (fun r j => r = q ∧
        (j < BLOCKS_PER_CHUNK ∧ Dir.west.adjoiningFace (Chunk.GetLocalCoordsAtIndex j)))
      v (v.DirtyEastBorderNonopaqueBlocks b q) :=
  World.facesDirtied_congr (World.facesDirtied_dirtyBorder v b q _ _ _)
    (fun _ j => and_congr_right (fun _ => east_face j))

/-- The part of `DeactivateChunk` that runs while the world is running dirties, in the
chunk found at each adjacent coordinate, the face that adjoins the removed chunk. -/
theorem World.facesDirtied_unlinked (w : World) (c : ChunkCoords) :
    World.FacesDirtied w.g_debugPointsEnabled
      (fun r j => ∃ g : Dir, w.findChunk (c.adjacent g) = some r ∧
        (j < BLOCKS_PER_CHUNK ∧ g.adjoiningFace (Chunk.GetLocalCoordsAtIndex j)))
      w (World.DeactivateChunk.unlinked w c) := by
  have h := World.facesDirtied_step
    (World.facesDirtied_step
      (World.facesDirtied_step
        (World.facesDirtied_step (World.facesDirtied_refl w.g_debugPointsEnabled w)
          ⟨c.x, c.y + 1⟩ Chunk.setSouth World.DirtySouthBorderNonopaqueBlocks _
          (fun _ _ => rfl) World.facesDirtied_south)
        ⟨c.x, c.y - 1⟩ Chunk.setNorth World.DirtyNorthBorderNonopaqueBlocks _
        (fun _ _ => rfl) World.facesDirtied_north)
      ⟨c.x + 1, c.y⟩ Chunk.setWest World.DirtyWestBorderNonopaqueBlocks _
      (fun _ _ => rfl) World.facesDirtied_west)
    ⟨c.x - 1, c.y⟩ Chunk.setEast World.DirtyEastBorderNonopaqueBlocks _
    (fun _ _ => rfl) World.facesDirtied_east
  refine World.facesDirtied_congr h (fun r j => ?_)
  constructor
  · rintro ((((h | h) | h) | h) | h)
    · exact h.elim
    · exact ⟨Dir.north, h⟩
    · exact ⟨Dir.south, h⟩
    · exact ⟨Dir.east, h⟩
    · exact ⟨Dir.west, h⟩
  · rintro ⟨g, h⟩
    cases g
    · exact Or.inl (Or.inl (Or.inl (Or.inr h)))
    · exact Or.inl (Or.inl (Or.inr h))
    · exact Or.inl (Or.inr h)
    · exact Or.inr h

theorem adjacent_ne_self (c : ChunkCoords) (g : Dir) : c.adjacent g ≠ c := by
  intro h
  have hx := congrArg ChunkCoords.x h
  have hy := congrArg ChunkCoords.y h
  cases g <;> simp only [ChunkCoords.adjacent] at hx hy <;> omega

theorem adjacent_injective (c : ChunkCoords) (g g' : Dir) (h : c.adjacent g = c.adjacent g') :
    g = g' := by
  have hx := congrArg ChunkCoords.x h
  have hy := congrArg ChunkCoords.y h
  cases g <;> cases g' <;> simp only [ChunkCoords.adjacent] at hx hy <;>
    first | rfl | omega

/-- C23.  When a world that is running and whose active map gives every chunk one
coordinate deactivates the chunk at `c`, then for each lateral direction `g` in which
the adjacent coordinate is active, with `q` the chunk there: `q` stays active; a cell
`j` of `q` on the face adjoining the removed chunk (local `y = 0` for the north
neighbour, `y = 15` for the south neighbour, `x = 0` for the east neighbour, `x = 15`
for the west neighbour) that is not opaque and not flagged lighting-dirty gets the
flag and one more entry on the dirty list in use; every other cell of `q` keeps its
block and its number of entries; and the dirty list not in use is unchanged. -/
theorem border_redirtied_on_deactivation (w w' : World) (c : ChunkCoords)
    (hinv : w.StreamInv) (hd : w.DeactivateChunk c = some w') :
    w'.dirtyList (!w.g_debugPointsEnabled) = w.dirtyList (!w.g_debugPointsEnabled) ∧
    ∀ (g : Dir) (q : Nat), w.findChunk (c.adjacent g) = some q →
      w'.findChunk (c.adjacent g) = some q ∧
      ∀ j : Nat,
        ((j < BLOCKS_PER_CHUNK ∧ g.adjoiningFace (Chunk.GetLocalCoordsAtIndex j)) →
          w.borderCandidate q j →
          ((w'.m_heap q).m_blocks j).IsLightingDirty = true ∧
          (w'.m_heap q).m_blocks j = ((w.m_heap q).m_blocks j).DirtyLighting ∧
          (w'.dirtyList w.g_debugPointsEnabled).count ⟨some q, j⟩
            = (w.dirtyList w.g_debugPointsEnabled).count ⟨some q, j⟩ + 1) ∧
        (¬((j < BLOCKS_PER_CHUNK ∧ g.adjoiningFace (Chunk.GetLocalCoordsAtIndex j)) ∧
            w.borderCandidate q j) →
          (w'.m_heap q).m_blocks j = (w.m_heap q).m_blocks j ∧
          (w'.dirtyList w.g_debugPointsEnabled).count ⟨some q, j⟩
            = (w.dirtyList w.g_debugPointsEnabled).count ⟨some q, j⟩) := by
  have hU := World.facesDirtied_unlinked w c
  have hactive := World.DeactivateChunk_active w w' c hd
  have hheap : w'.m_heap = (World.DeactivateChunk.unlinked w c).m_heap ∧
      ∀ e, w'.dirtyList e = (World.DeactivateChunk.unlinked w c).dirtyList e := by
    unfold World.DeactivateChunk at hd
    split at hd
    · exact absurd hd (by simp)
    · rw [hinv.running] at hd
      simp only [if_true, Option.some.injEq] at hd
      rw [← hd]
      exact ⟨rfl, fun _ => rfl⟩
  obtain ⟨u1, u2, u3, u4⟩ := hU
  refine ⟨by rw [hheap.2, u3], ?_⟩
  intro g q hq
  refine ⟨by rw [findChunk_eq, hactive, findIn_filter, if_neg (adjacent_ne_self c g),
    ← findChunk_eq, hq], ?_⟩
  intro j
  have hM : (∃ g' : Dir, w.findChunk (c.adjacent g') = some q ∧
      (j < BLOCKS_PER_CHUNK ∧ g'.adjoiningFace (Chunk.GetLocalCoordsAtIndex j)))
      ↔ (j < BLOCKS_PER_CHUNK ∧ g.adjoiningFace (Chunk.GetLocalCoordsAtIndex j)) := by
    constructor
    · rintro ⟨g', h1, h2⟩
      have := adjacent_injective c g' g (hinv.inj _ _ q h1 hq)
      rw [← this]
      exact h2
    · intro h
      exact ⟨g, hq, h⟩
  rw [hheap.1, hheap.2]
  refine ⟨?_, ?_⟩
  · intro hf hc
    obtain ⟨s1, s2⟩ := (u4 q j).1 (hM.2 hf) hc
    exact ⟨by rw [s1]; exact Block.isDirty_DirtyLighting _, s1, s2⟩
  · intro hn
    exact (u4 q j).2 (fun hh => hn ⟨hM.1 hh.1, hh.2⟩)

theorem notchWorld_streamInv : notchWorld.StreamInv :=
  World.StreamInv.of_frame (World.frame_setBlock twoChunkWorld 0 240 ⟨BT_AIR, 0⟩)
    twoChunkWorld_reachable.inv

theorem notchWorld_find (c : ChunkCoords) : notchWorld.findChunk c = twoChunkWorld.findChunk c := by
  unfold World.findChunk
  rw [show notchWorld.m_activeChunks = twoChunkWorld.m_activeChunks from
    (World.frame_setBlock twoChunkWorld 0 240 ⟨BT_AIR, 0⟩).active]

theorem notchWorld_block : (notchWorld.m_heap 0).m_blocks 240 = ⟨BT_AIR, 0⟩ := by
  unfold notchWorld
  rw [World.blocks_setBlock, if_pos ⟨rfl, rfl⟩]

theorem border_redirtied_on_deactivation_witness :
    ∃ w', notchWorld.DeactivateChunk ⟨0, 1⟩ = some w' ∧
      w'.findChunk ⟨0, 0⟩ = some 0 ∧
      ((w'.m_heap 0).m_blocks 240).IsLightingDirty = true ∧
      (w'.m_heap 0).m_blocks 240 = ⟨BT_AIR, BITMASK_BLOCK_LIGHT_DIRTY⟩ ∧
      (w'.dirtyList notchWorld.g_debugPointsEnabled).count ⟨some 0, 240⟩
        = (notchWorld.dirtyList notchWorld.g_debugPointsEnabled).count ⟨some 0, 240⟩ + 1 := by
  have hact : notchWorld.IsChunkActive ⟨0, 1⟩ = true :=
    (World.isChunkActive_iff _ _).2 ⟨1, by rw [notchWorld_find]; exact twoChunkWorld_find.2⟩
  obtain ⟨w', hd⟩ := World.DeactivateChunk_isSome _ _ hact
  have h := (border_redirtied_on_deactivation notchWorld w' ⟨0, 1⟩ notchWorld_streamInv hd).2
    Dir.south 0 (by rw [notchWorld_find]; exact twoChunkWorld_find.1)
  have hc : notchWorld.borderCandidate 0 240 := by
    unfold World.borderCandidate
    rw [notchWorld_block]
    decide
  obtain ⟨s1, s2, s3⟩ := (h.2 240).1 ⟨by decide, by decide⟩ hc
  rw [notchWorld_block] at s2
  exact ⟨w', hd, h.1, s1, s2, s3⟩

/-! ### Sky seeding on activation -/

theorem World.onlyDirtied_refl (w : World) : w.OnlyDirtied w := fun _ _ => Or.inl rfl

theorem World.onlyDirtied_trans {a b c : World} (h1 : a.OnlyDirtied b) (h2 : b.OnlyDirtied c) :
    a.OnlyDirtied c := by
  intro r k
  rcases h2 r k with e2 | e2
  · rcases h1 r k with e1 | e1
    · exact Or.inl (e2.trans e1)
    · exact Or.inr (e2.trans e1)
  · rcases h1 r k with e1 | e1
    · exact Or.inr (by rw [e2, e1])
    · exact Or.inr (by rw [e2, e1, Block.DirtyLighting_idem])

theorem World.onlyDirtied_dirtyNeighbor (w : World) (l : BlockLocation) (off : Int) :
    w.OnlyDirtied (w.dirtyNeighbor l off) := by
  intro r k
  unfold World.dirtyNeighbor
  simp only
  rcases hloc : w.GetBlockLocation l off with ⟨c, idx⟩
  cases c with
  | none => exact Or.inl rfl
  | some q =>
    simp only
    split
    · by_cases hc : r = q ∧ k = idx
      · right
        obtain ⟨rfl, rfl⟩ := hc
        rw [World.blocks_pushDirty, World.blocks_setBlock, if_pos ⟨rfl, rfl⟩]
        unfold World.GetBlock
        simp only
        rw [World.blocks_dirtyVbo]
      · left
        rw [World.blocks_pushDirty, World.blocks_setBlock, if_neg hc, World.blocks_dirtyVbo]
    · exact Or.inl (World.blocks_dirtyVbo _ _ _ _)

theorem World.onlyDirtied_DirtyNonopaqueNeighbors (w : World) (l : BlockLocation) (b : Bool) :
    w.OnlyDirtied (w.DirtyNonopaqueNeighbors l b) := by
  have step : ∀ (v : World) (off : Int), w.OnlyDirtied v →
      w.OnlyDirtied (v.dirtyNeighbor l off) :=
    fun v off hv => World.onlyDirtied_trans hv (World.onlyDirtied_dirtyNeighbor v l off)
  unfold World.DirtyNonopaqueNeighbors
  simp only
  cases b
  · simp only [Bool.false_eq_true, if_false]
    exact step _ _ (step _ _ (step _ _ (step _ _ (World.onlyDirtied_refl w))))
  · simp only [if_true]
    exact step _ _ (step _ _ (step _ _ (step _ _ (step _ _ (step _ _
      (World.onlyDirtied_refl w))))))

theorem World.onlyDirtied_seed {w w' : World} (h : w.OnlyDirtied w') (r k : Nat) :
    ((w'.m_heap r).m_blocks k).m_type = ((w.m_heap r).m_blocks k).m_type ∧
    ((w'.m_heap r).m_blocks k).IsSky = ((w.m_heap r).m_blocks k).IsSky ∧
    ((w'.m_heap r).m_blocks k).GetLightValue = ((w.m_heap r).m_blocks k).GetLightValue := by
  rcases h r k with e | e <;> rw [e]
  · exact ⟨rfl, rfl, rfl⟩
  · exact ⟨rfl, Block.isSky_DirtyLighting _, Block.light_DirtyLighting _⟩

theorem World.airAbove_congr {w v : World} (p k : Nat)
    (h : ∀ j, ((v.m_heap p).m_blocks j).m_type = ((w.m_heap p).m_blocks j).m_type) :
    v.AirAbove p k ↔ w.AirAbove p k := by
  unfold World.AirAbove
  constructor
  · intro hv m hm
    rw [← h]
    exact hv m hm
  · intro hw m hm
    rw [h]
    exact hw m hm

theorem World.airAbove_step (w : World) (p index : Nat) (hi : index < BLOCKS_PER_CHUNK) :
    w.AirAbove p index ↔
      ((w.m_heap p).m_blocks index).m_type = BT_AIR ∧
        w.AirAbove p (index + BLOCKS_PER_CHUNK_LAYER) := by
  unfold World.AirAbove
  constructor
  · intro h
    refine ⟨by simpa using h 0 (by simpa using hi), fun k hk => ?_⟩
    have e : index + BLOCKS_PER_CHUNK_LAYER + BLOCKS_PER_CHUNK_LAYER * k
        = index + BLOCKS_PER_CHUNK_LAYER * (k + 1) := by ring
    rw [e] at hk ⊢
    exact h (k + 1) hk
  · rintro ⟨h0, h1⟩ k hk
    cases k with
    | zero => simpa using h0
    | succ k =>
      have e : index + BLOCKS_PER_CHUNK_LAYER * (k + 1)
          = index + BLOCKS_PER_CHUNK_LAYER + BLOCKS_PER_CHUNK_LAYER * k := by ring
      rw [e] at hk ⊢
      exact h1 k hk

theorem World.skySeeded_congr {p : Nat} {S S' : Nat → Prop} {w w' : World}
    (h : World.SkySeeded p S w w') (hS : ∀ k, S k ↔ S' k) : World.SkySeeded p S' w w' := by
  refine ⟨h.1, fun r k => ⟨(h.2 r k).1, ?_, ?_⟩⟩
  · rintro ⟨h1, h2, h3⟩
    exact (h.2 r k).2.1 ⟨h1, (hS k).2 h2, h3⟩
  · intro hn
    exact (h.2 r k).2.2 (fun hh => hn ⟨hh.1, (hS k).1 hh.2.1, hh.2.2⟩)

theorem World.skySeeded_trans {p : Nat} {S1 S2 : Nat → Prop} {w v u : World}
    (h1 : World.SkySeeded p S1 w v) (h2 : World.SkySeeded p S2 v u) :
    World.SkySeeded p (fun k => S1 k ∨ S2 k) w u := by
  have hair : ∀ k, v.AirAbove p k ↔ w.AirAbove p k :=
    fun k => World.airAbove_congr p k (fun j => (h1.2 p j).1)
  refine ⟨h2.1.trans h1.1, fun r k => ⟨(h2.2 r k).1.trans (h1.2 r k).1, ?_, ?_⟩⟩
  · rintro ⟨hr, hs, ha⟩
    by_cases hs2 : S2 k
    · have := (h2.2 r k).2.1 ⟨hr, hs2, (hair k).2 ha⟩
      exact ⟨this.1, this.2.trans h1.1⟩
    · have hs1 : S1 k := hs.resolve_right hs2
      have a := (h1.2 r k).2.1 ⟨hr, hs1, ha⟩
      have b := (h2.2 r k).2.2 (fun hh => hs2 hh.2.1)
      exact ⟨b.1.trans a.1, b.2.trans a.2⟩
  · intro hn
    have a := (h1.2 r k).2.2 (fun hh => hn ⟨hh.1, Or.inl hh.2.1, hh.2.2⟩)
    have b := (h2.2 r k).2.2 (fun hh => hn ⟨hh.1, Or.inr hh.2.1, (hair k).1 hh.2.2⟩)
    exact ⟨b.1.trans a.1, b.2.trans a.2⟩

theorem World.skySeeded_of_onlyDirtied {w w' : World} (p : Nat) (S : Nat → Prop)
    (hl : w'.m_lightLevel = w.m_lightLevel) (h : w.OnlyDirtied w')
    (hS : ∀ k, S k → ¬ w.AirAbove p k) : World.SkySeeded p S w w' := by
  refine ⟨hl, fun r k => ⟨(World.onlyDirtied_seed h r k).1, ?_, ?_⟩⟩
  · rintro ⟨_, hs, ha⟩
    exact absurd ha (hS k hs)
  · intro _
    exact (World.onlyDirtied_seed h r k).2

/-- One pass of the loop body of `OnChunkActivated` over a cell: when `endedSky` is
clear exactly if everything above the cell is air, the cell is flagged sky and lit
exactly if it and everything above it is air, and `endedSky` stays clear exactly then. -/
theorem World.skySeeded_cell (w : World) (p index : Nat) (endedSky : Bool)
    (hi : index < BLOCKS_PER_CHUNK) (hl : w.m_lightLevel ≤ 15)
    (hE : endedSky = false ↔ w.AirAbove p (index + BLOCKS_PER_CHUNK_LAYER)) :
    World.SkySeeded p (fun k => k = index) w (World.OnChunkActivated.cell w p index endedSky).1 ∧
    ((World.OnChunkActivated.cell w p index endedSky).2 = false ↔ w.AirAbove p index) := by
  have hF := World.frame_activatedCell w p index endedSky
  have hair := World.airAbove_step w p index hi
  by_cases hc : endedSky = false ∧ ((w.m_heap p).m_blocks index).m_type = BT_AIR
  · have ha : w.AirAbove p index := hair.2 ⟨hc.2, hE.1 hc.1⟩
    have hcell : World.OnChunkActivated.cell w p index endedSky
        = ((w.setBlock p index
            (((w.m_heap p).m_blocks index).MarkAsSky.SetLightValue w.m_lightLevel)).DirtyNonopaqueNeighbors
              ⟨some p, index⟩ false, endedSky) := by
      unfold World.OnChunkActivated.cell
      simp only
      rw [if_pos (by simp [hc.1, hc.2])]
    rw [hcell]
    refine ⟨⟨?_, fun r k => ?_⟩, by simp [hc.1, ha]⟩
    · rw [hcell] at hF
      exact hF.lightLevel
    · have hd := World.onlyDirtied_seed
        (World.onlyDirtied_DirtyNonopaqueNeighbors
          (w.setBlock p index
            (((w.m_heap p).m_blocks index).MarkAsSky.SetLightValue w.m_lightLevel))
          ⟨some p, index⟩ false) r k
      simp only
      rw [hd.1, hd.2.1, hd.2.2, World.blocks_setBlock]
      by_cases hrk : r = p ∧ k = index
      · rw [if_pos hrk]
        obtain ⟨rfl, rfl⟩ := hrk
        refine ⟨rfl, fun _ => ⟨?_, ?_⟩, fun hn => absurd ⟨rfl, rfl, ha⟩ hn⟩
        · rw [Block.isSky_SetLightValue _ _ (by omega)]
          exact Block.isSky_MarkAsSky _
        · exact Block.light_SetLightValue _ _ (by omega)
      · rw [if_neg hrk]
        refine ⟨rfl, fun hh => absurd ⟨hh.1, hh.2.1⟩ hrk, fun _ => ⟨rfl, rfl⟩⟩
  · have ha : ¬ w.AirAbove p index := by
      intro h
      have := hair.1 h
      exact hc ⟨hE.2 this.2, this.1⟩
    have hcond : (!endedSky && decide (((w.m_heap p).m_blocks index).m_type = BT_AIR)) = false := by
      cases endedSky
      · simp only [Bool.not_false, Bool.true_and, decide_eq_false_iff_not]
        exact fun h => hc ⟨rfl, h⟩
      · rfl
    have hod : w.OnlyDirtied (World.OnChunkActivated.cell w p index endedSky).1 ∧
        (World.OnChunkActivated.cell w p index endedSky).2 = true := by
      unfold World.OnChunkActivated.cell
      simp only
      rw [hcond]
      simp only [Bool.false_eq_true, if_false]
      split_ifs
      · exact ⟨World.onlyDirtied_DirtyNonopaqueNeighbors w _ true, rfl⟩
      · refine ⟨fun r k => ?_, rfl⟩
        rw [World.blocks_pushDirty, World.blocks_setBlock]
        by_cases hrk : r = p ∧ k = index
        · rw [if_pos hrk, hrk.1, hrk.2]
          exact Or.inr rfl
        · rw [if_neg hrk]
          exact Or.inl rfl
      · exact ⟨World.onlyDirtied_refl w, rfl⟩
    refine ⟨World.skySeeded_of_onlyDirtied p _ hF.lightLevel hod.1 ?_, ?_⟩
    · intro k hk
      rw [hk]
      exact ha
    · rw [hod.2]
      simp [ha]

/-- The inner loop of `OnChunkActivated` from the cell at height `z0` of the column
`c0` downwards. -/
theorem World.skySeeded_column (p c0 : Nat) (hc0 : c0 < BLOCKS_PER_CHUNK_LAYER) :
    ∀ (z0 fuel : Nat) (endedSky : Bool) (w : World), z0 < BLOCKS_PER_CHUNK_Z → z0 < fuel →
      w.m_lightLevel ≤ 15 →
      (endedSky = false ↔ w.AirAbove p (c0 + BLOCKS_PER_CHUNK_LAYER * (z0 + 1))) →
      World.SkySeeded p (fun k => k % BLOCKS_PER_CHUNK_LAYER = c0 ∧ k / BLOCKS_PER_CHUNK_LAYER ≤ z0)
        w (World.OnChunkActivated.column p fuel (c0 + BLOCKS_PER_CHUNK_LAYER * z0) endedSky w) := by
  have e1 : BLOCKS_PER_CHUNK_LAYER = 256 := by decide
  have e2 : BLOCKS_PER_CHUNK = 32768 := by decide
  have e3 : BLOCKS_PER_CHUNK_Z = 128 := by decide
  intro z0
  induction z0 with
  | zero =>
    intro fuel endedSky w _ hf hl hE
    obtain ⟨n, rfl⟩ : ∃ n, fuel = n + 1 := ⟨fuel - 1, by omega⟩
    have hi : c0 + BLOCKS_PER_CHUNK_LAYER * 0 < BLOCKS_PER_CHUNK := by omega
    rw [World.OnChunkActivated.column, if_pos hi]
    simp only
    have hcell := World.skySeeded_cell w p (c0 + BLOCKS_PER_CHUNK_LAYER * 0) endedSky hi hl
      (by
        have e : c0 + BLOCKS_PER_CHUNK_LAYER * 0 + BLOCKS_PER_CHUNK_LAYER
            = c0 + BLOCKS_PER_CHUNK_LAYER * (0 + 1) := by ring
        rw [e]
        exact hE)
    have hnext : toBlockIndex (((c0 + BLOCKS_PER_CHUNK_LAYER * 0 : Nat) : Int)
        - (BLOCKS_PER_CHUNK_LAYER : Int)) = 65536 + (c0 + BLOCKS_PER_CHUNK_LAYER * 0)
          - BLOCKS_PER_CHUNK_LAYER :=
      toBlockIndex_sub_wrap _ _ (by omega) (by omega)
    have hstop : ∀ (m : Nat) (b : Bool) (v : World),
        World.OnChunkActivated.column p m
          (toBlockIndex (((c0 + BLOCKS_PER_CHUNK_LAYER * 0 : Nat) : Int)
            - (BLOCKS_PER_CHUNK_LAYER : Int))) b v = v := by
      intro m b v
      cases m with
      | zero => rfl
      | succ m =>
        rw [World.OnChunkActivated.column, if_neg (by rw [hnext]; omega)]
    rw [hstop]
    refine World.skySeeded_congr hcell.1 (fun k => ?_)
    rw [e1]
    omega
  | succ z ih =>
    intro fuel endedSky w hz hf hl hE
    obtain ⟨n, rfl⟩ : ∃ n, fuel = n + 1 := ⟨fuel - 1, by omega⟩
    have hi : c0 + BLOCKS_PER_CHUNK_LAYER * (z + 1) < BLOCKS_PER_CHUNK := by
      rw [e1, e2]
      omega
    rw [World.OnChunkActivated.column, if_pos hi]
    simp only
    have hcell := World.skySeeded_cell w p (c0 + BLOCKS_PER_CHUNK_LAYER * (z + 1)) endedSky hi hl
      (by
        have e : c0 + BLOCKS_PER_CHUNK_LAYER * (z + 1) + BLOCKS_PER_CHUNK_LAYER
            = c0 + BLOCKS_PER_CHUNK_LAYER * (z + 1 + 1) := by ring
        rw [e]
        exact hE)
    have hnext : toBlockIndex (((c0 + BLOCKS_PER_CHUNK_LAYER * (z + 1) : Nat) : Int)
        - (BLOCKS_PER_CHUNK_LAYER : Int)) = c0 + BLOCKS_PER_CHUNK_LAYER * z := by
      rw [toBlockIndex_sub _ _ (by rw [e1]; omega) (by rw [e1]; omega)]
      rw [e1]
      omega
    rw [hnext]
    have hair : ∀ k, (World.OnChunkActivated.cell w p
        (c0 + BLOCKS_PER_CHUNK_LAYER * (z + 1)) endedSky).1.AirAbove p k ↔ w.AirAbove p k :=
      fun k => World.airAbove_congr p k (fun j => (hcell.1.2 p j).1)
    have hrest := ih n
      (World.OnChunkActivated.cell w p (c0 + BLOCKS_PER_CHUNK_LAYER * (z + 1)) endedSky).2
      (World.OnChunkActivated.cell w p (c0 + BLOCKS_PER_CHUNK_LAYER * (z + 1)) endedSky).1
      (by omega) (by omega) (by rw [hcell.1.1]; exact hl)
      (by rw [hair]; exact hcell.2)
    refine World.skySeeded_congr (World.skySeeded_trans hcell.1 hrest) (fun k => ?_)
    rw [e1]
    omega

/-- The outer loop of `OnChunkActivated` over the columns `column`, ...,
`column + n - 1`. -/
theorem World.skySeeded_columns (p : Nat) :
    ∀ (n column : Nat) (w : World), 1 ≤ column → column + n ≤ BLOCKS_PER_CHUNK_LAYER + 1 →
      w.m_lightLevel ≤ 15 →
      World.SkySeeded p
        (fun k => k < BLOCKS_PER_CHUNK ∧
          ∃ col, column ≤ col ∧ col < column + n ∧
            k % BLOCKS_PER_CHUNK_LAYER = BLOCKS_PER_CHUNK_LAYER - col)
        w (World.OnChunkActivated.columns p n column w) := by
  have e1 : BLOCKS_PER_CHUNK_LAYER = 256 := by decide
  have e2 : BLOCKS_PER_CHUNK = 32768 := by decide
  have e3 : BLOCKS_PER_CHUNK_Z = 128 := by decide
  intro n
  induction n with
  | zero =>
    intro column w _ _ _
    refine ⟨rfl, fun r k => ⟨rfl, ?_, fun _ => ⟨rfl, rfl⟩⟩⟩
    rintro ⟨_, ⟨_, col, h1, h2, _⟩, _⟩
    omega
  | succ n ih =>
    intro column w h1 h2 hl
    rw [World.OnChunkActivated.columns]
    have hstart : toBlockIndex ((BLOCKS_PER_CHUNK : Int) - (column : Int))
        = (BLOCKS_PER_CHUNK_LAYER - column) + BLOCKS_PER_CHUNK_LAYER * 127 := by
      rw [toBlockIndex_sub _ _ (by omega) (by omega)]
      omega
    have hcol := World.skySeeded_column p (BLOCKS_PER_CHUNK_LAYER - column) (by omega) 127
      (BLOCKS_PER_CHUNK_Z + 1) false w (by omega) (by omega) hl
      (by
        refine ⟨fun _ k hk => ?_, fun _ => rfl⟩
        omega)
    rw [← hstart] at hcol
    have hrest := ih (column + 1)
      (World.OnChunkActivated.column p (BLOCKS_PER_CHUNK_Z + 1)
        (toBlockIndex ((BLOCKS_PER_CHUNK : Int) - (column : Int))) false w)
      (by omega) (by omega) (by rw [hcol.1]; exact hl)
    refine World.skySeeded_congr (World.skySeeded_trans hcol hrest) (fun k => ?_)
    rw [e1, e2]
    constructor
    · rintro (⟨a, b⟩ | ⟨a, col, b1, b2, b3⟩)
      · exact ⟨by omega, column, by omega, by omega, a⟩
      · exact ⟨a, col, by omega, by omega, b3⟩
    · rintro ⟨a, col, b1, b2, b3⟩
      by_cases hcc : col = column
      · left
        subst hcc
        exact ⟨b3, by omega⟩
      · right
        exact ⟨a, col, by omega, by omega, b3⟩

/-- C24.  With an ambient light level of at most 15, after `OnChunkActivated` has run on
the chunk at address `p` whose cells all had the sky flag clear, the cells of the
chunk flagged sky are exactly the air cells with only air above them up to the top of
the chunk, each of them holds the ambient light level, and no block type has changed. -/
theorem sky_seeded_on_activation (w : World) (p : Nat) (hlevel : w.m_lightLevel ≤ 15)
    (hfresh : ∀ i, i < BLOCKS_PER_CHUNK → ((w.m_heap p).m_blocks i).IsSky = false) :
    (w.OnChunkActivated p).SkyMatchesColumns p ∧
    (∀ i, i < BLOCKS_PER_CHUNK → (((w.OnChunkActivated p).m_heap p).m_blocks i).IsSky = true →
      (((w.OnChunkActivated p).m_heap p).m_blocks i).GetLightValue
        = (w.OnChunkActivated p).m_lightLevel) ∧
    (∀ i, (((w.OnChunkActivated p).m_heap p).m_blocks i).m_type
      = ((w.m_heap p).m_blocks i).m_type) := by
  have e1 : BLOCKS_PER_CHUNK_LAYER = 256 := by decide
  have e2 : BLOCKS_PER_CHUNK = 32768 := by decide
  have h0 := World.skySeeded_columns p BLOCKS_PER_CHUNK_LAYER 1 w (by omega) (by omega) hlevel
  have h : World.SkySeeded p (fun k => k < BLOCKS_PER_CHUNK) w (w.OnChunkActivated p) := by
    refine World.skySeeded_congr h0 (fun k => ?_)
    rw [e1, e2]
    constructor
    · rintro ⟨a, _⟩
      exact a
    · intro a
      exact ⟨a, 256 - k % 256, by omega, by omega, by omega⟩
  have hsky : ∀ i, i < BLOCKS_PER_CHUNK →
      ((((w.OnChunkActivated p).m_heap p).m_blocks i).IsSky = true ↔ w.AirAbove p i) := by
    intro i hi
    constructor
    · intro hs
      by_contra hn
      have := ((h.2 p i).2.2 (fun hh => hn hh.2.2)).1
      rw [this, hfresh i hi] at hs
      exact absurd hs (by simp)
    · intro ha
      exact ((h.2 p i).2.1 ⟨rfl, hi, ha⟩).1
  refine ⟨?_, ?_, fun i => (h.2 p i).1⟩
  · intro i hi
    rw [hsky i hi]
    exact (World.airAbove_congr p i (fun j => (h.2 p j).1)).symm
  · intro i hi hs
    rw [h.1]
    exact ((h.2 p i).2.1 ⟨rfl, hi, (hsky i hi).1 hs⟩).2

theorem sky_seeded_on_activation_witness :
    (uniformWorld ⟨BT_AIR, 0⟩).m_lightLevel ≤ 15 ∧
    ((uniformWorld ⟨BT_AIR, 0⟩).OnChunkActivated 0).SkyMatchesColumns 0 ∧
    ((((uniformWorld ⟨BT_AIR, 0⟩).OnChunkActivated 0).m_heap 0).m_blocks 0).IsSky = true ∧
    ((((uniformWorld ⟨BT_AIR, 0⟩).OnChunkActivated 0).m_heap 0).m_blocks 0).GetLightValue
      = ((uniformWorld ⟨BT_AIR, 0⟩).OnChunkActivated 0).m_lightLevel := by
  have hblk : ∀ j, ((uniformWorld ⟨BT_AIR, 0⟩).m_heap 0).m_blocks j = ⟨BT_AIR, 0⟩ := fun _ => rfl
  have h := sky_seeded_on_activation (uniformWorld ⟨BT_AIR, 0⟩) 0 (by decide)
    (fun i _ => by rw [hblk]; decide)
  have hs : ((((uniformWorld ⟨BT_AIR, 0⟩).OnChunkActivated 0).m_heap 0).m_blocks 0).IsSky
      = true := by
    rw [h.1 0 (by decide)]
    intro k _
    rw [h.2.2, hblk]
  exact ⟨by decide, h.1, hs, h.2.1 0 (by decide) hs⟩

/-- In the state the streaming keeps, a link of an active chunk leads to an active chunk
that links back. -/
theorem World.StreamInv.mirrored {w : World} (h : w.StreamInv) (q : Nat) (d : Dir) (p : Nat)
    (hq : w.IsLive q) (hl : (w.m_heap q).link d = some p) :
    w.IsLive p ∧ (w.m_heap p).link d.opposite = some q := by
  obtain ⟨c, hc⟩ := hq
  rw [h.mirror c q d hc] at hl
  refine ⟨⟨_, hl⟩, ?_⟩
  rw [h.mirror _ p d.opposite hl]
  have e : (c.adjacent d).adjacent d.opposite = c := by
    have := adjacent_opposite c d.opposite
    cases d <;> simpa [Dir.opposite] using this
  rw [e]
  exact hc

theorem World.linkNeighbor_blocks (w : World) (p : Nat) (n : ChunkCoords)
    (f g : Chunk → Option Nat → Chunk)
    (hf : ∀ (c : Chunk) (l : Option Nat), (f c l).m_blocks = c.m_blocks)
    (hg : ∀ (c : Chunk) (l : Option Nat), (g c l).m_blocks = c.m_blocks) (r : Nat) :
    ((w.linkNeighbor p n f g).m_heap r).m_blocks = (w.m_heap r).m_blocks := by
  unfold World.linkNeighbor
  split
  · simp only [World.setChunk]
    split
    · rename_i h1
      rw [hg]
      split
      · rename_i h2
        rw [hf, h1, h2]
      · rw [h1]
    · split
      · rename_i h2
        rw [hf, h2]
      · rfl
  · simp only [World.setChunk]
    split
    · rename_i h2
      rw [hf, h2]
    · rfl

theorem World.linked_blocks (w : World) (c : ChunkCoords) (blocks : Nat → Block) (r : Nat) :
    ((World.ActivateChunk.linked w c blocks).m_heap r).m_blocks
      = if r = w.m_heapSize then blocks else (w.m_heap r).m_blocks := by
  have hset : ∀ (f : Chunk → Option Nat → Chunk), f = Chunk.setNorth ∨ f = Chunk.setSouth ∨
      f = Chunk.setEast ∨ f = Chunk.setWest →
      ∀ (c : Chunk) (l : Option Nat), (f c l).m_blocks = c.m_blocks := by
    rintro f (rfl | rfl | rfl | rfl) c l <;> rfl
  unfold World.ActivateChunk.linked
  simp only
  rw [World.linkNeighbor_blocks _ _ _ _ _ (hset _ (by simp)) (hset _ (by simp)),
    World.linkNeighbor_blocks _ _ _ _ _ (hset _ (by simp)) (hset _ (by simp)),
    World.linkNeighbor_blocks _ _ _ _ _ (hset _ (by simp)) (hset _ (by simp)),
    World.linkNeighbor_blocks _ _ _ _ _ (hset _ (by simp)) (hset _ (by simp))]
  simp only [World.setChunk]
  split <;> rfl

theorem World.edited_of_dirtied {w w' : World} (h : w.Dirtied w') : w.Edited w' := by
  refine ⟨h.frame, World.dirtied_fresh h, h.queue, ?_, ?_⟩
  · intro r k hd
    rcases h.cells r k with e | ⟨e, _⟩
    · exact e
    · rw [e, Block.isDirty_DirtyLighting] at hd
      exact Bool.noConfusion hd
  · intro r k hl
    exact absurd (World.dirtied_light h r k) hl

theorem World.writeAndEnqueue_debug (w : World) (p i : Nat) (b : Block) :
    (w.writeAndEnqueue false p i b).g_debugPointsEnabled = w.g_debugPointsEnabled :=
  (World.frame_writeAndEnqueue w false p i b).debug

/-- The world after `DeactivateChunk` in a running world is the world after the
unlinking part with the chunk taken off the active map. -/
theorem World.DeactivateChunk_eq (w w' : World) (c : ChunkCoords)
    (hrun : w.m_isRunning = true) (h : w.DeactivateChunk c = some w') :
    w' = { World.DeactivateChunk.unlinked w c with
      m_activeChunks := (World.DeactivateChunk.unlinked w c).m_activeChunks.filter
        (fun e => e.1 ≠ c) } := by
  unfold World.DeactivateChunk at h
  cases hc : w.findChunk c with
  | none => simp [hc] at h
  | some p =>
    simp only [hc, hrun, if_true, Option.some.injEq] at h
    exact h.symm

theorem World.UpdateLighting_frame :
    ∀ (fuel : Nat) (w w' : World), World.UpdateLighting fuel w = some w' → w.Frame w' := by
  intro fuel
  induction fuel with
  | zero =>
    intro w w' h
    unfold World.UpdateLighting at h
    split at h
    · injection h with h
      subst h
      exact World.Frame.refl w
    · exact Option.noConfusion h
  | succ n ih =>
    intro w w' h
    unfold World.UpdateLighting at h
    cases hq : w.m_dirtyBlocks with
    | nil =>
      rw [hq] at h
      simp only at h
      injection h with h
      subst h
      exact World.Frame.refl w
    | cons l rest =>
      rw [hq] at h
      simp only at h
      have F0 : w.Frame ({ w with m_dirtyBlocks := rest } : World) :=
        ⟨rfl, rfl, rfl, rfl, rfl, rfl, rfl, fun _ => Chunk.sameLinks_refl _⟩
      obtain ⟨c, i⟩ := l
      cases c with
      | none =>
        simp only at h
        exact F0.trans (ih _ _ h)
      | some p =>
        simp only at h
        exact (F0.trans ((World.frame_UpdateLightingForBlock _ _).trans
          (World.frame_dirtyVbo _ _))).trans (ih _ _ h)

theorem World.new_streamInv : World.new.StreamInv := by
  refine ⟨rfl, List.nodup_nil, ?_, ?_, ?_⟩
  · intro c c' p h
    exact Option.noConfusion h
  · intro c p h
    exact Option.noConfusion h
  · intro c p d h
    exact Option.noConfusion h

theorem Block.inert_DirtyLighting (b : Block) (h : b.Inert) : b.DirtyLighting.Inert :=
  ⟨h.1, (Block.light_DirtyLighting b).trans h.2.1, h.2.2⟩

/-- The loop body of `OnChunkActivated` for a cell changes another cell at most by
setting its dirty flag. -/
theorem World.activatedCell_others (w : World) (p i0 : Nat) (endedSky : Bool) (r j : Nat)
    (hrj : ¬ (r = p ∧ j = i0)) :
    ((World.OnChunkActivated.cell w p i0 endedSky).1.m_heap r).m_blocks j
        = (w.m_heap r).m_blocks j ∨
      ((World.OnChunkActivated.cell w p i0 endedSky).1.m_heap r).m_blocks j
        = ((w.m_heap r).m_blocks j).DirtyLighting := by
  unfold World.OnChunkActivated.cell
  simp only
  split_ifs
  · have h := World.onlyDirtied_DirtyNonopaqueNeighbors
      (w.setBlock p i0 (((w.m_heap p).m_blocks i0).MarkAsSky.SetLightValue w.m_lightLevel))
      ⟨some p, i0⟩ false r j
    rw [World.blocks_setBlock, if_neg hrj] at h
    exact h
  · exact World.onlyDirtied_DirtyNonopaqueNeighbors w ⟨some p, i0⟩ true r j
  · left
    rw [World.blocks_pushDirty, World.blocks_setBlock, if_neg hrj]
  · exact Or.inl rfl

/-- The inner loop of `OnChunkActivated` passes over a column whose cells from the
start of the loop downwards are inert. -/
theorem World.activatedColumn_skip (w : World) (p : Nat) :
    ∀ (fuel index : Nat) (endedSky : Bool),
      (∀ j, j ≤ index → j < BLOCKS_PER_CHUNK → j % 256 = index % 256 →
        ((w.m_heap p).m_blocks j).Inert) →
      World.OnChunkActivated.column p fuel index endedSky w = w := by
  have hB : BLOCKS_PER_CHUNK = 32768 := by decide
  have hL : ((BLOCKS_PER_CHUNK_LAYER : Nat) : Int) = 256 := by decide
  intro fuel
  induction fuel with
  | zero =>
    intro index endedSky _
    rfl
  | succ n ih =>
    intro index endedSky h
    rw [World.OnChunkActivated.column]
    split
    · rename_i hi
      simp only [World.activatedCell_inert w p index endedSky (h index (Nat.le_refl _) hi rfl)]
      by_cases h256 : 256 ≤ index
      · have e : toBlockIndex ((index : Int) - (BLOCKS_PER_CHUNK_LAYER : Nat)) = index - 256 := by
          rw [hL]
          have := toBlockIndex_sub index 256 h256 (by omega)
          simpa using this
        rw [e]
        apply ih
        intro j hj hjB hmod
        exact h j (by omega) hjB (by omega)
      · have e : toBlockIndex ((index : Int) - (BLOCKS_PER_CHUNK_LAYER : Nat))
            = 65536 + index - 256 := by
          rw [hL]
          have := toBlockIndex_sub_wrap index 256 (by omega) (by omega)
          simpa using this
        rw [e]
        cases n with
        | zero => rfl
        | succ m =>
          rw [World.OnChunkActivated.column, if_neg (by omega)]
    · rfl

/-- The outer loop of `OnChunkActivated` passes over columns whose cells are inert. -/
theorem World.activatedColumns_skip (p : Nat) :
    ∀ (n column : Nat) (w : World), 1 ≤ column → column + n ≤ 257 →
      (∀ j, j < BLOCKS_PER_CHUNK → column ≤ 256 - j % 256 → 256 - j % 256 < column + n →
        ((w.m_heap p).m_blocks j).Inert) →
      World.OnChunkActivated.columns p n column w = w := by
  have hB : BLOCKS_PER_CHUNK = 32768 := by decide
  intro n
  induction n with
  | zero =>
    intro column w _ _ _
    rfl
  | succ n ih =>
    intro column w h1 h2 h
    rw [World.OnChunkActivated.columns]
    have hstart : toBlockIndex ((BLOCKS_PER_CHUNK : Int) - (column : Int)) = 32768 - column := by
      have := toBlockIndex_sub BLOCKS_PER_CHUNK column (by omega) (by omega)
      rw [hB] at this
      rw [hB]
      simpa using this
    rw [hstart, World.activatedColumn_skip w p]
    · apply ih (column + 1) w (by omega) (by omega)
      intro j hj ha hb
      exact h j hj (by omega) (by omega)
    · intro j _ hj hmod
      apply h j hj <;> omega

theorem World.activatedColumns_add (p : Nat) :
    ∀ (a b column : Nat) (w : World),
      World.OnChunkActivated.columns p (a + b) column w
        = World.OnChunkActivated.columns p b (column + a)
            (World.OnChunkActivated.columns p a column w) := by
  intro a
  induction a with
  | zero =>
    intro b column w
    rw [Nat.zero_add]
    rfl
  | succ a ih =>
    intro b column w
    have e : a + 1 + b = (a + b) + 1 := by omega
    rw [e, World.OnChunkActivated.columns, World.OnChunkActivated.columns, ih]
    have e2 : column + 1 + a = column + (a + 1) := by omega
    rw [e2]

/-- On a chunk whose cells are inert but for one cell of its top layer,
`OnChunkActivated` does what its loop body does on that cell. -/
theorem World.OnChunkActivated_single (w : World) (p i0 : Nat)
    (hlo : BLOCKS_PER_CHUNK - BLOCKS_PER_CHUNK_LAYER ≤ i0) (hhi : i0 < BLOCKS_PER_CHUNK)
    (hinert : ∀ j, j < BLOCKS_PER_CHUNK → j ≠ i0 → ((w.m_heap p).m_blocks j).Inert) :
    w.OnChunkActivated p = (World.OnChunkActivated.cell w p i0 false).1 := by
  have hB : BLOCKS_PER_CHUNK = 32768 := by decide
  have hL : BLOCKS_PER_CHUNK_LAYER = 256 := by decide
  have hZ : BLOCKS_PER_CHUNK_Z = 128 := by decide
  rw [hB, hL] at hlo
  rw [hB] at hhi
  have hnext : ∀ j, j < BLOCKS_PER_CHUNK → j ≠ i0 →
      (((World.OnChunkActivated.cell w p i0 false).1.m_heap p).m_blocks j).Inert := by
    intro j hj hne
    rcases World.activatedCell_others w p i0 false p j (fun hh => hne hh.2) with e | e
    · rw [e]
      exact hinert j hj hne
    · rw [e]
      exact Block.inert_DirtyLighting _ (hinert j hj hne)
  have e0 : World.OnChunkActivated w p
      = World.OnChunkActivated.columns p ((32768 - i0 - 1) + (1 + (256 - (32768 - i0)))) 1 w := by
    have : (32768 - i0 - 1) + (1 + (256 - (32768 - i0))) = BLOCKS_PER_CHUNK_LAYER := by
      rw [hL]
      omega
    rw [this]
    rfl
  rw [e0, World.activatedColumns_add, World.activatedColumns_skip p _ 1 w (by omega) (by omega)]
  · have e1 : 1 + (256 - (32768 - i0)) = (256 - (32768 - i0)) + 1 := by omega
    rw [e1, World.OnChunkActivated.columns]
    have hstart : toBlockIndex ((BLOCKS_PER_CHUNK : Int) - ((1 + (32768 - i0 - 1) : Nat) : Int))
        = i0 := by
      have := toBlockIndex_sub BLOCKS_PER_CHUNK (1 + (32768 - i0 - 1)) (by omega) (by omega)
      rw [hB] at this
      rw [hB]
      simp only [Nat.cast_ofNat] at this ⊢
      rw [this]
      omega
    rw [hstart]
    have hcol : World.OnChunkActivated.column p (BLOCKS_PER_CHUNK_Z + 1) i0 false w
        = (World.OnChunkActivated.cell w p i0 false).1 := by
      have : BLOCKS_PER_CHUNK_Z + 1 = 128 + 1 := by rw [hZ]
      rw [this, World.OnChunkActivated.column, if_pos (by omega)]
      simp only
      have hidx : toBlockIndex ((i0 : Int) - (BLOCKS_PER_CHUNK_LAYER : Nat)) = i0 - 256 := by
        have := toBlockIndex_sub i0 256 (by omega) (by omega)
        rw [hL]
        simpa using this
      rw [hidx]
      apply World.activatedColumn_skip
      intro j hj hjB _
      exact hnext j hjB (by omega)
    rw [hcol]
    apply World.activatedColumns_skip p _ _ _ (by omega) (by omega)
    intro j hj ha hb
    apply hnext j hj
    omega
  · intro j hj ha hb
    apply hinert j hj
    omega

theorem pitSeed_eq : World.new.ActivateChunk ⟨0, 0⟩ pitBlocks = pitSeed := by
  have h0 : World.new.m_heapSize = 0 := rfl
  unfold World.ActivateChunk pitSeed
  rw [h0]
  apply World.OnChunkActivated_single _ 0 32529 (by decide) (by decide)
  intro j _ hne
  have hb := World.linked_blocks World.new ⟨0, 0⟩ pitBlocks 0
  rw [h0, if_pos rfl] at hb
  rw [hb]
  show Block.Inert (if j = 32529 then ⟨BT_AIR, 0⟩ else ⟨BT_STONE, 0⟩)
  rw [if_neg hne]
  exact ⟨by decide, by decide, by decide⟩

theorem pitSeed_debug : pitSeed.g_debugPointsEnabled = false := by decide!

/-- In the scenario of the two holes with the lighting updated after the first hole, the
last run of `UpdateLighting` relaxes the second hole, a cell of air that is not flagged
sky, from the light value 0 to the light value 14. -/
theorem twoHolesLit_drained :
    (twoHolesLit.bind (World.UpdateLighting 8)).map pitLights = some ([15, 15, 14], [], []) ∧
    (twoHolesLit.bind (World.UpdateLighting 8)).map
        (fun w => (w.findChunk ⟨0, 0⟩, ((w.m_heap 0).m_blocks 32530).m_type,
          ((w.m_heap 0).m_blocks 32530).IsSky,
          w.CalculateIdealLightingForBlock ⟨some 0, 32530⟩))
      = some (some 0, BT_AIR, false, 14) := by
  refine ⟨by decide!, by decide!⟩

theorem World.neighbor_symm_to (w : World) (q j p i : Nat) (off : Int)
    (hj : j < BLOCKS_PER_CHUNK) (hoff : off ∈ neighborSteps)
    (hlinks : ∀ d, (w.m_heap q).link d = some p → (w.m_heap p).link d.opposite = some q)
    (h : w.GetBlockLocation ⟨some q, j⟩ off = ⟨some p, i⟩) :
    ∃ back, back ∈ neighborSteps ∧ w.GetBlockLocation ⟨some p, i⟩ back = ⟨some q, j⟩ := by
  simp only [neighborSteps, List.mem_cons, List.mem_singleton, List.not_mem_nil, or_false]
    at hoff
  rcases hoff with rfl | rfl | rfl | rfl | rfl | rfl
  · exact ⟨STEP_DOWN, by simp [neighborSteps], World.up_symm w q j p i hj h⟩
  · exact ⟨STEP_UP, by simp [neighborSteps], World.down_symm w q j p i hj h⟩
  · exact ⟨STEP_SOUTH, by simp [neighborSteps],
      World.north_symm w q j p i hj (hlinks Dir.north) h⟩
  · exact ⟨STEP_NORTH, by simp [neighborSteps],
      World.south_symm w q j p i hj (hlinks Dir.south) h⟩
  · exact ⟨STEP_WEST, by simp [neighborSteps],
      World.east_symm w q j p i hj (hlinks Dir.east) h⟩
  · exact ⟨STEP_EAST, by simp [neighborSteps],
      World.west_symm w q j p i hj (hlinks Dir.west) h⟩

theorem relaxRank_le (L : Nat) (sky : Bool) (x f : Nat) (hx : x ≤ 15) (hf : f ≤ 15) :
    relaxRank L sky x f ≤ 4 * L + 64 := by
  unfold relaxRank
  split_ifs <;> omega

/-- The weight of a cell is at most the bound. -/
theorem World.cellPotential_le (w : World) (c : Nat × Nat) : w.cellPotential c ≤ w.cellBound := by
  unfold World.cellPotential World.cellBound
  simp only
  have hx := Block.light_le ((w.m_heap c.1).m_blocks c.2)
  have hf := World.ideal_lt w ⟨some c.1, c.2⟩
  have h1 := relaxRank_le w.m_lightLevel ((w.m_heap c.1).m_blocks c.2).IsSky
    ((w.m_heap c.1).m_blocks c.2).GetLightValue (w.CalculateIdealLightingForBlock ⟨some c.1, c.2⟩)
    hx (by omega)
  have h2 : rankWeight (relaxRank w.m_lightLevel ((w.m_heap c.1).m_blocks c.2).IsSky
      ((w.m_heap c.1).m_blocks c.2).GetLightValue
      (w.CalculateIdealLightingForBlock ⟨some c.1, c.2⟩)) ≤ 8 ^ (4 * w.m_lightLevel + 64) := by
    unfold rankWeight
    split
    · exact Nat.zero_le _
    · exact Nat.pow_le_pow_right (by omega) h1
  have h3 : skyDebt w.m_lightLevel ((w.m_heap c.1).m_blocks c.2).IsSky
      ((w.m_heap c.1).m_blocks c.2).GetLightValue ≤ 8 ^ (4 * w.m_lightLevel + 64) := by
    unfold skyDebt
    split
    · exact Nat.pow_le_pow_right (by omega) (by omega)
    · exact Nat.zero_le _
  have h4 : 8 ^ (4 * w.m_lightLevel + 65) = 8 * 8 ^ (4 * w.m_lightLevel + 64) := by
    rw [Nat.pow_succ]
    ring
  omega

/-- The weight of a cell that does not have the cell `(p, i)` among its neighbours is
unchanged when the light value of `(p, i)` changes. -/
theorem World.cellPotential_unseen (w w' : World) (p i r k : Nat) (hF : w.Frame w')
    (hsee : ¬ ∃ off, off ∈ neighborSteps ∧ w.GetBlockLocation ⟨some r, k⟩ off = ⟨some p, i⟩)
    (hrk : ¬ (r = p ∧ k = i))
    (htype : ∀ r k, ((w'.m_heap r).m_blocks k).m_type = ((w.m_heap r).m_blocks k).m_type)
    (hsky : ∀ r k, ((w'.m_heap r).m_blocks k).IsSky = ((w.m_heap r).m_blocks k).IsSky)
    (hlight : ∀ r k, ¬ (r = p ∧ k = i) →
      ((w'.m_heap r).m_blocks k).GetLightValue = ((w.m_heap r).m_blocks k).GetLightValue) :
    w'.cellPotential (r, k) = w.cellPotential (r, k) := by
  have hideal : w'.CalculateIdealLightingForBlock ⟨some r, k⟩
      = w.CalculateIdealLightingForBlock ⟨some r, k⟩ := by
    apply World.ideal_congr hF r k (htype r k) (hsky r k)
    intro off r' k' hoff hloc
    apply hlight
    rintro ⟨rfl, rfl⟩
    exact hsee ⟨off, hoff, hloc⟩
  unfold World.cellPotential
  simp only [hideal, hsky, hlight r k hrk, hF.lightLevel]

theorem World.allCells_frame {w w' : World} (hF : w.Frame w') : w'.allCells = w.allCells := by
  unfold World.allCells
  rw [hF.heapSize]

theorem World.layerBase_frame {w w' : World} (hF : w.Frame w') : w'.layerBase = w.layerBase := by
  unfold World.layerBase World.cellBound
  rw [hF.heapSize, hF.lightLevel]

theorem World.mem_allCells (w : World) (c : Nat × Nat) :
    c ∈ w.allCells ↔ c.1 < w.m_heapSize ∧ c.2 < BLOCKS_PER_CHUNK := by
  unfold World.allCells
  rw [Finset.mem_product, Finset.mem_range, Finset.mem_range]

/-- The potential depends on the block types, sky flags and light values only. -/
theorem World.layeredPotential_congr (ρ : Nat → Nat) (w w' : World) (hF : w.Frame w')
    (htype : ∀ r k, ((w'.m_heap r).m_blocks k).m_type = ((w.m_heap r).m_blocks k).m_type)
    (hsky : ∀ r k, ((w'.m_heap r).m_blocks k).IsSky = ((w.m_heap r).m_blocks k).IsSky)
    (hlight : ∀ r k,
      ((w'.m_heap r).m_blocks k).GetLightValue = ((w.m_heap r).m_blocks k).GetLightValue) :
    w'.layeredPotential ρ = w.layeredPotential ρ := by
  unfold World.layeredPotential
  rw [World.allCells_frame hF, World.layerBase_frame hF]
  apply Finset.sum_congr rfl
  intro c _
  obtain ⟨r, k⟩ := c
  have hideal : w'.CalculateIdealLightingForBlock ⟨some r, k⟩
      = w.CalculateIdealLightingForBlock ⟨some r, k⟩ :=
    World.ideal_congr hF r k (htype r k) (hsky r k) (fun _ r' k' _ _ => hlight r' k')
  unfold World.cellPotential
  simp only [hideal, hsky, hlight, hF.lightLevel]

theorem World.layerBase_pos (w : World) : 1 ≤ w.layerBase := by
  unfold World.layerBase
  omega

/-- The cells of chunk objects of smaller rank than a chunk object weigh less, all
together, than one unit of the weight of a cell of that chunk object. -/
theorem World.layerBase_low (w : World) (n : Nat) :
    w.m_heapSize * BLOCKS_PER_CHUNK * (if n = 0 then 0 else w.layerBase ^ (n - 1) * w.cellBound)
      + 1 ≤ w.layerBase ^ n := by
  split
  · rename_i h
    rw [h]
    simp
  · rename_i h
    obtain ⟨m, rfl⟩ : ∃ m, n = m + 1 := ⟨n - 1, by omega⟩
    simp only [Nat.add_sub_cancel]
    have hpos : 1 ≤ w.layerBase ^ m := Nat.one_le_pow _ _ (w.layerBase_pos)
    have e : w.layerBase ^ (m + 1)
        = w.layerBase ^ m * (w.m_heapSize * BLOCKS_PER_CHUNK * w.cellBound) + w.layerBase ^ m := by
      rw [Nat.pow_succ]
      unfold World.layerBase
      ring
    rw [e]
    have e2 : w.m_heapSize * BLOCKS_PER_CHUNK * (w.layerBase ^ m * w.cellBound)
        = w.layerBase ^ m * (w.m_heapSize * BLOCKS_PER_CHUNK * w.cellBound) := by ring
    rw [e2]
    omega

/-- Setting the light value of a cell of a chunk object to its ideal value, when it
differs from it, lowers the potential. -/
theorem World.layeredPotential_relight (ρ : Nat → Nat) (w w' : World) (p i : Nat)
    (hF : w.Frame w') (hL : w.Layered ρ) (hp : p < w.m_heapSize) (hi : i < BLOCKS_PER_CHUNK)
    (htype : ∀ r k, ((w'.m_heap r).m_blocks k).m_type = ((w.m_heap r).m_blocks k).m_type)
    (hsky : ∀ r k, ((w'.m_heap r).m_blocks k).IsSky = ((w.m_heap r).m_blocks k).IsSky)
    (hlight : ∀ r k, ¬ (r = p ∧ k = i) →
      ((w'.m_heap r).m_blocks k).GetLightValue = ((w.m_heap r).m_blocks k).GetLightValue)
    (hown : ((w'.m_heap p).m_blocks i).GetLightValue
      = w.CalculateIdealLightingForBlock ⟨some p, i⟩)
    (hne : ((w.m_heap p).m_blocks i).GetLightValue
      ≠ w.CalculateIdealLightingForBlock ⟨some p, i⟩) :
    w'.layeredPotential ρ + 1 ≤ w.layeredPotential ρ := by
  have hmem : (p, i) ∈ w.allCells := (World.mem_allCells w (p, i)).mpr ⟨hp, hi⟩
  generalize hB : rankWeight (spreadRank w.m_lightLevel ((w.m_heap p).m_blocks i).IsSky
    ((w.m_heap p).m_blocks i).GetLightValue (w.CalculateIdealLightingForBlock ⟨some p, i⟩)) = B
  generalize hlow : (if ρ p = 0 then 0 else w.layerBase ^ (ρ p - 1) * w.cellBound) = low
  have hlowle := w.layerBase_low (ρ p)
  rw [hlow] at hlowle
  -- the cells reached from the relit cell by one step
  let key : Int → Nat × Nat := fun off =>
    ((w.GetBlockLocation ⟨some p, i⟩ off).m_chunk.getD p,
      (w.GetBlockLocation ⟨some p, i⟩ off).m_index)
  let T : Finset (Nat × Nat) := neighborSteps.toFinset.image key
  have hT : T.card ≤ 6 :=
    le_trans Finset.card_image_le (List.toFinset_card_le neighborSteps)
  have hother : ∀ c, c ∈ w.allCells.erase (p, i) →
      w.layerBase ^ ρ c.1 * w'.cellPotential c
        ≤ w.layerBase ^ ρ c.1 * w.cellPotential c
          + ((if c ∈ T then w.layerBase ^ ρ p * B else 0) + low) := by
    intro c hc
    obtain ⟨r, k⟩ := c
    rw [Finset.mem_erase] at hc
    obtain ⟨hrk, hcell⟩ := hc
    obtain ⟨hr, hk⟩ := (World.mem_allCells w (r, k)).mp hcell
    simp only at hr hk ⊢
    have hrk' : ¬ (r = p ∧ k = i) := by
      rintro ⟨rfl, rfl⟩
      exact hrk rfl
    by_cases hlt : ρ r < ρ p
    · -- a chunk object of smaller rank
      have h0 : ρ p ≠ 0 := by omega
      rw [if_neg h0] at hlow
      have h1 : w.layerBase ^ ρ r ≤ w.layerBase ^ (ρ p - 1) :=
        Nat.pow_le_pow_right w.layerBase_pos (by omega)
      have h2 : w'.cellPotential (r, k) ≤ w.cellBound := by
        have := w'.cellPotential_le (r, k)
        unfold World.cellBound at this ⊢
        rw [hF.lightLevel] at this
        exact this
      have h3 := Nat.mul_le_mul h1 h2
      rw [hlow] at h3
      omega
    · by_cases hsee : ∃ off, off ∈ neighborSteps ∧
          w.GetBlockLocation ⟨some r, k⟩ off = ⟨some p, i⟩
      · have hge : ρ p ≤ ρ r := Nat.le_of_not_lt hlt
        have hle : ρ r ≤ ρ p := by
          obtain ⟨off, hoff, hloc⟩ := hsee
          rcases (World.neighbor_cell w r k p i off hk hoff hloc).2 with h | ⟨d, hd⟩
          · rw [h]
          · exact hL.rank r d p hr hd
        have heq : ρ r = ρ p := Nat.le_antisymm hle hge
        have hback : (∃ off, off ∈ neighborSteps ∧
            w.GetBlockLocation ⟨some r, k⟩ off = ⟨some p, i⟩) →
            ∃ back, back ∈ neighborSteps ∧
              w.GetBlockLocation ⟨some p, i⟩ back = ⟨some r, k⟩ := by
          rintro ⟨off, hoff, hloc⟩
          exact World.neighbor_symm_to w r k p i off hk hoff
            (fun d hl => hL.back r d p hr hl hge) hloc
        rcases World.cellPotential_other w w' p i r k hF hback hrk' htype hsky hlight hown hne
          with ⟨⟨back, hb, hloc⟩, hle2⟩ | heq2
        · have hin : (r, k) ∈ T := by
            apply Finset.mem_image.mpr
            refine ⟨back, List.mem_toFinset.mpr hb, ?_⟩
            show ((w.GetBlockLocation ⟨some p, i⟩ back).m_chunk.getD p,
              (w.GetBlockLocation ⟨some p, i⟩ back).m_index) = (r, k)
            rw [hloc]
            rfl
          rw [if_pos hin, heq]
          rw [hB] at hle2
          have := Nat.mul_le_mul_left (w.layerBase ^ ρ p) hle2
          rw [Nat.mul_add] at this
          omega
        · rw [heq2]
          omega
      · rw [World.cellPotential_unseen w w' p i r k hF hsee hrk' htype hsky hlight]
        omega
  have hsum : (w.allCells.erase (p, i)).sum (fun c => w.layerBase ^ ρ c.1 * w'.cellPotential c)
      ≤ (w.allCells.erase (p, i)).sum (fun c => w.layerBase ^ ρ c.1 * w.cellPotential c)
        + (6 * (w.layerBase ^ ρ p * B) + w.m_heapSize * BLOCKS_PER_CHUNK * low) := by
    refine le_trans (Finset.sum_le_sum hother) ?_
    rw [Finset.sum_add_distrib, Finset.sum_add_distrib]
    apply Nat.add_le_add_left
    apply Nat.add_le_add
    · rw [Finset.sum_ite_mem, Finset.sum_const, smul_eq_mul]
      exact Nat.mul_le_mul_right _
        (le_trans (Finset.card_le_card Finset.inter_subset_right) hT)
    · rw [Finset.sum_const, smul_eq_mul]
      apply Nat.mul_le_mul_right
      refine le_trans (Finset.card_le_card (Finset.erase_subset _ _)) ?_
      unfold World.allCells
      rw [Finset.card_product, Finset.card_range, Finset.card_range]
  have hown' := World.cellPotential_own w w' p i hF hi htype hsky hlight hown
  have hdrop := relaxRank_own w.m_lightLevel ((w.m_heap p).m_blocks i).IsSky
    ((w.m_heap p).m_blocks i).GetLightValue (w.CalculateIdealLightingForBlock ⟨some p, i⟩) hne
  rw [hB] at hdrop
  have hold : w.cellPotential (p, i)
      = rankWeight (relaxRank w.m_lightLevel ((w.m_heap p).m_blocks i).IsSky
          ((w.m_heap p).m_blocks i).GetLightValue
          (w.CalculateIdealLightingForBlock ⟨some p, i⟩))
        + skyDebt w.m_lightLevel ((w.m_heap p).m_blocks i).IsSky
            ((w.m_heap p).m_blocks i).GetLightValue := rfl
  have e1 : w'.layeredPotential ρ
      = w.layerBase ^ ρ p * w'.cellPotential (p, i)
        + (w.allCells.erase (p, i)).sum (fun c => w.layerBase ^ ρ c.1 * w'.cellPotential c) := by
    unfold World.layeredPotential
    rw [World.allCells_frame hF, World.layerBase_frame hF]
    exact (Finset.add_sum_erase _ _ hmem).symm
  have e2 : w.layeredPotential ρ
      = w.layerBase ^ ρ p * w.cellPotential (p, i)
        + (w.allCells.erase (p, i)).sum (fun c => w.layerBase ^ ρ c.1 * w.cellPotential c) := by
    unfold World.layeredPotential
    exact (Finset.add_sum_erase _ _ hmem).symm
  rw [e1, e2, hown', hold]
  rw [← hold] at hdrop
  rw [← hold]
  have hmul := Nat.mul_le_mul_left (w.layerBase ^ ρ p) hdrop
  rw [Nat.mul_add, Nat.mul_add] at hmul
  have e3 : w.layerBase ^ ρ p * (6 * B) = 6 * (w.layerBase ^ ρ p * B) := by ring
  rw [e3, Nat.mul_one] at hmul
  omega

theorem World.Layered.framed {ρ : Nat → Nat} {w w' : World} (hF : w.Frame w')
    (h : w.Layered ρ) : w'.Layered ρ := by
  refine ⟨?_, ?_, ?_⟩
  · intro q d r hq hl
    rw [hF.heapSize] at hq ⊢
    rw [sameLinks_link (hF.links q)] at hl
    exact h.alloc q d r hq hl
  · intro q d r hq hl
    rw [hF.heapSize] at hq
    rw [sameLinks_link (hF.links q)] at hl
    exact h.rank q d r hq hl
  · intro q d r hq hl hle
    rw [hF.heapSize] at hq
    rw [sameLinks_link (hF.links q)] at hl
    rw [sameLinks_link (hF.links r)]
    exact h.back q d r hq hl hle

/-- One iteration of the loop of `UpdateLighting` on a cell keeps the locations on the
queue cells of chunk objects and lowers the bound on the number of pops. -/
theorem World.layered_drain_step (ρ : Nat → Nat) (w : World) (p i : Nat)
    (rest : List BlockLocation) (hL : w.Layered ρ) (hQ : w.QueueAllocated)
    (hq : w.m_dirtyBlocks = ⟨some p, i⟩ :: rest) :
    ((({ w with m_dirtyBlocks := rest } : World).UpdateLightingForBlock
        ⟨some p, i⟩).dirtyVbo p).Layered ρ ∧
    ((({ w with m_dirtyBlocks := rest } : World).UpdateLightingForBlock
        ⟨some p, i⟩).dirtyVbo p).QueueAllocated ∧
    ((({ w with m_dirtyBlocks := rest } : World).UpdateLightingForBlock
        ⟨some p, i⟩).dirtyVbo p).layeredMeasure ρ < w.layeredMeasure ρ := by
  obtain ⟨hp, hi⟩ := hQ p i (by rw [hq]; exact List.mem_cons_self _ _)
  generalize hw0 : ({ w with m_dirtyBlocks := rest } : World) = w0
  have heap0 : w0.m_heap = w.m_heap := by rw [← hw0]
  have queue0 : w0.m_dirtyBlocks = rest := by rw [← hw0]
  have debug0 : w0.g_debugPointsEnabled = w.g_debugPointsEnabled := by rw [← hw0]
  have frame0 : w.Frame w0 := by
    rw [← hw0]
    exact ⟨rfl, rfl, rfl, rfl, rfl, rfl, rfl, fun _ => Chunk.sameLinks_refl _⟩
  have loc0 : ∀ l off, w0.GetBlockLocation l off = w.GetBlockLocation l off :=
    fun l off => World.GetBlockLocation_frame frame0 l off
  have ideal0 : w0.CalculateIdealLightingForBlock ⟨some p, i⟩
      = w.CalculateIdealLightingForBlock ⟨some p, i⟩ := by rw [← hw0]; rfl
  obtain ⟨⟨pushed, hpq, hplen, hpdebug, hpmem⟩, hsame⟩ :=
    World.UpdateLightingForBlock_pushes w0 p i
  generalize hw1 : w0.UpdateLightingForBlock ⟨some p, i⟩ = w1 at hpq hsame
  have F01 : w0.Frame w1 := by
    rw [← hw1]; exact World.frame_UpdateLightingForBlock w0 _
  have F12 := World.frame_dirtyVbo w1 p
  have F2 : w.Frame (w1.dirtyVbo p) := (frame0.trans F01).trans F12
  have queue2 : (w1.dirtyVbo p).m_dirtyBlocks = pushed ++ rest := by
    rw [← queue0, ← hpq]; rfl
  have hvalid : (w1.dirtyVbo p).QueueAllocated := by
    intro r k hmem
    rw [queue2] at hmem
    rw [F2.heapSize]
    rcases List.mem_append.mp hmem with h | h
    · obtain ⟨_, off, hoff, he⟩ := hpmem _ h
      rw [loc0] at he
      obtain ⟨hk, hr⟩ := World.neighbor_cell w p i r k off hi hoff he.symm
      refine ⟨?_, hk⟩
      rcases hr with rfl | ⟨d, hd⟩
      · exact hp
      · exact hL.alloc p d r hp hd
    · exact hQ r k (by rw [hq]; exact List.mem_cons_of_mem _ h)
  refine ⟨hL.framed F2, hvalid, ?_⟩
  have hlen : w.m_dirtyBlocks.length = rest.length + 1 := by rw [hq]; rfl
  unfold World.layeredMeasure
  rw [F2.debug, queue2, List.length_append, hlen]
  cases hd : w.g_debugPointsEnabled with
  | true =>
    simp only [if_true]
    rw [hpdebug (debug0.trans hd)]
    simp
  | false =>
    simp only [Bool.false_eq_true, if_false]
    have R : w0.Relit p i w1 := by
      rw [← hw1]
      exact World.UpdateLightingForBlock_relit w0 p i (debug0.trans hd)
    have blk2 : ∀ r k, ((w1.dirtyVbo p).m_heap r).m_blocks k = (w1.m_heap r).m_blocks k :=
      fun r k => World.blocks_dirtyVbo w1 p r k
    have htype : ∀ r k, (((w1.dirtyVbo p).m_heap r).m_blocks k).m_type
        = ((w.m_heap r).m_blocks k).m_type := by
      intro r k; rw [blk2, R.type, heap0]
    have hsky : ∀ r k, (((w1.dirtyVbo p).m_heap r).m_blocks k).IsSky
        = ((w.m_heap r).m_blocks k).IsSky := by
      intro r k; rw [blk2, R.sky, heap0]
    have hlight : ∀ r k, ¬ (r = p ∧ k = i) →
        (((w1.dirtyVbo p).m_heap r).m_blocks k).GetLightValue
          = ((w.m_heap r).m_blocks k).GetLightValue := by
      intro r k hrk; rw [blk2, R.light r k hrk, heap0]
    have hown : (((w1.dirtyVbo p).m_heap p).m_blocks i).GetLightValue
        = w.CalculateIdealLightingForBlock ⟨some p, i⟩ := by
      rw [blk2, R.own, ideal0]
    by_cases hEq : ((w.m_heap p).m_blocks i).GetLightValue
        = w.CalculateIdealLightingForBlock ⟨some p, i⟩
    · have hq1 : w1.m_dirtyBlocks = w0.m_dirtyBlocks := by
        apply hsame
        rw [heap0, ideal0]
        exact hEq
      have hnil : pushed = [] := by
        rw [hpq] at hq1
        exact List.append_left_eq_self.mp hq1
      have hpot : (w1.dirtyVbo p).layeredPotential ρ = w.layeredPotential ρ := by
        apply World.layeredPotential_congr ρ w _ F2 htype hsky
        intro r k
        by_cases hrk : r = p ∧ k = i
        · obtain ⟨rfl, rfl⟩ := hrk
          rw [hown, hEq]
        · exact hlight r k hrk
      rw [hpot, hnil]
      simp
    · have hpot := World.layeredPotential_relight ρ w _ p i F2 hL hp hi htype hsky hlight
        hown hEq
      omega

/-- Popping a location without chunk lowers the bound on the number of pops. -/
theorem World.layered_drain_skip (ρ : Nat → Nat) (w : World) (i : Nat)
    (rest : List BlockLocation) (hL : w.Layered ρ) (hQ : w.QueueAllocated)
    (hq : w.m_dirtyBlocks = ⟨none, i⟩ :: rest) :
    ({ w with m_dirtyBlocks := rest } : World).Layered ρ ∧
    ({ w with m_dirtyBlocks := rest } : World).QueueAllocated ∧
    ({ w with m_dirtyBlocks := rest } : World).layeredMeasure ρ < w.layeredMeasure ρ := by
  refine ⟨⟨hL.alloc, hL.rank, hL.back⟩, ?_, ?_⟩
  · intro r k hmem
    exact hQ r k (by rw [hq]; exact List.mem_cons_of_mem _ hmem)
  · have hlen : w.m_dirtyBlocks.length = rest.length + 1 := by rw [hq]; rfl
    have hpot : ({ w with m_dirtyBlocks := rest } : World).layeredPotential ρ
        = w.layeredPotential ρ := rfl
    unfold World.layeredMeasure
    rw [hpot, hlen]
    show (if w.g_debugPointsEnabled = true then rest.length
      else 6 * w.layeredPotential ρ + rest.length) < _
    split_ifs <;> omega

/-- With as many pops allowed as the bound says, `UpdateLighting` returns. -/
theorem World.UpdateLighting_total (ρ : Nat → Nat) (fuel : Nat) (w : World)
    (hL : w.Layered ρ) (hQ : w.QueueAllocated) (hfuel : w.layeredMeasure ρ ≤ fuel) :
    ∃ w', World.UpdateLighting fuel w = some w' := by
  induction fuel generalizing w with
  | zero =>
    have hlen : w.m_dirtyBlocks.length = 0 := by
      unfold World.layeredMeasure at hfuel
      split_ifs at hfuel <;> omega
    refine ⟨w, ?_⟩
    unfold World.UpdateLighting
    rw [List.length_eq_zero.mp hlen]
    rfl
  | succ n ih =>
    unfold World.UpdateLighting
    cases hq : w.m_dirtyBlocks with
    | nil => exact ⟨w, rfl⟩
    | cons l rest =>
      obtain ⟨c, i⟩ := l
      cases c with
      | none =>
        obtain ⟨h1, h2, hm⟩ := World.layered_drain_skip ρ w i rest hL hQ hq
        exact ih _ h1 h2 (by omega)
      | some p =>
        obtain ⟨h1, h2, hm⟩ := World.layered_drain_step ρ w p i rest hL hQ hq
        exact ih _ h1 h2 (by omega)

/-- In a world whose links are layered and whose work queue holds, besides locations
without chunk, only cells of chunk objects, `UpdateLighting` returns with an empty queue
when it is allowed as many pops as the bound says. -/
theorem World.layered_drain (ρ : Nat → Nat) (w : World) (hL : w.Layered ρ)
    (hQ : w.QueueAllocated) :
    ∀ n, w.layeredMeasure ρ ≤ n →
      ∃ w', World.UpdateLighting n w = some w' ∧ w'.m_dirtyBlocks = [] := by
  intro n hn
  obtain ⟨w', h⟩ := World.UpdateLighting_total ρ n w hL hQ hn
  exact ⟨w', h, World.UpdateLighting_empty n w w' h⟩

theorem World.LinksAllocated.kept {w w' : World} (hF : w.Frame w')
    (h : w.LinksAllocated) : w'.LinksAllocated := by
  intro q d r hq hl
  rw [hF.heapSize] at hq ⊢
  rw [sameLinks_link (hF.links q)] at hl
  exact h q d r hq hl

theorem World.enqueued_refl (w : World) : w.Enqueued w :=
  ⟨World.Frame.refl w, fun _ _ h => Or.inl h⟩

theorem World.enqueued_trans {a b c : World} (h1 : a.Enqueued b) (h2 : b.Enqueued c) :
    a.Enqueued c := by
  refine ⟨h1.frame.trans h2.frame, ?_⟩
  intro d l hl
  rcases h2.cells d l hl with h | ⟨r, k, e, hr, hk⟩
  · exact h1.cells d l h
  · exact Or.inr ⟨r, k, e, by rw [← h1.frame.heapSize]; exact hr, hk⟩

theorem World.enqueued_of_lists {w v : World} (hF : w.Frame v)
    (h : ∀ d, v.dirtyList d = w.dirtyList d) : w.Enqueued v :=
  ⟨hF, fun d l hl => Or.inl (by rw [← h d]; exact hl)⟩

theorem World.enqueued_push (w : World) (r k : Nat) (dbg : Bool) (hr : r < w.m_heapSize)
    (hk : k < BLOCKS_PER_CHUNK) : w.Enqueued (w.pushDirty dbg ⟨some r, k⟩) := by
  refine ⟨World.frame_pushDirty w dbg _, ?_⟩
  intro d l hl
  rw [World.dirtyList_pushDirty] at hl
  split_ifs at hl
  · rcases List.mem_cons.mp hl with h | h
    · exact Or.inr ⟨r, k, h, hr, hk⟩
    · exact Or.inl h
  · exact Or.inl hl

theorem World.ListsAllocated.enqueued {w w' : World} (h : w.Enqueued w')
    (hl : w.ListsAllocated) : w'.ListsAllocated := by
  intro d p i hmem
  rw [h.frame.heapSize]
  rcases h.cells d _ hmem with h1 | ⟨r, k, e, hr, hk⟩
  · exact hl d p i h1
  · simp only [BlockLocation.mk.injEq, Option.some.injEq] at e
    obtain ⟨e1, e2⟩ := e
    subst e1 e2
    exact ⟨hr, hk⟩

theorem World.enqueued_dirtyNeighbor (w : World) (p index : Nat) (off : Int)
    (hA : w.LinksAllocated) (hp : p < w.m_heapSize)
    (hi : index < BLOCKS_PER_CHUNK) (hoff : off ∈ neighborSteps) :
    w.Enqueued (w.dirtyNeighbor ⟨some p, index⟩ off) := by
  unfold World.dirtyNeighbor
  simp only
  rcases hloc : w.GetBlockLocation ⟨some p, index⟩ off with ⟨c, idx⟩
  cases c with
  | none => exact World.enqueued_refl w
  | some q =>
    simp only
    obtain ⟨hidx, hq⟩ := World.neighbor_cell w p index q idx off hi hoff hloc
    have hq2 : q < w.m_heapSize := by
      rcases hq with h | ⟨g, hg⟩
      · rw [h]; exact hp
      · exact hA p g q hp hg
    split
    · have hF : w.Frame ((w.dirtyVbo q).setBlock q idx
          (((w.dirtyVbo q).GetBlock ⟨some q, idx⟩).DirtyLighting)) :=
        (w.frame_dirtyVbo q).trans (World.frame_setBlock _ _ _ _)
      refine World.enqueued_trans (World.enqueued_of_lists hF (fun _ => rfl)) ?_
      apply World.enqueued_push _ _ _ _ _ hidx
      rw [hF.heapSize]
      exact hq2
    · exact World.enqueued_of_lists (w.frame_dirtyVbo q) (fun _ => rfl)

theorem World.enqueued_DirtyNonopaqueNeighbors (w : World) (p index : Nat) (b : Bool)
    (hA : w.LinksAllocated) (hp : p < w.m_heapSize) (hi : index < BLOCKS_PER_CHUNK) :
    w.Enqueued (w.DirtyNonopaqueNeighbors ⟨some p, index⟩ b) := by
  have step : ∀ (v : World) (off : Int), off ∈ neighborSteps → w.Enqueued v →
      w.Enqueued (v.dirtyNeighbor ⟨some p, index⟩ off) := by
    intro v off hoff hv
    exact World.enqueued_trans hv (World.enqueued_dirtyNeighbor v p index off
      (hA.kept hv.frame) (by rw [hv.frame.heapSize]; exact hp) hi hoff)
  have h0 : w.Enqueued w := World.enqueued_refl w
  unfold World.DirtyNonopaqueNeighbors
  simp only
  cases b
  · simp only [Bool.false_eq_true, if_false]
    exact step _ STEP_WEST (by simp [neighborSteps])
      (step _ STEP_EAST (by simp [neighborSteps])
        (step _ STEP_SOUTH (by simp [neighborSteps])
          (step _ STEP_NORTH (by simp [neighborSteps]) h0)))
  · simp only [if_true]
    exact step _ STEP_WEST (by simp [neighborSteps])
      (step _ STEP_EAST (by simp [neighborSteps])
        (step _ STEP_SOUTH (by simp [neighborSteps])
          (step _ STEP_NORTH (by simp [neighborSteps])
            (step _ STEP_DOWN (by simp [neighborSteps])
              (step _ STEP_UP (by simp [neighborSteps]) h0)))))

theorem World.enqueued_setBlock (w : World) (p index : Nat) (b : Block) :
    w.Enqueued (w.setBlock p index b) :=
  World.enqueued_of_lists (World.frame_setBlock _ _ _ _) (fun _ => rfl)

theorem World.enqueued_dirtyVbo (w : World) (p : Nat) : w.Enqueued (w.dirtyVbo p) :=
  World.enqueued_of_lists (World.frame_dirtyVbo _ _) (fun _ => rfl)

theorem World.enqueued_UpdateLightingForBlock (w : World) (p index : Nat)
    (hA : w.LinksAllocated) (hp : p < w.m_heapSize) (hi : index < BLOCKS_PER_CHUNK) :
    w.Enqueued (w.UpdateLightingForBlock ⟨some p, index⟩) := by
  unfold World.UpdateLightingForBlock
  simp only
  split_ifs
  · have h1 := World.enqueued_setBlock w p index
      ((w.GetBlock ⟨some p, index⟩).SetLightValue
        (w.CalculateIdealLightingForBlock ⟨some p, index⟩))
    have h2 := World.enqueued_DirtyNonopaqueNeighbors _ p index true
      (hA.kept h1.frame) (by rw [h1.frame.heapSize]; exact hp) hi
    exact World.enqueued_trans (World.enqueued_trans h1 h2) (World.enqueued_setBlock _ _ _ _)
  · exact World.enqueued_setBlock _ _ _ _

theorem World.enqueued_activatedCell (w : World) (p index : Nat) (endedSky : Bool)
    (hA : w.LinksAllocated) (hp : p < w.m_heapSize) (hi : index < BLOCKS_PER_CHUNK) :
    w.Enqueued (World.OnChunkActivated.cell w p index endedSky).1 := by
  unfold World.OnChunkActivated.cell
  simp only
  split_ifs
  · exact World.enqueued_trans (World.enqueued_setBlock _ _ _ _)
      (World.enqueued_DirtyNonopaqueNeighbors _ p index false
        (hA.kept (World.frame_setBlock _ _ _ _)) hp hi)
  · exact World.enqueued_DirtyNonopaqueNeighbors _ p index true hA hp hi
  · exact World.enqueued_trans (World.enqueued_setBlock _ _ _ _)
      (World.enqueued_push _ p index _ hp hi)
  · exact World.enqueued_refl w

theorem World.enqueued_activatedColumn (p : Nat) (fuel index : Nat) (endedSky : Bool)
    (w : World) (hA : w.LinksAllocated) (hp : p < w.m_heapSize) :
    w.Enqueued (World.OnChunkActivated.column p fuel index endedSky w) := by
  induction fuel generalizing index endedSky w with
  | zero => exact World.enqueued_refl w
  | succ n ih =>
    rw [World.OnChunkActivated.column]
    split
    · rename_i hi
      have h1 := World.enqueued_activatedCell w p index endedSky hA hp hi
      exact World.enqueued_trans h1
        (ih _ _ _ (hA.kept h1.frame) (by rw [h1.frame.heapSize]; exact hp))
    · exact World.enqueued_refl w

theorem World.enqueued_activatedColumns (p : Nat) (n column : Nat) (w : World)
    (hA : w.LinksAllocated) (hp : p < w.m_heapSize) :
    w.Enqueued (World.OnChunkActivated.columns p n column w) := by
  induction n generalizing column w with
  | zero => exact World.enqueued_refl w
  | succ n ih =>
    rw [World.OnChunkActivated.columns]
    have h1 := World.enqueued_activatedColumn p (BLOCKS_PER_CHUNK_Z + 1)
      (toBlockIndex (BLOCKS_PER_CHUNK - column)) false w hA hp
    exact World.enqueued_trans h1
      (ih _ _ (hA.kept h1.frame) (by rw [h1.frame.heapSize]; exact hp))

/-- Every location `OnChunkActivated` pushes on a dirty list is a cell of a chunk object
that has been handed out. -/
theorem World.enqueued_OnChunkActivated (w : World) (p : Nat) (hA : w.LinksAllocated)
    (hp : p < w.m_heapSize) : w.Enqueued (w.OnChunkActivated p) :=
  World.enqueued_activatedColumns p _ _ w hA hp

/-- A call of `UpdateLighting` that returns keeps the locations on the dirty lists cells
of chunk objects that have been handed out. -/
theorem World.UpdateLighting_allocated :
    ∀ (fuel : Nat) (w w' : World), w.LinksAllocated → w.ListsAllocated →
      World.UpdateLighting fuel w = some w' → w'.ListsAllocated := by
  intro fuel
  induction fuel with
  | zero =>
    intro w w' _ hL h
    unfold World.UpdateLighting at h
    split at h
    · injection h with h
      subst h
      exact hL
    · exact Option.noConfusion h
  | succ n ih =>
    intro w w' hA hL h
    unfold World.UpdateLighting at h
    cases hq : w.m_dirtyBlocks with
    | nil =>
      rw [hq] at h
      injection h with h
      subst h
      exact hL
    | cons l rest =>
      rw [hq] at h
      obtain ⟨c, i⟩ := l
      have hpop : ({ w with m_dirtyBlocks := rest } : World).ListsAllocated := by
        intro d p k hmem
        apply hL d p k
        cases d
        · show _ ∈ w.m_dirtyBlocks
          rw [hq]
          exact List.mem_cons_of_mem _ hmem
        · exact hmem
      have hApop : ({ w with m_dirtyBlocks := rest } : World).LinksAllocated := hA
      cases c with
      | none => exact ih _ w' hApop hpop h
      | some p =>
        simp only at h
        obtain ⟨hp, hi⟩ := hL false p i (by
          show _ ∈ w.m_dirtyBlocks
          rw [hq]
          exact List.mem_cons_self _ _)
        have h1 := World.enqueued_UpdateLightingForBlock
          ({ w with m_dirtyBlocks := rest } : World) p i hApop hp hi
        have h2 := World.enqueued_trans h1 (World.enqueued_dirtyVbo _ p)
        exact ih _ w' (hApop.kept h2.frame) (World.ListsAllocated.enqueued h2 hpop) h

theorem World.enqueued_writeAndEnqueue (w : World) (d : Bool) (p index : Nat) (b : Block)
    (hp : p < w.m_heapSize) (hi : index < BLOCKS_PER_CHUNK) :
    w.Enqueued (w.writeAndEnqueue d p index b) := by
  unfold World.writeAndEnqueue
  simp only
  split
  · exact World.enqueued_trans
      (World.enqueued_trans (World.enqueued_setBlock w p index b)
        (World.enqueued_push _ p index d hp hi))
      (World.enqueued_setBlock _ _ _ _)
  · exact World.enqueued_setBlock w p index b

theorem World.enqueued_placeSkyLoop (d : Bool) (p : Nat) :
    ∀ (fuel index : Nat) (v : World), p < v.m_heapSize →
      v.Enqueued (World.PlaceBlockWithRaycast.skyLoop d p fuel index v) := by
  intro fuel
  induction fuel with
  | zero =>
    intro index v _
    exact World.enqueued_refl v
  | succ n ih =>
    intro index v hp
    rw [World.PlaceBlockWithRaycast.skyLoop]
    split
    · rename_i hi
      simp only
      split
      · exact World.enqueued_refl v
      · have hw := World.enqueued_writeAndEnqueue v d p index
          ((v.m_heap p).m_blocks index).UnmarkAsSky hp hi
        exact World.enqueued_trans hw (ih _ _ (by rw [hw.frame.heapSize]; exact hp))
    · exact World.enqueued_refl v

theorem World.enqueued_destroySkyLoop (d : Bool) (p : Nat) :
    ∀ (fuel index : Nat) (v : World), p < v.m_heapSize →
      v.Enqueued (World.DestroyBlockWithRaycast.skyLoop d p fuel index v) := by
  intro fuel
  induction fuel with
  | zero =>
    intro index v _
    exact World.enqueued_refl v
  | succ n ih =>
    intro index v hp
    rw [World.DestroyBlockWithRaycast.skyLoop]
    split
    · rename_i hi
      simp only
      split
      · exact World.enqueued_refl v
      · have hw := World.enqueued_writeAndEnqueue v d p index
          ((v.m_heap p).m_blocks index).MarkAsSky hp hi
        exact World.enqueued_trans hw (ih _ _ (by rw [hw.frame.heapSize]; exact hp))
    · exact World.enqueued_refl v

theorem World.enqueued_dirtyVboAt (w w' : World) (c : Option Nat)
    (h : w.dirtyVboAt c = some w') : w.Enqueued w' := by
  unfold World.dirtyVboAt at h
  split at h
  · injection h with h
    subst h
    exact World.enqueued_dirtyVbo w _
  · exact Option.noConfusion h

theorem World.enqueued_dirtyAdjacent (w w' : World) (p : Nat) (l : BlockLocation)
    (h : World.DestroyBlockWithRaycast.dirtyAdjacent w p l = some w') : w.Enqueued w' := by
  unfold World.DestroyBlockWithRaycast.dirtyAdjacent at h
  have second : ∀ y : World, w.Enqueued y →
      (if (y.GetBlockLocation l STEP_NORTH).m_chunk ≠ some p then
        y.dirtyVboAt (y.GetBlockLocation l STEP_NORTH).m_chunk
      else if (y.GetBlockLocation l STEP_SOUTH).m_chunk ≠ some p then
        y.dirtyVboAt (y.GetBlockLocation l STEP_SOUTH).m_chunk
      else some y) = some w' → w.Enqueued w' := by
    intro y hy h2
    split at h2
    · exact World.enqueued_trans hy (World.enqueued_dirtyVboAt _ _ _ h2)
    · split at h2
      · exact World.enqueued_trans hy (World.enqueued_dirtyVboAt _ _ _ h2)
      · injection h2 with h2
        subst h2
        exact hy
  by_cases c1 : (w.GetBlockLocation l STEP_EAST).m_chunk ≠ some p
  · rw [if_pos c1] at h
    simp only [Option.bind_eq_bind, Option.bind_eq_some] at h
    obtain ⟨y, hy, h2⟩ := h
    exact second y (World.enqueued_dirtyVboAt _ _ _ hy) h2
  · rw [if_neg c1] at h
    by_cases c2 : (w.GetBlockLocation l STEP_WEST).m_chunk ≠ some p
    · rw [if_pos c2] at h
      simp only [Option.bind_eq_bind, Option.bind_eq_some] at h
      obtain ⟨y, hy, h2⟩ := h
      exact second y (World.enqueued_dirtyVboAt _ _ _ hy) h2
    · rw [if_neg c2] at h
      simp only [Option.bind_eq_bind, Option.some_bind] at h
      exact second w (World.enqueued_refl w) h

/-- Every location `PlaceBlockWithRaycast` pushes on a dirty list is a cell of a chunk
object that has been handed out. -/
theorem World.PlaceBlockWithRaycast_enqueued (w w' : World) (blocktype : Nat)
    (r : Raycast3DResult) (d : Bool) (hA : w.LinksAllocated)
    (halloc : ∀ c p, w.findChunk c = some p → p < w.m_heapSize)
    (h : w.PlaceBlockWithRaycast blocktype r d = some w') : w.Enqueued w' := by
  unfold World.PlaceBlockWithRaycast at h
  simp only at h
  split at h
  · injection h with h
    subst h
    exact World.enqueued_refl w
  · rename_i p hp
    have hp2 : p < w.m_heapSize := halloc _ p hp
    split at h
    · exact Option.noConfusion h
    · rename_i hidx
      have hi : Chunk.GetIndexAtWorldCoords
          (Vec3.add r.m_impactWorldCoordsMins r.m_impactSurfaceNormal) < BLOCKS_PER_CHUNK :=
        Nat.lt_of_not_le hidx
      generalize Chunk.GetIndexAtWorldCoords
        (Vec3.add r.m_impactWorldCoordsMins r.m_impactSurfaceNormal) = index at h hi
      split at h
      · injection h with h
        subst h
        exact World.enqueued_refl w
      · split at h
        · injection h with h
          subst h
          exact World.enqueued_refl w
        · generalize hb : (if ((w.m_heap p).m_blocks index).IsSky = true then
              ({ ((w.m_heap p).m_blocks index) with m_type := blocktype % 256 } : Block).UnmarkAsSky
            else { ((w.m_heap p).m_blocks index) with m_type := blocktype % 256 }) = b2 at h
          generalize hb3 : b2.SetLightValue (g_blockDefinitions b2.m_type).m_inherentLightValue
            = b3 at h
          have hform : ∀ v : World, (if (!b3.IsLightingDirty) = true then
              ((v.setBlock p index b3).pushDirty d ⟨some p, index⟩).setBlock p index
                b3.DirtyLighting
            else v.setBlock p index b3) = v.writeAndEnqueue d p index b3 := fun _ => rfl
          rw [hform] at h
          have h1 : w.Enqueued ((w.dirtyVbo p).writeAndEnqueue d p index b3) :=
            World.enqueued_trans (World.enqueued_dirtyVbo w p)
              (World.enqueued_writeAndEnqueue _ d p index b3 hp2 hi)
          have h2 : w.Enqueued
              (((w.dirtyVbo p).writeAndEnqueue d p index b3).DirtyNonopaqueNeighbors
                ⟨some p, index⟩ true) :=
            World.enqueued_trans h1 (World.enqueued_DirtyNonopaqueNeighbors _ p index true
              (hA.kept h1.frame) (by rw [h1.frame.heapSize]; exact hp2) hi)
          split at h
          · injection h with h
            subst h
            exact World.enqueued_trans h2 (World.enqueued_placeSkyLoop d p _ _ _
              (by rw [h2.frame.heapSize]; exact hp2))
          · injection h with h
            subst h
            exact h2

/-- Every location `DestroyBlockWithRaycast` pushes on a dirty list is a cell of a chunk
object that has been handed out. -/
theorem World.DestroyBlockWithRaycast_enqueued (w w' : World) (r : Raycast3DResult)
    (d : Bool) (halloc : ∀ c p, w.findChunk c = some p → p < w.m_heapSize)
    (h : w.DestroyBlockWithRaycast r d = some w') : w.Enqueued w' := by
  unfold World.DestroyBlockWithRaycast at h
  simp only at h
  split at h
  · injection h with h
    subst h
    exact World.enqueued_refl w
  · rename_i p hp
    have hp2 : p < w.m_heapSize := halloc _ p hp
    split at h
    · exact Option.noConfusion h
    · rename_i hidx
      have hi : Chunk.GetIndexAtWorldCoords r.m_impactWorldCoordsMins < BLOCKS_PER_CHUNK :=
        Nat.lt_of_not_le hidx
      generalize Chunk.GetIndexAtWorldCoords r.m_impactWorldCoordsMins = index at h hi
      have tail : ∀ y : World, w.Enqueued y →
          (if (index + BLOCKS_PER_CHUNK_LAYER) % 65536 < BLOCKS_PER_CHUNK then
            if ((y.m_heap p).m_blocks ((index + BLOCKS_PER_CHUNK_LAYER) % 65536)).IsSky = true then
              some (World.DestroyBlockWithRaycast.skyLoop d p (BLOCKS_PER_CHUNK_Z + 1)
                (toBlockIndex ((((index + BLOCKS_PER_CHUNK_LAYER) % 65536 : Nat) : Int)
                  - ((BLOCKS_PER_CHUNK_LAYER : Nat) : Int) * 2))
                (y.setBlock p index ((y.m_heap p).m_blocks index).MarkAsSky))
            else some y
          else some y) = some w' → w.Enqueued w' := by
        intro y hy h2
        split at h2
        · split at h2
          · injection h2 with h2
            subst h2
            have hmark := World.enqueued_trans hy
              (World.enqueued_setBlock y p index ((y.m_heap p).m_blocks index).MarkAsSky)
            exact World.enqueued_trans hmark (World.enqueued_destroySkyLoop d p _ _ _
              (by rw [hmark.frame.heapSize]; exact hp2))
          · injection h2 with h2
            subst h2
            exact hy
        · injection h2 with h2
          subst h2
          exact hy
      generalize hb : ({ (w.m_heap p).m_blocks index with m_type := BT_AIR } : Block) = b at h
      cases hdb : b.IsLightingDirty
      · simp only [hdb, Bool.not_false, if_true, Option.bind_eq_bind, Option.bind_eq_some] at h
        obtain ⟨y, hy, h2⟩ := h
        have D := World.enqueued_dirtyAdjacent _ _ _ _ hy
        have h1 : w.Enqueued ((w.setBlock p index b).dirtyVbo p) :=
          World.enqueued_trans (World.enqueued_setBlock _ _ _ _) (World.enqueued_dirtyVbo _ _)
        have h2a : w.Enqueued ((((w.setBlock p index b).dirtyVbo p).pushDirty d
            ⟨some p, index⟩).setBlock p index b.DirtyLighting) :=
          World.enqueued_trans
            (World.enqueued_trans h1 (World.enqueued_push _ p index d
              (by rw [h1.frame.heapSize]; exact hp2) hi))
            (World.enqueued_setBlock _ _ _ _)
        exact tail y (World.enqueued_trans h2a D) h2
      · simp only [hdb, Bool.not_true, Bool.false_eq_true, if_false, Option.bind_eq_bind,
          Option.some_bind] at h
        exact tail _ (World.enqueued_trans (World.enqueued_setBlock _ _ _ _)
          (World.enqueued_dirtyVbo _ _)) h

theorem World.Ranked.linksAllocated {ρ : Nat → Nat} {T : Nat} {w : World}
    (h : w.Ranked ρ T) : w.LinksAllocated := by
  intro q d r hq hl
  by_cases hlive : w.IsLive q
  · obtain ⟨c, hc⟩ := hlive
    rw [h.inv.mirror c q d hc] at hl
    exact h.inv.alloc _ r hl
  · exact ((h.dead q hq hlive).2 d r hl).1

/-- In the state the play keeps the links are layered. -/
theorem World.Ranked.layered {ρ : Nat → Nat} {T : Nat} {w : World}
    (h : w.Ranked ρ T) : w.Layered ρ := by
  refine ⟨h.linksAllocated, ?_, ?_⟩
  · intro q d r hq hl
    by_cases hlive : w.IsLive q
    · have hr := (h.inv.mirrored q d r hlive hl).1
      rw [h.live q hlive, h.live r hr]
    · exact Nat.le_of_lt ((h.dead q hq hlive).2 d r hl).2
  · intro q d r hq hl hle
    by_cases hlive : w.IsLive q
    · exact (h.inv.mirrored q d r hlive hl).2
    · have := ((h.dead q hq hlive).2 d r hl).2
      omega

/-- The state the play keeps depends on the chunk objects only through their links. -/
theorem World.Ranked.of_links {ρ : Nat → Nat} {T : Nat} {w w' : World}
    (h : w.Ranked ρ T) (hsize : w'.m_heapSize = w.m_heapSize)
    (hactive : w'.m_activeChunks = w.m_activeChunks) (hrun : w'.m_isRunning = w.m_isRunning)
    (hlinks : ∀ q g, (w'.m_heap q).link g = (w.m_heap q).link g)
    (hlists : w'.ListsAllocated) : w'.Ranked ρ T := by
  have hfind : ∀ c, w'.findChunk c = w.findChunk c := by
    intro c
    unfold World.findChunk
    rw [hactive]
  have hlive : ∀ q, w'.IsLive q ↔ w.IsLive q := by
    intro q
    unfold World.IsLive
    simp only [hfind]
  refine ⟨⟨hrun.trans h.inv.running, by rw [hactive]; exact h.inv.keys, ?_, ?_, ?_⟩, hlists,
    ?_, ?_⟩
  · intro c c' p h1 h2
    rw [hfind] at h1 h2
    exact h.inv.inj c c' p h1 h2
  · intro c p h1
    rw [hfind] at h1
    rw [hsize]
    exact h.inv.alloc c p h1
  · intro c p d h1
    rw [hfind] at h1
    rw [hfind, hlinks]
    exact h.inv.mirror c p d h1
  · intro q hq
    exact h.live q ((hlive q).mp hq)
  · intro q hq hd
    rw [hsize] at hq
    rw [hlive] at hd
    obtain ⟨h1, h2⟩ := h.dead q hq hd
    refine ⟨h1, ?_⟩
    intro d r hl
    rw [hlinks] at hl
    rw [hsize]
    exact h2 d r hl

theorem World.Ranked.edited {ρ : Nat → Nat} {T : Nat} {w w' : World}
    (h : w.Ranked ρ T) (he : w.Enqueued w') : w'.Ranked ρ T :=
  h.of_links he.frame.heapSize he.frame.active he.frame.isRunning
    (fun q g => sameLinks_link (he.frame.links q) g)
    (World.ListsAllocated.enqueued he h.lists)

theorem World.new_ranked : World.new.Ranked (fun _ => 0) 0 := by
  refine ⟨World.new_streamInv, ?_, ?_, ?_⟩
  · intro d p i hmem
    cases d <;> exact absurd hmem (List.not_mem_nil _)
  · rintro q ⟨c, hc⟩
    exact Option.noConfusion hc
  · intro q hq
    exact absurd hq (Nat.not_lt_zero q)

/-- Activating a chunk at a coordinate that is not active keeps the state of the play,
the new chunk object taking the rank of the active chunks. -/
theorem World.Ranked.activated {ρ : Nat → Nat} {T : Nat} {w : World} (h : w.Ranked ρ T)
    (c : ChunkCoords) (blocks : Nat → Block) (hnew : w.IsChunkActive c = false) :
    (w.ActivateChunk c blocks).Ranked (Function.update ρ w.m_heapSize T) T := by
  have hs' := h.inv.activate c blocks
  have hlink0 := World.linked_link w c blocks h.inv.alloc
  have hsize0 := World.linked_heapSize w c blocks
  have hfind0 : ∀ c', (World.ActivateChunk.linked w c blocks).findChunk c'
      = if c' = c then some w.m_heapSize else w.findChunk c' := by
    intro c'
    rw [findChunk_eq, World.linked_active, findIn_insertChunk]
    rfl
  have hlists0 : ∀ d, (World.ActivateChunk.linked w c blocks).dirtyList d = w.dirtyList d :=
    fun d => World.linked_dirtyList w c blocks d
  have hw' : w.ActivateChunk c blocks
      = (World.ActivateChunk.linked w c blocks).OnChunkActivated w.m_heapSize := rfl
  rw [hw'] at hs' ⊢
  generalize World.ActivateChunk.linked w c blocks = w0 at *
  have hA0 : w0.LinksAllocated := by
    intro q d r hq hl
    rw [hsize0] at hq ⊢
    rw [hlink0] at hl
    split at hl
    · have := h.inv.alloc _ r hl
      omega
    · split at hl
      · injection hl with hl
        omega
      · have := h.linksAllocated q d r (by omega) hl
        omega
  have E := World.enqueued_OnChunkActivated w0 w.m_heapSize hA0 (by rw [hsize0]; omega)
  generalize w0.OnChunkActivated w.m_heapSize = w' at *
  have hfind : ∀ c', w'.findChunk c' = if c' = c then some w.m_heapSize else w.findChunk c' := by
    intro c'
    rw [World.findChunk_frame E.frame, hfind0]
  have hfindc : w.findChunk c = none := by
    cases hx : w.findChunk c with
    | none => rfl
    | some x =>
      have := (w.isChunkActive_iff c).2 ⟨x, hx⟩
      rw [hnew] at this
      exact Bool.noConfusion this
  have hlink' : ∀ r g, (w'.m_heap r).link g = (w0.m_heap r).link g :=
    fun r g => sameLinks_link (E.frame.links r) g
  have hsize' : w'.m_heapSize = w.m_heapSize + 1 := E.frame.heapSize.trans hsize0
  have hold : ∀ q, w.IsLive q → q ≠ w.m_heapSize := by
    rintro q ⟨c', hc'⟩
    exact Nat.ne_of_lt (h.inv.alloc c' q hc')
  have hkeep : ∀ q, w.IsLive q → w'.IsLive q := by
    rintro q ⟨c', hc'⟩
    refine ⟨c', ?_⟩
    rw [hfind]
    have : c' ≠ c := by
      rintro rfl
      rw [hfindc] at hc'
      exact Option.noConfusion hc'
    rw [if_neg this]
    exact hc'
  refine ⟨hs', ?_, ?_, ?_⟩
  · apply World.ListsAllocated.enqueued E
    intro d p i hmem
    rw [hlists0] at hmem
    rw [hsize0]
    have := h.lists d p i hmem
    exact ⟨by omega, this.2⟩
  · rintro q ⟨c', hc'⟩
    rw [hfind] at hc'
    split at hc'
    · have hq : q = w.m_heapSize := (Option.some.inj hc').symm
      rw [hq, Function.update_same]
    · have hq : w.IsLive q := ⟨c', hc'⟩
      rw [Function.update_noteq (hold q hq)]
      exact h.live q hq
  · intro q hq hdead
    rw [hsize'] at hq
    have hq1 : q ≠ w.m_heapSize := by
      rintro rfl
      exact hdead ⟨c, by rw [hfind, if_pos rfl]⟩
    have hq2 : q < w.m_heapSize := by omega
    have hd0 : ¬ w.IsLive q := fun hl => hdead (hkeep q hl)
    obtain ⟨h1, h2⟩ := h.dead q hq2 hd0
    rw [Function.update_noteq hq1]
    refine ⟨h1, ?_⟩
    intro d r hl
    rw [hlink', hlink0, if_neg hq1] at hl
    split at hl
    · rename_i hx
      exact absurd ⟨_, hx⟩ hd0
    · obtain ⟨h3, h4⟩ := h2 d r hl
      rw [hsize', Function.update_noteq (Nat.ne_of_lt h3)]
      exact ⟨by omega, h4⟩

/-- The locations on the dirty lists after `DeactivateChunk` in a running world are
cells of chunk objects that have been handed out, when those before were. -/
theorem World.DeactivateChunk_allocated (w w' : World) (c : ChunkCoords) (hs : w.StreamInv)
    (hl : w.ListsAllocated) (hd : w.DeactivateChunk c = some w') : w'.ListsAllocated := by
  obtain ⟨_, s2, _, _⟩ := w.DeactivateChunk_spec w' c hs.running hd
  have hw' := w.DeactivateChunk_eq w' c hs.running hd
  obtain ⟨_, _, hother, hcells⟩ := World.facesDirtied_unlinked w c
  have hsame : ∀ d, w'.dirtyList d = (World.DeactivateChunk.unlinked w c).dirtyList d := by
    intro d
    rw [hw']
    rfl
  intro d p i hmem
  rw [s2]
  rw [hsame] at hmem
  by_cases hdd : d = w.g_debugPointsEnabled
  · subst hdd
    by_cases hM : (∃ g : Dir, w.findChunk (c.adjacent g) = some p ∧
        (i < BLOCKS_PER_CHUNK ∧ g.adjoiningFace (Chunk.GetLocalCoordsAtIndex i))) ∧
        w.borderCandidate p i
    · obtain ⟨⟨g, hg, hi, _⟩, _⟩ := hM
      exact ⟨hs.alloc _ p hg, hi⟩
    · have hc := ((hcells p i).2 hM).2
      have hpos : 0 < ((World.DeactivateChunk.unlinked w c).dirtyList
          w.g_debugPointsEnabled).count ⟨some p, i⟩ := List.count_pos_iff.mpr hmem
      rw [hc] at hpos
      exact hl _ p i (List.count_pos_iff.mp hpos)
  · have hdd2 : d = !w.g_debugPointsEnabled := by
      cases d <;> cases hx : w.g_debugPointsEnabled <;> simp_all
    rw [hdd2, hother] at hmem
    exact hl _ p i hmem

/-- Deactivating a chunk in the state the play keeps leads to such a state, in which the
chunks that stay active take the next rank. -/
theorem World.Ranked.deactivated {ρ : Nat → Nat} {T : Nat} {w w' : World}
    (h : w.Ranked ρ T) (c : ChunkCoords) (hd : w.DeactivateChunk c = some w') :
    ∃ ρ', w'.Ranked ρ' (T + 1) := by
  classical
  have hs' := h.inv.deactivate c hd
  obtain ⟨s1, s2, _, s4⟩ := w.DeactivateChunk_spec w' c h.inv.running hd
  have hfind : ∀ c', w'.findChunk c' = if c' = c then none else w.findChunk c' := by
    intro c'
    rw [findChunk_eq, s1, findIn_filter]
    rfl
  have hlive : ∀ q, w'.IsLive q → w.IsLive q := by
    rintro q ⟨c', hc'⟩
    rw [hfind] at hc'
    split at hc'
    · exact Option.noConfusion hc'
    · exact ⟨c', hc'⟩
  refine ⟨fun q => if w'.IsLive q then T + 1 else ρ q, hs',
    World.DeactivateChunk_allocated w w' c h.inv h.lists hd, ?_, ?_⟩
  · intro q hq
    simp only [if_pos hq]
  · intro q hq hdead
    rw [s2] at hq
    simp only [if_neg hdead]
    have hup : ∀ r, ρ q < T → (ρ q < ρ r ∨ w'.IsLive r) →
        ρ q < (if w'.IsLive r then T + 1 else ρ r) := by
      intro r h1 h2
      split
      · omega
      · rename_i hr
        rcases h2 with h2 | h2
        · exact h2
        · exact absurd h2 hr
    by_cases hq0 : w.IsLive q
    · have hρ : ρ q = T := h.live q hq0
      refine ⟨by omega, ?_⟩
      intro d r hl
      rw [s4] at hl
      split at hl
      · exact Option.noConfusion hl
      · obtain ⟨c0, hc0⟩ := hq0
        have hc0c : c0 = c := by
          by_contra hne
          exact hdead ⟨c0, by rw [hfind, if_neg hne]; exact hc0⟩
        subst hc0c
        rw [h.inv.mirror c0 q d hc0] at hl
        have hr' : w'.IsLive r := ⟨c0.adjacent d, by
          rw [hfind, if_neg (adjacent_ne c0 d)]; exact hl⟩
        rw [s2]
        refine ⟨h.inv.alloc _ r hl, ?_⟩
        simp only [if_pos hr']
        omega
    · obtain ⟨h1, h2⟩ := h.dead q hq hq0
      refine ⟨by omega, ?_⟩
      intro d r hl
      rw [s4] at hl
      split at hl
      · exact Option.noConfusion hl
      · obtain ⟨h3, h4⟩ := h2 d r hl
        rw [s2]
        exact ⟨h3, hup r h1 (Or.inl h4)⟩

/-- The statements of `World::Update` under the test of the key `X` keep the state of
the play. -/
theorem World.Ranked.toggleDebug {ρ : Nat → Nat} {T : Nat} {w : World}
    (h : w.Ranked ρ T) : (World.Update.toggleDebug w).Ranked ρ T := by
  unfold World.Update.toggleDebug
  simp only
  split
  · refine h.of_links rfl rfl rfl (fun _ _ => rfl) ?_
    intro d p i hmem
    cases d
    · exact h.lists true p i hmem
    · exact absurd hmem (List.not_mem_nil _)
  · refine h.of_links rfl rfl rfl (fun _ _ => rfl) ?_
    intro d p i hmem
    cases d
    · exact h.lists false p i hmem
    · exact h.lists true p i hmem

/-- The lighting part of `World::Update` keeps the state of the play when
`UpdateLighting` returns. -/
theorem World.Ranked.lighting {ρ : Nat → Nat} {T : Nat} {w w' : World}
    (h : w.Ranked ρ T) (fuel : Nat) (keyC : Bool)
    (hl : World.Update.lighting fuel keyC w = some w') : w'.Ranked ρ T := by
  unfold World.Update.lighting at hl
  simp only at hl
  have key : ∀ v : World, v.Ranked ρ T → World.UpdateLighting fuel v = some w' →
      w'.Ranked ρ T := by
    intro v hv hrun
    have hF := World.UpdateLighting_frame fuel v w' hrun
    exact hv.of_links hF.heapSize hF.active hF.isRunning
      (fun q g => sameLinks_link (hF.links q) g)
      (World.UpdateLighting_allocated fuel v w' hv.linksAllocated hv.lists hrun)
  split at hl
  · refine key _ ?_ hl
    refine h.of_links rfl rfl rfl (fun _ _ => rfl) ?_
    intro d p i hmem
    cases d
    · exact h.lists true p i hmem
    · exact absurd hmem (List.not_mem_nil _)
  · exact key w h hl

/-- Every world state reached in play is in the state the play keeps, for a rank of the
chunk objects. -/
theorem World.PlayReachable.ranked {w : World} (h : w.PlayReachable) :
    ∃ ρ T, w.Ranked ρ T := by
  induction h with
  | start => exact ⟨_, _, World.new_ranked⟩
  | activate w c blocks _ hnew ih =>
    obtain ⟨ρ, T, hr⟩ := ih
    exact ⟨_, _, hr.activated c blocks hnew⟩
  | deactivate w w' c _ hd ih =>
    obtain ⟨ρ, T, hr⟩ := ih
    obtain ⟨ρ', hr'⟩ := hr.deactivated c hd
    exact ⟨ρ', T + 1, hr'⟩
  | place w w' blocktype r _ _ hp ih =>
    obtain ⟨ρ, T, hr⟩ := ih
    exact ⟨ρ, T, hr.edited (World.PlaceBlockWithRaycast_enqueued w w' blocktype r _
      hr.linksAllocated hr.inv.alloc hp)⟩
  | destroy w w' r _ _ hp ih =>
    obtain ⟨ρ, T, hr⟩ := ih
    exact ⟨ρ, T, hr.edited (World.DestroyBlockWithRaycast_enqueued w w' r _
      hr.inv.alloc hp)⟩
  | move w camera box _ ih =>
    obtain ⟨ρ, T, hr⟩ := ih
    exact ⟨ρ, T, hr.of_links rfl rfl rfl (fun _ _ => rfl) hr.lists⟩
  | toggle w _ ih =>
    obtain ⟨ρ, T, hr⟩ := ih
    exact ⟨ρ, T, hr.toggleDebug⟩
  | light w w' fuel keyC _ hl ih =>
    obtain ⟨ρ, T, hr⟩ := ih
    exact ⟨ρ, T, hr.lighting fuel keyC hl⟩

theorem pitSeed_played : pitSeed.PlayReachable := by
  rw [← pitSeed_eq]
  exact World.PlayReachable.activate _ _ _ World.PlayReachable.start (by decide)

theorem staleEntry_played (w : World) (h : staleEntry = some w) : w.PlayReachable := by
  unfold staleEntry at h
  simp only [Option.bind_eq_bind, Option.bind_eq_some] at h
  obtain ⟨w1, h1, h2⟩ := h
  exact World.PlayReachable.deactivate _ _ _
    (World.PlayReachable.destroy _ _ _ pitSeed_played rfl h1) h2

theorem staleEntry_isSome : staleEntry.isSome = true := by decide!

/-- C12. Lighting drain terminates: in every world state reached in play, from the
initial world by activating chunks at coordinates that are not active, deactivating
chunks, placing and destroying blocks, moving, switching the debug mode and updating the
lighting, `UpdateLighting` returns with an empty work queue when it is allowed enough
pops, for the queue of that state and for every other content of the queue whose
locations are without chunk or cells of chunk objects that have been handed out, active
or not; and whenever `UpdateLighting` returns the work queue is empty. -/
theorem lighting_drain_terminates (w : World) (hreach : w.PlayReachable) :
    (∃ fuel, ∀ n, fuel ≤ n →
      ∃ w', World.UpdateLighting n w = some w' ∧ w'.m_dirtyBlocks = []) ∧
    (∀ queue : List BlockLocation,
      (∀ p i, (⟨some p, i⟩ : BlockLocation) ∈ queue →
        p < w.m_heapSize ∧ i < BLOCKS_PER_CHUNK) →
      ∃ fuel, ∀ n, fuel ≤ n →
        ∃ w', World.UpdateLighting n { w with m_dirtyBlocks := queue } = some w' ∧
          w'.m_dirtyBlocks = []) ∧
    ∀ (queue : List BlockLocation) (n : Nat) (w' : World),
      World.UpdateLighting n { w with m_dirtyBlocks := queue } = some w' →
        w'.m_dirtyBlocks = [] := by
  obtain ⟨ρ, T, hr⟩ := hreach.ranked
  refine ⟨⟨w.layeredMeasure ρ, World.layered_drain ρ w hr.layered (hr.lists false)⟩, ?_, ?_⟩
  · intro queue hq
    have hL : ({ w with m_dirtyBlocks := queue } : World).Layered ρ :=
      ⟨hr.layered.alloc, hr.layered.rank, hr.layered.back⟩
    exact ⟨_, World.layered_drain ρ _ hL hq⟩
  · intro queue n w' h
    exact World.UpdateLighting_empty n _ w' h

theorem lighting_drain_terminates_witness :
    ∃ w, staleEntry = some w ∧ w.m_activeChunks = [] ∧ w.m_heapSize = 1 ∧
      w.m_dirtyBlocks = [⟨some 0, 32273⟩] ∧
      (∃ fuel, ∀ n, fuel ≤ n →
        ∃ w', World.UpdateLighting n w = some w' ∧ w'.m_dirtyBlocks = []) ∧
      (∀ queue : List BlockLocation,
        (∀ p i, (⟨some p, i⟩ : BlockLocation) ∈ queue →
          p < w.m_heapSize ∧ i < BLOCKS_PER_CHUNK) →
        ∃ fuel, ∀ n, fuel ≤ n →
          ∃ w', World.UpdateLighting n { w with m_dirtyBlocks := queue } = some w' ∧
            w'.m_dirtyBlocks = []) ∧
      ∀ (queue : List BlockLocation) (n : Nat) (w' : World),
        World.UpdateLighting n { w with m_dirtyBlocks := queue } = some w' →
          w'.m_dirtyBlocks = [] :=
  ⟨staleEntry.get staleEntry_isSome, (Option.some_get staleEntry_isSome).symm, by decide!,
    by decide!, by decide!,
    lighting_drain_terminates _
      (staleEntry_played _ (Option.some_get staleEntry_isSome).symm)⟩

end SimpleMiner
